import Mathlib

/-!
MeTreec: tree metrics from skeleton leaves.

A shallow embedding of the leaf extraction and adaptive leaf filter
(`preprocessing/src/structure_extract.cpp`), of the height statistics
(`metric/src/height.cpp`, `metric/src/CD.cpp`), of the crown geometry
(`metric/src/CR.cpp`), of the stem diameter (`metric/src/DBH.cpp`) and of the
batch pipeline (`pipeline/src/main.cpp`), followed by theorems about them.

Conventions of the embedding.

* `double` and `float` values are elements of an arbitrary linearly ordered
  field `α`.  The arithmetic of a definition is exact unless its name ends in
  `Rounded`: such a definition applies `roundToDouble`, a model of the IEEE 754
  rounding to `double`, to the operations of the source that its comment names, and
  takes the decimal literals as the `double` values they denote.  The rounded
  definitions are used where rounding decides a count, a comparison or a sign.
  `IsFloatValue` marks the values that are `float` values.  Infinities and NaN are not
  modelled.  Every definition is executable at `α = ℚ`.
* `int` values are `Int`, `size_t` values are `Nat`; container sizes are taken to
  stay below `2^31`, so the `static_cast<int>` of a size or of a loop index is
  the identity.  The `static_cast<int>` of a `double` is `truncToInt`; `castToInt`
  adds the check that the truncated value is an `int` (the conversion is undefined
  otherwise).
* `std::vector` is `List`.  An access outside a vector (undefined behaviour in the
  source) makes the embedded function return `none`.
* `std::sort(first, last, comp)` is `stdSort comp`: a stable insertion sort.  The
  standard leaves the order of equivalent elements open; the stable order is one
  of the admissible results.
* Library functions whose code is not part of the repository (`std::sqrt`,
  `std::pow`, the CGAL convex hull and minimum circle, `fs::path::stem`) are
  parameters of the functions calling them.
* The file system and the external programs are inputs: what a file holds, whether
  it exists and what an external step returns are arguments of the embedded
  function.
-/

namespace MeTreec

/-! ## Shared helpers -/

/-- Model of `std::sort(first, last, comp)` for a strict weak ordering `comp`:
insertion sort by the relation "`b` does not come strictly before `a`". -/
def stdSort {β : Type} (comp : β → β → Bool) (l : List β) : List β :=
  l.insertionSort (fun a b => comp b a = false)

/-- Model of `static_cast<int>(double)`: truncation toward zero. -/
def truncToInt {α : Type} [LinearOrderedField α] [FloorRing α] (x : α) : Int :=
  if 0 ≤ x then Int.floor x else Int.ceil x

/-! ## preprocessing/structure_extract -/

/-- The CGAL kernel point `Point_3` (three coordinates). -/
structure Point_3 (α : Type) where
  x : α
  y : α
  z : α
deriving DecidableEq

/-- The struct `TreeSkeleton` (the unused `segments` member is left out). -/
structure TreeSkeleton (α : Type) where
  vertices : List (Point_3 α)
  radii : List α
  edges : List (Int × Int)

/-- The struct `LeafNode`. -/
structure LeafNode (α : Type) where
  position : Point_3 α
  radius : α
  original_index : Int
  height : α
deriving DecidableEq

/-- The struct `LeafNodes`. -/
structure LeafNodes (α : Type) where
  nodes : List (LeafNode α)
deriving DecidableEq

namespace StructureExtractor

variable {α : Type}

/-- The statement `degree[k]++` for an `int` index `k`; `none` when `k` is outside
the vector. -/
def incrDegree (degree : List Nat) (k : Int) : Option (List Nat) :=
  if 0 ≤ k ∧ k.toNat < degree.length then
    some (degree.set k.toNat (degree.getD k.toNat 0 + 1))
  else none

/-- The first loop of `extractLeafNodes`: both endpoints of every edge are
counted. -/
def countDegrees : List (Int × Int) → List Nat → Option (List Nat)
  | [], degree => some degree
  | e :: es, degree =>
    match incrDegree degree e.1 with
    | none => none
    | some d1 =>
      match incrDegree d1 e.2 with
      | none => none
      | some d2 => countDegrees es d2

/-- The body of the second loop of `extractLeafNodes` at index `i`. -/
def leafAt [One α] (skeleton : TreeSkeleton α) (degree : List Nat) (i : Nat) :
    Option (LeafNode α) :=
  if degree[i]? = some 1 then
    (skeleton.vertices[i]?).map (fun v =>
      { original_index := (i : Int)
        position := v
        height := v.z
        radius := if i < skeleton.radii.length then skeleton.radii.getD i 1 else 1 })
  else none

/-- `StructureExtractor::extractLeafNodes`. -/
def extractLeafNodes [One α] (skeleton : TreeSkeleton α) : Option (LeafNodes α) :=
  match countDegrees skeleton.edges (List.replicate skeleton.vertices.length 0) with
  | none => none
  | some degree =>
    some { nodes := (List.range degree.length).filterMap (leafAt skeleton degree) }

/-- `StructureExtractor::calculateDistance` in exact arithmetic, with `std::sqrt` as a
parameter; `calculateDistanceRounded` rounds every operation. -/
def calculateDistance [LinearOrderedField α] (sqrt : α → α) (p1 p2 : Point_3 α) : α :=
  let dx := p1.x - p2.x
  let dy := p1.y - p2.y
  let dz := p1.z - p2.z
  sqrt (dx * dx + dy * dy + dz * dz)

/-- The `operator<` of `std::pair<double, int>`: lexicographic. -/
def pairLess [LinearOrderedField α] (a b : α × Nat) : Bool :=
  decide (a.1 < b.1) || (!decide (b.1 < a.1) && decide (a.2 < b.2))

/-- `StructureExtractor::findNearestNeighbors`.  The target node is read only when
some other node exists; `none` stands for reading it outside the vector. -/
def findNearestNeighbors [LinearOrderedField α] (sqrt : α → α) (leafNodes : LeafNodes α)
    (targetIndex : Int) (n : Int) : Option (List Nat) :=
  let others := leafNodes.nodes.enum.filter (fun q => decide ((q.1 : Int) ≠ targetIndex))
  let target := if 0 ≤ targetIndex then leafNodes.nodes[targetIndex.toNat]? else none
  match others, target with
  | [], _ => some []
  | _ :: _, none => none
  | _ :: _, some t =>
    let distances := others.map (fun q => (calculateDistance sqrt t.position q.2.position, q.1))
    let sorted := stdSort pairLess distances
    let count := min n (sorted.length : Int)
    some ((sorted.take count.toNat).map (fun d => d.2))

/-- The neighbour count `n` of the core `filterLeafNodes`, with the product taken exactly
and the cast taken to be in range; `neighborCountRounded` makes both explicit. -/
def neighborCount [LinearOrderedField α] [FloorRing α] (totalLeafCount : Nat)
    (percentage : α) : Int :=
  max 1 (truncToInt ((totalLeafCount : α) * percentage))

/-- The count `topN` of the core `filterLeafNodes`, with the product taken exactly and the
cast taken to be in range; `topCountRounded` makes both explicit. -/
def topCount [LinearOrderedField α] [FloorRing α] (n : Int) (percentage : α) : Int :=
  max 1 (truncToInt ((n : α) * percentage))

/-- The loop collecting `allLeafNodes.nodes[idx].height` over the neighbours. -/
def neighborHeightsOf (nodes : List (LeafNode α)) : List Nat → Option (List α)
  | [] => some []
  | idx :: rest =>
    match nodes[idx]?, neighborHeightsOf nodes rest with
    | some node, some hs => some (node.height :: hs)
    | _, _ => none

/-- The reference height `h_ne` computed from the neighbour heights: they are sorted
in descending order, the first `actualTopN` are summed, and the sum is divided when
`actualTopN > 0`. -/
def referenceHeight [LinearOrderedField α] (topN : Int) (neighborHeights : List α) : α :=
  let sorted := stdSort (fun a b => decide (a < b)) neighborHeights.reverse |>.reverse
  let actualTopN := min topN (sorted.length : Int)
  let h_ne := (sorted.take actualTopN.toNat).foldl (fun acc h => acc + h) 0
  if actualTopN > 0 then h_ne / (actualTopN : α) else h_ne

/-- One iteration of the loop of the core `filterLeafNodes`: is leaf `i` kept? -/
def keepLeaf [LinearOrderedField α] (sqrt : α → α) (allLeafNodes : LeafNodes α)
    (h_l : α) (n topN : Int) (i : Nat) (currentNode : LeafNode α) : Option Bool :=
  let h_a := currentNode.height
  match findNearestNeighbors sqrt allLeafNodes (i : Int) n with
  | none => none
  | some neighbors =>
    match neighborHeightsOf allLeafNodes.nodes neighbors with
    | none => none
    | some neighborHeights =>
      let h_ne := referenceHeight topN neighborHeights
      let h_d := |h_ne - h_a|
      some (decide (h_d ≤ h_l))

/-- The loop of the core `filterLeafNodes` over the enumerated leaves. -/
def filterLoop [LinearOrderedField α] (sqrt : α → α) (allLeafNodes : LeafNodes α)
    (h_l : α) (n topN : Int) : List (Nat × LeafNode α) → Option (List (LeafNode α))
  | [] => some []
  | q :: rest =>
    match keepLeaf sqrt allLeafNodes h_l n topN q.1 q.2,
      filterLoop sqrt allLeafNodes h_l n topN rest with
    | some keep, some tl => some (if keep then q.2 :: tl else tl)
    | _, _ => none

/-- The core `StructureExtractor::filterLeafNodes` (leaf set, skeleton height,
percentage). -/
def filterLeafNodes [LinearOrderedField α] [FloorRing α] (sqrt : α → α)
    (allLeafNodes : LeafNodes α) (skeletonHeight percentage : α) : Option (LeafNodes α) :=
  let h_l := skeletonHeight * percentage
  let totalLeafCount := allLeafNodes.nodes.length
  let n := neighborCount totalLeafCount percentage
  let topN := topCount n percentage
  (filterLoop sqrt allLeafNodes h_l n topN allLeafNodes.nodes.enum).map
    (fun l => { nodes := l })

/-! ### Specification-side notions for the leaf extraction and the neighbour search -/

/-- Degree of vertex `i`: the number of edge endpoints equal to `i`. -/
def vertexDegree (edges : List (Int × Int)) (i : Nat) : Nat :=
  (edges.map Prod.fst).count (i : Int) + (edges.map Prod.snd).count (i : Int)

/-- The leaf node the source builds for the vertex `q.2` found at index `q.1`. -/
def leafOfVertex [One α] (skeleton : TreeSkeleton α) (q : Nat × Point_3 α) : LeafNode α :=
  { position := q.2, radius := skeleton.radii.getD q.1 1, original_index := (q.1 : Int),
    height := q.2.z }

/-- Distance from leaf `t` to leaf `j` as the source computes it (0 outside the set). -/
def leafDistance [LinearOrderedField α] (sqrt : α → α) (leafNodes : LeafNodes α)
    (t j : Nat) : α :=
  match leafNodes.nodes[t]?, leafNodes.nodes[j]? with
  | some a, some b => calculateDistance sqrt a.position b.position
  | _, _ => 0

/-- The pairs (distance to `t`, position) over all positions other than `t`, in
increasing position: the vector `distances` of `findNearestNeighbors`. -/
def neighborPairs [LinearOrderedField α] (sqrt : α → α) (leafNodes : LeafNodes α)
    (t : Nat) : List (α × Nat) :=
  ((List.range leafNodes.nodes.length).filter (fun j => decide (j ≠ t))).map
    (fun j => (leafDistance sqrt leafNodes t j, j))

/-! ### Sample data -/

/-- A star skeleton: centre vertex 0 joined to three tips. -/
def starSkeleton (α : Type) [LinearOrderedField α] : TreeSkeleton α :=
  { vertices := [⟨0, 0, 0⟩, ⟨1, 0, 1⟩, ⟨0, 1, 2⟩, ⟨0, 1, 5⟩], radii := [2, 3],
    edges := [(0, 1), (0, 2), (0, 3)] }

/-- The leaves of `starSkeleton`. -/
def starLeaves (α : Type) [LinearOrderedField α] : LeafNodes α :=
  { nodes := [⟨⟨1, 0, 1⟩, 3, 1, 1⟩, ⟨⟨0, 1, 2⟩, 1, 2, 2⟩, ⟨⟨0, 1, 5⟩, 1, 3, 5⟩] }

end StructureExtractor

/-! ## Specification-side notions for the order statistics -/

/-- The value `m` is the arithmetic mean of `k` largest values of `hs`: `hs` splits into
`k` values `top` and the remaining values, none of which exceeds a value of `top`.  (For
`k = 0` the mean is `0 / 0`, which is `0`.) -/
def IsMeanOfLargest {α : Type} [LinearOrderedField α] (k : Nat) (hs : List α) (m : α) : Prop :=
  ∃ top rest : List α, hs.Perm (top ++ rest) ∧ top.length = k ∧
    (∀ a ∈ top, ∀ b ∈ rest, b ≤ a) ∧ m = top.sum / (top.length : α)

/-- The value `m` is the arithmetic mean of `k` smallest values of `hs`. -/
def IsMeanOfSmallest {α : Type} [LinearOrderedField α] (k : Nat) (hs : List α) (m : α) : Prop :=
  ∃ bottom rest : List α, hs.Perm (bottom ++ rest) ∧ bottom.length = k ∧
    (∀ a ∈ bottom, ∀ b ∈ rest, a ≤ b) ∧ m = bottom.sum / (bottom.length : α)

namespace StructureExtractor
variable {α : Type}

/-- The height of the leaf at position `j` (0 outside the set). -/
def heightAt [Zero α] (leafNodes : LeafNodes α) (j : Nat) : α :=
  ((leafNodes.nodes[j]?).map (fun node => node.height)).getD 0

end StructureExtractor

/-! ## metric/height and metric/CD -/

/-- The struct `Point3D` of `metric/height.h`. -/
structure Point3D (α : Type) where
  x : α
  y : α
  z : α
  radius : α
deriving DecidableEq

/-- The struct `HeightResult`; the default constructor gives `HeightResult.init`. -/
structure HeightResult (α : Type) where
  success : Bool
  tree_height : α
  point_count : Int
  error_message : String

/-- The default constructor of `HeightResult`. -/
def HeightResult.init {α : Type} [Zero α] : HeightResult α :=
  { success := false, tree_height := 0, point_count := 0, error_message := "" }

/-- The struct `CrownDepthResult`. -/
structure CrownDepthResult (α : Type) where
  success : Bool
  h0 : α
  crown_depth : α
  point_count : Int
  error_message : String

/-- The default constructor of `CrownDepthResult`. -/
def CrownDepthResult.init {α : Type} [Zero α] : CrownDepthResult α :=
  { success := false, h0 := 0, crown_depth := 0, point_count := 0, error_message := "" }

/-- Rounding of a value to the nearest integer, ties to even. -/
def roundHalfEven {α : Type} [LinearOrderedField α] [FloorRing α] (y : α) : Int :=
  let f := Int.floor y
  let r := y - (f : α)
  if r < 1 / 2 then f else if 1 / 2 < r then f + 1 else if f % 2 = 0 then f else f + 1

/-- Model of `std::to_string(double)`, the `%f` format: sign, integer part, a dot and
six decimals. -/
def to_string_double {α : Type} [LinearOrderedField α] [FloorRing α] (x : α) : String :=
  let scaled := (roundHalfEven (|x| * 1000000)).toNat
  let digits := toString (scaled % 1000000)
  (if x < 0 then "-" else "") ++ toString (scaled / 1000000) ++ "." ++
    String.mk (List.replicate (6 - digits.length) '0') ++ digits

namespace TreeHeight

variable {α : Type}

/-- `TreeHeight::getTopNPoints`. -/
def getTopNPoints [LinearOrderedField α] (points : List (Point3D α)) (n : Int) :
    List (Point3D α) :=
  if points.isEmpty || decide (n ≤ 0) then []
  else
    let sortedPoints := stdSort (fun a b => decide (a.z > b.z)) points
    let count := min n (sortedPoints.length : Int)
    sortedPoints.take count.toNat

/-- `TreeHeight::calculateAverageHeight` in exact arithmetic;
`calculateAverageHeightRounded` rounds every operation. -/
def calculateAverageHeight [LinearOrderedField α] (points : List (Point3D α)) : α :=
  if points.isEmpty then 0
  else
    let sumHeight := points.foldl (fun acc point => acc + point.z) 0
    sumHeight / (points.length : α)

/-- `TreeHeight::calculateFromPoints` (the `verbose` printing is left out). -/
def calculateFromPoints [LinearOrderedField α] (points : List (Point3D α)) (top_n : Int) :
    HeightResult α :=
  let result : HeightResult α := HeightResult.init
  if points.isEmpty then
    { result with error_message := "No points provided" }
  else if top_n ≤ 0 then
    { result with error_message := "Invalid top_n value: " ++ toString top_n }
  else
    let topPoints := getTopNPoints points top_n
    if topPoints.isEmpty then
      { result with error_message := "Failed to get top points" }
    else
      { result with
        tree_height := calculateAverageHeight topPoints
        point_count := (topPoints.length : Int)
        success := true }

end TreeHeight

namespace CrownDepth

variable {α : Type}

/-- `CrownDepth::getBottomNPoints`. -/
def getBottomNPoints [LinearOrderedField α] (points : List (Point3D α)) (n : Int) :
    List (Point3D α) :=
  if points.isEmpty || decide (n ≤ 0) then []
  else
    let sortedPoints := stdSort (fun a b => decide (a.z < b.z)) points
    let count := min n (sortedPoints.length : Int)
    sortedPoints.take count.toNat

/-- `CrownDepth::calculateAverageHeight` in exact arithmetic;
`calculateAverageHeightRounded` rounds every operation. -/
def calculateAverageHeight [LinearOrderedField α] (points : List (Point3D α)) : α :=
  if points.isEmpty then 0
  else
    let sumHeight := points.foldl (fun acc point => acc + point.z) 0
    sumHeight / (points.length : α)

/-- `CrownDepth::calculateH0` (the `verbose` printing is left out). -/
def calculateH0 [LinearOrderedField α] (points : List (Point3D α)) (bottom_n : Int) : α :=
  if points.isEmpty || decide (bottom_n ≤ 0) then 0
  else
    let bottomPoints := getBottomNPoints points bottom_n
    if bottomPoints.isEmpty then 0
    else calculateAverageHeight bottomPoints

/-- `CrownDepth::calculateFromPoints` (the `verbose` printing is left out). -/
def calculateFromPoints [LinearOrderedField α] [FloorRing α] (points : List (Point3D α))
    (tree_height : α) (bottom_n : Int) : CrownDepthResult α :=
  let result : CrownDepthResult α := CrownDepthResult.init
  if points.isEmpty then
    { result with error_message := "No points provided" }
  else if tree_height ≤ 0 then
    { result with
      error_message := "Invalid tree height: " ++ to_string_double tree_height }
  else if bottom_n ≤ 0 then
    { result with
      error_message := "Invalid bottom_n value: " ++ toString bottom_n }
  else
    let h0 := calculateH0 points bottom_n
    let crown_depth := tree_height - h0
    let bottomPoints := getBottomNPoints points bottom_n
    { result with
      h0 := h0
      crown_depth := crown_depth
      point_count := (bottomPoints.length : Int)
      success := true }

end CrownDepth

/-- Three sample points at heights 1, 5 and 3. -/
def samplePoints (α : Type) [LinearOrderedField α] : List (Point3D α) :=
  [⟨0, 0, 1, 1⟩, ⟨1, 0, 5, 1⟩, ⟨0, 1, 3, 1⟩]

/-- The sample points in another order. -/
def samplePointsShuffled (α : Type) [LinearOrderedField α] : List (Point3D α) :=
  [⟨0, 1, 3, 1⟩, ⟨0, 0, 1, 1⟩, ⟨1, 0, 5, 1⟩]

/-! ## metric/CR -/

/-- The CGAL kernel point `Point_2`. -/
structure Point_2 (α : Type) where
  x : α
  y : α
deriving DecidableEq

/-- The struct `TreePoint` of `metric/src/CR.cpp`. -/
structure TreePoint (α : Type) where
  position : Point_3 α
  height : α

namespace CrownRadius

variable {α : Type}

/-- The projection loop of `calculateCrownRadiusDetailed`. -/
def projectPoints (points : List (TreePoint α)) : List (Point_2 α) :=
  points.map (fun pt => { x := pt.position.x, y := pt.position.y })

/-- The bounding-box branch of `calculateCrownRadiusDetailed`, entered with the
projected points `first :: rest`. -/
def boundingBoxResult [LinearOrderedField α] (first : Point_2 α) (rest : List (Point_2 α)) :
    α × α × α × α :=
  let projected_points := first :: rest
  let min_x := projected_points.foldl (fun m p => min m p.x) first.x
  let max_x := projected_points.foldl (fun m p => max m p.x) first.x
  let min_y := projected_points.foldl (fun m p => min m p.y) first.y
  let max_y := projected_points.foldl (fun m p => max m p.y) first.y
  let width_x := max_x - min_x
  let width_y := max_y - min_y
  let avg_diameter := (width_x + width_y) / 2
  let crown_radius := avg_diameter / 2
  let max_width := max width_x width_y
  let min_width := min width_x width_y
  let aspect_ratio := if min_width > 0 then max_width / min_width else 1
  (crown_radius, max_width, min_width, aspect_ratio)

/-- The state of the rotating-calipers loop: `min_area`, `best_width`, `best_height`. -/
structure CalipersState (α : Type) where
  min_area : α
  best_width : α
  best_height : α

/-- One iteration of the loop over the hull edges, for the edge from `hull[i]` to
`hull[(i + 1) % size]`. -/
def calipersStep [LinearOrderedField α] (sqrt : α → α) (dbl_max : α)
    (convex_hull : List (Point_2 α)) (st : CalipersState α) (i : Nat) : CalipersState α :=
  let j := (i + 1) % convex_hull.length
  match convex_hull[i]?, convex_hull[j]? with
  | some pi, some pj =>
    let dx := pj.x - pi.x
    let dy := pj.y - pi.y
    let edge_length := sqrt (dx * dx + dy * dy)
    if edge_length < 1 / 10000000000 then st
    else
      let dx := dx / edge_length
      let dy := dy / edge_length
      let px := -dy
      let py := dx
      let min_proj_x := convex_hull.foldl (fun m p => min m (p.x * dx + p.y * dy)) dbl_max
      let max_proj_x := convex_hull.foldl (fun m p => max m (p.x * dx + p.y * dy)) (-dbl_max)
      let min_proj_y := convex_hull.foldl (fun m p => min m (p.x * px + p.y * py)) dbl_max
      let max_proj_y := convex_hull.foldl (fun m p => max m (p.x * px + p.y * py)) (-dbl_max)
      let width := max_proj_x - min_proj_x
      let height := max_proj_y - min_proj_y
      let area := width * height
      if area < st.min_area then { min_area := area, best_width := width, best_height := height }
      else st
  | _, _ => st

/-- The function `calculateCrownRadiusDetailed`.  The library parts are parameters:
`convex_hull_2` is `CGAL::convex_hull_2`, `min_circle_squared_radius` the squared radius of
the `CGAL::Min_circle_2` of the given points, `sqrt` is `std::sqrt` and `dbl_max` is
`std::numeric_limits<double>::max()`. -/
def calculateCrownRadiusDetailed [LinearOrderedField α]
    (convex_hull_2 : List (Point_2 α) → List (Point_2 α))
    (min_circle_squared_radius : List (Point_2 α) → α) (sqrt : α → α) (dbl_max : α)
    (points : List (TreePoint α)) : α × α × α × α :=
  match projectPoints points with
  | [] => (0, 0, 0, 0)
  | first :: rest =>
    let projected_points := first :: rest
    let convex_hull := convex_hull_2 projected_points
    if convex_hull.length < 3 then boundingBoxResult first rest
    else
      let radius := sqrt (min_circle_squared_radius projected_points)
      let init : CalipersState α := { min_area := dbl_max, best_width := 0, best_height := 0 }
      let final := (List.range convex_hull.length).foldl
        (calipersStep sqrt dbl_max convex_hull) init
      let max_width := max final.best_width final.best_height
      let min_width := min final.best_width final.best_height
      let aspect_ratio := if min_width > 0 then max_width / min_width else 1
      (radius, max_width, min_width, aspect_ratio)

/-! ### Specification-side notions for the crown geometry -/

/-- Twice the signed area of the triangle `a b c`; zero exactly when the three points
lie on one line. -/
def cross [LinearOrderedField α] (a b c : Point_2 α) : α :=
  (b.x - a.x) * (c.y - a.y) - (b.y - a.y) * (c.x - a.x)

/-- All points of the list lie on one line. -/
def Collinear [LinearOrderedField α] (P : List (Point_2 α)) : Prop :=
  ∀ a ∈ P, ∀ b ∈ P, ∀ c ∈ P, cross a b c = 0

/-- The point `q` lies on the closed segment from `a` to `b`. -/
def OnSegment [LinearOrderedField α] (a b q : Point_2 α) : Prop :=
  cross a b q = 0 ∧ (q.x - a.x) * (q.x - b.x) + (q.y - a.y) * (q.y - b.y) ≤ 0

/-- The part of the contract of `CGAL::convex_hull_2` that is used: the output lists
pairwise distinct input points, none of which lies on a segment joining two other input
points (an extreme point does not). -/
def ExtremePointsOf [LinearOrderedField α] (P hull : List (Point_2 α)) : Prop :=
  hull.Nodup ∧ ∀ q ∈ hull, q ∈ P ∧
    ∀ a ∈ P, ∀ b ∈ P, a ≠ q → b ≠ q → ¬ OnSegment a b q

/-- The value `m` is the least element of the list. -/
def IsMinOf [LinearOrderedField α] (l : List α) (m : α) : Prop := m ∈ l ∧ ∀ a ∈ l, m ≤ a

/-- The value `m` is the greatest element of the list. -/
def IsMaxOf [LinearOrderedField α] (l : List α) (m : α) : Prop := m ∈ l ∧ ∀ a ∈ l, a ≤ m

/-- Two crown points whose projections are `(0, 0)` and `(2, 0)`. -/
def twoPoints (α : Type) [LinearOrderedField α] : List (TreePoint α) :=
  [{ position := ⟨0, 0, 3⟩, height := 3 }, { position := ⟨2, 0, 4⟩, height := 4 }]

end CrownRadius

/-! ## metric/DBH -/

/-- The struct `DBHResult`. -/
structure DBHResult (α : Type) where
  success : Bool
  dbh_cm : α
  method_used : String
  error_message : String

namespace TreeModel

variable {α : Type}

/-- `TreeModel::getPointsAtHeight` on the vertex vector of the model, in exact
arithmetic; `getPointsAtHeightRounded` rounds the difference. -/
def getPointsAtHeight [LinearOrderedField α] (vertices : List (Point3D α))
    (height tolerance : α) : List (Point3D α) :=
  vertices.filter (fun v => decide (|v.z - height| ≤ tolerance))

end TreeModel

namespace DBHCalculator

variable {α : Type}

/-- The planar distance both loops of `DBH.cpp` compute:
`std::sqrt(std::pow(p.x - q.x, 2) + std::pow(p.y - q.y, 2))`; the square `std::pow(d, 2)`
is `d ^ 2`, and `std::sqrt` is a parameter. -/
def planarDistance [LinearOrderedField α] (sqrt : α → α) (p q : Point3D α) : α :=
  sqrt ((p.x - q.x) ^ 2 + (p.y - q.y) ^ 2)

/-- The double loop of `calculateDiameterFromPoints`: the outer index is the head of the
list, the inner index runs over the points after it. -/
def maxDistLoop [LinearOrderedField α] (sqrt : α → α) : List (Point3D α) → α → α
  | [], maxDist => maxDist
  | p :: rest, maxDist =>
    maxDistLoop sqrt rest
      (rest.foldl (fun maxDist q => max maxDist (planarDistance sqrt p q)) maxDist)

/-- `DBHCalculator::calculateDiameterFromPoints`. -/
def calculateDiameterFromPoints [LinearOrderedField α] (sqrt : α → α)
    (points : List (Point3D α)) : α :=
  if points.isEmpty then 0 else maxDistLoop sqrt points 0

/-- The test `dist < threshold` of `detectStemCount` for the indices `i` and `j`. -/
def isNear [LinearOrderedField α] (sqrt : α → α) (threshold : α) (points : List (Point3D α))
    (i j : Nat) : Bool :=
  match points[i]?, points[j]? with
  | some pi, some pj => decide (planarDistance sqrt pi pj < threshold)
  | _, _ => false

/-- The inner loop of `detectStemCount` for the seed `i`: `j` runs from `i` to the end. -/
def markNear [LinearOrderedField α] (sqrt : α → α) (threshold : α) (points : List (Point3D α))
    (i : Nat) (visited : List Bool) : List Bool :=
  (List.range' i (points.length - i)).foldl
    (fun visited j => if isNear sqrt threshold points i j then visited.set j true else visited)
    visited

/-- `DBHCalculator::detectStemCount`; the state of the outer loop is the pair
(`visited`, `clusterCount`), and the count, which only counts up from 0, is a `Nat`. -/
def detectStemCount [LinearOrderedField α] (sqrt : α → α) (points : List (Point3D α))
    (threshold : α) : Nat :=
  if points.isEmpty then 0
  else
    ((List.range points.length).foldl
      (fun (st : List Bool × Nat) i =>
        if st.1[i]? = some false then (markNear sqrt threshold points i st.1, st.2 + 1)
        else st)
      (List.replicate points.length false, 0)).2

/-- `DBHCalculator::calculateMethod1` on the vertices of the loaded model (slice at 1.3
with the default tolerance 0.05, default cluster threshold 0.3), with the three literals
as exact decimal values; `calculateMethod1Rounded` takes them as `double` values, which
matters for a vertex on the edge of the slice. -/
def calculateMethod1 [LinearOrderedField α] (sqrt : α → α) (vertices : List (Point3D α)) : α :=
  let points := TreeModel.getPointsAtHeight vertices (13 / 10) (5 / 100)
  if points.isEmpty then 0
  else
    let stemCount := detectStemCount sqrt points (3 / 10)
    if stemCount = 1 then
      let dbh := calculateDiameterFromPoints sqrt points
      dbh * 100
    else
      let totalDiameter := calculateDiameterFromPoints sqrt points
      let individualDiam := totalDiameter / (stemCount : α)
      let syntheticDBH := individualDiam * sqrt (stemCount : α)
      syntheticDBH * 100

/-- The last part of `calculateMethod2`: the taper model applied to the accepted slice
`points` measured at `measureHeight`; `std::pow` is a parameter. -/
def taperModel [LinearOrderedField α] (sqrt : α → α) (pow : α → α → α)
    (points : List (Point3D α)) (measureHeight : α) : α :=
  let D_POM := calculateDiameterFromPoints sqrt points * 100
  let a := -(156 / 1000) + 48 / 1000 * D_POM
  let h_target : α := 13 / 10
  let H_POM := measureHeight
  let DBH_prime := D_POM * pow (h_target / H_POM) a
  DBH_prime

/-- `DBHCalculator::calculateMethod2` on the vertices of the loaded model and the member
`crownBaseHeight`. -/
def calculateMethod2 [LinearOrderedField α] (sqrt : α → α) (pow : α → α → α)
    (vertices : List (Point3D α)) (crownBaseHeight : α) : α :=
  let measureHeight : α := if crownBaseHeight ≥ 1 then 1 else 7 / 10
  let points := TreeModel.getPointsAtHeight vertices measureHeight (5 / 100)
  if points.isEmpty then 0
  else
    let stemCount := detectStemCount sqrt points (3 / 10)
    if stemCount ≠ 1 then
      if measureHeight = 7 / 10 then -1
      else
        let measureHeight : α := 7 / 10
        let points := TreeModel.getPointsAtHeight vertices measureHeight (5 / 100)
        let stemCount := detectStemCount sqrt points (3 / 10)
        if stemCount ≠ 1 then -1
        else taperModel sqrt pow points measureHeight
    else taperModel sqrt pow points measureHeight

/-- `DBHCalculator::calculate`.  The file system is an input: `loaded` is `none` when
`findOBJFile` finds no file and otherwise holds the vertices `loadFromOBJ` reads (the load
fails when there are none).  The `verbose` printing is left out. -/
def calculate [LinearOrderedField α] (sqrt : α → α) (pow : α → α → α) (objFilePath : String)
    (loaded : Option (List (Point3D α))) (crownBaseHeight : α) : DBHResult α :=
  let result : DBHResult α :=
    { success := false, dbh_cm := 0, method_used := "", error_message := "" }
  match loaded with
  | none => { result with error_message := "未找到OBJ文件: " ++ objFilePath }
  | some vertices =>
    if vertices.isEmpty then { result with error_message := "加载OBJ文件失败" }
    else if crownBaseHeight < 7 / 10 then
      { result with error_message := "活冠基部高度小于 0.7 米，不满足计算条件" }
    else
      let dbh :=
        if crownBaseHeight > 13 / 10 then calculateMethod1 sqrt vertices
        else calculateMethod2 sqrt pow vertices crownBaseHeight
      if dbh > 0 then
        { result with
          success := true
          dbh_cm := dbh
          method_used := if crownBaseHeight > 13 / 10 then "合成胸径法" else "锥度模型法" }
      else if dbh = 0 then { result with error_message := "计算失败：数据不足" }
      else { result with error_message := "计算失败：不满足计算条件" }

/-- The marking step of the specified clustering for the seed `i`: every point of the
whole array whose planar distance to the seed is below the threshold is marked, earlier or
later, visited or not. -/
def markAllNear [LinearOrderedField α] (sqrt : α → α) (threshold : α)
    (points : List (Point3D α)) (i : Nat) (visited : List Bool) : List Bool :=
  (List.range' 0 points.length).foldl
    (fun visited j => if isNear sqrt threshold points i j then visited.set j true else visited)
    visited

/-- The stem-count clustering as the specification words it: a single pass over the
points in array order, in which an unvisited point starts a new cluster and marks every
point of the array that is nearer than the threshold. -/
def specifiedStemCount [LinearOrderedField α] (sqrt : α → α) (points : List (Point3D α))
    (threshold : α) : Nat :=
  ((List.range points.length).foldl
    (fun (st : List Bool × Nat) i =>
      if st.1[i]? = some false then (markAllNear sqrt threshold points i st.1, st.2 + 1)
      else st)
    (List.replicate points.length false, 0)).2

/-- The value `D` is the maximum pairwise planar distance of the points: 0 when there are
fewer than two points, and otherwise the greatest distance between a point of the list
and a later one. -/
def IsMaxPairDistance [LinearOrderedField α] (sqrt : α → α) (S : List (Point3D α)) (D : α) :
    Prop :=
  (S.length < 2 → D = 0) ∧
  (2 ≤ S.length →
    (∃ p q, List.Sublist [p, q] S ∧ planarDistance sqrt p q = D) ∧
    ∀ p q, List.Sublist [p, q] S → planarDistance sqrt p q ≤ D)

/-- A mesh of two vertices at height 1.0 whose planar distance is 0.2. -/
def taperMesh (α : Type) [LinearOrderedField α] : List (Point3D α) :=
  [⟨0, 0, 1, 1⟩, ⟨2 / 10, 0, 1, 1⟩]

end DBHCalculator

namespace CrownRadius
variable {α : Type}

/-- The four corners of the axis-aligned rectangle with lower left corner `(x0, y0)` and
side lengths `a` (along x) and `b` (along y), in counterclockwise order. -/
def rectangleCorners [LinearOrderedField α] (x0 y0 a b : α) : List (Point_2 α) :=
  [⟨x0, y0⟩, ⟨x0 + a, y0⟩, ⟨x0 + a, y0 + b⟩, ⟨x0, y0 + b⟩]

/-- The contract of `CGAL::Min_circle_2` that is used: `r2` is the squared radius of the
smallest circle enclosing the points, that is, some circle of squared radius `r2` contains
them all and no enclosing circle has a smaller squared radius. -/
def IsMinCircleSquaredRadius [LinearOrderedField α] (P : List (Point_2 α)) (r2 : α) : Prop :=
  (∃ c : Point_2 α, ∀ p ∈ P, (p.x - c.x) ^ 2 + (p.y - c.y) ^ 2 ≤ r2) ∧
  ∀ (c : Point_2 α) (s2 : α), (∀ p ∈ P, (p.x - c.x) ^ 2 + (p.y - c.y) ^ 2 ≤ s2) → r2 ≤ s2

/-- The effect of one rotating-calipers iteration on an edge of length `len` whose
bounding rectangle has the extents `w` and `h`. -/
def edgeUpdate [LinearOrderedField α] (len w h : α) (st : CalipersState α) : CalipersState α :=
  if len < 1 / 10000000000 then st
  else if w * h < st.min_area then { min_area := w * h, best_width := w, best_height := h }
  else st

/-- Crown points over the corners of the unit square, in some order and at various
heights. -/
def unitSquarePoints (α : Type) [LinearOrderedField α] : List (TreePoint α) :=
  [{ position := ⟨1, 1, 7⟩, height := 7 }, { position := ⟨0, 0, 5⟩, height := 5 },
   { position := ⟨0, 1, 8⟩, height := 8 }, { position := ⟨1, 0, 6⟩, height := 6 }]

/-- Crown points over the corners of a square of side `10⁻¹¹`. -/
def tinySquarePoints (α : Type) [LinearOrderedField α] : List (TreePoint α) :=
  [{ position := ⟨0, 0, 5⟩, height := 5 },
   { position := ⟨1 / 100000000000, 0, 5⟩, height := 5 },
   { position := ⟨1 / 100000000000, 1 / 100000000000, 5⟩, height := 5 },
   { position := ⟨0, 1 / 100000000000, 5⟩, height := 5 }]

end CrownRadius

namespace DBHCalculator
variable {α : Type}

/-- A slice of three points on one line, at `x = 0`, `0.25` and `0.5`, in that order. -/
def bridgeSlice (α : Type) [LinearOrderedField α] : List (Point3D α) :=
  [⟨0, 0, 13 / 10, 1⟩, ⟨25 / 100, 0, 13 / 10, 1⟩, ⟨5 / 10, 0, 13 / 10, 1⟩]

/-- The points of `bridgeSlice` with the first two exchanged: `x = 0.25`, `0`, `0.5`. -/
def bridgeSliceReordered (α : Type) [LinearOrderedField α] : List (Point3D α) :=
  [⟨25 / 100, 0, 13 / 10, 1⟩, ⟨0, 0, 13 / 10, 1⟩, ⟨5 / 10, 0, 13 / 10, 1⟩]

/-- The indices `i` and `j` are joined in the graph that links two points at planar
distance below the threshold: a chain of such links leads from `i` to `j`. -/
def Joined [LinearOrderedField α] (sqrt : α → α) (threshold : α) (points : List (Point3D α))
    (i j : Nat) : Prop :=
  Relation.ReflTransGen (fun a b => isNear sqrt threshold points a b = true) i j

/-- The graph that links points at planar distance below the threshold has `k` connected
components: there are `k` indices of the list, no two of them joined, such that every
index of the list is joined to one of them. -/
def IsComponentCount [LinearOrderedField α] (sqrt : α → α) (threshold : α)
    (points : List (Point3D α)) (k : Nat) : Prop :=
  ∃ reps : List Nat, reps.length = k ∧ (∀ r ∈ reps, r < points.length) ∧
    reps.Pairwise (fun a b => ¬ Joined sqrt threshold points a b) ∧
    ∀ i, i < points.length → ∃ r ∈ reps, Joined sqrt threshold points r i

end DBHCalculator

/-- The struct `SkeletonFilterResult`. -/
structure SkeletonFilterResult where
  success : Bool
  error_message : String
  output_file : String
  total_leaves : Int
  filtered_leaves : Int
deriving DecidableEq

/-- The constructor of `SkeletonFilterResult`. -/
def SkeletonFilterResult.init : SkeletonFilterResult :=
  { success := false, error_message := "", output_file := "", total_leaves := 0,
    filtered_leaves := 0 }

namespace StructureExtractor
variable {α : Type}

/-- `StructureExtractor::calculateSkeletonHeight`. -/
def calculateSkeletonHeight [LinearOrderedField α] (skeleton : TreeSkeleton α) : α :=
  match skeleton.vertices with
  | [] => 0
  | v0 :: _ =>
    let minZ := skeleton.vertices.foldl (fun minZ vertex => min minZ vertex.z) v0.z
    let maxZ := skeleton.vertices.foldl (fun maxZ vertex => max maxZ vertex.z) v0.z
    maxZ - minZ

/-- The file overload `StructureExtractor::filterLeafNodes(input_ply_path, output_dir,
filter_percentage, verbose)`.  The file system is an input: `input_exists` is
`fs::exists(input_path)`, `extension` is `input_path.extension()`, `output_path` is the
path `out_dir / (base_name + "_filtered.xyz")`, `skeleton` is what `readSkeletonFromPLY`
reads (`none` when it returns false) and `write_ok` is the result of `writeNodesToXYZ`.
The result is `none` when leaf extraction or filtering reads outside a vector; the
printing and the exceptions of the library calls are left out. -/
def filterLeafNodesOfFile [LinearOrderedField α] [FloorRing α] (sqrt : α → α)
    (input_exists : Bool) (extension : String) (output_path : String)
    (skeleton : Option (TreeSkeleton α)) (write_ok : Bool)
    (input_ply_path : String) (filter_percentage : α) : Option SkeletonFilterResult :=
  let result := SkeletonFilterResult.init
  if !input_exists then
    some { result with error_message := "Input file does not exist: " ++ input_ply_path }
  else if extension ≠ ".ply" then
    some { result with error_message := "Input file is not a PLY file: " ++ input_ply_path }
  else
    let result := { result with output_file := output_path }
    match skeleton with
    | none => some { result with error_message := "Failed to read PLY file" }
    | some skeleton =>
      let skeleton_height := calculateSkeletonHeight skeleton
      match extractLeafNodes skeleton with
      | none => none
      | some allLeafNodes =>
        let result := { result with total_leaves := (allLeafNodes.nodes.length : Int) }
        if allLeafNodes.nodes.isEmpty then
          some { result with error_message := "No leaf nodes found" }
        else
          match filterLeafNodes sqrt allLeafNodes skeleton_height filter_percentage with
          | none => none
          | some filteredLeafNodes =>
            let result :=
              { result with filtered_leaves := (filteredLeafNodes.nodes.length : Int) }
            if filteredLeafNodes.nodes.isEmpty then
              some { result with error_message := "No leaf nodes after filtering" }
            else if !write_ok then
              some { result with error_message := "Failed to write filtered leaf nodes" }
            else some { result with success := true }

/-- A skeleton of three vertices without any edge. -/
def edgelessSkeleton (α : Type) [LinearOrderedField α] : TreeSkeleton α :=
  { vertices := [⟨0, 0, 0⟩, ⟨1, 0, 2⟩, ⟨0, 1, 5⟩], radii := [1, 1, 1], edges := [] }

end StructureExtractor

namespace CrownRadius
variable {α : Type}

/-- The planar distance of two projected points; `sqrt` is a parameter. -/
def pointDistance [LinearOrderedField α] (sqrt : α → α) (p q : Point_2 α) : α :=
  sqrt ((p.x - q.x) ^ 2 + (p.y - q.y) ^ 2)

/-- The value `d` is the distance between the extreme points of the set: two points of
the set are at distance `d` and no two points of the set are farther apart. -/
def IsExtremeDistance [LinearOrderedField α] (sqrt : α → α) (P : List (Point_2 α)) (d : α) :
    Prop :=
  (∃ p ∈ P, ∃ q ∈ P, pointDistance sqrt p q = d) ∧
  ∀ p ∈ P, ∀ q ∈ P, pointDistance sqrt p q ≤ d

/-- Three crown points on the line `y = x`, over `(0, 0)`, `(1, 1)` and `(3, 3)`. -/
def diagonalPoints (α : Type) [LinearOrderedField α] : List (TreePoint α) :=
  [{ position := ⟨0, 0, 3⟩, height := 3 }, { position := ⟨1, 1, 4⟩, height := 4 },
   { position := ⟨3, 3, 5⟩, height := 5 }]

end CrownRadius

namespace TreeHeight
variable {α : Type}

/-- `TreeHeight::calculateFromFilteredNodes`.  The file system is an input: `file_exists`
is `fs::exists(input_xyz)` and `file_points` is what `readXYZFile` reads (`none` when it
returns false). -/
def calculateFromFilteredNodes [LinearOrderedField α] (file_exists : Bool)
    (file_points : Option (List (Point3D α))) (input_xyz : String) (top_n : Int) :
    HeightResult α :=
  let result : HeightResult α := HeightResult.init
  if !file_exists then
    { result with error_message := "Input file does not exist: " ++ input_xyz }
  else
    match file_points with
    | none => { result with error_message := "Failed to read XYZ file: " ++ input_xyz }
    | some points => calculateFromPoints points top_n

end TreeHeight

namespace CrownDepth
variable {α : Type}

/-- `CrownDepth::calculateFromFilteredNodes`, with the file system as an input as in
`TreeHeight.calculateFromFilteredNodes`. -/
def calculateFromFilteredNodes [LinearOrderedField α] [FloorRing α] (file_exists : Bool)
    (file_points : Option (List (Point3D α))) (input_xyz : String) (tree_height : α)
    (bottom_n : Int) : CrownDepthResult α :=
  let result : CrownDepthResult α := CrownDepthResult.init
  if !file_exists then
    { result with error_message := "Input file does not exist: " ++ input_xyz }
  else if tree_height ≤ 0 then
    { result with error_message := "Invalid tree height: " ++ to_string_double tree_height }
  else
    match file_points with
    | none => { result with error_message := "Failed to read XYZ file: " ++ input_xyz }
    | some points => calculateFromPoints points tree_height bottom_n

end CrownDepth

/-! ## pipeline/main -/

/-- The struct `CrownRadiusResult`. -/
structure CrownRadiusResult (α : Type) where
  success : Bool
  crown_radius : α
  max_width : α
  min_width : α
  aspect_ratio : α
  total_points : Int
  leaf_nodes : Int
  error_message : String

/-- The default member initialisers of `CrownRadiusResult`. -/
def CrownRadiusResult.init {α : Type} [Zero α] : CrownRadiusResult α :=
  { success := false, crown_radius := 0, max_width := 0, min_width := 0, aspect_ratio := 0,
    total_points := 0, leaf_nodes := 0, error_message := "" }

/-- The struct `VolumeResult` (the members the pipeline does not read are left out). -/
structure VolumeResult (α : Type) where
  success : Bool
  is_closed : Bool
  volume : α
  surface_area : α
  error_message : String

/-- The default member initialisers of `VolumeResult`. -/
def VolumeResult.init {α : Type} [Zero α] : VolumeResult α :=
  { success := false, is_closed := false, volume := 0, surface_area := 0, error_message := "" }

/-- The struct `TreeMetrics` of `pipeline/src/main.cpp`. -/
structure TreeMetrics (α : Type) where
  tree_id : String
  height : α
  h0 : α
  crown_depth : α
  dbh : α
  crown_radius : α
  crown_diameter : α
  max_crown_width : α
  min_crown_width : α
  crown_aspect_ratio : α
  volume : α
  surface_area : α
  mesh_is_closed : Bool
  leaf_nodes_total : Int
  leaf_nodes_filtered : Int
  has_skeleton_data : Bool
  dbh_method : String
  processing_time : String

/-- The default member initialisers of `TreeMetrics`. -/
def TreeMetrics.init {α : Type} [Zero α] : TreeMetrics α :=
  { tree_id := "", height := 0, h0 := 0, crown_depth := 0, dbh := 0, crown_radius := 0,
    crown_diameter := 0, max_crown_width := 0, min_crown_width := 0, crown_aspect_ratio := 0,
    volume := 0, surface_area := 0, mesh_is_closed := false, leaf_nodes_total := 0,
    leaf_nodes_filtered := 0, has_skeleton_data := false, dbh_method := "",
    processing_time := "" }

/-- The members of the struct `Config` that `process_file` reads for its result (the
paths, the AdTree command and `verbose` only steer file names and printing). -/
structure Config (α : Type) where
  fill_holes : Bool
  process_skeleton : Bool
  filter_ratio : α
  calculate_volume : Bool
  calculate_crown : Bool

/-- What the file system and the external steps give one call of `process_file`:
`current_time` is `get_current_time()`; `branches_exists` and `skeleton_exists` are
`fs::exists` of the branches and skeleton files after the AdTree run; `fill_success` is
the `success` of `MeshFill::processFile`; `filled_path` and `copy_path` are the paths
`output_dir / (base_name + "_branches_filled.obj")` and
`output_dir / (base_name + "_branches.obj")`; `skeleton_result` is the result of the file
overload of `StructureExtractor::filterLeafNodes`; `filtered_xyz_guess` is the path
`output_dir / (base_name + "_filtered.xyz")`; `file_exists` is `fs::exists`,
`readXYZFile` is `TreeHeight::readXYZFile`, `crown_result` is
`CrownRadius::calculateFromFilteredNodes`, `loadOBJ` is the mesh `findOBJFile` and
`loadFromOBJ` deliver and `volume_result` is `TreeVolume::calculateFromOBJ`, each as a
function of the path. -/
structure FileRun (α : Type) where
  current_time : String
  branches_exists : Bool
  skeleton_exists : Bool
  fill_success : Bool
  filled_path : String
  copy_path : String
  skeleton_result : SkeletonFilterResult
  filtered_xyz_guess : String
  file_exists : String → Bool
  readXYZFile : String → Option (List (Point3D α))
  crown_result : String → CrownRadiusResult α
  loadOBJ : String → Option (List (Point3D α))
  volume_result : String → VolumeResult α

namespace Pipeline
variable {α : Type}

/-- Step 3 of `process_file`: the skeleton data, and the path of the filtered leaf nodes
(`filtered_nodes_path`, empty unless the filtering succeeded). -/
def skeletonStep (run : FileRun α) (config : Config α) (metrics : TreeMetrics α) :
    TreeMetrics α × String :=
  if config.process_skeleton && run.skeleton_exists then
    let skeleton_result := run.skeleton_result
    if skeleton_result.success then
      ({ metrics with
          has_skeleton_data := true
          leaf_nodes_total := skeleton_result.total_leaves
          leaf_nodes_filtered := skeleton_result.filtered_leaves },
        skeleton_result.output_file)
    else (metrics, "")
  else (metrics, "")

/-- The tree height and crown depth part of step 4 of `process_file`. -/
def heightStep [LinearOrderedField α] [FloorRing α] (run : FileRun α) (filtered_path : String)
    (metrics : TreeMetrics α) : TreeMetrics α :=
  let height_result := TreeHeight.calculateFromFilteredNodes (run.file_exists filtered_path)
    (run.readXYZFile filtered_path) filtered_path 5
  if height_result.success then
    let metrics := { metrics with height := height_result.tree_height }
    let cd_result := CrownDepth.calculateFromFilteredNodes (run.file_exists filtered_path)
      (run.readXYZFile filtered_path) filtered_path metrics.height 5
    if cd_result.success then
      { metrics with h0 := cd_result.h0, crown_depth := cd_result.crown_depth }
    else metrics
  else metrics

/-- The crown radius part of step 4 of `process_file`. -/
def crownStep [LinearOrderedField α] (run : FileRun α) (config : Config α)
    (filtered_path : String) (metrics : TreeMetrics α) : TreeMetrics α :=
  if config.calculate_crown then
    let cr_result := run.crown_result filtered_path
    if cr_result.success then
      { metrics with
        crown_radius := cr_result.crown_radius
        crown_diameter := cr_result.crown_radius * 2
        max_crown_width := cr_result.max_width
        min_crown_width := cr_result.min_width
        crown_aspect_ratio := cr_result.aspect_ratio }
    else metrics
  else metrics

/-- The DBH part of step 4 of `process_file`. -/
def dbhStep [LinearOrderedField α] (sqrt : α → α) (pow : α → α → α) (run : FileRun α)
    (final_output_file : String) (metrics : TreeMetrics α) : TreeMetrics α :=
  if metrics.h0 > 0 ∧ final_output_file ≠ "" then
    let dbh_result := DBHCalculator.calculate sqrt pow final_output_file
      (run.loadOBJ final_output_file) metrics.h0
    if dbh_result.success then
      { metrics with dbh := dbh_result.dbh_cm, dbh_method := dbh_result.method_used }
    else { metrics with dbh_method := "计算失败" }
  else { metrics with dbh_method := "未计算" }

/-- The volume part of step 4 of `process_file`. -/
def volumeStep (run : FileRun α) (config : Config α) (final_output_file : String)
    (metrics : TreeMetrics α) : TreeMetrics α :=
  if config.calculate_volume ∧ final_output_file ≠ "" then
    let volume_result := run.volume_result final_output_file
    if volume_result.success then
      { metrics with
        volume := volume_result.volume
        surface_area := volume_result.surface_area
        mesh_is_closed := volume_result.is_closed }
    else metrics
  else metrics

/-- The function `process_file` of `pipeline/src/main.cpp`, as far as its result goes:
the AdTree run, the file copies and removals, the printing and the JSON report are left
out, and what they and the analysis steps deliver is the input `run`.  The file copies
are taken to succeed: `fs::copy_file` throws when it fails, neither `process_file` nor
`main` catches the exception, and the program then ends without a result, so a run with
a failing copy has no value of this function.  The library function `stem` is
`fs::path::stem`. -/
def process_file [LinearOrderedField α] [FloorRing α] (sqrt : α → α) (pow : α → α → α)
    (stem : String → String) (run : FileRun α) (xyz_file : String) (config : Config α) :
    TreeMetrics α :=
  let metrics : TreeMetrics α := TreeMetrics.init
  let base_name := stem xyz_file
  let metrics := { metrics with tree_id := base_name, processing_time := run.current_time }
  if !run.branches_exists then metrics
  else
    let final_output_file :=
      if config.fill_holes then
        if !run.fill_success then run.copy_path else run.filled_path
      else run.copy_path
    let skeleton := skeletonStep run config metrics
    let metrics := skeleton.1
    let filtered_nodes_path := skeleton.2
    let filtered_path :=
      if filtered_nodes_path ≠ "" then filtered_nodes_path else run.filtered_xyz_guess
    let metrics :=
      if run.file_exists filtered_path then
        crownStep run config filtered_path (heightStep run filtered_path metrics)
      else metrics
    let metrics := dbhStep sqrt pow run final_output_file metrics
    let metrics := volumeStep run config final_output_file metrics
    metrics

/-- The loop of `main` over the input files; the state is
(`all_metrics`, `success_count`, `fail_count`). -/
def main_loop (process : String → TreeMetrics α) (xyz_files : List String) :
    List (TreeMetrics α) × Int × Int :=
  xyz_files.foldl
    (fun st xyz_file =>
      let metrics := process xyz_file
      if metrics.tree_id ≠ "" then (st.1 ++ [metrics], st.2.1 + 1, st.2.2)
      else (st.1, st.2.1, st.2.2 + 1))
    ([], 0, 0)

/-- The stem of a file name without directory part that ends in a four-character
extension such as `.xyz`: the name without its last four characters. -/
def xyzStem (name : String) : String :=
  String.mk (name.data.take (name.data.length - 4))

/-- A run in which AdTree produced no branches file. -/
def failedRun (α : Type) [Zero α] : FileRun α :=
  { current_time := "2024-01-01 00:00:00"
    branches_exists := false
    skeleton_exists := false
    fill_success := false
    filled_path := "out/tree1_branches_filled.obj"
    copy_path := "out/tree1_branches.obj"
    skeleton_result := SkeletonFilterResult.init
    filtered_xyz_guess := "out/tree1_filtered.xyz"
    file_exists := fun _ => false
    readXYZFile := fun _ => none
    crown_result := fun _ => CrownRadiusResult.init
    loadOBJ := fun _ => none
    volume_result := fun _ => VolumeResult.init }

/-- The default member initialisers of `Config`. -/
def Config.init (α : Type) [LinearOrderedField α] : Config α :=
  { fill_holes := true, process_skeleton := true, filter_ratio := 15 / 100,
    calculate_volume := true, calculate_crown := true }

end Pipeline

/-! ## Rounding to `double` -/

/-- Model of the rounding of an exact value to `double` (IEEE 754 binary64, round to
nearest, ties to even): the value is scaled by the power of two that brings its
magnitude into `[2^52, 2^53)`, rounded to an integer and scaled back.  Only the normal
range is modelled: overflow to infinity and the coarser spacing of subnormal values are
left out. -/
def roundToDouble {α : Type} [LinearOrderedField α] [FloorRing α] (x : α) : α :=
  if x = 0 then 0
  else
    let e := Int.log 2 |x| - 52
    (roundHalfEven (x / 2 ^ e) : α) * 2 ^ e

/-- Model of `static_cast<int>(double)` with the range of `int` checked: the value is
truncated toward zero, and the conversion is undefined (`none`) when the truncated value
is not an `int`. -/
def castToInt {α : Type} [LinearOrderedField α] [FloorRing α] (x : α) : Option Int :=
  let t := truncToInt x
  if -2147483648 ≤ t ∧ t ≤ 2147483647 then some t else none

namespace StructureExtractor
variable {α : Type}

/-- The neighbour count of the core `filterLeafNodes`,
`std::max(1, static_cast<int>(totalLeafCount * percentage))`, with the rounding of the
product to `double` and the range of the cast made explicit. -/
def neighborCountRounded [LinearOrderedField α] [FloorRing α] (totalLeafCount : Nat)
    (percentage : α) : Option Int :=
  (castToInt (roundToDouble ((totalLeafCount : α) * percentage))).map (fun t => max 1 t)

/-- The count `topN` of the core `filterLeafNodes`,
`std::max(1, static_cast<int>(n * percentage))`, with the rounding of the product to
`double` and the range of the cast made explicit. -/
def topCountRounded [LinearOrderedField α] [FloorRing α] (n : Int) (percentage : α) :
    Option Int :=
  (castToInt (roundToDouble ((n : α) * percentage))).map (fun t => max 1 t)

end StructureExtractor

namespace TreeHeight
variable {α : Type}

/-- `TreeHeight::calculateAverageHeight` with the rounding of every addition and of the
division to `double` made explicit. -/
def calculateAverageHeightRounded [LinearOrderedField α] [FloorRing α]
    (points : List (Point3D α)) : α :=
  if points.isEmpty then 0
  else
    let sumHeight := points.foldl (fun acc point => roundToDouble (acc + point.z)) 0
    roundToDouble (sumHeight / (points.length : α))

/-- `TreeHeight::calculateFromPoints` with the rounding of the arithmetic to `double` made
explicit (the `verbose` printing is left out). -/
def calculateFromPointsRounded [LinearOrderedField α] [FloorRing α]
    (points : List (Point3D α)) (top_n : Int) : HeightResult α :=
  let result : HeightResult α := HeightResult.init
  if points.isEmpty then
    { result with error_message := "No points provided" }
  else if top_n ≤ 0 then
    { result with error_message := "Invalid top_n value: " ++ toString top_n }
  else
    let topPoints := getTopNPoints points top_n
    if topPoints.isEmpty then
      { result with error_message := "Failed to get top points" }
    else
      { result with
        tree_height := calculateAverageHeightRounded topPoints
        point_count := (topPoints.length : Int)
        success := true }

end TreeHeight

namespace CrownDepth
variable {α : Type}

/-- `CrownDepth::calculateAverageHeight` with the rounding of every addition and of the
division to `double` made explicit. -/
def calculateAverageHeightRounded [LinearOrderedField α] [FloorRing α]
    (points : List (Point3D α)) : α :=
  if points.isEmpty then 0
  else
    let sumHeight := points.foldl (fun acc point => roundToDouble (acc + point.z)) 0
    roundToDouble (sumHeight / (points.length : α))

/-- `CrownDepth::calculateH0` with the rounding of the arithmetic to `double` made
explicit (the `verbose` printing is left out). -/
def calculateH0Rounded [LinearOrderedField α] [FloorRing α] (points : List (Point3D α))
    (bottom_n : Int) : α :=
  if points.isEmpty || decide (bottom_n ≤ 0) then 0
  else
    let bottomPoints := getBottomNPoints points bottom_n
    if bottomPoints.isEmpty then 0
    else calculateAverageHeightRounded bottomPoints

/-- `CrownDepth::calculateFromPoints` with the rounding of the arithmetic to `double` made
explicit (the `verbose` printing is left out). -/
def calculateFromPointsRounded [LinearOrderedField α] [FloorRing α]
    (points : List (Point3D α)) (tree_height : α) (bottom_n : Int) : CrownDepthResult α :=
  let result : CrownDepthResult α := CrownDepthResult.init
  if points.isEmpty then
    { result with error_message := "No points provided" }
  else if tree_height ≤ 0 then
    { result with
      error_message := "Invalid tree height: " ++ to_string_double tree_height }
  else if bottom_n ≤ 0 then
    { result with
      error_message := "Invalid bottom_n value: " ++ toString bottom_n }
  else
    let h0 := calculateH0Rounded points bottom_n
    let crown_depth := roundToDouble (tree_height - h0)
    let bottomPoints := getBottomNPoints points bottom_n
    { result with
      h0 := h0
      crown_depth := crown_depth
      point_count := (bottomPoints.length : Int)
      success := true }

end CrownDepth

/-- The rounding-error factor of a mean of `k` values computed in `double` arithmetic:
`(1 + 2^-53)^(k+1) - 1`, about `(k + 1) * 1.1e-16`. -/
def meanRoundingBound {α : Type} [LinearOrderedField α] (k : Nat) : α :=
  (1 + 1 / 2 ^ 53) ^ (k + 1) - 1

/-- Three points whose heights are the `double` values of the literals 4.1, 4.2 and
4.8. -/
def roundingPoints (α : Type) [LinearOrderedField α] [FloorRing α] : List (Point3D α) :=
  [⟨0, 0, roundToDouble (41 / 10), 1⟩, ⟨1, 0, roundToDouble (42 / 10), 1⟩,
    ⟨0, 1, roundToDouble (48 / 10), 1⟩]

namespace TreeModel
variable {α : Type}

end TreeModel

namespace DBHCalculator
variable {α : Type}

end DBHCalculator

namespace StructureExtractor
variable {α : Type}

/-- `StructureExtractor::calculateDistance` with the rounding of every operation to
`double` made explicit; `sqrt` stands for `std::sqrt`, whose result is a `double`. -/
def calculateDistanceRounded [LinearOrderedField α] [FloorRing α] (sqrt : α → α)
    (p1 p2 : Point_3 α) : α :=
  let dx := roundToDouble (p1.x - p2.x)
  let dy := roundToDouble (p1.y - p2.y)
  let dz := roundToDouble (p1.z - p2.z)
  sqrt (roundToDouble (roundToDouble (roundToDouble (dx * dx) + roundToDouble (dy * dy)) +
    roundToDouble (dz * dz)))

/-- `StructureExtractor::findNearestNeighbors` with the distances of
`calculateDistanceRounded`.  The target node is read only when some other node exists;
`none` stands for reading it outside the vector. -/
def findNearestNeighborsRounded [LinearOrderedField α] [FloorRing α] (sqrt : α → α)
    (leafNodes : LeafNodes α) (targetIndex : Int) (n : Int) : Option (List Nat) :=
  let others := leafNodes.nodes.enum.filter (fun q => decide ((q.1 : Int) ≠ targetIndex))
  let target := if 0 ≤ targetIndex then leafNodes.nodes[targetIndex.toNat]? else none
  match others, target with
  | [], _ => some []
  | _ :: _, none => none
  | _ :: _, some t =>
    let distances :=
      others.map (fun q => (calculateDistanceRounded sqrt t.position q.2.position, q.1))
    let sorted := stdSort pairLess distances
    let count := min n (sorted.length : Int)
    some ((sorted.take count.toNat).map (fun d => d.2))

/-- The reference height `h_ne` of the core `filterLeafNodes` with the rounding of every
addition and of the division to `double` made explicit: the neighbour heights are sorted
in descending order, the first `actualTopN` are added to `0.0` one after the other, and the
sum is divided when `actualTopN > 0`. -/
def referenceHeightRounded [LinearOrderedField α] [FloorRing α] (topN : Int)
    (neighborHeights : List α) : α :=
  let sorted := stdSort (fun a b => decide (a < b)) neighborHeights.reverse |>.reverse
  let actualTopN := min topN (sorted.length : Int)
  let h_ne := (sorted.take actualTopN.toNat).foldl (fun acc h => roundToDouble (acc + h)) 0
  if actualTopN > 0 then roundToDouble (h_ne / (actualTopN : α)) else h_ne

/-- One iteration of the loop of the core `filterLeafNodes` with the rounding of the
arithmetic to `double` made explicit: is leaf `i` kept? -/
def keepLeafRounded [LinearOrderedField α] [FloorRing α] (sqrt : α → α)
    (allLeafNodes : LeafNodes α) (h_l : α) (n topN : Int) (i : Nat)
    (currentNode : LeafNode α) : Option Bool :=
  let h_a := currentNode.height
  match findNearestNeighborsRounded sqrt allLeafNodes (i : Int) n with
  | none => none
  | some neighbors =>
    match neighborHeightsOf allLeafNodes.nodes neighbors with
    | none => none
    | some neighborHeights =>
      let h_ne := referenceHeightRounded topN neighborHeights
      let h_d := |roundToDouble (h_ne - h_a)|
      some (decide (h_d ≤ h_l))

/-- The loop of the core `filterLeafNodes` over the enumerated leaves, with the rounding
of the arithmetic made explicit. -/
def filterLoopRounded [LinearOrderedField α] [FloorRing α] (sqrt : α → α)
    (allLeafNodes : LeafNodes α) (h_l : α) (n topN : Int) :
    List (Nat × LeafNode α) → Option (List (LeafNode α))
  | [] => some []
  | q :: rest =>
    match keepLeafRounded sqrt allLeafNodes h_l n topN q.1 q.2,
      filterLoopRounded sqrt allLeafNodes h_l n topN rest with
    | some keep, some tl => some (if keep then q.2 :: tl else tl)
    | _, _ => none

/-- The core `StructureExtractor::filterLeafNodes` (leaf set, skeleton height,
percentage) with the rounding of every `double` operation and the range of the two casts
to `int` made explicit; `none` stands for a cast whose value is not an `int`. -/
def filterLeafNodesRounded [LinearOrderedField α] [FloorRing α] (sqrt : α → α)
    (allLeafNodes : LeafNodes α) (skeletonHeight percentage : α) : Option (LeafNodes α) :=
  let h_l := roundToDouble (skeletonHeight * percentage)
  let totalLeafCount := allLeafNodes.nodes.length
  match neighborCountRounded totalLeafCount percentage with
  | none => none
  | some n =>
    match topCountRounded n percentage with
    | none => none
    | some topN =>
      (filterLoopRounded sqrt allLeafNodes h_l n topN allLeafNodes.nodes.enum).map
        (fun l => { nodes := l })

/-! ### Specification-side notions for the adaptive filter -/

/-- Distance from leaf `t` to leaf `j` as the source computes it in `double` arithmetic
(0 outside the set). -/
def leafDistanceRounded [LinearOrderedField α] [FloorRing α] (sqrt : α → α)
    (leafNodes : LeafNodes α) (t j : Nat) : α :=
  match leafNodes.nodes[t]?, leafNodes.nodes[j]? with
  | some a, some b => calculateDistanceRounded sqrt a.position b.position
  | _, _ => 0

/-- The pairs (computed distance to `t`, position) over all positions other than `t`, in
increasing position: the vector `distances` of `findNearestNeighbors`. -/
def neighborPairsRounded [LinearOrderedField α] [FloorRing α] (sqrt : α → α)
    (leafNodes : LeafNodes α) (t : Nat) : List (α × Nat) :=
  ((List.range leafNodes.nodes.length).filter (fun j => decide (j ≠ t))).map
    (fun j => (leafDistanceRounded sqrt leafNodes t j, j))

/-- The list `nbrs` holds the `n` nearest neighbours of the leaf at position `i`: it
lists `min(n, L - 1)` positions of other leaves in the order of increasing computed
distance from `i`, leaves at equal distance in the order of their positions, and no leaf
left out comes before a listed one in that order. -/
def IsNearestNeighbors [LinearOrderedField α] [FloorRing α] (sqrt : α → α)
    (all : LeafNodes α) (i : Nat) (n : Int) (nbrs : List Nat) : Prop :=
  (nbrs.length : Int) = min n ((all.nodes.length : Int) - 1) ∧
  (∀ j ∈ nbrs, j < all.nodes.length ∧ j ≠ i) ∧
  nbrs.Pairwise (fun a b =>
    leafDistanceRounded sqrt all i a < leafDistanceRounded sqrt all i b ∨
      (leafDistanceRounded sqrt all i a = leafDistanceRounded sqrt all i b ∧ a < b)) ∧
  (∀ j ∈ nbrs, ∀ k, k < all.nodes.length → k ≠ i → k ∉ nbrs →
    leafDistanceRounded sqrt all i j < leafDistanceRounded sqrt all i k ∨
      (leafDistanceRounded sqrt all i j = leafDistanceRounded sqrt all i k ∧ j < k))

/-- The value `m` is the mean of the `k` largest values of `hs` computed in `double`
arithmetic from the largest value down: `hs` splits into `k` values `top`, listed in
descending order, and the remaining values, none of which exceeds a value of `top`; the
values of `top` are added to 0 one after the other and the sum is divided by `k`, every
operation rounded.  For `k = 0` the value is 0. -/
def IsRoundedMeanOfLargest [LinearOrderedField α] [FloorRing α] (k : Nat) (hs : List α)
    (m : α) : Prop :=
  ∃ top rest : List α, hs.Perm (top ++ rest) ∧ top.length = k ∧
    top.Pairwise (fun a b => b ≤ a) ∧ (∀ a ∈ top, ∀ b ∈ rest, b ≤ a) ∧
    m = if k = 0 then 0
      else roundToDouble (top.foldl (fun acc h => roundToDouble (acc + h)) 0 / (k : α))

/-- Leaf `i` passes the adaptive filter run with the counts `n` and `topN`: with `nbrs`
its `n` nearest neighbours and `h_ne` the rounded mean of the `min(topN, |nbrs|)` tallest
neighbour heights, the rounded deviation `|fl(h_ne - height(i))|` is at most the rounded
product `fl(H * p)`. -/
def LeafAcceptedRounded [LinearOrderedField α] [FloorRing α] (sqrt : α → α)
    (all : LeafNodes α) (H p : α) (n topN : Int) (i : Nat) : Prop :=
  ∃ (node : LeafNode α) (nbrs : List Nat) (h_ne : α),
    all.nodes[i]? = some node ∧
    IsNearestNeighbors sqrt all i n nbrs ∧
    IsRoundedMeanOfLargest (min topN (nbrs.length : Int)).toNat (nbrs.map (heightAt all)) h_ne ∧
    |roundToDouble (h_ne - node.height)| ≤ roundToDouble (H * p)

/-- Four leaves: three at height 1 and one at height 2. -/
def terraceLeaves (α : Type) [LinearOrderedField α] : LeafNodes α :=
  { nodes := [⟨⟨0, 0, 1⟩, 1, 0, 1⟩, ⟨⟨1, 0, 1⟩, 1, 1, 1⟩, ⟨⟨0, 1, 1⟩, 1, 2, 1⟩,
      ⟨⟨1, 1, 2⟩, 1, 3, 2⟩] }

end StructureExtractor

/-- The value is a `float` (IEEE 754 binary32: a significand of at most 24 bits times a
power of two; the exponent range is left out).  `readSkeletonFromPLY` reads the vertex
coordinates as `float` values. -/
def IsFloatValue {α : Type} [LinearOrderedField α] (x : α) : Prop :=
  ∃ m e : Int, |m| < 2 ^ 24 ∧ x = (m : α) * 2 ^ e

namespace StructureExtractor
variable {α : Type}

end StructureExtractor

/-! # Theorems -/

/-! ## The sort model -/

theorem stdSort_perm {β : Type} (comp : β → β → Bool) (l : List β) :
    (stdSort comp l).Perm l :=
  List.perm_insertionSort _ l

theorem stdSort_length {β : Type} (comp : β → β → Bool) (l : List β) :
    (stdSort comp l).length = l.length :=
  List.length_insertionSort _ l

theorem stdSort_sorted {β : Type} (comp : β → β → Bool)
    (htotal : ∀ a b, comp b a = false ∨ comp a b = false)
    (htrans : ∀ a b c, comp b a = false → comp c b = false → comp c a = false)
    (l : List β) : (stdSort comp l).Pairwise (fun a b => comp b a = false) := by
  haveI : IsTotal β (fun a b => comp b a = false) := ⟨htotal⟩
  haveI : IsTrans β (fun a b => comp b a = false) := ⟨htrans⟩
  exact List.sorted_insertionSort _ l

/-! ## Leaf extraction and the adaptive leaf filter -/

namespace StructureExtractor

variable {α : Type}

theorem incrDegree_of_valid (degree : List Nat) (k : Int) (hk : (0 ≤ k ∧ k < (degree.length : Int))) :
    ∃ d, incrDegree degree k = some d ∧ d.length = degree.length ∧
      ∀ i : Nat, d.getD i 0 = degree.getD i 0 + (if (i : Int) = k then 1 else 0) := by
  obtain ⟨h0, h1⟩ := hk
  have hlt : k.toNat < degree.length := by omega
  refine ⟨degree.set k.toNat (degree.getD k.toNat 0 + 1), ?_, by simp, ?_⟩
  · simp [incrDegree, h0, hlt]
  · intro i
    by_cases hik : (i : Int) = k
    · have : k.toNat = i := by omega
      subst this
      simp [hik, List.getD_eq_getElem?_getD, List.getElem?_set, hlt]
    · have : k.toNat ≠ i := by omega
      simp [hik, List.getD_eq_getElem?_getD, List.getElem?_set, this]

theorem countDegrees_of_valid (edges : List (Int × Int)) :
    ∀ degree : List Nat,
      (∀ e ∈ edges, (0 ≤ e.1 ∧ e.1 < (degree.length : Int)) ∧ (0 ≤ e.2 ∧ e.2 < (degree.length : Int))) →
      ∃ d, countDegrees edges degree = some d ∧ d.length = degree.length ∧
        ∀ i : Nat, d.getD i 0 = degree.getD i 0 + vertexDegree edges i := by
  induction edges with
  | nil => intro degree _; exact ⟨degree, rfl, rfl, by simp [vertexDegree]⟩
  | cons e es ih =>
    intro degree hv
    obtain ⟨h1, h2⟩ := hv e (List.mem_cons_self _ _)
    obtain ⟨d1, e1, l1, g1⟩ := incrDegree_of_valid degree e.1 h1
    obtain ⟨d2, e2, l2, g2⟩ := incrDegree_of_valid d1 e.2 (by rw [l1]; exact h2)
    obtain ⟨d, e3, l3, g3⟩ := ih d2 (by
      intro e' he'
      rw [l2, l1]
      exact hv e' (List.mem_cons_of_mem _ he'))
    refine ⟨d, ?_, by rw [l3, l2, l1], ?_⟩
    · simp [countDegrees, e1, e2, e3]
    · intro i
      rw [g3, g2, g1]
      simp only [vertexDegree, List.map_cons, List.count_cons]
      have a1 : (e.1 == (i : Int)) = decide ((i : Int) = e.1) := by
        by_cases h : (i : Int) = e.1
        · simp [← h]
        · have h' : ¬ e.1 = (i : Int) := fun h' => h h'.symm
          simp [h, h']
      have a2 : (e.2 == (i : Int)) = decide ((i : Int) = e.2) := by
        by_cases h : (i : Int) = e.2
        · simp [← h]
        · have h' : ¬ e.2 = (i : Int) := fun h' => h h'.symm
          simp [h, h']
      rw [a1, a2]
      by_cases h1 : (i : Int) = e.1 <;> by_cases h2 : (i : Int) = e.2 <;> simp [h1, h2] <;> omega

theorem filterMap_ite_eq_map_filter {β γ : Type} (p : β → Bool) (f : β → γ) (l : List β) :
    l.filterMap (fun b => if p b then some (f b) else none) = (l.filter p).map f := by
  induction l with
  | nil => rfl
  | cons b l ih =>
    by_cases h : p b <;> simp [List.filterMap_cons, List.filter_cons, h, ih]

theorem range_filterMap_eq_enum {β γ : Type} (l : List β) (f : Nat → Option γ) :
    (List.range l.length).filterMap f = l.enum.filterMap (fun q => f q.1) := by
  rw [← List.enum_map_fst, List.filterMap_map]
  rfl

theorem extractLeafNodes_eq [One α] (skeleton : TreeSkeleton α)
    (hvalid : ∀ e ∈ skeleton.edges,
      (0 ≤ e.1 ∧ e.1 < (skeleton.vertices.length : Int)) ∧ (0 ≤ e.2 ∧ e.2 < (skeleton.vertices.length : Int))) :
    extractLeafNodes skeleton = some
      { nodes := (skeleton.vertices.enum.filter
          (fun q => decide (vertexDegree skeleton.edges q.1 = 1))).map
            (leafOfVertex skeleton) } := by
  obtain ⟨d, hd, hlen, hget⟩ := countDegrees_of_valid skeleton.edges
    (List.replicate skeleton.vertices.length 0) (by simpa using hvalid)
  have hlen' : d.length = skeleton.vertices.length := by simpa using hlen
  simp only [extractLeafNodes, hd, hlen']
  congr 2
  rw [range_filterMap_eq_enum, ← filterMap_ite_eq_map_filter]
  apply List.filterMap_congr
  intro q hq
  obtain ⟨i, v⟩ := q
  have hv : skeleton.vertices[i]? = some v := List.mk_mem_enum_iff_getElem?.mp hq
  have hi : i < skeleton.vertices.length := by
    rcases List.getElem?_eq_some_iff.mp hv with ⟨h, _⟩
    exact h
  have hdeg : d[i]? = some (vertexDegree skeleton.edges i) := by
    have h1 := hget i
    have hi' : i < d.length := by omega
    rw [List.getD_eq_getElem?_getD, List.getElem?_eq_getElem hi'] at h1
    rw [List.getElem?_eq_getElem hi']
    simp [List.getD_eq_getElem?_getD] at h1
    simp [h1]
  simp only [leafAt, hdeg, hv, Option.some.injEq, leafOfVertex, Option.map_some']
  by_cases h1 : vertexDegree skeleton.edges i = 1
  · simp only [h1, if_true, decide_True]
    congr 2
    by_cases hr : i < skeleton.radii.length <;> simp [hr, List.getD_eq_getElem?_getD]
    simp at hr
    simp [List.getElem?_eq_none hr]
  · simp [h1]

theorem pairLess_eq_false_iff [LinearOrderedField α] (a b : α × Nat) :
    pairLess b a = false ↔ a.1 < b.1 ∨ (a.1 = b.1 ∧ a.2 ≤ b.2) := by
  simp only [pairLess, Bool.or_eq_false_iff, Bool.and_eq_false_imp, decide_eq_false_iff_not,
    Bool.not_eq_true', not_lt]
  constructor
  · rintro ⟨h1, h2⟩
    rcases lt_or_eq_of_le h1 with h | h
    · exact Or.inl h
    · exact Or.inr ⟨h, h2 (by simp [h])⟩
  · rintro (h | ⟨h1, h2⟩)
    · exact ⟨le_of_lt h, fun h' => absurd h (by simpa using h')⟩
    · exact ⟨le_of_eq h1, fun _ => h2⟩

theorem pairLess_total [LinearOrderedField α] (a b : α × Nat) :
    pairLess b a = false ∨ pairLess a b = false := by
  rw [pairLess_eq_false_iff, pairLess_eq_false_iff]
  rcases lt_trichotomy a.1 b.1 with h | h | h
  · exact Or.inl (Or.inl h)
  · rcases le_total a.2 b.2 with h2 | h2
    · exact Or.inl (Or.inr ⟨h, h2⟩)
    · exact Or.inr (Or.inr ⟨h.symm, h2⟩)
  · exact Or.inr (Or.inl h)

theorem pairLess_trans [LinearOrderedField α] (a b c : α × Nat)
    (h1 : pairLess b a = false) (h2 : pairLess c b = false) : pairLess c a = false := by
  rw [pairLess_eq_false_iff] at *
  rcases h1 with h1 | ⟨h1, h1'⟩ <;> rcases h2 with h2 | ⟨h2, h2'⟩
  · exact Or.inl (lt_trans h1 h2)
  · exact Or.inl (h2 ▸ h1)
  · exact Or.inl (h1 ▸ h2)
  · exact Or.inr ⟨h1.trans h2, le_trans h1' h2'⟩

theorem length_filter_ne_range (L t : Nat) (ht : t < L) :
    ((List.range L).filter (fun i => decide (i ≠ t))).length = L - 1 := by
  have h1 := List.length_eq_countP_add_countP (fun i => decide (i ≠ t)) (List.range L)
  have h2 : List.countP (fun a => decide ¬(decide (a ≠ t)) = true) (List.range L) = 1 := by
    have : (fun a => decide ¬(decide (a ≠ t)) = true) = (fun a => a == t) := by
      funext a; by_cases h : a = t <;> simp [h]
    rw [this]
    have := List.count_eq_one_of_mem (List.nodup_range L) (List.mem_range.mpr ht)
    simpa [List.count] using this
  rw [List.length_range, h2] at h1
  rw [← List.countP_eq_length_filter]
  omega

theorem findNearestNeighbors_eq [LinearOrderedField α] (sqrt : α → α)
    (leafNodes : LeafNodes α) (t : Nat) (ht : t < leafNodes.nodes.length) (n : Int) :
    findNearestNeighbors sqrt leafNodes (t : Int) n =
      some (((stdSort pairLess (neighborPairs sqrt leafNodes t)).take
        (min n ((neighborPairs sqrt leafNodes t).length : Int)).toNat).map (fun d => d.2)) := by
  have htn : leafNodes.nodes[t]? = some leafNodes.nodes[t] := List.getElem?_eq_getElem ht
  have hpairs : neighborPairs sqrt leafNodes t =
      (leafNodes.nodes.enum.filter (fun q => decide ((q.1 : Int) ≠ (t : Int)))).map
        (fun q => (calculateDistance sqrt leafNodes.nodes[t].position q.2.position, q.1)) := by
    unfold neighborPairs
    rw [← List.enum_map_fst leafNodes.nodes, List.filter_map, List.map_map]
    have hf : ((fun j => decide (j ≠ t)) ∘ Prod.fst : Nat × LeafNode α → Bool) =
        (fun q => decide ((q.1 : Int) ≠ (t : Int))) := by
      funext q; simp
    rw [hf]
    apply List.map_congr_left
    intro q hq
    obtain ⟨j, node⟩ := q
    have hj : leafNodes.nodes[j]? = some node :=
      List.mk_mem_enum_iff_getElem?.mp (List.mem_of_mem_filter hq)
    simp [leafDistance, htn, hj]
  rw [hpairs]
  unfold findNearestNeighbors
  simp only [Int.natCast_nonneg, if_true, Int.toNat_ofNat, htn]
  cases hothers : leafNodes.nodes.enum.filter (fun q => decide ((q.1 : Int) ≠ (t : Int))) with
  | nil => simp [stdSort]
  | cons q rest => simp [stdSort_length]

theorem leafAt_original_index [One α] (skeleton : TreeSkeleton α) (degree : List Nat) (i : Nat)
    (node : LeafNode α) (h : leafAt skeleton degree i = some node) :
    node.original_index = (i : Int) := by
  unfold leafAt at h
  split at h
  · cases hv : skeleton.vertices[i]? with
    | none => simp [hv] at h
    | some v =>
      simp [hv] at h
      rw [← h]
  · exact absurd h (by simp)

theorem filterMap_leafAt_sublist [One α] (skeleton : TreeSkeleton α) (degree : List Nat) :
    ∀ l : List Nat, List.Sublist
      ((l.filterMap (leafAt skeleton degree)).map (fun node => node.original_index))
      (l.map (fun i : Nat => (i : Int))) := by
  intro l
  induction l with
  | nil => simp
  | cons i l ih =>
    cases h : leafAt skeleton degree i with
    | none =>
      simp only [List.filterMap_cons, h, List.map_cons]
      exact List.Sublist.cons _ ih
    | some node =>
      simp only [List.filterMap_cons, h, List.map_cons]
      rw [leafAt_original_index skeleton degree i node h]
      exact List.Sublist.cons₂ _ ih

theorem extractLeafNodes_index_increasing [One α] (skeleton : TreeSkeleton α)
    (leaves : LeafNodes α) (h : extractLeafNodes skeleton = some leaves) :
    (leaves.nodes.map (fun node => node.original_index)).Pairwise (fun a b => a < b) := by
  unfold extractLeafNodes at h
  split at h
  · exact absurd h (by simp)
  · rename_i degree _
    simp only [Option.some.injEq] at h
    rw [← h]
    have hr : (List.map (fun i : Nat => (i : Int)) (List.range degree.length)).Pairwise
        (fun a b => a < b) := by
      rw [List.pairwise_map]
      refine (List.pairwise_lt_range degree.length).imp ?_
      intro a b hab
      exact_mod_cast hab
    exact List.Pairwise.sublist (filterMap_leafAt_sublist skeleton degree _) hr

theorem mem_neighborPairs [LinearOrderedField α] (sqrt : α → α) (leaves : LeafNodes α)
    (t : Nat) (p : α × Nat) :
    p ∈ neighborPairs sqrt leaves t ↔
      p.1 = leafDistance sqrt leaves t p.2 ∧ p.2 < leaves.nodes.length ∧ p.2 ≠ t := by
  obtain ⟨d, j⟩ := p
  simp only [neighborPairs, List.mem_map, List.mem_filter, List.mem_range, decide_eq_true_eq,
    Prod.mk.injEq]
  constructor
  · rintro ⟨i, ⟨hi, hit⟩, hd, rfl⟩
    exact ⟨hd.symm, hi, hit⟩
  · rintro ⟨hd, hj, hjt⟩
    exact ⟨j, ⟨hj, hjt⟩, hd.symm, rfl⟩

theorem neighborPairs_length [LinearOrderedField α] (sqrt : α → α) (leaves : LeafNodes α)
    (t : Nat) (ht : t < leaves.nodes.length) :
    (neighborPairs sqrt leaves t).length = leaves.nodes.length - 1 := by
  simp only [neighborPairs, List.length_map]
  exact length_filter_ne_range _ t ht

theorem neighborPairs_snd_nodup [LinearOrderedField α] (sqrt : α → α) (leaves : LeafNodes α)
    (t : Nat) : ((neighborPairs sqrt leaves t).map (fun d => d.2)).Nodup := by
  simp only [neighborPairs, List.map_map]
  have : ((fun d : α × Nat => d.2) ∘ fun j => (leafDistance sqrt leaves t j, j)) = id := by
    funext j; rfl
  rw [this, List.map_id]
  exact (List.nodup_range _).filter _

/-- Properties of the list returned by `findNearestNeighbors` that hold for every leaf
set, stated with positions: the result is the first `k` entries of the sorted pairs. -/
theorem findNearestNeighbors_core [LinearOrderedField α] (sqrt : α → α)
    (leaves : LeafNodes α) (t : Nat) (ht : t < leaves.nodes.length) (n : Int) (hn : 0 ≤ n) :
    ∃ r, findNearestNeighbors sqrt leaves (t : Int) n = some r ∧
      (r.length : Int) = min n ((leaves.nodes.length : Int) - 1) ∧
      r.Nodup ∧
      (∀ j ∈ r, j < leaves.nodes.length ∧ j ≠ t) ∧
      r.Pairwise (fun a b => leafDistance sqrt leaves t a < leafDistance sqrt leaves t b ∨
        (leafDistance sqrt leaves t a = leafDistance sqrt leaves t b ∧ a < b)) ∧
      (∀ j ∈ r, ∀ k, k < leaves.nodes.length → k ≠ t → k ∉ r →
        leafDistance sqrt leaves t j < leafDistance sqrt leaves t k ∨
        (leafDistance sqrt leaves t j = leafDistance sqrt leaves t k ∧ j < k)) := by
  set P := neighborPairs sqrt leaves t with hP
  set S := stdSort pairLess P with hS
  set c := (min n (P.length : Int)).toNat with hc
  have hperm : S.Perm P := stdSort_perm _ _
  have hsorted : S.Pairwise (fun a b => pairLess b a = false) :=
    stdSort_sorted pairLess pairLess_total pairLess_trans P
  have hlen : P.length = leaves.nodes.length - 1 := neighborPairs_length sqrt leaves t ht
  have hmemS : ∀ p, p ∈ S ↔
      p.1 = leafDistance sqrt leaves t p.2 ∧ p.2 < leaves.nodes.length ∧ p.2 ≠ t := by
    intro p
    rw [hperm.mem_iff]
    exact mem_neighborPairs sqrt leaves t p
  have hnodupS : (S.map (fun d => d.2)).Nodup :=
    (hperm.map _).nodup_iff.mpr (neighborPairs_snd_nodup sqrt leaves t)
  have hlex : S.Pairwise (fun a b =>
      leafDistance sqrt leaves t a.2 < leafDistance sqrt leaves t b.2 ∨
        (leafDistance sqrt leaves t a.2 = leafDistance sqrt leaves t b.2 ∧ a.2 < b.2)) := by
    have h1 : S.Pairwise (fun a b => a.2 ≠ b.2) := (List.pairwise_map).mp hnodupS
    refine (hsorted.and h1).imp_of_mem ?_
    intro a b ha hb hab
    obtain ⟨hle, hne⟩ := hab
    rw [pairLess_eq_false_iff] at hle
    rw [← ((hmemS a).mp ha).1, ← ((hmemS b).mp hb).1]
    rcases hle with h | ⟨h, h'⟩
    · exact Or.inl h
    · exact Or.inr ⟨h, lt_of_le_of_ne h' hne⟩
  refine ⟨(S.take c).map (fun d => d.2), findNearestNeighbors_eq sqrt leaves t ht n, ?_, ?_, ?_,
    ?_, ?_⟩
  · have hSl : S.length = P.length := stdSort_length _ _
    rw [List.length_map, List.length_take, hSl, hc, hlen]
    omega
  · rw [List.map_take]
    exact hnodupS.sublist (List.take_sublist _ _)
  · intro j hj
    obtain ⟨p, hp, rfl⟩ := List.mem_map.mp hj
    exact ((hmemS p).mp (List.mem_of_mem_take hp)).2
  · rw [List.pairwise_map]
    exact hlex.sublist (List.take_sublist _ _)
  · intro j hj k hk hkt hkr
    obtain ⟨p, hp, rfl⟩ := List.mem_map.mp hj
    have hkS : (leafDistance sqrt leaves t k, k) ∈ S := (hmemS _).mpr ⟨rfl, hk, hkt⟩
    have hkdrop : (leafDistance sqrt leaves t k, k) ∈ S.drop c := by
      rw [← List.take_append_drop c S, List.mem_append] at hkS
      rcases hkS with h | h
      · exact absurd (List.mem_map.mpr ⟨_, h, rfl⟩) hkr
      · exact h
    exact List.Sorted.rel_of_mem_take_of_mem_drop hlex hp hkdrop

/-- C1: for a skeleton whose edge endpoints are valid vertex indices,
`extractLeafNodes` returns the vertices of degree 1 (degree = number of edge endpoints
equal to the vertex index) in vertex-array order, one leaf per such vertex: the leaf of
vertex `i` has `original_index = i`, `position` the vertex, `height` its `z` and
`radius = radii[i]`, or 1 when `radii` has no entry `i`; the original indices of the
result are strictly increasing, and an index occurs exactly when it is a degree-1
vertex. -/
theorem extractLeafNodes_spec [One α] (skeleton : TreeSkeleton α)
    (hvalid : ∀ e ∈ skeleton.edges,
      (0 ≤ e.1 ∧ e.1 < (skeleton.vertices.length : Int)) ∧
      (0 ≤ e.2 ∧ e.2 < (skeleton.vertices.length : Int))) :
    ∃ leaves, extractLeafNodes skeleton = some leaves ∧
      leaves.nodes = (skeleton.vertices.enum.filter
        (fun q => decide (vertexDegree skeleton.edges q.1 = 1))).map (fun q =>
          { position := q.2, radius := skeleton.radii.getD q.1 1,
            original_index := (q.1 : Int), height := q.2.z }) ∧
      (leaves.nodes.map (fun node => node.original_index)).Pairwise (fun a b => a < b) ∧
      (∀ i : Nat, (∃ node ∈ leaves.nodes, node.original_index = (i : Int)) ↔
        (i < skeleton.vertices.length ∧ vertexDegree skeleton.edges i = 1)) := by
  have heq := extractLeafNodes_eq skeleton hvalid
  refine ⟨_, heq, rfl, extractLeafNodes_index_increasing skeleton _ heq, ?_⟩
  intro i
  simp only [List.mem_map, List.mem_filter, decide_eq_true_eq, leafOfVertex]
  constructor
  · rintro ⟨node, ⟨q, ⟨hq, hdeg⟩, rfl⟩, hidx⟩
    obtain ⟨j, v⟩ := q
    have hj : j = i := by simpa using hidx
    subst hj
    have hv : skeleton.vertices[j]? = some v := List.mk_mem_enum_iff_getElem?.mp hq
    exact ⟨(List.getElem?_eq_some_iff.mp hv).1, hdeg⟩
  · rintro ⟨hi, hdeg⟩
    refine ⟨_, ⟨(i, skeleton.vertices[i]), ⟨?_, hdeg⟩, rfl⟩, rfl⟩
    exact List.mk_mem_enum_iff_getElem?.mpr (List.getElem?_eq_getElem hi)

theorem extractLeafNodes_spec_witness :
    (∀ e ∈ (starSkeleton ℚ).edges,
      (0 ≤ e.1 ∧ e.1 < ((starSkeleton ℚ).vertices.length : Int)) ∧
      (0 ≤ e.2 ∧ e.2 < ((starSkeleton ℚ).vertices.length : Int))) ∧
    ∃ leaves, extractLeafNodes (starSkeleton ℚ) = some leaves ∧
      leaves.nodes = ((starSkeleton ℚ).vertices.enum.filter
        (fun q => decide (vertexDegree (starSkeleton ℚ).edges q.1 = 1))).map (fun q =>
          { position := q.2, radius := (starSkeleton ℚ).radii.getD q.1 1,
            original_index := (q.1 : Int), height := q.2.z }) ∧
      (leaves.nodes.map (fun node => node.original_index)).Pairwise (fun a b => a < b) ∧
      (∀ i : Nat, (∃ node ∈ leaves.nodes, node.original_index = (i : Int)) ↔
        (i < (starSkeleton ℚ).vertices.length ∧ vertexDegree (starSkeleton ℚ).edges i = 1)) :=
  have hvalid : ∀ e ∈ (starSkeleton ℚ).edges,
      (0 ≤ e.1 ∧ e.1 < ((starSkeleton ℚ).vertices.length : Int)) ∧
      (0 ≤ e.2 ∧ e.2 < ((starSkeleton ℚ).vertices.length : Int)) := by
    simp [starSkeleton]
  ⟨hvalid, extractLeafNodes_spec (starSkeleton ℚ) hvalid⟩

end StructureExtractor

/-! ## Order statistics -/

theorem take_sorted_perm_of_split {β : Type} (r : β → β → Prop) [DecidableRel r]
    [IsTotal β r] [IsTrans β r] [IsAntisymm β r] (S top rest : List β)
    (hS : S.Pairwise r) (hperm : S.Perm (top ++ rest))
    (hsplit : ∀ a ∈ top, ∀ b ∈ rest, r a b) : (S.take top.length).Perm top := by
  have hT := List.sorted_insertionSort r top
  have hR := List.sorted_insertionSort r rest
  have hTR : (top.insertionSort r ++ rest.insertionSort r).Pairwise r := by
    rw [List.pairwise_append]
    refine ⟨hT, hR, ?_⟩
    intro a ha b hb
    exact hsplit a ((List.mem_insertionSort r).mp ha) b ((List.mem_insertionSort r).mp hb)
  have hp : S.Perm (top.insertionSort r ++ rest.insertionSort r) :=
    hperm.trans (((List.perm_insertionSort r top).append (List.perm_insertionSort r rest)).symm)
  have heq : S = top.insertionSort r ++ rest.insertionSort r :=
    List.eq_of_perm_of_sorted hp hS hTR
  rw [heq, List.take_left' (List.length_insertionSort r top)]
  exact List.perm_insertionSort r top

theorem split_of_sorted {β : Type} (r : β → β → Prop) (S : List β) (hS : S.Pairwise r)
    (k : Nat) : ∀ a ∈ S.take k, ∀ b ∈ S.drop k, r a b := by
  intro a ha b hb
  exact List.Sorted.rel_of_mem_take_of_mem_drop hS ha hb

theorem isMeanOfLargest_iff {α : Type} [LinearOrderedField α] (hs S : List α)
    (hperm : S.Perm hs) (hS : S.Pairwise (fun a b => b ≤ a)) (k : Nat) (hk : k ≤ hs.length)
    (m : α) : IsMeanOfLargest k hs m ↔ m = (S.take k).sum / (k : α) := by
  have hlen : S.length = hs.length := hperm.length_eq
  haveI : IsTotal α (fun a b => b ≤ a) := ⟨fun a b => le_total b a⟩
  haveI : IsTrans α (fun a b => b ≤ a) := ⟨fun a b c h1 h2 => le_trans h2 h1⟩
  haveI : IsAntisymm α (fun a b => b ≤ a) := ⟨fun a b h1 h2 => le_antisymm h2 h1⟩
  constructor
  · rintro ⟨top, rest, hp, hl, hsplit, rfl⟩
    have := take_sorted_perm_of_split (fun a b : α => b ≤ a) S top rest hS (hperm.trans hp)
      hsplit
    rw [hl] at this
    rw [this.sum_eq, hl]
  · intro hm
    refine ⟨S.take k, S.drop k, ?_, ?_, split_of_sorted _ S hS k, ?_⟩
    · rw [List.take_append_drop]; exact hperm.symm
    · rw [List.length_take]; omega
    · rw [hm, List.length_take, Nat.min_eq_left (by omega)]

theorem isMeanOfSmallest_iff {α : Type} [LinearOrderedField α] (hs S : List α)
    (hperm : S.Perm hs) (hS : S.Pairwise (fun a b => a ≤ b)) (k : Nat) (hk : k ≤ hs.length)
    (m : α) : IsMeanOfSmallest k hs m ↔ m = (S.take k).sum / (k : α) := by
  have hlen : S.length = hs.length := hperm.length_eq
  constructor
  · rintro ⟨bottom, rest, hp, hl, hsplit, rfl⟩
    have := take_sorted_perm_of_split (fun a b : α => a ≤ b) S bottom rest hS (hperm.trans hp)
      hsplit
    rw [hl] at this
    rw [this.sum_eq, hl]
  · intro hm
    refine ⟨S.take k, S.drop k, ?_, ?_, split_of_sorted _ S hS k, ?_⟩
    · rw [List.take_append_drop]; exact hperm.symm
    · rw [List.length_take]; omega
    · rw [hm, List.length_take, Nat.min_eq_left (by omega)]

theorem foldl_add_eq_sum {α : Type} [LinearOrderedField α] (l : List α) :
    l.foldl (fun acc h => acc + h) 0 = l.sum := by
  rw [List.sum_eq_foldl]

namespace StructureExtractor
variable {α : Type}

theorem neighborHeightsOf_eq [Zero α] (leaves : LeafNodes α) :
    ∀ nbrs : List Nat, (∀ j ∈ nbrs, j < leaves.nodes.length) →
      neighborHeightsOf leaves.nodes nbrs = some (nbrs.map (heightAt leaves)) := by
  intro nbrs
  induction nbrs with
  | nil => intro _; rfl
  | cons j rest ih =>
    intro h
    have hj : j < leaves.nodes.length := h j (List.mem_cons_self _ _)
    have hrest := ih (fun k hk => h k (List.mem_cons_of_mem _ hk))
    simp [neighborHeightsOf, hrest, List.getElem?_eq_getElem hj, heightAt]

theorem descending_sort_perm [LinearOrderedField α] (hs : List α) :
    ((stdSort (fun a b : α => decide (a < b)) hs.reverse).reverse).Perm hs :=
  (List.reverse_perm _).trans ((stdSort_perm _ _).trans (List.reverse_perm _))

theorem descending_sort_sorted [LinearOrderedField α] (hs : List α) :
    ((stdSort (fun a b : α => decide (a < b)) hs.reverse).reverse).Pairwise
      (fun a b => b ≤ a) := by
  rw [List.pairwise_reverse]
  have h := stdSort_sorted (fun a b : α => decide (a < b))
    (by intro a b; simp only [decide_eq_false_iff_not, not_lt]; exact le_total a b)
    (by intro a b c; simp only [decide_eq_false_iff_not, not_lt]; exact fun h1 h2 => le_trans h1 h2)
    hs.reverse
  refine h.imp ?_
  intro a b hab
  simpa using hab

/-- The reference height is the mean of the `min(topN, number of heights)` largest
heights. -/
theorem referenceHeight_isMean [LinearOrderedField α] (topN : Int)
    (hs : List α) (m : α) :
    IsMeanOfLargest (min topN (hs.length : Int)).toNat hs m ↔ m = referenceHeight topN hs := by
  have hp := descending_sort_perm hs
  have hS := descending_sort_sorted hs
  have hlen := hp.length_eq
  rw [isMeanOfLargest_iff hs _ hp hS _ (by omega)]
  unfold referenceHeight
  simp only [foldl_add_eq_sum, hlen]
  by_cases hpos : min topN (hs.length : Int) > 0
  · rw [if_pos hpos]
    have hc : (((min topN (hs.length : Int)).toNat : Nat) : α) =
        ((min topN (hs.length : Int) : Int) : α) := by
      have h1 : (((min topN (hs.length : Int)).toNat : Nat) : Int) = min topN (hs.length : Int) :=
        Int.toNat_of_nonneg (le_of_lt hpos)
      rw [← Int.cast_natCast, h1]
    rw [hc]
  · rw [if_neg hpos]
    have h0 : (min topN (hs.length : Int)).toNat = 0 := by omega
    rw [h0]
    simp

theorem neighborCount_pos [LinearOrderedField α] [FloorRing α] (L : Nat) (p : α) :
    1 ≤ neighborCount L p := le_max_left _ _

theorem topCount_pos [LinearOrderedField α] [FloorRing α] (n : Int) (p : α) :
    1 ≤ topCount n p := le_max_left _ _

theorem keepLeaf_eq [LinearOrderedField α] (sqrt : α → α) (all : LeafNodes α) (h_l : α)
    (n topN : Int) (hn : 0 ≤ n) (i : Nat) (hi : i < all.nodes.length) (node : LeafNode α) :
    ∃ nbrs, findNearestNeighbors sqrt all (i : Int) n = some nbrs ∧
      keepLeaf sqrt all h_l n topN i node =
        some (decide (|referenceHeight topN (nbrs.map (heightAt all)) - node.height| ≤ h_l)) := by
  obtain ⟨nbrs, hr, _, _, hval, _⟩ := findNearestNeighbors_core sqrt all i hi n hn
  refine ⟨nbrs, hr, ?_⟩
  have hh := neighborHeightsOf_eq all nbrs (fun j hj => (hval j hj).1)
  simp [keepLeaf, hr, hh]

theorem filterLoop_eq [LinearOrderedField α] (sqrt : α → α) (all : LeafNodes α) (h_l : α)
    (n topN : Int) (kd : Nat × LeafNode α → Bool) :
    ∀ l : List (Nat × LeafNode α),
      (∀ q ∈ l, keepLeaf sqrt all h_l n topN q.1 q.2 = some (kd q)) →
      filterLoop sqrt all h_l n topN l = some ((l.filter kd).map (fun q => q.2)) := by
  intro l
  induction l with
  | nil => intro _; rfl
  | cons q rest ih =>
    intro h
    have hq := h q (List.mem_cons_self _ _)
    have hrest := ih (fun q' hq' => h q' (List.mem_cons_of_mem _ hq'))
    by_cases hk : kd q = true
    · simp [filterLoop, hq, hrest, hk, List.filter_cons]
    · simp only [Bool.not_eq_true] at hk
      simp [filterLoop, hq, hrest, hk, List.filter_cons]

theorem truncToInt_of_nonneg [LinearOrderedField α] [FloorRing α] (x : α) (hx : 0 ≤ x) :
    truncToInt x = Int.floor x := by
  simp [truncToInt, hx]

end StructureExtractor

/-! ## Height statistics -/

theorem foldl_z_eq_sum {α : Type} [LinearOrderedField α] (points : List (Point3D α)) :
    points.foldl (fun acc point => acc + point.z) 0 = (points.map (fun q => q.z)).sum := by
  rw [List.sum_eq_foldl, List.foldl_map]

theorem string_append_ne_empty (a b : String) (ha : a ≠ "") : a ++ b ≠ "" := by
  intro h
  have hl : (a ++ b).length = 0 := by rw [h]; rfl
  rw [String.length_append] at hl
  have : a.length = 0 := by omega
  apply ha
  cases a with
  | mk data =>
    have hd : data = [] := List.length_eq_zero.mp this
    rw [hd]

/-- The descending sort of `getTopNPoints`, seen on the heights. -/
theorem sort_desc_z {α : Type} [LinearOrderedField α] (points : List (Point3D α)) :
    ((stdSort (fun a b : Point3D α => decide (a.z > b.z)) points).map (fun q => q.z)).Perm
        (points.map (fun q => q.z)) ∧
    ((stdSort (fun a b : Point3D α => decide (a.z > b.z)) points).map (fun q => q.z)).Pairwise
        (fun a b => b ≤ a) := by
  refine ⟨(stdSort_perm _ _).map _, ?_⟩
  rw [List.pairwise_map]
  have h := stdSort_sorted (fun a b : Point3D α => decide (a.z > b.z))
    (by intro a b; simp only [gt_iff_lt, decide_eq_false_iff_not, not_lt]; exact le_total _ _)
    (by intro a b c; simp only [gt_iff_lt, decide_eq_false_iff_not, not_lt]
        exact fun h1 h2 => le_trans h2 h1)
    points
  refine h.imp ?_
  intro a b hab
  simpa using hab

/-- The ascending sort of `getBottomNPoints`, seen on the heights. -/
theorem sort_asc_z {α : Type} [LinearOrderedField α] (points : List (Point3D α)) :
    ((stdSort (fun a b : Point3D α => decide (a.z < b.z)) points).map (fun q => q.z)).Perm
        (points.map (fun q => q.z)) ∧
    ((stdSort (fun a b : Point3D α => decide (a.z < b.z)) points).map (fun q => q.z)).Pairwise
        (fun a b => a ≤ b) := by
  refine ⟨(stdSort_perm _ _).map _, ?_⟩
  rw [List.pairwise_map]
  have h := stdSort_sorted (fun a b : Point3D α => decide (a.z < b.z))
    (by intro a b; simp only [decide_eq_false_iff_not, not_lt]; exact le_total _ _)
    (by intro a b c; simp only [decide_eq_false_iff_not, not_lt]
        exact fun h1 h2 => le_trans h1 h2)
    points
  refine h.imp ?_
  intro a b hab
  simpa using hab

namespace TreeHeight
variable {α : Type}

theorem calculateAverageHeight_eq [LinearOrderedField α] (points : List (Point3D α)) :
    calculateAverageHeight points =
      (points.map (fun q => q.z)).sum / ((points.map (fun q => q.z)).length : α) := by
  unfold calculateAverageHeight
  cases points with
  | nil => simp
  | cons q rest =>
    have h := foldl_z_eq_sum (q :: rest)
    simp only [List.isEmpty_cons, Bool.false_eq_true, if_false, h, List.length_map]

theorem getTopNPoints_z [LinearOrderedField α] (points : List (Point3D α)) (n : Int)
    (hn : 0 < n) :
    (getTopNPoints points n).map (fun q => q.z) =
      ((stdSort (fun a b : Point3D α => decide (a.z > b.z)) points).map (fun q => q.z)).take
        (min n (points.length : Int)).toNat := by
  unfold getTopNPoints
  cases points with
  | nil => simp [stdSort]
  | cons q rest =>
    have hn' : ¬ n ≤ 0 := not_le.mpr hn
    simp only [List.isEmpty_cons, Bool.false_or, decide_eq_true_eq, hn', if_false,
      stdSort_length, List.map_take]

theorem getTopNPoints_length [LinearOrderedField α] (points : List (Point3D α)) (n : Int)
    (hn : 0 < n) :
    ((getTopNPoints points n).length : Int) = min n (points.length : Int) := by
  have h := congrArg List.length (getTopNPoints_z points n hn)
  simp only [List.length_map, List.length_take, stdSort_length] at h
  rw [h]
  omega

end TreeHeight

namespace CrownDepth
variable {α : Type}

theorem bottomAverage_eq [LinearOrderedField α] (points : List (Point3D α)) :
    calculateAverageHeight points =
      (points.map (fun q => q.z)).sum / ((points.map (fun q => q.z)).length : α) := by
  unfold calculateAverageHeight
  cases points with
  | nil => simp
  | cons q rest =>
    have h := foldl_z_eq_sum (q :: rest)
    simp only [List.isEmpty_cons, Bool.false_eq_true, if_false, h, List.length_map]

theorem getBottomNPoints_z [LinearOrderedField α] (points : List (Point3D α)) (n : Int)
    (hn : 0 < n) :
    (getBottomNPoints points n).map (fun q => q.z) =
      ((stdSort (fun a b : Point3D α => decide (a.z < b.z)) points).map (fun q => q.z)).take
        (min n (points.length : Int)).toNat := by
  unfold getBottomNPoints
  cases points with
  | nil => simp [stdSort]
  | cons q rest =>
    have hn' : ¬ n ≤ 0 := not_le.mpr hn
    simp only [List.isEmpty_cons, Bool.false_or, decide_eq_true_eq, hn', if_false,
      stdSort_length, List.map_take]

theorem getBottomNPoints_length [LinearOrderedField α] (points : List (Point3D α)) (n : Int)
    (hn : 0 < n) :
    ((getBottomNPoints points n).length : Int) = min n (points.length : Int) := by
  have h := congrArg List.length (getBottomNPoints_z points n hn)
  simp only [List.length_map, List.length_take, stdSort_length] at h
  rw [h]
  omega

theorem calculateH0_eq [LinearOrderedField α] (points : List (Point3D α)) (n : Int)
    (hn : 0 < n) :
    calculateH0 points n =
      ((getBottomNPoints points n).map (fun q => q.z)).sum /
        (((getBottomNPoints points n).map (fun q => q.z)).length : α) := by
  unfold calculateH0
  have hn' : ¬ n ≤ 0 := not_le.mpr hn
  cases points with
  | nil => simp [getBottomNPoints]
  | cons q rest =>
    simp only [List.isEmpty_cons, Bool.false_or, decide_eq_true_eq, hn', if_false]
    split
    · rename_i h
      have : getBottomNPoints (q :: rest) n = [] := by simpa using h
      simp [this]
    · exact bottomAverage_eq _

end CrownDepth

namespace TreeHeight
variable {α : Type}

theorem calculateFromPoints_of_valid [LinearOrderedField α] (points : List (Point3D α))
    (top_n : Int) (hne : points ≠ []) (hn : 0 < top_n) :
    calculateFromPoints points top_n =
      { success := true
        tree_height := calculateAverageHeight (getTopNPoints points top_n)
        point_count := ((getTopNPoints points top_n).length : Int)
        error_message := "" } := by
  have hlen := getTopNPoints_length points top_n hn
  have hpos : 0 < points.length := List.length_pos.mpr hne
  have htop : getTopNPoints points top_n ≠ [] := by
    intro h
    rw [h] at hlen
    simp only [List.length_nil, Nat.cast_zero] at hlen
    omega
  unfold calculateFromPoints
  have h1 : points.isEmpty = false := by
    cases points with
    | nil => exact absurd rfl hne
    | cons _ _ => rfl
  have h2 : (getTopNPoints points top_n).isEmpty = false := by
    cases h : getTopNPoints points top_n with
    | nil => exact absurd h htop
    | cons _ _ => rfl
  simp [h1, h2, not_le.mpr hn, HeightResult.init]

theorem tree_height_eq [LinearOrderedField α] (points : List (Point3D α))
    (top_n : Int) (hn : 0 < top_n) :
    calculateAverageHeight (getTopNPoints points top_n) =
      (((stdSort (fun a b : Point3D α => decide (a.z > b.z)) points).map (fun q => q.z)).take
        (min top_n (points.length : Int)).toNat).sum /
          (((min top_n (points.length : Int)).toNat : Nat) : α) := by
  rw [calculateAverageHeight_eq, getTopNPoints_z points top_n hn]
  congr 2
  rw [List.length_take, List.length_map, stdSort_length]
  omega

end TreeHeight

/-- C6: `TreeHeight::calculateFromPoints` fails exactly when `points` is empty or
`top_n ≤ 0`, and then `tree_height = 0`, `point_count = 0` and the error message is not
empty; otherwise it succeeds with `point_count = min(top_n, |points|)` and `tree_height`
the arithmetic mean of the `point_count` largest `z` values of `points`. -/
theorem treeHeight_calculateFromPoints_spec {α : Type} [LinearOrderedField α]
    (points : List (Point3D α)) (top_n : Int) :
    ((TreeHeight.calculateFromPoints points top_n).success = false ↔
      (points = [] ∨ top_n ≤ 0)) ∧
    ((TreeHeight.calculateFromPoints points top_n).success = false →
      (TreeHeight.calculateFromPoints points top_n).tree_height = 0 ∧
      (TreeHeight.calculateFromPoints points top_n).point_count = 0 ∧
      (TreeHeight.calculateFromPoints points top_n).error_message ≠ "") ∧
    ((TreeHeight.calculateFromPoints points top_n).success = true →
      (TreeHeight.calculateFromPoints points top_n).point_count =
        min top_n (points.length : Int) ∧
      ∀ m : α, IsMeanOfLargest (min top_n (points.length : Int)).toNat
        (points.map (fun q => q.z)) m ↔
          m = (TreeHeight.calculateFromPoints points top_n).tree_height) := by
  by_cases hne : points = []
  · subst hne
    simp [TreeHeight.calculateFromPoints, HeightResult.init]
  by_cases hn : top_n ≤ 0
  · have h1 : points.isEmpty = false := by
      cases points with
      | nil => exact absurd rfl hne
      | cons _ _ => rfl
    have hmsg : "Invalid top_n value: " ++ toString top_n ≠ "" :=
      string_append_ne_empty _ _ (by decide)
    simp [TreeHeight.calculateFromPoints, HeightResult.init, h1, hn, hmsg]
  · have hn' : 0 < top_n := not_le.mp hn
    rw [TreeHeight.calculateFromPoints_of_valid points top_n hne hn']
    simp only [hne, hn, or_self, iff_false, Bool.true_eq_false, not_false_eq_true, false_imp_iff,
      true_and, forall_true_left]
    refine ⟨TreeHeight.getTopNPoints_length points top_n hn', ?_⟩
    intro m
    obtain ⟨hperm, hsorted⟩ := sort_desc_z points
    rw [TreeHeight.tree_height_eq points top_n hn']
    exact isMeanOfLargest_iff _ _ hperm hsorted _ (by simp only [List.length_map]; omega) m

namespace CrownDepth
variable {α : Type}

theorem calculateFromPoints_of_valid_input [LinearOrderedField α] [FloorRing α]
    (points : List (Point3D α)) (tree_height : α) (bottom_n : Int) (hne : points ≠ [])
    (hth : 0 < tree_height) (hn : 0 < bottom_n) :
    calculateFromPoints points tree_height bottom_n =
      { success := true
        h0 := calculateH0 points bottom_n
        crown_depth := tree_height - calculateH0 points bottom_n
        point_count := ((getBottomNPoints points bottom_n).length : Int)
        error_message := "" } := by
  unfold calculateFromPoints
  have h1 : points.isEmpty = false := by
    cases points with
    | nil => exact absurd rfl hne
    | cons _ _ => rfl
  simp [h1, not_le.mpr hn, not_le.mpr hth, CrownDepthResult.init]

theorem calculateFromPoints_of_invalid [LinearOrderedField α] [FloorRing α]
    (points : List (Point3D α)) (tree_height : α) (bottom_n : Int)
    (h : points = [] ∨ bottom_n ≤ 0 ∨ tree_height ≤ 0) :
    (calculateFromPoints points tree_height bottom_n).success = false ∧
    (calculateFromPoints points tree_height bottom_n).h0 = 0 ∧
    (calculateFromPoints points tree_height bottom_n).crown_depth = 0 ∧
    (calculateFromPoints points tree_height bottom_n).point_count = 0 ∧
    (calculateFromPoints points tree_height bottom_n).error_message ≠ "" := by
  by_cases hne : points = []
  · subst hne
    simp [calculateFromPoints, CrownDepthResult.init]
  have h1 : points.isEmpty = false := by
    cases points with
    | nil => exact absurd rfl hne
    | cons _ _ => rfl
  by_cases hth : tree_height ≤ 0
  · have hmsg : "Invalid tree height: " ++ to_string_double tree_height ≠ "" :=
      string_append_ne_empty _ _ (by decide)
    simp [calculateFromPoints, CrownDepthResult.init, h1, hth, hmsg]
  · have hn : bottom_n ≤ 0 := by
      rcases h with h | h | h
      · exact absurd h hne
      · exact h
      · exact absurd h hth
    have hmsg : "Invalid bottom_n value: " ++ toString bottom_n ≠ "" :=
      string_append_ne_empty _ _ (by decide)
    simp [calculateFromPoints, CrownDepthResult.init, h1, hth, hn, hmsg]

theorem h0_eq [LinearOrderedField α] (points : List (Point3D α)) (bottom_n : Int)
    (hn : 0 < bottom_n) :
    calculateH0 points bottom_n =
      (((stdSort (fun a b : Point3D α => decide (a.z < b.z)) points).map (fun q => q.z)).take
        (min bottom_n (points.length : Int)).toNat).sum /
          (((min bottom_n (points.length : Int)).toNat : Nat) : α) := by
  rw [calculateH0_eq points bottom_n hn, getBottomNPoints_z points bottom_n hn]
  congr 2
  rw [List.length_take, List.length_map, stdSort_length]
  omega

end CrownDepth

/-- C7: every successful `CrownDepth::calculateFromPoints` call has
`point_count = min(bottom_n, |points|)`, `h0` the arithmetic mean of the `point_count`
smallest `z` values, and `crown_depth = tree_height - h0` without clamping: when the
inputs are valid and `h0` exceeds `tree_height` the call succeeds with a negative
`crown_depth`; `tree_height = 10` with `h0 = 2` gives 8, and the single point at height
5 with `tree_height = 1` gives -4. -/
theorem crownDepth_calculateFromPoints_spec {α : Type} [LinearOrderedField α] [FloorRing α]
    (points : List (Point3D α)) (tree_height : α) (bottom_n : Int) :
    ((CrownDepth.calculateFromPoints points tree_height bottom_n).success = true →
      (CrownDepth.calculateFromPoints points tree_height bottom_n).point_count =
        min bottom_n (points.length : Int) ∧
      (∀ m : α, IsMeanOfSmallest (min bottom_n (points.length : Int)).toNat
        (points.map (fun q => q.z)) m ↔
          m = (CrownDepth.calculateFromPoints points tree_height bottom_n).h0) ∧
      (CrownDepth.calculateFromPoints points tree_height bottom_n).crown_depth =
        tree_height - (CrownDepth.calculateFromPoints points tree_height bottom_n).h0) ∧
    (points ≠ [] → 0 < bottom_n → 0 < tree_height →
      tree_height < CrownDepth.calculateH0 points bottom_n →
      (CrownDepth.calculateFromPoints points tree_height bottom_n).success = true ∧
      (CrownDepth.calculateFromPoints points tree_height bottom_n).h0 =
        CrownDepth.calculateH0 points bottom_n ∧
      (CrownDepth.calculateFromPoints points tree_height bottom_n).crown_depth < 0) ∧
    (points ≠ [] → 0 < bottom_n → CrownDepth.calculateH0 points bottom_n = 2 →
      (CrownDepth.calculateFromPoints points 10 bottom_n).success = true ∧
      (CrownDepth.calculateFromPoints points 10 bottom_n).crown_depth = 8) ∧
    ((CrownDepth.calculateFromPoints [(⟨0, 0, 5, 1⟩ : Point3D α)] 1 5).success = true ∧
      (CrownDepth.calculateFromPoints [(⟨0, 0, 5, 1⟩ : Point3D α)] 1 5).crown_depth = -4) := by
  refine ⟨?_, ?_, ?_, ?_⟩
  · intro hs
    by_cases hv : points = [] ∨ bottom_n ≤ 0 ∨ tree_height ≤ 0
    · rw [(CrownDepth.calculateFromPoints_of_invalid points tree_height bottom_n hv).1] at hs
      exact absurd hs (by decide)
    · simp only [not_or, not_le] at hv
      obtain ⟨hne, hn, hth⟩ := hv
      rw [CrownDepth.calculateFromPoints_of_valid_input points tree_height bottom_n hne hth hn]
      refine ⟨CrownDepth.getBottomNPoints_length points bottom_n hn, ?_, rfl⟩
      intro m
      obtain ⟨hperm, hsorted⟩ := sort_asc_z points
      rw [CrownDepth.h0_eq points bottom_n hn]
      exact isMeanOfSmallest_iff _ _ hperm hsorted _ (by simp only [List.length_map]; omega) m
  · intro hne hn hth hlt
    rw [CrownDepth.calculateFromPoints_of_valid_input points tree_height bottom_n hne hth hn]
    exact ⟨rfl, rfl, sub_neg.mpr hlt⟩
  · intro hne hn h2
    rw [CrownDepth.calculateFromPoints_of_valid_input points 10 bottom_n hne (by norm_num) hn]
    refine ⟨rfl, ?_⟩
    simp only [h2]
    norm_num
  · rw [CrownDepth.calculateFromPoints_of_valid_input _ 1 5 (by simp) (by norm_num) (by decide)]
    refine ⟨rfl, ?_⟩
    have h0 : CrownDepth.calculateH0 [(⟨0, 0, 5, 1⟩ : Point3D α)] 5 = 5 := by
      simp [CrownDepth.calculateH0, CrownDepth.getBottomNPoints, stdSort,
        CrownDepth.calculateAverageHeight]
    simp only [h0]
    norm_num

/-- C8: `CrownDepth::calculateFromPoints` reports failure exactly when `points` is
empty, `bottom_n ≤ 0` or `tree_height ≤ 0`; on every failure `h0 = 0`,
`crown_depth = 0`, `point_count = 0` and the error message is not empty. -/
theorem crownDepth_calculateFromPoints_failure {α : Type} [LinearOrderedField α]
    [FloorRing α] (points : List (Point3D α)) (tree_height : α) (bottom_n : Int) :
    ((CrownDepth.calculateFromPoints points tree_height bottom_n).success = false ↔
      (points = [] ∨ bottom_n ≤ 0 ∨ tree_height ≤ 0)) ∧
    ((CrownDepth.calculateFromPoints points tree_height bottom_n).success = false →
      (CrownDepth.calculateFromPoints points tree_height bottom_n).h0 = 0 ∧
      (CrownDepth.calculateFromPoints points tree_height bottom_n).crown_depth = 0 ∧
      (CrownDepth.calculateFromPoints points tree_height bottom_n).point_count = 0 ∧
      (CrownDepth.calculateFromPoints points tree_height bottom_n).error_message ≠ "") := by
  by_cases hv : points = [] ∨ bottom_n ≤ 0 ∨ tree_height ≤ 0
  · obtain ⟨h1, h2⟩ := CrownDepth.calculateFromPoints_of_invalid points tree_height bottom_n hv
    exact ⟨⟨fun _ => hv, fun _ => h1⟩, fun _ => h2⟩
  · have hv' := hv
    simp only [not_or, not_le] at hv'
    obtain ⟨hne, hn, hth⟩ := hv'
    rw [CrownDepth.calculateFromPoints_of_valid_input points tree_height bottom_n hne hth hn]
    refine ⟨⟨fun h => ?_, fun h => absurd h hv⟩, fun h => ?_⟩
    · simp at h
    · simp at h

theorem sort_desc_z_perm_invariant {α : Type} [LinearOrderedField α]
    (l1 l2 : List (Point3D α)) (h : l1.Perm l2) :
    (stdSort (fun a b : Point3D α => decide (a.z > b.z)) l1).map (fun q => q.z) =
      (stdSort (fun a b : Point3D α => decide (a.z > b.z)) l2).map (fun q => q.z) := by
  haveI : IsAntisymm α (fun a b => b ≤ a) := ⟨fun a b h1 h2 => le_antisymm h2 h1⟩
  obtain ⟨p1, s1⟩ := sort_desc_z l1
  obtain ⟨p2, s2⟩ := sort_desc_z l2
  exact List.eq_of_perm_of_sorted (p1.trans ((h.map _).trans p2.symm)) s1 s2

theorem sort_asc_z_perm_invariant {α : Type} [LinearOrderedField α]
    (l1 l2 : List (Point3D α)) (h : l1.Perm l2) :
    (stdSort (fun a b : Point3D α => decide (a.z < b.z)) l1).map (fun q => q.z) =
      (stdSort (fun a b : Point3D α => decide (a.z < b.z)) l2).map (fun q => q.z) := by
  obtain ⟨p1, s1⟩ := sort_asc_z l1
  obtain ⟨p2, s2⟩ := sort_asc_z l2
  exact List.eq_of_perm_of_sorted (p1.trans ((h.map _).trans p2.symm)) s1 s2

theorem getTopNPoints_z_perm_invariant {α : Type} [LinearOrderedField α]
    (l1 l2 : List (Point3D α)) (h : l1.Perm l2) (n : Int) :
    (TreeHeight.getTopNPoints l1 n).map (fun q => q.z) =
      (TreeHeight.getTopNPoints l2 n).map (fun q => q.z) := by
  by_cases hn : 0 < n
  · rw [TreeHeight.getTopNPoints_z l1 n hn, TreeHeight.getTopNPoints_z l2 n hn,
      sort_desc_z_perm_invariant l1 l2 h, h.length_eq]
  · have hn' : n ≤ 0 := not_lt.mp hn
    simp [TreeHeight.getTopNPoints, hn']

theorem getBottomNPoints_z_perm_invariant {α : Type} [LinearOrderedField α]
    (l1 l2 : List (Point3D α)) (h : l1.Perm l2) (n : Int) :
    (CrownDepth.getBottomNPoints l1 n).map (fun q => q.z) =
      (CrownDepth.getBottomNPoints l2 n).map (fun q => q.z) := by
  by_cases hn : 0 < n
  · rw [CrownDepth.getBottomNPoints_z l1 n hn, CrownDepth.getBottomNPoints_z l2 n hn,
      sort_asc_z_perm_invariant l1 l2 h, h.length_eq]
  · have hn' : n ≤ 0 := not_lt.mp hn
    simp [CrownDepth.getBottomNPoints, hn']

/-- C9: tree height and `h0` do not depend on the order of the input: for a
permutation of the point list and every `n`, `TreeHeight::calculateFromPoints` returns
the same `success`, `tree_height` and `point_count`, `CrownDepth::calculateH0` returns
the same `h0`, and the `z` values of the selected top-`n` and bottom-`n` points form
the same sequences. -/
theorem height_statistics_perm_invariant {α : Type} [LinearOrderedField α]
    (l1 l2 : List (Point3D α)) (h : l1.Perm l2) (n : Int) :
    (TreeHeight.calculateFromPoints l1 n).success =
      (TreeHeight.calculateFromPoints l2 n).success ∧
    (TreeHeight.calculateFromPoints l1 n).tree_height =
      (TreeHeight.calculateFromPoints l2 n).tree_height ∧
    (TreeHeight.calculateFromPoints l1 n).point_count =
      (TreeHeight.calculateFromPoints l2 n).point_count ∧
    CrownDepth.calculateH0 l1 n = CrownDepth.calculateH0 l2 n ∧
    (TreeHeight.getTopNPoints l1 n).map (fun q => q.z) =
      (TreeHeight.getTopNPoints l2 n).map (fun q => q.z) ∧
    (CrownDepth.getBottomNPoints l1 n).map (fun q => q.z) =
      (CrownDepth.getBottomNPoints l2 n).map (fun q => q.z) := by
  have htop := getTopNPoints_z_perm_invariant l1 l2 h n
  have hbot := getBottomNPoints_z_perm_invariant l1 l2 h n
  have hempty : l1 = [] ↔ l2 = [] := by
    constructor
    · intro h1; rw [h1] at h; exact h.symm.eq_nil
    · intro h2; rw [h2] at h; exact h.eq_nil
  by_cases hn : 0 < n
  · by_cases hne : l1 = []
    · have hne2 := hempty.mp hne
      subst hne
      subst hne2
      exact ⟨rfl, rfl, rfl, rfl, rfl, rfl⟩
    · have hne2 : l2 ≠ [] := fun h2 => hne (hempty.mpr h2)
      rw [TreeHeight.calculateFromPoints_of_valid l1 n hne hn,
        TreeHeight.calculateFromPoints_of_valid l2 n hne2 hn]
      have hlen : (TreeHeight.getTopNPoints l1 n).length =
          (TreeHeight.getTopNPoints l2 n).length := by
        have := congrArg List.length htop
        simpa using this
      refine ⟨rfl, ?_, ?_, ?_, htop, hbot⟩
      · simp only [TreeHeight.calculateAverageHeight_eq, htop]
      · simp only [hlen]
      · rw [CrownDepth.calculateH0_eq l1 n hn, CrownDepth.calculateH0_eq l2 n hn, hbot]
  · have hn' : n ≤ 0 := not_lt.mp hn
    refine ⟨?_, ?_, ?_, ?_, htop, hbot⟩
    · by_cases hne : l1 = []
      · have hne2 := hempty.mp hne
        subst hne; subst hne2; rfl
      · have hne2 : l2 ≠ [] := fun h2 => hne (hempty.mpr h2)
        simp [TreeHeight.calculateFromPoints, hn', hne, hne2, HeightResult.init]
    · by_cases hne : l1 = []
      · have hne2 := hempty.mp hne
        subst hne; subst hne2; rfl
      · have hne2 : l2 ≠ [] := fun h2 => hne (hempty.mpr h2)
        simp [TreeHeight.calculateFromPoints, hn', hne, hne2, HeightResult.init]
    · by_cases hne : l1 = []
      · have hne2 := hempty.mp hne
        subst hne; subst hne2; rfl
      · have hne2 : l2 ≠ [] := fun h2 => hne (hempty.mpr h2)
        simp [TreeHeight.calculateFromPoints, hn', hne, hne2, HeightResult.init]
    · simp [CrownDepth.calculateH0, hn']

theorem height_statistics_perm_invariant_witness :
    (samplePoints ℚ).Perm (samplePointsShuffled ℚ) ∧
    (TreeHeight.calculateFromPoints (samplePoints ℚ) 2).success =
      (TreeHeight.calculateFromPoints (samplePointsShuffled ℚ) 2).success ∧
    (TreeHeight.calculateFromPoints (samplePoints ℚ) 2).tree_height =
      (TreeHeight.calculateFromPoints (samplePointsShuffled ℚ) 2).tree_height ∧
    (TreeHeight.calculateFromPoints (samplePoints ℚ) 2).point_count =
      (TreeHeight.calculateFromPoints (samplePointsShuffled ℚ) 2).point_count ∧
    CrownDepth.calculateH0 (samplePoints ℚ) 2 = CrownDepth.calculateH0 (samplePointsShuffled ℚ) 2 ∧
    (TreeHeight.getTopNPoints (samplePoints ℚ) 2).map (fun q => q.z) =
      (TreeHeight.getTopNPoints (samplePointsShuffled ℚ) 2).map (fun q => q.z) ∧
    (CrownDepth.getBottomNPoints (samplePoints ℚ) 2).map (fun q => q.z) =
      (CrownDepth.getBottomNPoints (samplePointsShuffled ℚ) 2).map (fun q => q.z) :=
  have hperm : (samplePoints ℚ).Perm (samplePointsShuffled ℚ) := by
    have hc := @List.perm_append_comm (Point3D ℚ) [⟨0, 0, 1, 1⟩, ⟨1, 0, 5, 1⟩] [⟨0, 1, 3, 1⟩]
    exact hc
  ⟨hperm, height_statistics_perm_invariant (samplePoints ℚ) (samplePointsShuffled ℚ) hperm 2⟩

/-! ## Crown geometry -/

namespace CrownRadius
variable {α : Type}

theorem onSegment_of_cross_zero [LinearOrderedField α] (a b c : Point_2 α)
    (h : cross a b c = 0) : OnSegment b c a ∨ OnSegment a c b ∨ OnSegment a b c := by
  have h1 : cross b c a = 0 := by
    have : cross b c a = cross a b c := by simp only [cross]; ring
    rw [this, h]
  have h2 : cross a c b = 0 := by
    have : cross a c b = -cross a b c := by simp only [cross]; ring
    rw [this, h, neg_zero]
  by_contra hcon
  simp only [OnSegment, h1, h2, h, true_and, not_or, not_le] at hcon
  obtain ⟨d1, d2, d3⟩ := hcon
  -- with u = b - a and w = c - a: u·w > 0, |u|² > u·w and |w|² > u·w
  set D := (b.x - a.x) * (c.x - a.x) + (b.y - a.y) * (c.y - a.y) with hD
  set U := (b.x - a.x) * (b.x - a.x) + (b.y - a.y) * (b.y - a.y) with hU
  set W := (c.x - a.x) * (c.x - a.x) + (c.y - a.y) * (c.y - a.y) with hW
  have e1 : 0 < D := by
    have : (a.x - b.x) * (a.x - c.x) + (a.y - b.y) * (a.y - c.y) = D := by rw [hD]; ring
    rw [← this]; exact d1
  have e2 : D < U := by
    have : (b.x - a.x) * (b.x - c.x) + (b.y - a.y) * (b.y - c.y) = U - D := by
      rw [hD, hU]; ring
    rw [this] at d2
    linarith
  have e3 : D < W := by
    have : (c.x - a.x) * (c.x - b.x) + (c.y - a.y) * (c.y - b.y) = W - D := by
      rw [hD, hW]; ring
    rw [this] at d3
    linarith
  have hlag : U * W = D * D := by
    have hid : U * W - D * D = cross a b c * cross a b c := by
      rw [hD, hU, hW]; simp only [cross]; ring
    rw [h, mul_zero] at hid
    linarith
  have hlt : D * D < U * W := mul_lt_mul'' e2 e3 (le_of_lt e1) (le_of_lt e1)
  rw [hlag] at hlt
  exact lt_irrefl _ hlt

theorem hull_length_lt_three [LinearOrderedField α] (P hull : List (Point_2 α))
    (hcol : Collinear P) (hext : ExtremePointsOf P hull) : hull.length < 3 := by
  obtain ⟨hnd, hq⟩ := hext
  match hull, hnd, hq with
  | [], _, _ => simp
  | [_], _, _ => simp
  | [_, _], _, _ => simp
  | q1 :: q2 :: q3 :: t, hnd, hq =>
    exfalso
    have m1 := hq q1 (by simp)
    have m2 := hq q2 (by simp)
    have m3 := hq q3 (by simp)
    have n12 : q1 ≠ q2 := by
      intro h; rw [h] at hnd; simp at hnd
    have n13 : q1 ≠ q3 := by
      intro h; rw [h] at hnd; simp at hnd
    have n23 : q2 ≠ q3 := by
      intro h; rw [h] at hnd; simp at hnd
    rcases onSegment_of_cross_zero q1 q2 q3 (hcol q1 m1.1 q2 m2.1 q3 m3.1) with h | h | h
    · exact m1.2 q2 m2.1 q3 m3.1 n12.symm n13.symm h
    · exact m2.2 q1 m1.1 q3 m3.1 n12 n23.symm h
    · exact m3.2 q1 m1.1 q2 m2.1 n13 n23 h

theorem collinear_of_two_values [LinearOrderedField α] (P : List (Point_2 α))
    (h : ∃ a b : Point_2 α, ∀ p ∈ P, p = a ∨ p = b) : Collinear P := by
  obtain ⟨a, b, hab⟩ := h
  intro x hx y hy z hz
  rcases hab x hx with rfl | rfl <;> rcases hab y hy with rfl | rfl <;>
    rcases hab z hz with rfl | rfl <;> simp only [cross] <;> ring

theorem foldl_min_le [LinearOrderedField α] {β : Type} (f : β → α) (l : List β) :
    ∀ init : α, l.foldl (fun m p => min m (f p)) init ≤ init ∧
      (∀ p ∈ l, l.foldl (fun m p => min m (f p)) init ≤ f p) ∧
      (l.foldl (fun m p => min m (f p)) init = init ∨
        l.foldl (fun m p => min m (f p)) init ∈ l.map f) := by
  induction l with
  | nil => intro init; simp
  | cons q rest ih =>
    intro init
    obtain ⟨h1, h2, h3⟩ := ih (min init (f q))
    simp only [List.foldl_cons, List.mem_cons, List.map_cons]
    refine ⟨le_trans h1 (min_le_left _ _), ?_, ?_⟩
    · intro p hp
      rcases hp with rfl | hp
      · exact le_trans h1 (min_le_right _ _)
      · exact h2 p hp
    · rcases h3 with h3 | h3
      · rcases min_choice init (f q) with hm | hm
        · left; rw [h3, hm]
        · right; left; rw [h3, hm]
      · right; right; exact h3

theorem foldl_max_ge [LinearOrderedField α] {β : Type} (f : β → α) (l : List β) :
    ∀ init : α, init ≤ l.foldl (fun m p => max m (f p)) init ∧
      (∀ p ∈ l, f p ≤ l.foldl (fun m p => max m (f p)) init) ∧
      (l.foldl (fun m p => max m (f p)) init = init ∨
        l.foldl (fun m p => max m (f p)) init ∈ l.map f) := by
  induction l with
  | nil => intro init; simp
  | cons q rest ih =>
    intro init
    obtain ⟨h1, h2, h3⟩ := ih (max init (f q))
    simp only [List.foldl_cons, List.mem_cons, List.map_cons]
    refine ⟨le_trans (le_max_left _ _) h1, ?_, ?_⟩
    · intro p hp
      rcases hp with rfl | hp
      · exact le_trans (le_max_right _ _) h1
      · exact h2 p hp
    · rcases h3 with h3 | h3
      · rcases max_choice init (f q) with hm | hm
        · left; rw [h3, hm]
        · right; left; rw [h3, hm]
      · right; right; exact h3

theorem foldl_min_isMinOf [LinearOrderedField α] {β : Type} (f : β → α) (first : β)
    (rest : List β) :
    IsMinOf ((first :: rest).map f) ((first :: rest).foldl (fun m p => min m (f p)) (f first)) := by
  obtain ⟨_, h2, h3⟩ := foldl_min_le f (first :: rest) (f first)
  refine ⟨?_, ?_⟩
  · rcases h3 with h3 | h3
    · rw [h3]; simp
    · exact h3
  · intro a ha
    obtain ⟨p, hp, rfl⟩ := List.mem_map.mp ha
    exact h2 p hp

theorem foldl_max_isMaxOf [LinearOrderedField α] {β : Type} (f : β → α) (first : β)
    (rest : List β) :
    IsMaxOf ((first :: rest).map f) ((first :: rest).foldl (fun m p => max m (f p)) (f first)) := by
  obtain ⟨_, h2, h3⟩ := foldl_max_ge f (first :: rest) (f first)
  refine ⟨?_, ?_⟩
  · rcases h3 with h3 | h3
    · rw [h3]; simp
    · exact h3
  · intro a ha
    obtain ⟨p, hp, rfl⟩ := List.mem_map.mp ha
    exact h2 p hp

theorem isMinOf_unique [LinearOrderedField α] (l : List α) (m m' : α) (h : IsMinOf l m)
    (h' : IsMinOf l m') : m = m' :=
  le_antisymm (h.2 m' h'.1) (h'.2 m h.1)

theorem isMaxOf_unique [LinearOrderedField α] (l : List α) (m m' : α) (h : IsMaxOf l m)
    (h' : IsMaxOf l m') : m = m' :=
  le_antisymm (h'.2 m h.1) (h.2 m' h'.1)

theorem calculateCrownRadiusDetailed_degenerate [LinearOrderedField α]
    (convex_hull_2 : List (Point_2 α) → List (Point_2 α))
    (min_circle_squared_radius : List (Point_2 α) → α) (sqrt : α → α) (dbl_max : α)
    (points : List (TreePoint α)) (first : Point_2 α) (rest : List (Point_2 α))
    (hproj : projectPoints points = first :: rest)
    (hhull : ExtremePointsOf (projectPoints points) (convex_hull_2 (projectPoints points)))
    (hdeg : Collinear (projectPoints points) ∨
      ∃ a b : Point_2 α, ∀ p ∈ projectPoints points, p = a ∨ p = b) :
    calculateCrownRadiusDetailed convex_hull_2 min_circle_squared_radius sqrt dbl_max points =
      boundingBoxResult first rest := by
  have hcol : Collinear (projectPoints points) := by
    rcases hdeg with h | h
    · exact h
    · exact collinear_of_two_values _ h
  have hlen := hull_length_lt_three _ _ hcol hhull
  rw [hproj] at hlen
  unfold calculateCrownRadiusDetailed
  rw [hproj]
  simp only [hlen, if_true]

/-- C10: for a non-empty point set whose projection to the XY plane is degenerate (all
projected points on one line, or at most two distinct projected points), and a convex
hull routine that returns extreme points of the projected set, the crown computation
takes the bounding-box path: with `width_x = max_x - min_x` and `width_y = max_y - min_y`
the extents of the projected points, it returns `crown_radius = (width_x + width_y) / 4`,
`max_width = max(width_x, width_y)`, `min_width = min(width_x, width_y)` and
`aspect_ratio = max_width / min_width` if `min_width > 0`, else 1.  For the projected
points `(0, 0)` and `(2, 0)` the result is `(1/2, 2, 0, 1)`. -/
theorem calculateCrownRadiusDetailed_boundingBox [LinearOrderedField α]
    (convex_hull_2 : List (Point_2 α) → List (Point_2 α))
    (min_circle_squared_radius : List (Point_2 α) → α) (sqrt : α → α) (dbl_max : α)
    (points : List (TreePoint α)) (hne : points ≠ [])
    (hhull : ExtremePointsOf (projectPoints points) (convex_hull_2 (projectPoints points)))
    (hdeg : Collinear (projectPoints points) ∨
      ∃ a b : Point_2 α, ∀ p ∈ projectPoints points, p = a ∨ p = b)
    (min_x max_x min_y max_y : α)
    (hminx : IsMinOf ((projectPoints points).map (fun p => p.x)) min_x)
    (hmaxx : IsMaxOf ((projectPoints points).map (fun p => p.x)) max_x)
    (hminy : IsMinOf ((projectPoints points).map (fun p => p.y)) min_y)
    (hmaxy : IsMaxOf ((projectPoints points).map (fun p => p.y)) max_y) :
    calculateCrownRadiusDetailed convex_hull_2 min_circle_squared_radius sqrt dbl_max points =
      (((max_x - min_x) + (max_y - min_y)) / 4,
        max (max_x - min_x) (max_y - min_y),
        min (max_x - min_x) (max_y - min_y),
        if min (max_x - min_x) (max_y - min_y) > 0 then
          max (max_x - min_x) (max_y - min_y) / min (max_x - min_x) (max_y - min_y)
        else 1) ∧
    (∀ (hull : List (Point_2 α) → List (Point_2 α)) (z1 z2 h1 h2 : α),
      ExtremePointsOf [⟨0, 0⟩, ⟨2, 0⟩] (hull [⟨0, 0⟩, ⟨2, 0⟩]) →
      calculateCrownRadiusDetailed hull min_circle_squared_radius sqrt dbl_max
        [{ position := ⟨0, 0, z1⟩, height := h1 }, { position := ⟨2, 0, z2⟩, height := h2 }] =
        (1 / 2, 2, 0, 1)) := by
  constructor
  · obtain ⟨first, rest, hproj⟩ : ∃ first rest, projectPoints points = first :: rest := by
      cases points with
      | nil => exact absurd rfl hne
      | cons pt pts => exact ⟨_, _, rfl⟩
    rw [calculateCrownRadiusDetailed_degenerate convex_hull_2 min_circle_squared_radius sqrt
      dbl_max points first rest hproj hhull hdeg]
    rw [hproj] at hminx hmaxx hminy hmaxy
    have e1 := isMinOf_unique _ _ _ (foldl_min_isMinOf (fun p : Point_2 α => p.x) first rest) hminx
    have e2 := isMaxOf_unique _ _ _ (foldl_max_isMaxOf (fun p : Point_2 α => p.x) first rest) hmaxx
    have e3 := isMinOf_unique _ _ _ (foldl_min_isMinOf (fun p : Point_2 α => p.y) first rest) hminy
    have e4 := isMaxOf_unique _ _ _ (foldl_max_isMaxOf (fun p : Point_2 α => p.y) first rest) hmaxy
    simp only [boundingBoxResult, e1, e2, e3, e4]
    congr 1
    ring
  · intro hull z1 z2 h1 h2 hh
    have hcol : Collinear ([⟨0, 0⟩, ⟨2, 0⟩] : List (Point_2 α)) :=
      collinear_of_two_values _ ⟨⟨0, 0⟩, ⟨2, 0⟩, by simp⟩
    rw [calculateCrownRadiusDetailed_degenerate hull min_circle_squared_radius sqrt dbl_max
      [{ position := ⟨0, 0, z1⟩, height := h1 }, { position := ⟨2, 0, z2⟩, height := h2 }]
      ⟨0, 0⟩ [⟨2, 0⟩] rfl hh (Or.inl hcol)]
    simp only [boundingBoxResult, List.foldl_cons, List.foldl_nil]
    norm_num

theorem calculateCrownRadiusDetailed_boundingBox_witness :
    twoPoints ℚ ≠ [] ∧
    ExtremePointsOf (projectPoints (twoPoints ℚ)) (projectPoints (twoPoints ℚ)) ∧
    (Collinear (projectPoints (twoPoints ℚ)) ∨
      ∃ a b : Point_2 ℚ, ∀ p ∈ projectPoints (twoPoints ℚ), p = a ∨ p = b) ∧
    IsMinOf ((projectPoints (twoPoints ℚ)).map (fun p => p.x)) 0 ∧
    IsMaxOf ((projectPoints (twoPoints ℚ)).map (fun p => p.x)) 2 ∧
    IsMinOf ((projectPoints (twoPoints ℚ)).map (fun p => p.y)) 0 ∧
    IsMaxOf ((projectPoints (twoPoints ℚ)).map (fun p => p.y)) 0 ∧
    (calculateCrownRadiusDetailed (fun P => P) (fun _ => 1) (fun v => v) 1000000
        (twoPoints ℚ) =
      ((((2 : ℚ) - 0) + (0 - 0)) / 4,
        max ((2 : ℚ) - 0) (0 - 0),
        min ((2 : ℚ) - 0) (0 - 0),
        if min ((2 : ℚ) - 0) (0 - 0) > 0 then
          max ((2 : ℚ) - 0) (0 - 0) / min ((2 : ℚ) - 0) (0 - 0)
        else 1) ∧
    (∀ (hull : List (Point_2 ℚ) → List (Point_2 ℚ)) (z1 z2 h1 h2 : ℚ),
      ExtremePointsOf [⟨0, 0⟩, ⟨2, 0⟩] (hull [⟨0, 0⟩, ⟨2, 0⟩]) →
      calculateCrownRadiusDetailed hull (fun _ => 1) (fun v => v) 1000000
        [{ position := ⟨0, 0, z1⟩, height := h1 }, { position := ⟨2, 0, z2⟩, height := h2 }] =
        (1 / 2, 2, 0, 1))) :=
  have hne : twoPoints ℚ ≠ [] := by simp [twoPoints]
  have hhull : ExtremePointsOf (projectPoints (twoPoints ℚ)) (projectPoints (twoPoints ℚ)) := by
    simp [ExtremePointsOf, projectPoints, twoPoints, OnSegment, cross]
  have hdeg : Collinear (projectPoints (twoPoints ℚ)) ∨
      ∃ a b : Point_2 ℚ, ∀ p ∈ projectPoints (twoPoints ℚ), p = a ∨ p = b :=
    Or.inr ⟨⟨0, 0⟩, ⟨2, 0⟩, by simp [projectPoints, twoPoints]⟩
  have hminx : IsMinOf ((projectPoints (twoPoints ℚ)).map (fun p => p.x)) 0 := by
    simp [IsMinOf, projectPoints, twoPoints]
  have hmaxx : IsMaxOf ((projectPoints (twoPoints ℚ)).map (fun p => p.x)) 2 := by
    simp [IsMaxOf, projectPoints, twoPoints]
  have hminy : IsMinOf ((projectPoints (twoPoints ℚ)).map (fun p => p.y)) 0 := by
    simp [IsMinOf, projectPoints, twoPoints]
  have hmaxy : IsMaxOf ((projectPoints (twoPoints ℚ)).map (fun p => p.y)) 0 := by
    simp [IsMaxOf, projectPoints, twoPoints]
  ⟨hne, hhull, hdeg, hminx, hmaxx, hminy, hmaxy,
    calculateCrownRadiusDetailed_boundingBox (fun P => P) (fun _ => 1) (fun v => v) 1000000
      (twoPoints ℚ) hne hhull hdeg 0 2 0 0 hminx hmaxx hminy hmaxy⟩

end CrownRadius

/-! ## Stem diameter (DBH) -/

namespace DBHCalculator
variable {α : Type}

theorem calculate_of_value [LinearOrderedField α] (sqrt : α → α) (pow : α → α → α)
    (objFilePath : String) (v : Point3D α) (vs : List (Point3D α)) (h0 : α)
    (h : 7 / 10 ≤ h0) :
    calculate sqrt pow objFilePath (some (v :: vs)) h0 =
      (if 0 < (if 13 / 10 < h0 then calculateMethod1 sqrt (v :: vs)
          else calculateMethod2 sqrt pow (v :: vs) h0) then
        { success := true
          dbh_cm := if 13 / 10 < h0 then calculateMethod1 sqrt (v :: vs)
            else calculateMethod2 sqrt pow (v :: vs) h0
          method_used := if 13 / 10 < h0 then "合成胸径法" else "锥度模型法"
          error_message := "" }
      else if (if 13 / 10 < h0 then calculateMethod1 sqrt (v :: vs)
          else calculateMethod2 sqrt pow (v :: vs) h0) = 0 then
        { success := false, dbh_cm := 0, method_used := "",
          error_message := "计算失败：数据不足" }
      else
        { success := false, dbh_cm := 0, method_used := "",
          error_message := "计算失败：不满足计算条件" }) := by
  have h' : ¬ h0 < 7 / 10 := not_lt.mpr h
  simp only [calculate, List.isEmpty_cons, Bool.false_eq_true, if_false, h', gt_iff_lt]

/-- The effect of a marking loop over the indices `s, ..., s + len - 1`, entry by
entry. -/
theorem foldl_mark_getElem? (c : Nat → Bool) :
    ∀ (len s : Nat) (visited : List Bool) (k : Nat),
      ((List.range' s len).foldl
        (fun visited j => if c j then visited.set j true else visited) visited)[k]? =
      if s ≤ k ∧ k < s + len ∧ c k = true then (visited[k]?).map (fun _ => true)
      else visited[k]? := by
  intro len
  induction len with
  | zero =>
    intro s visited k
    have hn : ¬ (s ≤ k ∧ k < s + 0 ∧ c k = true) := by omega
    rw [if_neg hn]
    rfl
  | succ len ih =>
    intro s visited k
    rw [List.range'_succ, List.foldl_cons, ih]
    by_cases hcs : c s = true
    · simp only [hcs, if_true]
      by_cases hks : k = s
      · subst hks
        have h1 : ¬ (k + 1 ≤ k ∧ k < k + 1 + len ∧ c k = true) := by omega
        have h2 : k ≤ k ∧ k < k + (len + 1) ∧ c k = true := ⟨le_refl _, by omega, hcs⟩
        rw [if_neg h1, if_pos h2, List.getElem?_set]
        by_cases hl : k < visited.length
        · simp [hl, List.getElem?_eq_getElem hl]
        · have hl' : visited.length ≤ k := by omega
          simp [hl, List.getElem?_eq_none hl']
      · have hset : (visited.set s true)[k]? = visited[k]? := by
          rw [List.getElem?_set]
          simp [Ne.symm hks]
        rw [hset]
        by_cases hck : c k = true
        · by_cases hr : s + 1 ≤ k ∧ k < s + 1 + len
          · have h1 : s + 1 ≤ k ∧ k < s + 1 + len ∧ c k = true := ⟨hr.1, hr.2, hck⟩
            have h2 : s ≤ k ∧ k < s + (len + 1) ∧ c k = true := ⟨by omega, by omega, hck⟩
            rw [if_pos h1, if_pos h2]
          · have h1 : ¬ (s + 1 ≤ k ∧ k < s + 1 + len ∧ c k = true) := fun h => hr ⟨h.1, h.2.1⟩
            have h2 : ¬ (s ≤ k ∧ k < s + (len + 1) ∧ c k = true) := by
              intro h; apply hr; constructor <;> omega
            rw [if_neg h1, if_neg h2]
        · have h1 : ¬ (s + 1 ≤ k ∧ k < s + 1 + len ∧ c k = true) := fun h => hck h.2.2
          have h2 : ¬ (s ≤ k ∧ k < s + (len + 1) ∧ c k = true) := fun h => hck h.2.2
          rw [if_neg h1, if_neg h2]
    · simp only [hcs, if_false, Bool.false_eq_true]
      by_cases hck : c k = true
      · have hks : k ≠ s := by
          intro h; rw [h] at hck; exact hcs hck
        by_cases hr : s + 1 ≤ k ∧ k < s + 1 + len
        · have h1 : s + 1 ≤ k ∧ k < s + 1 + len ∧ c k = true := ⟨hr.1, hr.2, hck⟩
          have h2 : s ≤ k ∧ k < s + (len + 1) ∧ c k = true := ⟨by omega, by omega, hck⟩
          rw [if_pos h1, if_pos h2]
        · have h1 : ¬ (s + 1 ≤ k ∧ k < s + 1 + len ∧ c k = true) := fun h => hr ⟨h.1, h.2.1⟩
          have h2 : ¬ (s ≤ k ∧ k < s + (len + 1) ∧ c k = true) := by
            intro h; apply hr; constructor <;> omega
          rw [if_neg h1, if_neg h2]
      · have h1 : ¬ (s + 1 ≤ k ∧ k < s + 1 + len ∧ c k = true) := fun h => hck h.2.2
        have h2 : ¬ (s ≤ k ∧ k < s + (len + 1) ∧ c k = true) := fun h => hck h.2.2
        rw [if_neg h1, if_neg h2]

theorem foldl_mark_length (c : Nat → Bool) :
    ∀ (l : List Nat) (visited : List Bool),
      (l.foldl (fun visited j => if c j then visited.set j true else visited) visited).length =
        visited.length := by
  intro l
  induction l with
  | nil => intro visited; rfl
  | cons j l ih =>
    intro visited
    rw [List.foldl_cons, ih]
    by_cases hc : c j = true <;> simp [hc]

theorem markNear_getElem? [LinearOrderedField α] (sqrt : α → α) (threshold : α)
    (points : List (Point3D α)) (i : Nat) (visited : List Bool) (k : Nat) :
    (markNear sqrt threshold points i visited)[k]? =
      if i ≤ k ∧ k < points.length ∧ isNear sqrt threshold points i k = true then
        (visited[k]?).map (fun _ => true)
      else visited[k]? := by
  unfold markNear
  rw [foldl_mark_getElem? (isNear sqrt threshold points i)]
  by_cases h : i ≤ k ∧ k < points.length ∧ isNear sqrt threshold points i k = true
  · have h' : i ≤ k ∧ k < i + (points.length - i) ∧ isNear sqrt threshold points i k = true :=
      ⟨h.1, by omega, h.2.2⟩
    rw [if_pos h, if_pos h']
  · have h' : ¬ (i ≤ k ∧ k < i + (points.length - i) ∧
        isNear sqrt threshold points i k = true) := by
      intro h'; apply h; exact ⟨h'.1, by omega, h'.2.2⟩
    rw [if_neg h, if_neg h']

theorem markAllNear_getElem? [LinearOrderedField α] (sqrt : α → α) (threshold : α)
    (points : List (Point3D α)) (i : Nat) (visited : List Bool) (k : Nat) :
    (markAllNear sqrt threshold points i visited)[k]? =
      if k < points.length ∧ isNear sqrt threshold points i k = true then
        (visited[k]?).map (fun _ => true)
      else visited[k]? := by
  unfold markAllNear
  rw [foldl_mark_getElem? (isNear sqrt threshold points i)]
  by_cases h : k < points.length ∧ isNear sqrt threshold points i k = true
  · have h' : 0 ≤ k ∧ k < 0 + points.length ∧ isNear sqrt threshold points i k = true :=
      ⟨Nat.zero_le _, by omega, h.2⟩
    rw [if_pos h, if_pos h']
  · have h' : ¬ (0 ≤ k ∧ k < 0 + points.length ∧ isNear sqrt threshold points i k = true) := by
      intro h'; apply h; exact ⟨by omega, h'.2.2⟩
    rw [if_neg h, if_neg h']

theorem stem_loops_agree [LinearOrderedField α] (sqrt : α → α) (points : List (Point3D α))
    (threshold : α) (init : List Bool × Nat) :
    ∀ m : Nat,
      ((List.range m).foldl
        (fun (st : List Bool × Nat) i =>
          if st.1[i]? = some false then (markNear sqrt threshold points i st.1, st.2 + 1)
          else st) init).2 =
      ((List.range m).foldl
        (fun (st : List Bool × Nat) i =>
          if st.1[i]? = some false then (markAllNear sqrt threshold points i st.1, st.2 + 1)
          else st) init).2 ∧
      ∀ k, m ≤ k →
        ((List.range m).foldl
          (fun (st : List Bool × Nat) i =>
            if st.1[i]? = some false then (markNear sqrt threshold points i st.1, st.2 + 1)
            else st) init).1[k]? =
        ((List.range m).foldl
          (fun (st : List Bool × Nat) i =>
            if st.1[i]? = some false then (markAllNear sqrt threshold points i st.1, st.2 + 1)
            else st) init).1[k]? := by
  intro m
  induction m with
  | zero => exact ⟨rfl, fun _ _ => rfl⟩
  | succ m ih =>
    obtain ⟨hcount, hvis⟩ := ih
    simp only [List.range_succ, List.foldl_append, List.foldl_cons, List.foldl_nil]
    generalize (List.range m).foldl
      (fun (st : List Bool × Nat) i =>
        if st.1[i]? = some false then (markNear sqrt threshold points i st.1, st.2 + 1)
        else st) init = s1 at hcount hvis ⊢
    generalize (List.range m).foldl
      (fun (st : List Bool × Nat) i =>
        if st.1[i]? = some false then (markAllNear sqrt threshold points i st.1, st.2 + 1)
        else st) init = s2 at hcount hvis ⊢
    have hm : s1.1[m]? = s2.1[m]? := hvis m (le_refl _)
    by_cases hseed : s1.1[m]? = some false
    · have hseed2 : s2.1[m]? = some false := by rw [← hm]; exact hseed
      rw [if_pos hseed, if_pos hseed2]
      refine ⟨by simp only [hcount], ?_⟩
      intro k hk
      have hmk : m ≤ k := by omega
      simp only [markNear_getElem?, markAllNear_getElem?, hvis k hmk]
      by_cases hc : k < points.length ∧ isNear sqrt threshold points m k = true
      · have hc' : m ≤ k ∧ k < points.length ∧ isNear sqrt threshold points m k = true :=
          ⟨hmk, hc.1, hc.2⟩
        rw [if_pos hc, if_pos hc']
      · have hc' : ¬ (m ≤ k ∧ k < points.length ∧ isNear sqrt threshold points m k = true) :=
          fun h => hc ⟨h.2.1, h.2.2⟩
        rw [if_neg hc, if_neg hc']
    · have hseed2 : ¬ s2.1[m]? = some false := by rw [← hm]; exact hseed
      rw [if_neg hseed, if_neg hseed2]
      exact ⟨hcount, fun k hk => hvis k (by omega)⟩

theorem stem_count_mono [LinearOrderedField α] (sqrt : α → α) (points : List (Point3D α))
    (threshold : α) :
    ∀ (l : List Nat) (st : List Bool × Nat),
      st.2 ≤ (l.foldl
        (fun (st : List Bool × Nat) i =>
          if st.1[i]? = some false then (markNear sqrt threshold points i st.1, st.2 + 1)
          else st) st).2 := by
  intro l
  induction l with
  | nil => intro st; exact le_refl _
  | cons i l ih =>
    intro st
    rw [List.foldl_cons]
    by_cases h : st.1[i]? = some false
    · rw [if_pos h]
      exact le_trans (Nat.le_succ st.2) (ih (markNear sqrt threshold points i st.1, st.2 + 1))
    · rw [if_neg h]
      exact ih _

theorem detectStemCount_pos [LinearOrderedField α] (sqrt : α → α) (p : Point3D α)
    (rest : List (Point3D α)) (threshold : α) :
    1 ≤ detectStemCount sqrt (p :: rest) threshold := by
  unfold detectStemCount
  simp only [List.isEmpty_cons, Bool.false_eq_true, if_false, List.length_cons]
  rw [List.range_succ_eq_map, List.foldl_cons]
  have h0 : (List.replicate (rest.length + 1) false, 0).1[0]? = some false := by
    simp [List.replicate_succ]
  rw [if_pos h0]
  exact le_trans (by simp) (stem_count_mono sqrt (p :: rest) threshold _ _)

/-- C14: `detectStemCount`, whose inner loop scans only the indices `j ≥ i`, returns the
same cluster count as the specified single pass in which an unvisited seed marks every
point of the whole array nearer than the threshold; this holds for every threshold, in
particular for every positive one, and the count is 0 exactly for the empty list. -/
theorem detectStemCount_refines_specification [LinearOrderedField α] (sqrt : α → α)
    (points : List (Point3D α)) (threshold : α) :
    detectStemCount sqrt points threshold = specifiedStemCount sqrt points threshold ∧
    (detectStemCount sqrt points threshold = 0 ↔ points = []) := by
  constructor
  · cases points with
    | nil => rfl
    | cons p rest =>
      unfold detectStemCount specifiedStemCount
      simp only [List.isEmpty_cons, Bool.false_eq_true, if_false]
      exact (stem_loops_agree sqrt (p :: rest) threshold _ _).1
  · cases points with
    | nil => simp [detectStemCount]
    | cons p rest =>
      have := detectStemCount_pos sqrt p rest threshold
      constructor
      · intro h; omega
      · intro h; exact absurd h (by simp)

theorem pair_sublist_cons {β : Type} (a b p : β) (rest : List β) :
    List.Sublist [a, b] (p :: rest) ↔ (a = p ∧ b ∈ rest) ∨ List.Sublist [a, b] rest := by
  rw [List.sublist_cons_iff]
  constructor
  · rintro (h | ⟨r, hr, hsub⟩)
    · exact Or.inr h
    · rw [List.cons.injEq] at hr
      obtain ⟨h1, h2⟩ := hr
      subst h2
      exact Or.inl ⟨h1, List.singleton_sublist.mp hsub⟩
  · rintro (⟨h1, h2⟩ | h)
    · exact Or.inr ⟨[b], by rw [h1], List.singleton_sublist.mpr h2⟩
    · exact Or.inl h

theorem maxDistLoop_spec [LinearOrderedField α] (sqrt : α → α) :
    ∀ (S : List (Point3D α)) (m : α),
      m ≤ maxDistLoop sqrt S m ∧
      (∀ p q, List.Sublist [p, q] S → planarDistance sqrt p q ≤ maxDistLoop sqrt S m) ∧
      (maxDistLoop sqrt S m = m ∨
        ∃ p q, List.Sublist [p, q] S ∧ planarDistance sqrt p q = maxDistLoop sqrt S m) := by
  intro S
  induction S with
  | nil =>
    intro m
    refine ⟨le_refl _, ?_, Or.inl rfl⟩
    intro p q h
    exact absurd h (by simp)
  | cons a rest ih =>
    intro m
    obtain ⟨f1, f2, f3⟩ := CrownRadius.foldl_max_ge (planarDistance sqrt a) rest m
    obtain ⟨i1, i2, i3⟩ := ih (rest.foldl (fun m q => max m (planarDistance sqrt a q)) m)
    simp only [maxDistLoop]
    refine ⟨le_trans f1 i1, ?_, ?_⟩
    · intro p q h
      rcases (pair_sublist_cons p q a rest).mp h with ⟨hp, hq⟩ | h
      · rw [hp]
        exact le_trans (f2 q hq) i1
      · exact i2 p q h
    · rcases i3 with i3 | ⟨p, q, hpq, hd⟩
      · rcases f3 with f3 | f3
        · left; rw [i3, f3]
        · right
          obtain ⟨q, hq, hd⟩ := List.mem_map.mp f3
          exact ⟨a, q, (pair_sublist_cons a q a rest).mpr (Or.inl ⟨rfl, hq⟩), by rw [i3, hd]⟩
      · right
        exact ⟨p, q, (pair_sublist_cons p q a rest).mpr (Or.inr hpq), hd⟩

theorem calculateDiameterFromPoints_isMax [LinearOrderedField α] (sqrt : α → α)
    (hsqrt : ∀ x, 0 ≤ sqrt x) (S : List (Point3D α)) :
    IsMaxPairDistance sqrt S (calculateDiameterFromPoints sqrt S) := by
  match S with
  | [] => exact ⟨fun _ => rfl, fun h => absurd h (by simp)⟩
  | [a] =>
    refine ⟨fun _ => ?_, fun h => absurd h (by simp)⟩
    simp [calculateDiameterFromPoints, maxDistLoop]
  | a :: b :: rest =>
    refine ⟨fun h => absurd h (by simp), fun _ => ?_⟩
    have hd : calculateDiameterFromPoints sqrt (a :: b :: rest) =
        maxDistLoop sqrt (a :: b :: rest) 0 := by
      simp [calculateDiameterFromPoints]
    rw [hd]
    obtain ⟨_, h2, h3⟩ := maxDistLoop_spec sqrt (a :: b :: rest) 0
    refine ⟨?_, h2⟩
    rcases h3 with h3 | h3
    · have hab : List.Sublist [a, b] (a :: b :: rest) :=
        (pair_sublist_cons a b a (b :: rest)).mpr (Or.inl ⟨rfl, List.mem_cons_self _ _⟩)
      refine ⟨a, b, hab, ?_⟩
      have hle := h2 a b hab
      rw [h3] at hle ⊢
      exact le_antisymm hle (hsqrt _)
    · exact h3

theorem isMaxPairDistance_unique [LinearOrderedField α] (sqrt : α → α) (S : List (Point3D α))
    (D D' : α) (h : IsMaxPairDistance sqrt S D) (h' : IsMaxPairDistance sqrt S D') :
    D = D' := by
  by_cases hl : S.length < 2
  · rw [h.1 hl, h'.1 hl]
  · have hl' : 2 ≤ S.length := by omega
    obtain ⟨⟨p, q, hpq, hd⟩, hmax⟩ := h.2 hl'
    obtain ⟨⟨p', q', hpq', hd'⟩, hmax'⟩ := h'.2 hl'
    apply le_antisymm
    · rw [← hd]; exact hmax' p q hpq
    · rw [← hd']; exact hmax p' q' hpq'

theorem stem_loop_skip [LinearOrderedField α] (sqrt : α → α) (points : List (Point3D α))
    (threshold : α) :
    ∀ (l : List Nat) (st : List Bool × Nat), (∀ i ∈ l, st.1[i]? ≠ some false) →
      l.foldl
        (fun (st : List Bool × Nat) i =>
          if st.1[i]? = some false then (markNear sqrt threshold points i st.1, st.2 + 1)
          else st) st = st := by
  intro l
  induction l with
  | nil => intro st _; rfl
  | cons i l ih =>
    intro st h
    rw [List.foldl_cons, if_neg (h i (List.mem_cons_self _ _))]
    exact ih st (fun j hj => h j (List.mem_cons_of_mem _ hj))

/-- When every point of the slice is nearer than the threshold to the first point, the
stem count is 1. -/
theorem detectStemCount_eq_one [LinearOrderedField α] (sqrt : α → α) (first : Point3D α)
    (rest : List (Point3D α)) (threshold : α)
    (hnear : ∀ q ∈ first :: rest, planarDistance sqrt first q < threshold) :
    detectStemCount sqrt (first :: rest) threshold = 1 := by
  unfold detectStemCount
  simp only [List.isEmpty_cons, Bool.false_eq_true, if_false, List.length_cons]
  rw [List.range_succ_eq_map, List.foldl_cons]
  have h0 : (List.replicate (rest.length + 1) false, 0).1[0]? = some false := by
    simp [List.replicate_succ]
  rw [if_pos h0]
  rw [stem_loop_skip]
  intro i hi
  obtain ⟨k, _, rfl⟩ := List.mem_map.mp hi
  simp only [markNear_getElem?]
  by_cases hk : k + 1 < (first :: rest).length
  · have hq : (first :: rest)[k + 1]? = some ((first :: rest)[k + 1]) :=
      List.getElem?_eq_getElem hk
    have hn : isNear sqrt threshold (first :: rest) 0 (k + 1) = true := by
      unfold isNear
      rw [hq]
      simp only [List.getElem?_cons_zero, decide_eq_true_eq]
      exact hnear _ (List.getElem_mem _)
    rw [if_pos ⟨Nat.zero_le _, hk, hn⟩]
    have hl : k + 1 < (List.replicate (rest.length + 1) false).length := by
      simpa using hk
    rw [List.getElem?_eq_getElem hl]
    simp
  · have hc : ¬ (0 ≤ k + 1 ∧ k + 1 < (first :: rest).length ∧
        isNear sqrt threshold (first :: rest) 0 (k + 1) = true) := fun h => hk h.2.1
    rw [if_neg hc]
    have hl : (List.replicate (rest.length + 1) false).length ≤ k + 1 := by
      simp only [List.length_replicate]
      simp only [List.length_cons] at hk
      omega
    rw [List.getElem?_eq_none hl]
    simp

theorem planarDistance_same_y (p q : Point3D ℝ) (h : p.y = q.y) :
    planarDistance Real.sqrt p q = |p.x - q.x| := by
  unfold planarDistance
  rw [h, sub_self]
  simp only [ne_eq, OfNat.ofNat_ne_zero, not_false_eq_true, zero_pow, add_zero]
  exact Real.sqrt_sq_eq_abs _

theorem calculateMethod1_of_slice [LinearOrderedField α] (sqrt : α → α)
    (vertices : List (Point3D α)) (p : Point3D α) (rest : List (Point3D α))
    (hS : TreeModel.getPointsAtHeight vertices (13 / 10) (5 / 100) = p :: rest) :
    calculateMethod1 sqrt vertices =
      if detectStemCount sqrt (p :: rest) (3 / 10) = 1 then
        calculateDiameterFromPoints sqrt (p :: rest) * 100
      else
        calculateDiameterFromPoints sqrt (p :: rest) /
          ((detectStemCount sqrt (p :: rest) (3 / 10) : Nat) : α) *
          sqrt ((detectStemCount sqrt (p :: rest) (3 / 10) : Nat) : α) * 100 := by
  simp only [calculateMethod1, hS, List.isEmpty_cons, Bool.false_eq_true, if_false]

theorem planarDistance_on_axis (x1 x2 z1 z2 r1 r2 : ℝ) :
    planarDistance Real.sqrt ⟨x1, 0, z1, r1⟩ ⟨x2, 0, z2, r2⟩ = |x1 - x2| :=
  planarDistance_same_y ⟨x1, 0, z1, r1⟩ ⟨x2, 0, z2, r2⟩ rfl

theorem taperMesh_isMax : IsMaxPairDistance Real.sqrt (taperMesh ℝ) (2 / 10) := by
  have hd : planarDistance Real.sqrt (⟨0, 0, 1, 1⟩ : Point3D ℝ) ⟨2 / 10, 0, 1, 1⟩ = 2 / 10 := by
    rw [planarDistance_on_axis]
    norm_num [abs_of_nonneg]
  refine ⟨fun h => absurd h (by simp [taperMesh]),
    fun _ => ⟨⟨_, _, List.Sublist.refl _, hd⟩, ?_⟩⟩
  intro p q hpq
  unfold taperMesh at hpq
  rcases (pair_sublist_cons p q _ _).mp hpq with ⟨hp, hq⟩ | h
  · rw [List.mem_singleton] at hq
    rw [hp, hq, hd]
  · rcases (pair_sublist_cons p q _ _).mp h with ⟨_, hq⟩ | h
    · exact absurd hq (by simp)
    · exact absurd h (by simp)

theorem taper_power_bounds :
    (12325 / 10000 : ℝ) ≤ (13 / 10 / 1 : ℝ) ^ (-(156 / 1000) + 48 / 1000 * (20 : ℝ)) ∧
    (13 / 10 / 1 : ℝ) ^ (-(156 / 1000) + 48 / 1000 * (20 : ℝ)) < 12375 / 10000 := by
  have he : (-(156 / 1000) + 48 / 1000 * (20 : ℝ)) = 201 / 250 := by norm_num
  have hb : (13 / 10 / 1 : ℝ) = 13 / 10 := by norm_num
  rw [he, hb]
  have hx0 : (0 : ℝ) < (13 / 10 : ℝ) ^ (201 / 250 : ℝ) :=
    Real.rpow_pos_of_pos (by norm_num) _
  have hx : ((13 / 10 : ℝ) ^ (201 / 250 : ℝ)) ^ (250 : ℕ) = (13 / 10 : ℝ) ^ (201 : ℕ) := by
    rw [← Real.rpow_natCast, ← Real.rpow_mul (by norm_num : (0 : ℝ) ≤ 13 / 10)]
    have hm : (201 / 250 : ℝ) * ((250 : ℕ) : ℝ) = ((201 : ℕ) : ℝ) := by norm_num
    rw [hm, Real.rpow_natCast]
  constructor
  · by_contra hlt
    have hlt' : (13 / 10 : ℝ) ^ (201 / 250 : ℝ) < 12325 / 10000 := not_le.mp hlt
    have h1 : ((13 / 10 : ℝ) ^ (201 / 250 : ℝ)) ^ (250 : ℕ) < (12325 / 10000 : ℝ) ^ (250 : ℕ) :=
      pow_lt_pow_left₀ hlt' (le_of_lt hx0) (by norm_num)
    rw [hx] at h1
    have h2 : (12325 / 10000 : ℝ) ^ (250 : ℕ) < (13 / 10 : ℝ) ^ (201 : ℕ) := by norm_num
    exact lt_irrefl _ (lt_trans h1 h2)
  · by_contra hge
    have hge' : (12375 / 10000 : ℝ) ≤ (13 / 10 : ℝ) ^ (201 / 250 : ℝ) := not_lt.mp hge
    have h1 : (12375 / 10000 : ℝ) ^ (250 : ℕ) ≤ ((13 / 10 : ℝ) ^ (201 / 250 : ℝ)) ^ (250 : ℕ) :=
      pow_le_pow_left₀ (by norm_num) hge' 250
    rw [hx] at h1
    have h2 : (13 / 10 : ℝ) ^ (201 : ℕ) < (12375 / 10000 : ℝ) ^ (250 : ℕ) := by norm_num
    exact lt_irrefl _ (lt_of_lt_of_le h2 h1)

theorem taperModel_of_twenty (S : List (Point3D ℝ))
    (h20 : calculateDiameterFromPoints Real.sqrt S * 100 = 20) :
    taperModel Real.sqrt (fun x y => x ^ y) S 1 =
      20 * (13 / 10 / 1 : ℝ) ^ (-(156 / 1000) + 48 / 1000 * (20 : ℝ)) := by
  simp only [taperModel, h20]

theorem taperMesh_twenty : calculateDiameterFromPoints Real.sqrt (taperMesh ℝ) * 100 = 20 := by
  have hdiam : calculateDiameterFromPoints Real.sqrt (taperMesh ℝ) = 2 / 10 :=
    isMaxPairDistance_unique Real.sqrt (taperMesh ℝ) _ _
      (calculateDiameterFromPoints_isMax Real.sqrt Real.sqrt_nonneg (taperMesh ℝ)) taperMesh_isMax
  rw [hdiam]
  norm_num

/-- C19 (counterexample): the slice of two points 0.2 m apart measured at 1.0 m has
`D_POM = 20`, and the taper model returns `20 * 1.3 ^ 0.804`, which is at least 24.65: it
is not below 23.65, so it does not round to 23.6. -/
theorem taper_example_is_not_23_6 :
    calculateDiameterFromPoints Real.sqrt (taperMesh ℝ) * 100 = 20 ∧
    taperModel Real.sqrt (fun x y => x ^ y) (taperMesh ℝ) 1 =
      20 * (13 / 10 / 1 : ℝ) ^ (-(156 / 1000) + 48 / 1000 * (20 : ℝ)) ∧
    ¬ (2355 / 100 ≤ taperModel Real.sqrt (fun x y => x ^ y) (taperMesh ℝ) 1 ∧
      taperModel Real.sqrt (fun x y => x ^ y) (taperMesh ℝ) 1 < 2365 / 100) := by
  have hv := taperModel_of_twenty (taperMesh ℝ) taperMesh_twenty
  refine ⟨taperMesh_twenty, hv, ?_⟩
  rintro ⟨_, hlt⟩
  rw [hv] at hlt
  have hb := taper_power_bounds.1
  linarith

/-- C19 (amended): for a Method 2 measurement with `D_POM = 20` cm at `H_POM = 1.0` m
the taper exponent is `a = -0.156 + 0.048 * 20 = 0.804` and the returned value is
`20 * (1.3 / 1.0) ^ 0.804`, which lies in `[24.65, 24.75)`: approximately 24.7 cm. -/
theorem taper_example_value (S : List (Point3D ℝ))
    (h20 : calculateDiameterFromPoints Real.sqrt S * 100 = 20) :
    (-(156 / 1000) + 48 / 1000 * (20 : ℝ) = 804 / 1000) ∧
    taperModel Real.sqrt (fun x y => x ^ y) S 1 = 20 * (13 / 10 / 1 : ℝ) ^ (804 / 1000 : ℝ) ∧
    2465 / 100 ≤ taperModel Real.sqrt (fun x y => x ^ y) S 1 ∧
    taperModel Real.sqrt (fun x y => x ^ y) S 1 < 2475 / 100 := by
  have he : (-(156 / 1000) + 48 / 1000 * (20 : ℝ)) = 804 / 1000 := by norm_num
  have hv := taperModel_of_twenty S h20
  obtain ⟨hlo, hhi⟩ := taper_power_bounds
  refine ⟨he, ?_, ?_, ?_⟩
  · rw [hv, he]
  · rw [hv]; linarith
  · rw [hv]; linarith

theorem taper_example_value_witness :
    calculateDiameterFromPoints Real.sqrt (taperMesh ℝ) * 100 = 20 ∧
    (-(156 / 1000) + 48 / 1000 * (20 : ℝ) = 804 / 1000) ∧
    taperModel Real.sqrt (fun x y => x ^ y) (taperMesh ℝ) 1 =
      20 * (13 / 10 / 1 : ℝ) ^ (804 / 1000 : ℝ) ∧
    2465 / 100 ≤ taperModel Real.sqrt (fun x y => x ^ y) (taperMesh ℝ) 1 ∧
    taperModel Real.sqrt (fun x y => x ^ y) (taperMesh ℝ) 1 < 2475 / 100 :=
  ⟨taperMesh_twenty, taper_example_value (taperMesh ℝ) taperMesh_twenty⟩

end DBHCalculator

namespace CrownRadius
variable {α : Type}

theorem foldl_min_eq_of [LinearOrderedField α] {β : Type} (f : β → α) (l : List β)
    (init v : α) (hle : v ≤ init) (hall : ∀ p ∈ l, v ≤ f p) (hex : ∃ p ∈ l, f p = v) :
    l.foldl (fun m p => min m (f p)) init = v := by
  obtain ⟨h1, h2, h3⟩ := foldl_min_le f l init
  obtain ⟨p, hp, hfp⟩ := hex
  apply le_antisymm
  · rw [← hfp]; exact h2 p hp
  · rcases h3 with h3 | h3
    · rw [h3]; exact hle
    · obtain ⟨q, hq, hfq⟩ := List.mem_map.mp h3
      rw [← hfq]; exact hall q hq

theorem foldl_max_eq_of [LinearOrderedField α] {β : Type} (f : β → α) (l : List β)
    (init v : α) (hge : init ≤ v) (hall : ∀ p ∈ l, f p ≤ v) (hex : ∃ p ∈ l, f p = v) :
    l.foldl (fun m p => max m (f p)) init = v := by
  obtain ⟨h1, h2, h3⟩ := foldl_max_ge f l init
  obtain ⟨p, hp, hfp⟩ := hex
  apply le_antisymm
  · rcases h3 with h3 | h3
    · rw [h3]; exact hge
    · obtain ⟨q, hq, hfq⟩ := List.mem_map.mp h3
      rw [← hfq]; exact hall q hq
  · rw [← hfp]; exact h2 p hp

theorem isMinCircle_rectangle [LinearOrderedField α] (P : List (Point_2 α)) (x0 y0 a b : α)
    (hP : ∀ p, p ∈ P ↔ p ∈ rectangleCorners x0 y0 a b) :
    IsMinCircleSquaredRadius P ((a ^ 2 + b ^ 2) / 4) := by
  constructor
  · refine ⟨⟨x0 + a / 2, y0 + b / 2⟩, ?_⟩
    intro p hp
    have hp' := (hP p).mp hp
    simp only [rectangleCorners, List.mem_cons, List.mem_singleton, List.not_mem_nil,
      or_false] at hp'
    rcases hp' with rfl | rfl | rfl | rfl <;> simp only <;> apply le_of_eq <;> ring
  · intro c s2 hc
    have h0 := hc ⟨x0, y0⟩ ((hP _).mpr (by simp [rectangleCorners]))
    have h2 := hc ⟨x0 + a, y0 + b⟩ ((hP _).mpr (by simp [rectangleCorners]))
    simp only at h0 h2
    nlinarith [sq_nonneg (x0 - c.x + a / 2), sq_nonneg (y0 - c.y + b / 2)]

theorem isMinCircle_unique [LinearOrderedField α] (P : List (Point_2 α)) (r2 s2 : α)
    (h : IsMinCircleSquaredRadius P r2) (h' : IsMinCircleSquaredRadius P s2) : r2 = s2 := by
  obtain ⟨⟨c, hc⟩, hmin⟩ := h
  obtain ⟨⟨c', hc'⟩, hmin'⟩ := h'
  exact le_antisymm (hmin c' s2 hc') (hmin' c r2 hc)

/-- Evaluation of a minimum fold over a hull whose vertices are the rectangle corners. -/
theorem foldl_min_corners (hull : List (Point_2 ℝ)) (x0 y0 a b : ℝ)
    (hP : ∀ p, p ∈ hull ↔ p ∈ rectangleCorners x0 y0 a b) (f : Point_2 ℝ → ℝ) (init v : ℝ)
    (hle : v ≤ init)
    (h0 : v ≤ f ⟨x0, y0⟩) (h1 : v ≤ f ⟨x0 + a, y0⟩) (h2 : v ≤ f ⟨x0 + a, y0 + b⟩)
    (h3 : v ≤ f ⟨x0, y0 + b⟩)
    (hex : f ⟨x0, y0⟩ = v ∨ f ⟨x0 + a, y0 + b⟩ = v) :
    hull.foldl (fun m p => min m (f p)) init = v := by
  apply foldl_min_eq_of f hull init v hle
  · intro p hp
    have hp' := (hP p).mp hp
    simp only [rectangleCorners, List.mem_cons, List.mem_singleton, List.not_mem_nil,
      or_false] at hp'
    rcases hp' with rfl | rfl | rfl | rfl
    · exact h0
    · exact h1
    · exact h2
    · exact h3
  · rcases hex with h | h
    · exact ⟨_, (hP _).mpr (by simp [rectangleCorners]), h⟩
    · exact ⟨_, (hP _).mpr (by simp [rectangleCorners]), h⟩

/-- Evaluation of a maximum fold over a hull whose vertices are the rectangle corners. -/
theorem foldl_max_corners (hull : List (Point_2 ℝ)) (x0 y0 a b : ℝ)
    (hP : ∀ p, p ∈ hull ↔ p ∈ rectangleCorners x0 y0 a b) (f : Point_2 ℝ → ℝ) (init v : ℝ)
    (hge : init ≤ v)
    (h0 : f ⟨x0, y0⟩ ≤ v) (h1 : f ⟨x0 + a, y0⟩ ≤ v) (h2 : f ⟨x0 + a, y0 + b⟩ ≤ v)
    (h3 : f ⟨x0, y0 + b⟩ ≤ v)
    (hex : f ⟨x0, y0⟩ = v ∨ f ⟨x0 + a, y0 + b⟩ = v) :
    hull.foldl (fun m p => max m (f p)) init = v := by
  apply foldl_max_eq_of f hull init v hge
  · intro p hp
    have hp' := (hP p).mp hp
    simp only [rectangleCorners, List.mem_cons, List.mem_singleton, List.not_mem_nil,
      or_false] at hp'
    rcases hp' with rfl | rfl | rfl | rfl
    · exact h0
    · exact h1
    · exact h2
    · exact h3
  · rcases hex with h | h
    · exact ⟨_, (hP _).mpr (by simp [rectangleCorners]), h⟩
    · exact ⟨_, (hP _).mpr (by simp [rectangleCorners]), h⟩

/-- The iteration on the edge from `(x0, y0)` to `(x0 + a, y0)`. -/
theorem calipersStep_bottom (hull : List (Point_2 ℝ)) (x0 y0 a b dbl_max : ℝ)
    (ha : 0 < a) (hb : 0 < b)
    (hx0 : -dbl_max ≤ x0) (hx1 : x0 + a ≤ dbl_max) (hy0 : -dbl_max ≤ y0)
    (hy1 : y0 + b ≤ dbl_max)
    (hP : ∀ p, p ∈ hull ↔ p ∈ rectangleCorners x0 y0 a b)
    (st : CalipersState ℝ) (i : Nat)
    (hi : hull[i]? = some ⟨x0, y0⟩) (hj : hull[(i + 1) % hull.length]? = some ⟨x0 + a, y0⟩) :
    calipersStep Real.sqrt dbl_max hull st i = edgeUpdate a a b st := by
  have hlen : Real.sqrt ((x0 + a - x0) * (x0 + a - x0) + (y0 - y0) * (y0 - y0)) = a := by
    rw [show (x0 + a - x0) * (x0 + a - x0) + (y0 - y0) * (y0 - y0) = a * a by ring]
    exact Real.sqrt_mul_self ha.le
  have hdx : (x0 + a - x0) / a = 1 := by field_simp
  have hdy : (y0 - y0) / a = 0 := by simp
  have e1 : hull.foldl (fun m p => min m p.x) dbl_max = x0 :=
    foldl_min_corners hull x0 y0 a b hP (fun p => p.x) dbl_max x0 (by linarith)
      (by simp) (by simp; linarith) (by simp; linarith) (by simp) (Or.inl rfl)
  have e2 : hull.foldl (fun m p => max m p.x) (-dbl_max) = x0 + a :=
    foldl_max_corners hull x0 y0 a b hP (fun p => p.x) (-dbl_max) (x0 + a) (by linarith)
      (by simp; linarith) (by simp) (by simp) (by simp; linarith) (Or.inr rfl)
  have e3 : hull.foldl (fun m p => min m p.y) dbl_max = y0 :=
    foldl_min_corners hull x0 y0 a b hP (fun p => p.y) dbl_max y0 (by linarith)
      (by simp) (by simp) (by simp; linarith) (by simp; linarith) (Or.inl rfl)
  have e4 : hull.foldl (fun m p => max m p.y) (-dbl_max) = y0 + b :=
    foldl_max_corners hull x0 y0 a b hP (fun p => p.y) (-dbl_max) (y0 + b) (by linarith)
      (by simp; linarith) (by simp; linarith) (by simp) (by simp) (Or.inr rfl)
  unfold calipersStep
  simp only [hi, hj, hlen, hdx, hdy, mul_one, mul_zero, add_zero, zero_add, neg_zero,
    e1, e2, e3, e4, edgeUpdate]
  simp only [add_sub_cancel_left]

/-- The iteration on the edge from `(x0 + a, y0)` to `(x0 + a, y0 + b)`. -/
theorem calipersStep_right (hull : List (Point_2 ℝ)) (x0 y0 a b dbl_max : ℝ)
    (ha : 0 < a) (hb : 0 < b)
    (hx0 : -dbl_max ≤ x0) (hx1 : x0 + a ≤ dbl_max) (hy0 : -dbl_max ≤ y0)
    (hy1 : y0 + b ≤ dbl_max)
    (hP : ∀ p, p ∈ hull ↔ p ∈ rectangleCorners x0 y0 a b)
    (st : CalipersState ℝ) (i : Nat)
    (hi : hull[i]? = some ⟨x0 + a, y0⟩)
    (hj : hull[(i + 1) % hull.length]? = some ⟨x0 + a, y0 + b⟩) :
    calipersStep Real.sqrt dbl_max hull st i = edgeUpdate b b a st := by
  have hlen : Real.sqrt ((x0 + a - (x0 + a)) * (x0 + a - (x0 + a)) +
      (y0 + b - y0) * (y0 + b - y0)) = b := by
    rw [show (x0 + a - (x0 + a)) * (x0 + a - (x0 + a)) + (y0 + b - y0) * (y0 + b - y0) =
      b * b by ring]
    exact Real.sqrt_mul_self hb.le
  have hdx : (x0 + a - (x0 + a)) / b = 0 := by simp
  have hdy : (y0 + b - y0) / b = 1 := by field_simp
  have e1 : hull.foldl (fun m p => min m p.y) dbl_max = y0 :=
    foldl_min_corners hull x0 y0 a b hP (fun p => p.y) dbl_max y0 (by linarith)
      (by simp) (by simp) (by simp; linarith) (by simp; linarith) (Or.inl rfl)
  have e2 : hull.foldl (fun m p => max m p.y) (-dbl_max) = y0 + b :=
    foldl_max_corners hull x0 y0 a b hP (fun p => p.y) (-dbl_max) (y0 + b) (by linarith)
      (by simp; linarith) (by simp; linarith) (by simp) (by simp) (Or.inr rfl)
  have e3 : hull.foldl (fun m p => min m (-p.x)) dbl_max = -(x0 + a) :=
    foldl_min_corners hull x0 y0 a b hP (fun p => -p.x) dbl_max (-(x0 + a)) (by linarith)
      (by simp; linarith) (by simp) (by simp) (by simp; linarith) (Or.inr rfl)
  have e4 : hull.foldl (fun m p => max m (-p.x)) (-dbl_max) = -x0 :=
    foldl_max_corners hull x0 y0 a b hP (fun p => -p.x) (-dbl_max) (-x0) (by linarith)
      (by simp) (by simp; linarith) (by simp; linarith) (by simp) (Or.inl rfl)
  have hw : y0 + b - y0 = b := by ring
  have hh : -x0 - -(x0 + a) = a := by ring
  unfold calipersStep
  simp only [hi, hj, hlen, hdx, hdy, mul_one, mul_zero, add_zero, zero_add, neg_zero,
    mul_neg, neg_neg, e1, e2, e3, e4, edgeUpdate]
  simp only [hw, hh]

/-- The iteration on the edge from `(x0 + a, y0 + b)` to `(x0, y0 + b)`. -/
theorem calipersStep_top (hull : List (Point_2 ℝ)) (x0 y0 a b dbl_max : ℝ)
    (ha : 0 < a) (hb : 0 < b)
    (hx0 : -dbl_max ≤ x0) (hx1 : x0 + a ≤ dbl_max) (hy0 : -dbl_max ≤ y0)
    (hy1 : y0 + b ≤ dbl_max)
    (hP : ∀ p, p ∈ hull ↔ p ∈ rectangleCorners x0 y0 a b)
    (st : CalipersState ℝ) (i : Nat)
    (hi : hull[i]? = some ⟨x0 + a, y0 + b⟩)
    (hj : hull[(i + 1) % hull.length]? = some ⟨x0, y0 + b⟩) :
    calipersStep Real.sqrt dbl_max hull st i = edgeUpdate a a b st := by
  have hlen : Real.sqrt ((x0 - (x0 + a)) * (x0 - (x0 + a)) +
      (y0 + b - (y0 + b)) * (y0 + b - (y0 + b))) = a := by
    rw [show (x0 - (x0 + a)) * (x0 - (x0 + a)) + (y0 + b - (y0 + b)) * (y0 + b - (y0 + b)) =
      a * a by ring]
    exact Real.sqrt_mul_self ha.le
  have hdx : (x0 - (x0 + a)) / a = -1 := by
    rw [show x0 - (x0 + a) = -a by ring, neg_div, div_self ha.ne']
  have hdy : (y0 + b - (y0 + b)) / a = 0 := by simp
  have e1 : hull.foldl (fun m p => min m (-p.x)) dbl_max = -(x0 + a) :=
    foldl_min_corners hull x0 y0 a b hP (fun p => -p.x) dbl_max (-(x0 + a)) (by linarith)
      (by simp; linarith) (by simp) (by simp) (by simp; linarith) (Or.inr rfl)
  have e2 : hull.foldl (fun m p => max m (-p.x)) (-dbl_max) = -x0 :=
    foldl_max_corners hull x0 y0 a b hP (fun p => -p.x) (-dbl_max) (-x0) (by linarith)
      (by simp) (by simp; linarith) (by simp; linarith) (by simp) (Or.inl rfl)
  have e3 : hull.foldl (fun m p => min m (-p.y)) dbl_max = -(y0 + b) :=
    foldl_min_corners hull x0 y0 a b hP (fun p => -p.y) dbl_max (-(y0 + b)) (by linarith)
      (by simp; linarith) (by simp; linarith) (by simp) (by simp) (Or.inr rfl)
  have e4 : hull.foldl (fun m p => max m (-p.y)) (-dbl_max) = -y0 :=
    foldl_max_corners hull x0 y0 a b hP (fun p => -p.y) (-dbl_max) (-y0) (by linarith)
      (by simp) (by simp) (by simp; linarith) (by simp; linarith) (Or.inl rfl)
  have hw : -x0 - -(x0 + a) = a := by ring
  have hh : -y0 - -(y0 + b) = b := by ring
  unfold calipersStep
  simp only [hi, hj, hlen, hdx, hdy, mul_one, mul_zero, add_zero, zero_add, neg_zero,
    mul_neg, neg_neg, e1, e2, e3, e4, edgeUpdate]
  simp only [hw, hh]

/-- The iteration on the edge from `(x0, y0 + b)` to `(x0, y0)`. -/
theorem calipersStep_left (hull : List (Point_2 ℝ)) (x0 y0 a b dbl_max : ℝ)
    (ha : 0 < a) (hb : 0 < b)
    (hx0 : -dbl_max ≤ x0) (hx1 : x0 + a ≤ dbl_max) (hy0 : -dbl_max ≤ y0)
    (hy1 : y0 + b ≤ dbl_max)
    (hP : ∀ p, p ∈ hull ↔ p ∈ rectangleCorners x0 y0 a b)
    (st : CalipersState ℝ) (i : Nat)
    (hi : hull[i]? = some ⟨x0, y0 + b⟩)
    (hj : hull[(i + 1) % hull.length]? = some ⟨x0, y0⟩) :
    calipersStep Real.sqrt dbl_max hull st i = edgeUpdate b b a st := by
  have hlen : Real.sqrt ((x0 - x0) * (x0 - x0) + (y0 - (y0 + b)) * (y0 - (y0 + b))) = b := by
    rw [show (x0 - x0) * (x0 - x0) + (y0 - (y0 + b)) * (y0 - (y0 + b)) = b * b by ring]
    exact Real.sqrt_mul_self hb.le
  have hdx : (x0 - x0) / b = 0 := by simp
  have hdy : (y0 - (y0 + b)) / b = -1 := by
    rw [show y0 - (y0 + b) = -b by ring, neg_div, div_self hb.ne']
  have e1 : hull.foldl (fun m p => min m (-p.y)) dbl_max = -(y0 + b) :=
    foldl_min_corners hull x0 y0 a b hP (fun p => -p.y) dbl_max (-(y0 + b)) (by linarith)
      (by simp; linarith) (by simp; linarith) (by simp) (by simp) (Or.inr rfl)
  have e2 : hull.foldl (fun m p => max m (-p.y)) (-dbl_max) = -y0 :=
    foldl_max_corners hull x0 y0 a b hP (fun p => -p.y) (-dbl_max) (-y0) (by linarith)
      (by simp) (by simp) (by simp; linarith) (by simp; linarith) (Or.inl rfl)
  have e3 : hull.foldl (fun m p => min m p.x) dbl_max = x0 :=
    foldl_min_corners hull x0 y0 a b hP (fun p => p.x) dbl_max x0 (by linarith)
      (by simp) (by simp; linarith) (by simp; linarith) (by simp) (Or.inl rfl)
  have e4 : hull.foldl (fun m p => max m p.x) (-dbl_max) = x0 + a :=
    foldl_max_corners hull x0 y0 a b hP (fun p => p.x) (-dbl_max) (x0 + a) (by linarith)
      (by simp; linarith) (by simp) (by simp) (by simp; linarith) (Or.inr rfl)
  have hw : -y0 - -(y0 + b) = b := by ring
  have hh : x0 + a - x0 = a := by ring
  unfold calipersStep
  simp only [hi, hj, hlen, hdx, hdy, mul_one, mul_zero, add_zero, zero_add, neg_zero,
    mul_neg, neg_neg, e1, e2, e3, e4, edgeUpdate]
  simp only [hw, hh]

theorem edgeUpdate_skip (len w h : ℝ) (st : CalipersState ℝ) (hlen : len < 1 / 10000000000) :
    edgeUpdate len w h st = st := by
  unfold edgeUpdate
  rw [if_pos hlen]

theorem edgeUpdate_first (len w h dbl_max : ℝ) (hlen : ¬ len < 1 / 10000000000)
    (harea : w * h < dbl_max) :
    edgeUpdate len w h { min_area := dbl_max, best_width := 0, best_height := 0 } =
      { min_area := w * h, best_width := w, best_height := h } := by
  unfold edgeUpdate
  rw [if_neg hlen, if_pos harea]

theorem edgeUpdate_keep (len w h : ℝ) (st : CalipersState ℝ) (hle : st.min_area ≤ w * h) :
    edgeUpdate len w h st = st := by
  unfold edgeUpdate
  by_cases hlen : len < 1 / 10000000000
  · rw [if_pos hlen]
  · rw [if_neg hlen, if_neg (not_lt.mpr hle)]

/-- Four iterations over edges that alternate between two kinds with the same rectangle
area, at least one kind being long enough: the state ends at the rectangle of one of
them. -/
theorem four_edges (l1 w1 h1 l2 w2 h2 dbl_max : ℝ) (harea1 : w1 * h1 < dbl_max)
    (harea : w1 * h1 = w2 * h2) (hsome : ¬ l1 < 1 / 10000000000 ∨ ¬ l2 < 1 / 10000000000) :
    edgeUpdate l2 w2 h2 (edgeUpdate l1 w1 h1 (edgeUpdate l2 w2 h2 (edgeUpdate l1 w1 h1
        { min_area := dbl_max, best_width := 0, best_height := 0 }))) =
      { min_area := w1 * h1, best_width := w1, best_height := h1 } ∨
    edgeUpdate l2 w2 h2 (edgeUpdate l1 w1 h1 (edgeUpdate l2 w2 h2 (edgeUpdate l1 w1 h1
        { min_area := dbl_max, best_width := 0, best_height := 0 }))) =
      { min_area := w2 * h2, best_width := w2, best_height := h2 } := by
  by_cases hl1 : l1 < 1 / 10000000000
  · have hl2 : ¬ l2 < 1 / 10000000000 := by
      rcases hsome with h | h
      · exact absurd hl1 h
      · exact h
    right
    have e1 : edgeUpdate l1 w1 h1 { min_area := dbl_max, best_width := 0, best_height := 0 } =
        { min_area := dbl_max, best_width := 0, best_height := 0 } := edgeUpdate_skip _ _ _ _ hl1
    have e2 : edgeUpdate l2 w2 h2 { min_area := dbl_max, best_width := 0, best_height := 0 } =
        { min_area := w2 * h2, best_width := w2, best_height := h2 } :=
      edgeUpdate_first l2 w2 h2 dbl_max hl2 (harea ▸ harea1)
    have e3 : edgeUpdate l1 w1 h1 { min_area := w2 * h2, best_width := w2, best_height := h2 } =
        { min_area := w2 * h2, best_width := w2, best_height := h2 } := edgeUpdate_skip _ _ _ _ hl1
    have e4 : edgeUpdate l2 w2 h2 { min_area := w2 * h2, best_width := w2, best_height := h2 } =
        { min_area := w2 * h2, best_width := w2, best_height := h2 } :=
      edgeUpdate_keep _ _ _ _ (le_refl _)
    rw [e1, e2, e3, e4]
  · left
    have e1 : edgeUpdate l1 w1 h1 { min_area := dbl_max, best_width := 0, best_height := 0 } =
        { min_area := w1 * h1, best_width := w1, best_height := h1 } :=
      edgeUpdate_first l1 w1 h1 dbl_max hl1 harea1
    have e2 : edgeUpdate l2 w2 h2 { min_area := w1 * h1, best_width := w1, best_height := h1 } =
        { min_area := w1 * h1, best_width := w1, best_height := h1 } :=
      edgeUpdate_keep _ _ _ _ (le_of_eq harea)
    have e3 : edgeUpdate l1 w1 h1 { min_area := w1 * h1, best_width := w1, best_height := h1 } =
        { min_area := w1 * h1, best_width := w1, best_height := h1 } :=
      edgeUpdate_keep _ _ _ _ (le_refl _)
    rw [e1, e2, e3, e2]

/-- The rotating-calipers loop over the hull of a rectangle, given as its corners in
counterclockwise order from any start vertex: the loop performs the four edge updates, in
one of two alternating orders. -/
theorem calipers_loop_rectangle (hull : List (Point_2 ℝ)) (x0 y0 a b dbl_max : ℝ)
    (ha : 0 < a) (hb : 0 < b)
    (hx0 : -dbl_max ≤ x0) (hx1 : x0 + a ≤ dbl_max) (hy0 : -dbl_max ≤ y0)
    (hy1 : y0 + b ≤ dbl_max)
    (hhull : ∃ k, hull = (rectangleCorners x0 y0 a b).rotate k) :
    (List.range hull.length).foldl (calipersStep Real.sqrt dbl_max hull)
        { min_area := dbl_max, best_width := 0, best_height := 0 } =
      edgeUpdate b b a (edgeUpdate a a b (edgeUpdate b b a (edgeUpdate a a b
        { min_area := dbl_max, best_width := 0, best_height := 0 }))) ∨
    (List.range hull.length).foldl (calipersStep Real.sqrt dbl_max hull)
        { min_area := dbl_max, best_width := 0, best_height := 0 } =
      edgeUpdate a a b (edgeUpdate b b a (edgeUpdate a a b (edgeUpdate b b a
        { min_area := dbl_max, best_width := 0, best_height := 0 }))) := by
  obtain ⟨k, hk⟩ := hhull
  have hk' : hull = (rectangleCorners x0 y0 a b).rotate (k % 4) := by
    rw [hk]
    exact (List.rotate_mod (rectangleCorners x0 y0 a b) k).symm
  have hP : ∀ p, p ∈ hull ↔ p ∈ rectangleCorners x0 y0 a b := by
    intro p
    rw [hk]
    exact List.mem_rotate
  have hlen : hull.length = 4 := by
    rw [hk, List.length_rotate]
    rfl
  have hr : List.range 4 = [0, 1, 2, 3] := rfl
  have hlt : k % 4 < 4 := Nat.mod_lt _ (by decide)
  rw [hlen, hr]
  simp only [List.foldl_cons, List.foldl_nil]
  have hj0 : (0 + 1) % hull.length = 1 := by rw [hlen]
  have hj1 : (1 + 1) % hull.length = 2 := by rw [hlen]
  have hj2 : (2 + 1) % hull.length = 3 := by rw [hlen]
  have hj3 : (3 + 1) % hull.length = 0 := by rw [hlen]
  generalize hrk : k % 4 = r at hk' hlt
  interval_cases r
  · have h0 : hull[0]? = some ⟨x0, y0⟩ := by rw [hk']; rfl
    have h1 : hull[1]? = some ⟨x0 + a, y0⟩ := by rw [hk']; rfl
    have h2 : hull[2]? = some ⟨x0 + a, y0 + b⟩ := by rw [hk']; rfl
    have h3 : hull[3]? = some ⟨x0, y0 + b⟩ := by rw [hk']; rfl
    left
    rw [calipersStep_bottom hull x0 y0 a b dbl_max ha hb hx0 hx1 hy0 hy1 hP _ 0 h0
        (by rw [hj0]; exact h1),
      calipersStep_right hull x0 y0 a b dbl_max ha hb hx0 hx1 hy0 hy1 hP _ 1 h1
        (by rw [hj1]; exact h2),
      calipersStep_top hull x0 y0 a b dbl_max ha hb hx0 hx1 hy0 hy1 hP _ 2 h2
        (by rw [hj2]; exact h3),
      calipersStep_left hull x0 y0 a b dbl_max ha hb hx0 hx1 hy0 hy1 hP _ 3 h3
        (by rw [hj3]; exact h0)]
  · have h0 : hull[0]? = some ⟨x0 + a, y0⟩ := by rw [hk']; rfl
    have h1 : hull[1]? = some ⟨x0 + a, y0 + b⟩ := by rw [hk']; rfl
    have h2 : hull[2]? = some ⟨x0, y0 + b⟩ := by rw [hk']; rfl
    have h3 : hull[3]? = some ⟨x0, y0⟩ := by rw [hk']; rfl
    right
    rw [calipersStep_right hull x0 y0 a b dbl_max ha hb hx0 hx1 hy0 hy1 hP _ 0 h0
        (by rw [hj0]; exact h1),
      calipersStep_top hull x0 y0 a b dbl_max ha hb hx0 hx1 hy0 hy1 hP _ 1 h1
        (by rw [hj1]; exact h2),
      calipersStep_left hull x0 y0 a b dbl_max ha hb hx0 hx1 hy0 hy1 hP _ 2 h2
        (by rw [hj2]; exact h3),
      calipersStep_bottom hull x0 y0 a b dbl_max ha hb hx0 hx1 hy0 hy1 hP _ 3 h3
        (by rw [hj3]; exact h0)]
  · have h0 : hull[0]? = some ⟨x0 + a, y0 + b⟩ := by rw [hk']; rfl
    have h1 : hull[1]? = some ⟨x0, y0 + b⟩ := by rw [hk']; rfl
    have h2 : hull[2]? = some ⟨x0, y0⟩ := by rw [hk']; rfl
    have h3 : hull[3]? = some ⟨x0 + a, y0⟩ := by rw [hk']; rfl
    left
    rw [calipersStep_top hull x0 y0 a b dbl_max ha hb hx0 hx1 hy0 hy1 hP _ 0 h0
        (by rw [hj0]; exact h1),
      calipersStep_left hull x0 y0 a b dbl_max ha hb hx0 hx1 hy0 hy1 hP _ 1 h1
        (by rw [hj1]; exact h2),
      calipersStep_bottom hull x0 y0 a b dbl_max ha hb hx0 hx1 hy0 hy1 hP _ 2 h2
        (by rw [hj2]; exact h3),
      calipersStep_right hull x0 y0 a b dbl_max ha hb hx0 hx1 hy0 hy1 hP _ 3 h3
        (by rw [hj3]; exact h0)]
  · have h0 : hull[0]? = some ⟨x0, y0 + b⟩ := by rw [hk']; rfl
    have h1 : hull[1]? = some ⟨x0, y0⟩ := by rw [hk']; rfl
    have h2 : hull[2]? = some ⟨x0 + a, y0⟩ := by rw [hk']; rfl
    have h3 : hull[3]? = some ⟨x0 + a, y0 + b⟩ := by rw [hk']; rfl
    right
    rw [calipersStep_left hull x0 y0 a b dbl_max ha hb hx0 hx1 hy0 hy1 hP _ 0 h0
        (by rw [hj0]; exact h1),
      calipersStep_bottom hull x0 y0 a b dbl_max ha hb hx0 hx1 hy0 hy1 hP _ 1 h1
        (by rw [hj1]; exact h2),
      calipersStep_right hull x0 y0 a b dbl_max ha hb hx0 hx1 hy0 hy1 hP _ 2 h2
        (by rw [hj2]; exact h3),
      calipersStep_top hull x0 y0 a b dbl_max ha hb hx0 hx1 hy0 hy1 hP _ 3 h3
        (by rw [hj3]; exact h0)]

/-- On a point set whose projection is the corner set of a rectangle, with the hull
given as the corners in counterclockwise order, the general path runs. -/
theorem rectangle_general_path
    (convex_hull_2 : List (Point_2 ℝ) → List (Point_2 ℝ))
    (min_circle_squared_radius : List (Point_2 ℝ) → ℝ) (dbl_max : ℝ)
    (points : List (TreePoint ℝ)) (x0 y0 a b : ℝ)
    (hproj : ∀ p, p ∈ projectPoints points ↔ p ∈ rectangleCorners x0 y0 a b)
    (hhull : ∃ k, convex_hull_2 (projectPoints points) = (rectangleCorners x0 y0 a b).rotate k)
    (final : CalipersState ℝ)
    (hfinal : final = (List.range (convex_hull_2 (projectPoints points)).length).foldl
      (calipersStep Real.sqrt dbl_max (convex_hull_2 (projectPoints points)))
      { min_area := dbl_max, best_width := 0, best_height := 0 }) :
    calculateCrownRadiusDetailed convex_hull_2 min_circle_squared_radius Real.sqrt dbl_max
        points =
      (Real.sqrt (min_circle_squared_radius (projectPoints points)),
        max final.best_width final.best_height,
        min final.best_width final.best_height,
        if min final.best_width final.best_height > 0 then
          max final.best_width final.best_height / min final.best_width final.best_height
        else 1) := by
  have hmem : (⟨x0, y0⟩ : Point_2 ℝ) ∈ projectPoints points :=
    (hproj _).mpr (by simp [rectangleCorners])
  obtain ⟨first, rest, hpp⟩ : ∃ first rest, projectPoints points = first :: rest := by
    cases h : projectPoints points with
    | nil => rw [h] at hmem; exact absurd hmem (by simp)
    | cons f r => exact ⟨f, r, rfl⟩
  obtain ⟨k, hk⟩ := hhull
  have hlen : (convex_hull_2 (projectPoints points)).length = 4 := by
    rw [hk, List.length_rotate]
    rfl
  rw [hpp] at hlen hfinal
  unfold calculateCrownRadiusDetailed
  rw [hpp]
  simp only
  rw [if_neg (by rw [hlen]; decide), ← hfinal]

/-- C11 (amended): for a point set whose XY projection is the corner set of an
axis-aligned rectangle with side lengths `a, b > 0` of which the longer is at least
`10⁻¹⁰` (any input order, any `z`), with the hull routine returning the corners in
counterclockwise order, the circle routine returning the squared radius of the minimum
enclosing circle and all values within the range of `dbl_max`, the crown computation
returns `crown_radius = sqrt (a² + b²) / 2`, `max_width = max a b`, `min_width = min a b`
and `aspect_ratio = max a b / min a b`. -/
theorem calculateCrownRadiusDetailed_rectangle
    (convex_hull_2 : List (Point_2 ℝ) → List (Point_2 ℝ))
    (min_circle_squared_radius : List (Point_2 ℝ) → ℝ) (dbl_max : ℝ)
    (points : List (TreePoint ℝ)) (x0 y0 a b : ℝ) (ha : 0 < a) (hb : 0 < b)
    (hlong : 1 / 10000000000 ≤ max a b)
    (hproj : ∀ p, p ∈ projectPoints points ↔ p ∈ rectangleCorners x0 y0 a b)
    (hhull : ∃ k, convex_hull_2 (projectPoints points) = (rectangleCorners x0 y0 a b).rotate k)
    (hcircle : IsMinCircleSquaredRadius (projectPoints points)
      (min_circle_squared_radius (projectPoints points)))
    (hx0 : -dbl_max ≤ x0) (hx1 : x0 + a ≤ dbl_max) (hy0 : -dbl_max ≤ y0)
    (hy1 : y0 + b ≤ dbl_max) (hab : a * b < dbl_max) :
    calculateCrownRadiusDetailed convex_hull_2 min_circle_squared_radius Real.sqrt dbl_max
        points =
      (Real.sqrt (a ^ 2 + b ^ 2) / 2, max a b, min a b, max a b / min a b) := by
  rw [rectangle_general_path convex_hull_2 min_circle_squared_radius
    dbl_max points x0 y0 a b hproj hhull _ rfl]
  have hr : min_circle_squared_radius (projectPoints points) = (a ^ 2 + b ^ 2) / 4 :=
    isMinCircle_unique _ _ _ hcircle (isMinCircle_rectangle _ x0 y0 a b hproj)
  have h4 : Real.sqrt 4 = 2 := by
    rw [show (4 : ℝ) = 2 ^ 2 by norm_num]
    exact Real.sqrt_sq (by norm_num)
  have hrad : Real.sqrt (min_circle_squared_radius (projectPoints points)) =
      Real.sqrt (a ^ 2 + b ^ 2) / 2 := by
    rw [hr, Real.sqrt_div (by positivity), h4]
  have hsome : ¬ a < 1 / 10000000000 ∨ ¬ b < 1 / 10000000000 := by
    by_contra hcon
    rw [not_or, not_not, not_not] at hcon
    exact absurd hlong (not_le.mpr (max_lt hcon.1 hcon.2))
  have hmin : 0 < min a b := lt_min ha hb
  have hloop := calipers_loop_rectangle (convex_hull_2 (projectPoints points)) x0 y0 a b
    dbl_max ha hb hx0 hx1 hy0 hy1 hhull
  have hfin :
      (List.range (convex_hull_2 (projectPoints points)).length).foldl
          (calipersStep Real.sqrt dbl_max (convex_hull_2 (projectPoints points)))
          { min_area := dbl_max, best_width := 0, best_height := 0 } =
        { min_area := a * b, best_width := a, best_height := b } ∨
      (List.range (convex_hull_2 (projectPoints points)).length).foldl
          (calipersStep Real.sqrt dbl_max (convex_hull_2 (projectPoints points)))
          { min_area := dbl_max, best_width := 0, best_height := 0 } =
        { min_area := b * a, best_width := b, best_height := a } := by
    rcases hloop with h | h
    · rw [h]
      exact four_edges a a b b b a dbl_max hab (mul_comm a b) hsome
    · rw [h]
      have hba : b * a < dbl_max := by rw [mul_comm]; exact hab
      rcases four_edges b b a a a b dbl_max hba (mul_comm b a) hsome.symm with h' | h'
      · exact Or.inr h'
      · exact Or.inl h'
  rw [hrad]
  rcases hfin with h | h
  · rw [h]
    simp only [gt_iff_lt, hmin, if_true]
  · rw [h]
    simp only [gt_iff_lt]
    rw [max_comm b a, min_comm b a, if_pos hmin]

/-- C11 (amended), instance: the unit square, given in a shuffled order with various
heights, has crown radius `sqrt 2 / 2`, a `1 × 1` bounding rectangle and aspect ratio `1`. -/
theorem calculateCrownRadiusDetailed_rectangle_witness :
    ((0 : ℝ) < 1 ∧ (1 : ℝ) / 10000000000 ≤ max 1 1 ∧
      (∀ p, p ∈ projectPoints (unitSquarePoints ℝ) ↔ p ∈ rectangleCorners (0 : ℝ) 0 1 1) ∧
      IsMinCircleSquaredRadius (projectPoints (unitSquarePoints ℝ)) (((1 : ℝ) ^ 2 + 1 ^ 2) / 4)) ∧
    calculateCrownRadiusDetailed (fun _ => rectangleCorners (0 : ℝ) 0 1 1)
        (fun _ => ((1 : ℝ) ^ 2 + 1 ^ 2) / 4) Real.sqrt 1000000 (unitSquarePoints ℝ) =
      (Real.sqrt ((1 : ℝ) ^ 2 + 1 ^ 2) / 2, max 1 1, min 1 1, max 1 1 / min 1 1) ∧
    (Real.sqrt ((1 : ℝ) ^ 2 + 1 ^ 2) / 2, max (1 : ℝ) 1, min (1 : ℝ) 1,
        max (1 : ℝ) 1 / min 1 1) = (Real.sqrt 2 / 2, 1, 1, 1) := by
  have hproj : ∀ p, p ∈ projectPoints (unitSquarePoints ℝ) ↔
      p ∈ rectangleCorners (0 : ℝ) 0 1 1 := by
    intro p
    simp only [projectPoints, unitSquarePoints, rectangleCorners, List.map_cons, List.map_nil,
      List.mem_cons, List.mem_singleton, List.not_mem_nil, or_false, zero_add]
    tauto
  have hcircle : IsMinCircleSquaredRadius (projectPoints (unitSquarePoints ℝ))
      (((1 : ℝ) ^ 2 + 1 ^ 2) / 4) := isMinCircle_rectangle _ 0 0 1 1 hproj
  refine ⟨⟨one_pos, by norm_num, hproj, hcircle⟩, ?_, ?_⟩
  · exact calculateCrownRadiusDetailed_rectangle (fun _ => rectangleCorners (0 : ℝ) 0 1 1)
      (fun _ => ((1 : ℝ) ^ 2 + 1 ^ 2) / 4) 1000000 (unitSquarePoints ℝ) 0 0 1 1 one_pos one_pos
      (by norm_num) hproj ⟨0, rfl⟩ hcircle (by norm_num) (by norm_num) (by norm_num)
      (by norm_num) (by norm_num)
  · norm_num

/-- C11, counterexample: the four corners of a square of side `10⁻¹¹ > 0`, with the hull
routine returning the corners in counterclockwise order and the circle routine the
squared radius of the minimum enclosing circle, give `max_width = 0` and
`min_width = 0`, not the side length: every hull edge is shorter than `10⁻¹⁰` and is
skipped by the rotating-calipers loop. -/
theorem tiny_square_has_zero_width :
    ((0 : ℝ) < 1 / 100000000000 ∧
      (∀ p, p ∈ projectPoints (tinySquarePoints ℝ) ↔
        p ∈ rectangleCorners (0 : ℝ) 0 (1 / 100000000000) (1 / 100000000000)) ∧
      IsMinCircleSquaredRadius (projectPoints (tinySquarePoints ℝ))
        (((1 / 100000000000 : ℝ) ^ 2 + (1 / 100000000000) ^ 2) / 4)) ∧
    calculateCrownRadiusDetailed
        (fun _ => rectangleCorners (0 : ℝ) 0 (1 / 100000000000) (1 / 100000000000))
        (fun _ => ((1 / 100000000000 : ℝ) ^ 2 + (1 / 100000000000) ^ 2) / 4)
        Real.sqrt 1000000 (tinySquarePoints ℝ) =
      (Real.sqrt (((1 / 100000000000 : ℝ) ^ 2 + (1 / 100000000000) ^ 2) / 4), 0, 0, 1) ∧
    (0 : ℝ) ≠ max (1 / 100000000000) (1 / 100000000000) := by
  have hproj : ∀ p, p ∈ projectPoints (tinySquarePoints ℝ) ↔
      p ∈ rectangleCorners (0 : ℝ) 0 (1 / 100000000000) (1 / 100000000000) := by
    intro p
    simp only [projectPoints, tinySquarePoints, rectangleCorners, List.map_cons, List.map_nil,
      List.mem_cons, List.mem_singleton, List.not_mem_nil, or_false, zero_add]
  have hcircle := isMinCircle_rectangle _ (0 : ℝ) 0 (1 / 100000000000) (1 / 100000000000) hproj
  have ht : (1 / 100000000000 : ℝ) < 1 / 10000000000 := by norm_num
  refine ⟨⟨by norm_num, hproj, hcircle⟩, ?_, by norm_num⟩
  rw [rectangle_general_path
    (fun _ => rectangleCorners (0 : ℝ) 0 (1 / 100000000000) (1 / 100000000000))
    (fun _ => ((1 / 100000000000 : ℝ) ^ 2 + (1 / 100000000000) ^ 2) / 4) 1000000
    (tinySquarePoints ℝ) 0 0 (1 / 100000000000) (1 / 100000000000) hproj ⟨0, rfl⟩ _ rfl]
  have hloop := calipers_loop_rectangle
    (rectangleCorners (0 : ℝ) 0 (1 / 100000000000) (1 / 100000000000)) 0 0
    (1 / 100000000000) (1 / 100000000000) 1000000 (by norm_num) (by norm_num) (by norm_num)
    (by norm_num) (by norm_num) (by norm_num) ⟨0, rfl⟩
  simp only [edgeUpdate_skip _ _ _ _ ht, or_self] at hloop
  simp only [hloop, max_self, min_self, gt_iff_lt, lt_irrefl, if_false]

end CrownRadius

namespace DBHCalculator
variable {α : Type}

theorem planarDistance_comm [LinearOrderedField α] (sqrt : α → α) (p q : Point3D α) :
    planarDistance sqrt p q = planarDistance sqrt q p := by
  unfold planarDistance
  congr 1
  ring

theorem isNear_eq [LinearOrderedField α] (sqrt : α → α) (threshold : α)
    (points : List (Point3D α)) (i j : Nat) (p q : Point3D α)
    (hi : points[i]? = some p) (hj : points[j]? = some q) :
    isNear sqrt threshold points i j = decide (planarDistance sqrt p q < threshold) := by
  unfold isNear
  rw [hi, hj]

theorem bridgeSlice_near :
    isNear Real.sqrt (3 / 10) (bridgeSlice ℝ) 0 0 = true ∧
    isNear Real.sqrt (3 / 10) (bridgeSlice ℝ) 0 1 = true ∧
    isNear Real.sqrt (3 / 10) (bridgeSlice ℝ) 0 2 = false ∧
    isNear Real.sqrt (3 / 10) (bridgeSlice ℝ) 1 2 = true ∧
    isNear Real.sqrt (3 / 10) (bridgeSlice ℝ) 2 2 = true ∧
    isNear Real.sqrt (3 / 10) (bridgeSlice ℝ) 1 0 = true ∧
    isNear Real.sqrt (3 / 10) (bridgeSlice ℝ) 2 1 = true := by
  refine ⟨?_, ?_, ?_, ?_, ?_, ?_, ?_⟩
  · rw [isNear_eq Real.sqrt _ (bridgeSlice ℝ) 0 0 ⟨0, 0, 13 / 10, 1⟩ ⟨0, 0, 13 / 10, 1⟩ rfl rfl,
      planarDistance_on_axis, decide_eq_true_iff]
    norm_num
  · rw [isNear_eq Real.sqrt _ (bridgeSlice ℝ) 0 1 ⟨0, 0, 13 / 10, 1⟩ ⟨25 / 100, 0, 13 / 10, 1⟩
      rfl rfl, planarDistance_on_axis, decide_eq_true_iff, abs_of_nonpos (by norm_num)]
    norm_num
  · rw [isNear_eq Real.sqrt _ (bridgeSlice ℝ) 0 2 ⟨0, 0, 13 / 10, 1⟩ ⟨5 / 10, 0, 13 / 10, 1⟩
      rfl rfl, planarDistance_on_axis, decide_eq_false_iff_not, abs_of_nonpos (by norm_num)]
    norm_num
  · rw [isNear_eq Real.sqrt _ (bridgeSlice ℝ) 1 2 ⟨25 / 100, 0, 13 / 10, 1⟩
      ⟨5 / 10, 0, 13 / 10, 1⟩ rfl rfl, planarDistance_on_axis, decide_eq_true_iff,
      abs_of_nonpos (by norm_num)]
    norm_num
  · rw [isNear_eq Real.sqrt _ (bridgeSlice ℝ) 2 2 ⟨5 / 10, 0, 13 / 10, 1⟩
      ⟨5 / 10, 0, 13 / 10, 1⟩ rfl rfl, planarDistance_on_axis, decide_eq_true_iff]
    norm_num
  · rw [isNear_eq Real.sqrt _ (bridgeSlice ℝ) 1 0 ⟨25 / 100, 0, 13 / 10, 1⟩
      ⟨0, 0, 13 / 10, 1⟩ rfl rfl, planarDistance_on_axis, decide_eq_true_iff,
      abs_of_nonneg (by norm_num)]
    norm_num
  · rw [isNear_eq Real.sqrt _ (bridgeSlice ℝ) 2 1 ⟨5 / 10, 0, 13 / 10, 1⟩
      ⟨25 / 100, 0, 13 / 10, 1⟩ rfl rfl, planarDistance_on_axis, decide_eq_true_iff,
      abs_of_nonneg (by norm_num)]
    norm_num

theorem bridgeSlice_stemCount : detectStemCount Real.sqrt (bridgeSlice ℝ) (3 / 10) = 2 := by
  obtain ⟨h00, h01, h02, _, h22, _, _⟩ := bridgeSlice_near
  have hlen : (bridgeSlice ℝ).length = 3 := rfl
  have hne : (bridgeSlice ℝ).isEmpty = false := rfl
  simp [detectStemCount, markNear, hlen, hne, List.range_succ, List.range'_succ,
    h00, h01, h02, h22]

theorem bridgeSliceReordered_stemCount :
    detectStemCount Real.sqrt (bridgeSliceReordered ℝ) (3 / 10) = 1 := by
  apply detectStemCount_eq_one
  intro q hq
  simp only [List.mem_cons, List.mem_singleton, List.not_mem_nil, or_false] at hq
  rcases hq with rfl | rfl | rfl <;> rw [planarDistance_on_axis] <;>
    norm_num [abs_of_nonneg, abs_of_nonpos]

/-- C23: stem-count clustering is not a connected-components count.  For the slice of the
points `x = 0, 0.25, 0.5` on one line, in that array order, with threshold 0.3, the graph
joining points at planar distance below 0.3 has exactly one connected component (the
middle point is near both others), while `detectStemCount` returns 2: the third point is
linked to the first only through the second and is not merged. -/
theorem stem_count_exceeds_components :
    isNear Real.sqrt (3 / 10) (bridgeSlice ℝ) 0 1 = true ∧
    isNear Real.sqrt (3 / 10) (bridgeSlice ℝ) 1 2 = true ∧
    isNear Real.sqrt (3 / 10) (bridgeSlice ℝ) 0 2 = false ∧
    IsComponentCount Real.sqrt (3 / 10) (bridgeSlice ℝ) 1 ∧
    (∀ k, IsComponentCount Real.sqrt (3 / 10) (bridgeSlice ℝ) k → k = 1) ∧
    detectStemCount Real.sqrt (bridgeSlice ℝ) (3 / 10) = 2 ∧
    (∀ k, IsComponentCount Real.sqrt (3 / 10) (bridgeSlice ℝ) k →
      k < detectStemCount Real.sqrt (bridgeSlice ℝ) (3 / 10)) := by
  obtain ⟨h00, h01, h02, h12, h22, h10, h21⟩ := bridgeSlice_near
  have hlen : (bridgeSlice ℝ).length = 3 := rfl
  have j01 : Joined Real.sqrt (3 / 10) (bridgeSlice ℝ) 0 1 := Relation.ReflTransGen.single h01
  have j12 : Joined Real.sqrt (3 / 10) (bridgeSlice ℝ) 1 2 := Relation.ReflTransGen.single h12
  have j10 : Joined Real.sqrt (3 / 10) (bridgeSlice ℝ) 1 0 := Relation.ReflTransGen.single h10
  have j21 : Joined Real.sqrt (3 / 10) (bridgeSlice ℝ) 2 1 := Relation.ReflTransGen.single h21
  have jall : ∀ a b, a < 3 → b < 3 → Joined Real.sqrt (3 / 10) (bridgeSlice ℝ) a b := by
    intro a b ha hb
    interval_cases a <;> interval_cases b
    · exact Relation.ReflTransGen.refl
    · exact j01
    · exact j01.trans j12
    · exact j10
    · exact Relation.ReflTransGen.refl
    · exact j12
    · exact j21.trans j10
    · exact j21
    · exact Relation.ReflTransGen.refl
  have hone : IsComponentCount Real.sqrt (3 / 10) (bridgeSlice ℝ) 1 := by
    refine ⟨[0], rfl, ?_, List.pairwise_singleton _ _, ?_⟩
    · intro r hr
      rw [List.mem_singleton.mp hr, hlen]
      decide
    · intro i hi
      rw [hlen] at hi
      exact ⟨0, List.mem_singleton.mpr rfl, jall 0 i (by decide) hi⟩
  have huniq : ∀ k, IsComponentCount Real.sqrt (3 / 10) (bridgeSlice ℝ) k → k = 1 := by
    rintro k ⟨reps, hk, hlt, hpair, hcover⟩
    rw [hlen] at hlt hcover
    cases reps with
    | nil =>
      obtain ⟨r, hr, _⟩ := hcover 0 (by decide)
      exact absurd hr (List.not_mem_nil r)
    | cons a tl =>
      cases tl with
      | nil => exact hk.symm
      | cons b tl =>
        have hab := (List.pairwise_cons.mp hpair).1 b (List.mem_cons_self b tl)
        exact absurd (jall a b (hlt a (List.mem_cons_self a _))
          (hlt b (List.mem_cons_of_mem a (List.mem_cons_self b tl)))) hab
  refine ⟨h01, h12, h02, hone, huniq, bridgeSlice_stemCount, ?_⟩
  intro k hk
  rw [huniq k hk, bridgeSlice_stemCount]
  decide

theorem pair_sublist_perm {β : Type} (p q : β) (S S' : List β) (hperm : S.Perm S')
    (h : List.Sublist [p, q] S) : List.Sublist [p, q] S' ∨ List.Sublist [q, p] S' := by
  obtain ⟨l, hl, hsub⟩ := h.subperm.trans hperm.subperm
  have hlen : l.length = 2 := hl.length_eq
  match l, hlen with
  | [a, b], _ =>
    have ha : a ∈ [p, q] := hl.subset (List.mem_cons_self a _)
    simp only [List.mem_cons, List.mem_singleton, List.not_mem_nil, or_false] at ha
    rcases ha with rfl | rfl
    · have hb : [b].Perm [q] := (List.perm_cons a).mp hl
      rw [List.perm_singleton.mp hb] at hsub
      exact Or.inl hsub
    · have hb : [b].Perm [p] := (List.perm_cons a).mp (hl.trans (List.Perm.swap a p []))
      rw [List.perm_singleton.mp hb] at hsub
      exact Or.inr hsub

theorem isMaxPairDistance_perm [LinearOrderedField α] (sqrt : α → α) (S S' : List (Point3D α))
    (D : α) (hperm : S.Perm S') (h : IsMaxPairDistance sqrt S D) :
    IsMaxPairDistance sqrt S' D := by
  refine ⟨fun hlt => h.1 (by rw [hperm.length_eq]; exact hlt), fun hge => ?_⟩
  obtain ⟨⟨p, q, hpq, hd⟩, hmax⟩ := h.2 (by rw [hperm.length_eq]; exact hge)
  refine ⟨?_, ?_⟩
  · rcases pair_sublist_perm p q S S' hperm hpq with h' | h'
    · exact ⟨p, q, h', hd⟩
    · exact ⟨q, p, h', by rw [planarDistance_comm, hd]⟩
  · intro a b hab
    rcases pair_sublist_perm a b S' S hperm.symm hab with h' | h'
    · exact hmax a b h'
    · rw [planarDistance_comm]; exact hmax b a h'

/-- The slice diameter does not depend on the order of the points. -/
theorem calculateDiameterFromPoints_perm [LinearOrderedField α] (sqrt : α → α)
    (hsqrt : ∀ x, 0 ≤ sqrt x) (S S' : List (Point3D α)) (hperm : S.Perm S') :
    calculateDiameterFromPoints sqrt S = calculateDiameterFromPoints sqrt S' :=
  isMaxPairDistance_unique sqrt S' _ _
    (isMaxPairDistance_perm sqrt S S' _ hperm (calculateDiameterFromPoints_isMax sqrt hsqrt S))
    (calculateDiameterFromPoints_isMax sqrt hsqrt S')

theorem bridgeSlice_slice :
    TreeModel.getPointsAtHeight (bridgeSlice ℝ) (13 / 10) (5 / 100) = bridgeSlice ℝ ∧
    TreeModel.getPointsAtHeight (bridgeSliceReordered ℝ) (13 / 10) (5 / 100) =
      bridgeSliceReordered ℝ := by
  have h3 : (0 : ℝ) ≤ 5 / 100 := by norm_num
  constructor <;>
    simp [TreeModel.getPointsAtHeight, bridgeSlice, bridgeSliceReordered, List.filter_cons, h3]

theorem bridgeSlice_diameter :
    calculateDiameterFromPoints Real.sqrt (bridgeSlice ℝ) = 5 / 10 := by
  have e1 : |(0 : ℝ) - 25 / 100| = 25 / 100 := by rw [abs_of_nonpos (by norm_num)]; norm_num
  have e2 : |(0 : ℝ) - 5 / 10| = 5 / 10 := by rw [abs_of_nonpos (by norm_num)]; norm_num
  have e3 : |(25 / 100 : ℝ) - 5 / 10| = 25 / 100 := by
    rw [abs_of_nonpos (by norm_num)]; norm_num
  simp only [calculateDiameterFromPoints, bridgeSlice, List.isEmpty_cons, Bool.false_eq_true,
    if_false, maxDistLoop, List.foldl_cons, List.foldl_nil, planarDistance_on_axis, e1, e2, e3]
  norm_num

theorem bridgeSlice_perm : (bridgeSlice ℝ).Perm (bridgeSliceReordered ℝ) :=
  List.Perm.swap _ _ _

theorem bridgeSlice_calculate :
    calculate Real.sqrt (fun x y => x ^ y) "tree.obj" (some (bridgeSlice ℝ)) 2 =
      { success := true, dbh_cm := 25 * Real.sqrt 2, method_used := "合成胸径法",
        error_message := "" } := by
  have hk : detectStemCount Real.sqrt ((⟨0, 0, 13 / 10, 1⟩ : Point3D ℝ) ::
      [⟨25 / 100, 0, 13 / 10, 1⟩, ⟨5 / 10, 0, 13 / 10, 1⟩]) (3 / 10) = 2 := bridgeSlice_stemCount
  have hd : calculateDiameterFromPoints Real.sqrt ((⟨0, 0, 13 / 10, 1⟩ : Point3D ℝ) ::
      [⟨25 / 100, 0, 13 / 10, 1⟩, ⟨5 / 10, 0, 13 / 10, 1⟩]) = 5 / 10 := bridgeSlice_diameter
  have hsl : TreeModel.getPointsAtHeight (bridgeSlice ℝ) (13 / 10) (5 / 100) =
      (⟨0, 0, 13 / 10, 1⟩ : Point3D ℝ) ::
        [⟨25 / 100, 0, 13 / 10, 1⟩, ⟨5 / 10, 0, 13 / 10, 1⟩] := bridgeSlice_slice.1
  have hM0 : calculateMethod1 Real.sqrt (bridgeSlice ℝ) = 25 * Real.sqrt 2 := by
    rw [calculateMethod1_of_slice Real.sqrt (bridgeSlice ℝ) _ _ hsl, hk, hd,
      if_neg (by decide)]
    push_cast
    ring
  have hM : calculateMethod1 Real.sqrt ((⟨0, 0, 13 / 10, 1⟩ : Point3D ℝ) ::
      [⟨25 / 100, 0, 13 / 10, 1⟩, ⟨5 / 10, 0, 13 / 10, 1⟩]) = 25 * Real.sqrt 2 := hM0
  have hpos : (0 : ℝ) < 25 * Real.sqrt 2 := by positivity
  have hc := calculate_of_value Real.sqrt (fun x y => x ^ y) "tree.obj"
    (⟨0, 0, 13 / 10, 1⟩ : Point3D ℝ) [⟨25 / 100, 0, 13 / 10, 1⟩, ⟨5 / 10, 0, 13 / 10, 1⟩] 2
    (by norm_num)
  rw [if_pos (by norm_num : (13 / 10 : ℝ) < 2), hM, if_pos hpos,
    if_pos (by norm_num : (13 / 10 : ℝ) < 2)] at hc
  exact hc

theorem bridgeSliceReordered_calculate :
    calculate Real.sqrt (fun x y => x ^ y) "tree.obj" (some (bridgeSliceReordered ℝ)) 2 =
      { success := true, dbh_cm := 50, method_used := "合成胸径法", error_message := "" } := by
  have hk : detectStemCount Real.sqrt ((⟨25 / 100, 0, 13 / 10, 1⟩ : Point3D ℝ) ::
      [⟨0, 0, 13 / 10, 1⟩, ⟨5 / 10, 0, 13 / 10, 1⟩]) (3 / 10) = 1 :=
    bridgeSliceReordered_stemCount
  have hd : calculateDiameterFromPoints Real.sqrt ((⟨25 / 100, 0, 13 / 10, 1⟩ : Point3D ℝ) ::
      [⟨0, 0, 13 / 10, 1⟩, ⟨5 / 10, 0, 13 / 10, 1⟩]) = 5 / 10 :=
    (calculateDiameterFromPoints_perm Real.sqrt Real.sqrt_nonneg _ _ bridgeSlice_perm).symm.trans
      bridgeSlice_diameter
  have hsl : TreeModel.getPointsAtHeight (bridgeSliceReordered ℝ) (13 / 10) (5 / 100) =
      (⟨25 / 100, 0, 13 / 10, 1⟩ : Point3D ℝ) ::
        [⟨0, 0, 13 / 10, 1⟩, ⟨5 / 10, 0, 13 / 10, 1⟩] := bridgeSlice_slice.2
  have hM0 : calculateMethod1 Real.sqrt (bridgeSliceReordered ℝ) = 50 := by
    rw [calculateMethod1_of_slice Real.sqrt (bridgeSliceReordered ℝ) _ _ hsl, if_pos hk, hd]
    norm_num
  have hM : calculateMethod1 Real.sqrt ((⟨25 / 100, 0, 13 / 10, 1⟩ : Point3D ℝ) ::
      [⟨0, 0, 13 / 10, 1⟩, ⟨5 / 10, 0, 13 / 10, 1⟩]) = 50 := hM0
  have hc := calculate_of_value Real.sqrt (fun x y => x ^ y) "tree.obj"
    (⟨25 / 100, 0, 13 / 10, 1⟩ : Point3D ℝ) [⟨0, 0, 13 / 10, 1⟩, ⟨5 / 10, 0, 13 / 10, 1⟩] 2
    (by norm_num)
  rw [if_pos (by norm_num : (13 / 10 : ℝ) < 2), hM, if_pos (by norm_num : (0 : ℝ) < 50),
    if_pos (by norm_num : (13 / 10 : ℝ) < 2)] at hc
  exact hc

/-- C27: the stem count depends on the array order of the slice.  The slice
`x = 0, 0.25, 0.5` (on one line, threshold 0.3) is counted as 2 stems and its reordering
`x = 0.25, 0, 0.5` as 1 stem, so for the same mesh geometry with `h0 = 2` the computed DBH
is `25 * sqrt 2` for one vertex order and `50` for the other.  The slice diameter is
invariant under every permutation of the points. -/
theorem stem_count_depends_on_order :
    (bridgeSlice ℝ).Perm (bridgeSliceReordered ℝ) ∧
    detectStemCount Real.sqrt (bridgeSlice ℝ) (3 / 10) = 2 ∧
    detectStemCount Real.sqrt (bridgeSliceReordered ℝ) (3 / 10) = 1 ∧
    detectStemCount Real.sqrt (bridgeSlice ℝ) (3 / 10) ≠
      detectStemCount Real.sqrt (bridgeSliceReordered ℝ) (3 / 10) ∧
    (calculate Real.sqrt (fun x y => x ^ y) "tree.obj" (some (bridgeSlice ℝ)) 2).success = true ∧
    (calculate Real.sqrt (fun x y => x ^ y) "tree.obj"
      (some (bridgeSliceReordered ℝ)) 2).success = true ∧
    (calculate Real.sqrt (fun x y => x ^ y) "tree.obj" (some (bridgeSlice ℝ)) 2).dbh_cm =
      25 * Real.sqrt 2 ∧
    (calculate Real.sqrt (fun x y => x ^ y) "tree.obj"
      (some (bridgeSliceReordered ℝ)) 2).dbh_cm = 50 ∧
    (calculate Real.sqrt (fun x y => x ^ y) "tree.obj" (some (bridgeSlice ℝ)) 2).dbh_cm ≠
      (calculate Real.sqrt (fun x y => x ^ y) "tree.obj"
        (some (bridgeSliceReordered ℝ)) 2).dbh_cm ∧
    (∀ S S' : List (Point3D ℝ), S.Perm S' →
      calculateDiameterFromPoints Real.sqrt S = calculateDiameterFromPoints Real.sqrt S') := by
  have hne : (25 : ℝ) * Real.sqrt 2 ≠ 50 := by
    intro h
    have h2 : Real.sqrt 2 = 2 := by linarith
    have hsq := Real.mul_self_sqrt (by norm_num : (0 : ℝ) ≤ 2)
    rw [h2] at hsq
    norm_num at hsq
  rw [bridgeSlice_calculate, bridgeSliceReordered_calculate, bridgeSlice_stemCount,
    bridgeSliceReordered_stemCount]
  exact ⟨bridgeSlice_perm, rfl, rfl, by decide, rfl, rfl, rfl, rfl, hne,
    calculateDiameterFromPoints_perm Real.sqrt Real.sqrt_nonneg⟩

end DBHCalculator

variable {α : Type}

/-- If no value of `B` exceeds a value of `A`, then `|B| * sum A ≥ |A| * sum B`. -/
theorem sum_cross_le [LinearOrderedField α] (A B : List α)
    (h : ∀ a ∈ A, ∀ b ∈ B, b ≤ a) :
    (A.length : α) * B.sum ≤ (B.length : α) * A.sum := by
  induction A with
  | nil => simp
  | cons a A ih =>
    have hB : B.sum ≤ (B.length : α) * a := by
      have := List.sum_le_card_nsmul B a (fun b hb => h a (List.mem_cons_self a A) b hb)
      simpa [nsmul_eq_mul] using this
    have ih' := ih (fun x hx b hb => h x (List.mem_cons_of_mem a hx) b hb)
    simp only [List.length_cons, List.sum_cons, Nat.cast_add, Nat.cast_one]
    nlinarith

/-- The mean of the first `k` values of a descending list is at least the mean of all. -/
theorem mean_take_desc_ge [LinearOrderedField α] (l : List α) (k : Nat)
    (hsorted : l.Pairwise (fun a b => b ≤ a)) (hk : 0 < k) (hkl : k ≤ l.length) :
    l.sum / (l.length : α) ≤ (l.take k).sum / (k : α) := by
  have hsplit := List.take_append_drop k l
  have hpair : ∀ a ∈ l.take k, ∀ b ∈ l.drop k, b ≤ a := by
    rw [← hsplit] at hsorted
    exact (List.pairwise_append.mp hsorted).2.2
  have hcross := sum_cross_le (l.take k) (l.drop k) hpair
  have hlenT : (l.take k).length = k := by rw [List.length_take]; omega
  have hlenD : (l.drop k).length = l.length - k := List.length_drop k l
  have hsum : l.sum = (l.take k).sum + (l.drop k).sum := by
    conv_lhs => rw [← hsplit]
    exact List.sum_append
  have hkpos : (0 : α) < (k : α) := by exact_mod_cast hk
  have hlpos : (0 : α) < (l.length : α) := by exact_mod_cast (lt_of_lt_of_le hk hkl)
  have hlen : (l.length : α) = (k : α) + ((l.length - k : Nat) : α) := by
    rw [← Nat.cast_add]
    congr 1
    omega
  rw [hlenT, hlenD] at hcross
  rw [div_le_div_iff₀ hlpos hkpos, hsum, hlen]
  nlinarith

/-- The mean of the first `k` values of an ascending list is at most the mean of all. -/
theorem mean_take_asc_le [LinearOrderedField α] (l : List α) (k : Nat)
    (hsorted : l.Pairwise (fun a b => a ≤ b)) (hk : 0 < k) (hkl : k ≤ l.length) :
    (l.take k).sum / (k : α) ≤ l.sum / (l.length : α) := by
  have hsplit := List.take_append_drop k l
  have hpair : ∀ b ∈ l.drop k, ∀ a ∈ l.take k, a ≤ b := by
    rw [← hsplit] at hsorted
    intro b hb a ha
    exact (List.pairwise_append.mp hsorted).2.2 a ha b hb
  have hcross := sum_cross_le (l.drop k) (l.take k) hpair
  have hlenT : (l.take k).length = k := by rw [List.length_take]; omega
  have hlenD : (l.drop k).length = l.length - k := List.length_drop k l
  have hsum : l.sum = (l.take k).sum + (l.drop k).sum := by
    conv_lhs => rw [← hsplit]
    exact List.sum_append
  have hkpos : (0 : α) < (k : α) := by exact_mod_cast hk
  have hlpos : (0 : α) < (l.length : α) := by exact_mod_cast (lt_of_lt_of_le hk hkl)
  have hlen : (l.length : α) = (k : α) + ((l.length - k : Nat) : α) := by
    rw [← Nat.cast_add]
    congr 1
    omega
  rw [hlenT, hlenD] at hcross
  rw [div_le_div_iff₀ hkpos hlpos, hsum, hlen]
  nlinarith

/-- The core of the comparison of tree height and crown-base height: the mean of the
largest values is at least the mean of the smallest values. -/
theorem calculateH0_le_tree_height [LinearOrderedField α] (points : List (Point3D α))
    (top_n bottom_n : Int) (hne : points ≠ []) (ht : 0 < top_n) (hb : 0 < bottom_n) :
    CrownDepth.calculateH0 points bottom_n ≤
      TreeHeight.calculateAverageHeight (TreeHeight.getTopNPoints points top_n) := by
  rw [CrownDepth.h0_eq points bottom_n hb, TreeHeight.tree_height_eq points top_n ht]
  obtain ⟨hpd, hsd⟩ := sort_desc_z points
  obtain ⟨hpa, hsa⟩ := sort_asc_z points
  have hlen : 0 < points.length := List.length_pos.mpr hne
  have hld : ((stdSort (fun a b : Point3D α => decide (a.z > b.z)) points).map
      (fun q => q.z)).length = points.length := by
    rw [hpd.length_eq, List.length_map]
  have hla : ((stdSort (fun a b : Point3D α => decide (a.z < b.z)) points).map
      (fun q => q.z)).length = points.length := by
    rw [hpa.length_eq, List.length_map]
  have hkt : 0 < (min top_n (points.length : Int)).toNat ∧
      (min top_n (points.length : Int)).toNat ≤ points.length := by omega
  have hkb : 0 < (min bottom_n (points.length : Int)).toNat ∧
      (min bottom_n (points.length : Int)).toNat ≤ points.length := by omega
  have h1 := mean_take_desc_ge _ _ hsd hkt.1 (by rw [hld]; exact hkt.2)
  have h2 := mean_take_asc_le _ _ hsa hkb.1 (by rw [hla]; exact hkb.2)
  rw [hld, hpd.sum_eq] at h1
  rw [hla, hpa.sum_eq] at h2
  exact le_trans h2 h1

namespace StructureExtractor
variable {α : Type}

theorem extractLeafNodes_no_edges [One α] (vertices : List (Point_3 α)) (radii : List α) :
    extractLeafNodes ({ vertices := vertices, radii := radii, edges := [] } : TreeSkeleton α) =
      some { nodes := [] } := by
  have hleaf : ∀ i, leafAt ({ vertices := vertices, radii := radii, edges := [] } :
      TreeSkeleton α) (List.replicate vertices.length 0) i = none := by
    intro i
    unfold leafAt
    rw [if_neg]
    intro h
    rw [List.getElem?_replicate] at h
    split_ifs at h
    simp at h
  simp only [extractLeafNodes, countDegrees]
  congr 2
  apply List.filterMap_eq_nil_iff.mpr
  intro i _
  exact hleaf i

/-- C22 (counterexample): for the readable three-vertex skeleton without edges the
per-skeleton filtering step reports `total_leaves = 0` but sets the error message
"No leaf nodes found" and returns `success = false`. -/
theorem edgeless_skeleton_is_reported_as_error :
    (edgelessSkeleton ℚ).vertices ≠ [] ∧ (edgelessSkeleton ℚ).edges = [] ∧
    extractLeafNodes (edgelessSkeleton ℚ) = some { nodes := [] } ∧
    filterLeafNodesOfFile (fun x => x) true ".ply" "out/tree_filtered.xyz"
        (some (edgelessSkeleton ℚ)) true "in/tree.ply" (15 / 100) =
      some { success := false, error_message := "No leaf nodes found",
             output_file := "out/tree_filtered.xyz", total_leaves := 0,
             filtered_leaves := 0 } ∧
    ("No leaf nodes found" : String) ≠ "" := by
  have hx := extractLeafNodes_no_edges (edgelessSkeleton ℚ).vertices (edgelessSkeleton ℚ).radii
  have hx' : extractLeafNodes (edgelessSkeleton ℚ) = some { nodes := [] } := hx
  refine ⟨by simp [edgelessSkeleton], rfl, hx', ?_, by decide⟩
  unfold filterLeafNodesOfFile
  simp only [Bool.not_true, Bool.false_eq_true, if_false, ne_eq, not_true_eq_false, hx']
  rfl

/-- C22 (amended): for every skeleton with vertices but no edges, leaf extraction yields
an empty leaf set, and the per-skeleton filtering step on such a readable skeleton
reports `total_leaves = 0` and `filtered_leaves = 0`, sets the error message
"No leaf nodes found" and returns `success = false`, whatever the filter percentage and
the outcome of writing would be. -/
theorem filterLeafNodesOfFile_no_edges [LinearOrderedField α] [FloorRing α] (sqrt : α → α)
    (vertices : List (Point_3 α)) (radii : List α) (output_path input_ply_path : String)
    (write_ok : Bool) (filter_percentage : α) :
    extractLeafNodes ({ vertices := vertices, radii := radii, edges := [] } : TreeSkeleton α) =
      some { nodes := [] } ∧
    filterLeafNodesOfFile sqrt true ".ply" output_path
        (some { vertices := vertices, radii := radii, edges := [] }) write_ok
        input_ply_path filter_percentage =
      some { success := false, error_message := "No leaf nodes found",
             output_file := output_path, total_leaves := 0, filtered_leaves := 0 } := by
  have hx := extractLeafNodes_no_edges vertices radii
  refine ⟨hx, ?_⟩
  unfold filterLeafNodesOfFile
  simp only [Bool.not_true, Bool.false_eq_true, if_false, ne_eq, not_true_eq_false, hx]
  rfl

/-- Every extracted leaf carries the height of a skeleton vertex. -/
theorem extractLeafNodes_height_mem [One α] (skeleton : TreeSkeleton α) (leaves : LeafNodes α)
    (hx : extractLeafNodes skeleton = some leaves) :
    ∀ node ∈ leaves.nodes, ∃ v ∈ skeleton.vertices, node.height = v.z := by
  unfold extractLeafNodes at hx
  cases hc : countDegrees skeleton.edges (List.replicate skeleton.vertices.length 0) with
  | none => rw [hc] at hx; exact absurd hx (by simp)
  | some degree =>
    rw [hc] at hx
    simp only [Option.some.injEq] at hx
    intro node hnode
    rw [← hx] at hnode
    obtain ⟨i, _, hi⟩ := List.mem_filterMap.mp hnode
    unfold leafAt at hi
    by_cases hd : degree[i]? = some 1
    · rw [if_pos hd] at hi
      obtain ⟨v, hv, hvn⟩ := Option.map_eq_some'.mp hi
      exact ⟨v, List.getElem?_mem hv, by rw [← hvn]⟩
    · rw [if_neg hd] at hi
      exact absurd hi (by simp)

/-- Two vertex heights differ by at most the skeleton height. -/
theorem calculateSkeletonHeight_spread [LinearOrderedField α] (skeleton : TreeSkeleton α)
    (v w : Point_3 α) (hv : v ∈ skeleton.vertices) (hw : w ∈ skeleton.vertices) :
    v.z - w.z ≤ calculateSkeletonHeight skeleton := by
  unfold calculateSkeletonHeight
  cases hvs : skeleton.vertices with
  | nil => rw [hvs] at hv; exact absurd hv (List.not_mem_nil v)
  | cons v0 rest =>
    rw [hvs] at hv hw
    simp only
    have h1 := (CrownRadius.foldl_min_le (fun p : Point_3 α => p.z) (v0 :: rest) v0.z).2.1 w hw
    have h2 := (CrownRadius.foldl_max_ge (fun p : Point_3 α => p.z) (v0 :: rest) v0.z).2.1 v hv
    linarith

/-- The mean of values between `lo` and `hi` lies between `lo` and `hi`. -/
theorem mean_mem_range [LinearOrderedField α] (hs : List α) (lo hi : α) (hne : hs ≠ [])
    (h : ∀ a ∈ hs, lo ≤ a ∧ a ≤ hi) :
    lo ≤ hs.sum / (hs.length : α) ∧ hs.sum / (hs.length : α) ≤ hi := by
  have hpos : (0 : α) < (hs.length : α) := by exact_mod_cast List.length_pos.mpr hne
  have h1 := List.card_nsmul_le_sum hs lo (fun a ha => (h a ha).1)
  have h2 := List.sum_le_card_nsmul hs hi (fun a ha => (h a ha).2)
  rw [nsmul_eq_mul] at h1 h2
  constructor
  · rw [le_div_iff₀ hpos]; linarith
  · rw [div_le_iff₀ hpos]; linarith

theorem neighborCount_one [LinearOrderedField α] [FloorRing α] (L : Nat) (hL : 1 ≤ L) :
    neighborCount L (1 : α) = (L : Int) ∧ topCount (L : Int) (1 : α) = (L : Int) := by
  have hL' : (1 : Int) ≤ (L : Int) := by exact_mod_cast hL
  constructor
  · unfold neighborCount
    rw [mul_one, truncToInt_of_nonneg _ (Nat.cast_nonneg L), Int.floor_natCast]
    exact max_eq_right hL'
  · unfold topCount
    rw [mul_one, Int.cast_natCast, truncToInt_of_nonneg _ (Nat.cast_nonneg L),
      Int.floor_natCast]
    exact max_eq_right hL'

/-- When `topN` is at least the number of neighbour heights, the reference height is the
mean of all of them. -/
theorem referenceHeight_all [LinearOrderedField α] (topN : Int) (hs : List α)
    (htop : (hs.length : Int) ≤ topN) :
    referenceHeight topN hs = hs.sum / (hs.length : α) := by
  symm
  apply (referenceHeight_isMean topN hs _).mp
  have hk : (min topN (hs.length : Int)).toNat = hs.length := by omega
  rw [hk]
  exact ⟨hs, [], by simp, rfl, by simp, rfl⟩

/-- With a neighbour count of at least `L - 1` the neighbours of a leaf are all the other
leaves. -/
theorem findNearestNeighbors_all [LinearOrderedField α] (sqrt : α → α)
    (leaves : LeafNodes α) (t : Nat) (ht : t < leaves.nodes.length) (n : Int)
    (hn : (leaves.nodes.length : Int) - 1 ≤ n) :
    ∃ nbrs, findNearestNeighbors sqrt leaves (t : Int) n = some nbrs ∧
      nbrs.Perm ((List.range leaves.nodes.length).filter (fun j => decide (j ≠ t))) := by
  obtain ⟨r, hr, hlen, hnd, hmem, _, _⟩ :=
    findNearestNeighbors_core sqrt leaves t ht n (by omega)
  refine ⟨r, hr, ?_⟩
  apply (List.subperm_of_subset hnd ?_).perm_of_length_le
  · rw [length_filter_ne_range _ _ ht]
    omega
  · intro j hj
    obtain ⟨h1, h2⟩ := hmem j hj
    exact List.mem_filter.mpr ⟨List.mem_range.mpr h1, by simpa using h2⟩

/-- With percentage 1 every leaf is compared with the mean height of all other leaves,
and the deviation is at most the skeleton height. -/
theorem reference_height_at_one [LinearOrderedField α] [FloorRing α] (sqrt : α → α)
    (skeleton : TreeSkeleton α) (leaves : LeafNodes α)
    (hx : extractLeafNodes skeleton = some leaves) (h2 : 2 ≤ leaves.nodes.length)
    (i : Nat) (node : LeafNode α) (hnode : leaves.nodes[i]? = some node) :
    ∃ nbrs, findNearestNeighbors sqrt leaves (i : Int)
        (neighborCount leaves.nodes.length (1 : α)) = some nbrs ∧
      nbrs.Perm ((List.range leaves.nodes.length).filter (fun j => decide (j ≠ i))) ∧
      referenceHeight (topCount (neighborCount leaves.nodes.length (1 : α)) (1 : α))
          (nbrs.map (heightAt leaves)) =
        (((List.range leaves.nodes.length).filter (fun j => decide (j ≠ i))).map
          (heightAt leaves)).sum / ((leaves.nodes.length - 1 : Nat) : α) ∧
      |referenceHeight (topCount (neighborCount leaves.nodes.length (1 : α)) (1 : α))
          (nbrs.map (heightAt leaves)) - node.height| ≤
        calculateSkeletonHeight skeleton * 1 := by
  obtain ⟨hi, hget⟩ := List.getElem?_eq_some_iff.mp hnode
  obtain ⟨hn, htop⟩ := @neighborCount_one α _ _ leaves.nodes.length (by omega)
  rw [hn, htop]
  obtain ⟨nbrs, hnb, hperm⟩ := findNearestNeighbors_all sqrt leaves i hi
    (leaves.nodes.length : Int) (by omega)
  have hlen : (nbrs.map (heightAt leaves)).length = leaves.nodes.length - 1 := by
    rw [List.length_map, hperm.length_eq, length_filter_ne_range _ _ hi]
  have href := referenceHeight_all (leaves.nodes.length : Int) (nbrs.map (heightAt leaves))
    (by rw [hlen]; omega)
  have hsum : (nbrs.map (heightAt leaves)).sum =
      (((List.range leaves.nodes.length).filter (fun j => decide (j ≠ i))).map
        (heightAt leaves)).sum := (hperm.map _).sum_eq
  have hmem := extractLeafNodes_height_mem skeleton leaves hx
  obtain ⟨w, hw, hwz⟩ := hmem node (List.getElem?_mem hnode)
  have hbound : ∀ a ∈ nbrs.map (heightAt leaves),
      node.height - calculateSkeletonHeight skeleton ≤ a ∧
      a ≤ node.height + calculateSkeletonHeight skeleton := by
    intro a ha
    obtain ⟨j, hj, rfl⟩ := List.mem_map.mp ha
    have hjl : j < leaves.nodes.length :=
      List.mem_range.mp (List.mem_filter.mp ((hperm.mem_iff).mp hj)).1
    have hh : heightAt leaves j = (leaves.nodes[j]).height := by
      simp [heightAt, List.getElem?_eq_getElem hjl]
    obtain ⟨v, hv, hvz⟩ := hmem _ (List.getElem_mem hjl)
    rw [hh, hvz, hwz]
    have s1 := calculateSkeletonHeight_spread skeleton v w hv hw
    have s2 := calculateSkeletonHeight_spread skeleton w v hw hv
    constructor <;> linarith
  have hne : nbrs.map (heightAt leaves) ≠ [] := by
    intro hnil
    rw [hnil] at hlen
    simp only [List.length_nil] at hlen
    omega
  obtain ⟨m1, m2⟩ := mean_mem_range _ _ _ hne hbound
  refine ⟨nbrs, hnb, hperm, ?_, ?_⟩
  · rw [href, hsum, hlen]
  · rw [href, mul_one, abs_le]
    constructor <;> linarith

/-- In exact arithmetic the adaptive filter rejects nothing at filter percentage 1.  For
every skeleton whose leaf set (from `extractLeafNodes`) has at least 2 leaves, with `H` the
value of `calculateSkeletonHeight`, `filterLeafNodes` with `p = 1` returns the whole leaf
set: the neighbour count and the top count both equal the number of leaves, so the
neighbours of a leaf are all the other leaves, its reference height is the mean of all
the other leaves' heights, and that mean and the leaf's height lie inside the z range of
the skeleton, whose width is `H`. -/
theorem filterLeafNodes_keeps_all_at_one [LinearOrderedField α] [FloorRing α] (sqrt : α → α)
    (skeleton : TreeSkeleton α) (leaves : LeafNodes α)
    (hx : extractLeafNodes skeleton = some leaves) (h2 : 2 ≤ leaves.nodes.length) :
    filterLeafNodes sqrt leaves (calculateSkeletonHeight skeleton) 1 = some leaves ∧
    neighborCount leaves.nodes.length (1 : α) = (leaves.nodes.length : Int) ∧
    topCount (neighborCount leaves.nodes.length (1 : α)) (1 : α) =
      (leaves.nodes.length : Int) ∧
    ∀ (i : Nat) (node : LeafNode α), leaves.nodes[i]? = some node →
      ∃ nbrs, findNearestNeighbors sqrt leaves (i : Int)
          (neighborCount leaves.nodes.length (1 : α)) = some nbrs ∧
        nbrs.Perm ((List.range leaves.nodes.length).filter (fun j => decide (j ≠ i))) ∧
        referenceHeight (topCount (neighborCount leaves.nodes.length (1 : α)) (1 : α))
            (nbrs.map (heightAt leaves)) =
          (((List.range leaves.nodes.length).filter (fun j => decide (j ≠ i))).map
            (heightAt leaves)).sum / ((leaves.nodes.length - 1 : Nat) : α) ∧
        |referenceHeight (topCount (neighborCount leaves.nodes.length (1 : α)) (1 : α))
            (nbrs.map (heightAt leaves)) - node.height| ≤
          calculateSkeletonHeight skeleton * 1 := by
  obtain ⟨hn, htop⟩ := @neighborCount_one α _ _ leaves.nodes.length (by omega)
  have hkey := reference_height_at_one sqrt skeleton leaves hx h2
  refine ⟨?_, hn, by rw [hn, htop], hkey⟩
  unfold filterLeafNodes
  simp only
  rw [filterLoop_eq sqrt leaves _ _ _ (fun _ => true) leaves.nodes.enum]
  · simp only [List.filter_true, List.enum_map_snd, Option.map_some']
  · intro q hq
    have hq' : leaves.nodes[q.1]? = some q.2 := List.mem_enum_iff_getElem?.mp hq
    obtain ⟨hi, _⟩ := List.getElem?_eq_some_iff.mp hq'
    obtain ⟨nbrs, hnb, _, _, hle⟩ := hkey q.1 q.2 hq'
    obtain ⟨nbrs', hnb', hkeep⟩ := keepLeaf_eq sqrt leaves
      (calculateSkeletonHeight skeleton * 1) (neighborCount leaves.nodes.length (1 : α))
      (topCount (neighborCount leaves.nodes.length (1 : α)) (1 : α))
      (le_trans (by decide) (neighborCount_pos _ _)) q.1 hi q.2
    rw [hnb] at hnb'
    rw [hkeep, ← Option.some.inj hnb', decide_eq_true hle]

theorem filterLeafNodes_keeps_all_at_one_witness :
    (extractLeafNodes (starSkeleton ℝ) = some (starLeaves ℝ) ∧
      2 ≤ (starLeaves ℝ).nodes.length) ∧
    filterLeafNodes Real.sqrt (starLeaves ℝ) (calculateSkeletonHeight (starSkeleton ℝ)) 1 =
      some (starLeaves ℝ) ∧
    neighborCount (starLeaves ℝ).nodes.length (1 : ℝ) = ((starLeaves ℝ).nodes.length : Int) ∧
    topCount (neighborCount (starLeaves ℝ).nodes.length (1 : ℝ)) (1 : ℝ) =
      ((starLeaves ℝ).nodes.length : Int) ∧
    ∀ (i : Nat) (node : LeafNode ℝ), (starLeaves ℝ).nodes[i]? = some node →
      ∃ nbrs, findNearestNeighbors Real.sqrt (starLeaves ℝ) (i : Int)
          (neighborCount (starLeaves ℝ).nodes.length (1 : ℝ)) = some nbrs ∧
        nbrs.Perm ((List.range (starLeaves ℝ).nodes.length).filter (fun j => decide (j ≠ i))) ∧
        referenceHeight (topCount (neighborCount (starLeaves ℝ).nodes.length (1 : ℝ)) (1 : ℝ))
            (nbrs.map (heightAt (starLeaves ℝ))) =
          (((List.range (starLeaves ℝ).nodes.length).filter (fun j => decide (j ≠ i))).map
            (heightAt (starLeaves ℝ))).sum / (((starLeaves ℝ).nodes.length - 1 : Nat) : ℝ) ∧
        |referenceHeight (topCount (neighborCount (starLeaves ℝ).nodes.length (1 : ℝ)) (1 : ℝ))
            (nbrs.map (heightAt (starLeaves ℝ))) - node.height| ≤
          calculateSkeletonHeight (starSkeleton ℝ) * 1 :=
  have hx : extractLeafNodes (starSkeleton ℝ) = some (starLeaves ℝ) := by
    simp [extractLeafNodes, starSkeleton, starLeaves, countDegrees, incrDegree, leafAt,
      List.range_succ]
  ⟨⟨hx, by simp [starLeaves]⟩,
    filterLeafNodes_keeps_all_at_one Real.sqrt (starSkeleton ℝ) (starLeaves ℝ) hx
      (by simp [starLeaves])⟩

end StructureExtractor

namespace CrownRadius
variable {α : Type}

/-- On a collinear point set the bounding box is spanned by two of the points: some two
points differ by the box width in `x` and by the box height in `y`. -/
theorem collinear_box_diagonal [LinearOrderedField α] (P : List (Point_2 α))
    (hcol : Collinear P) (min_x max_x min_y max_y : α)
    (hminx : IsMinOf (P.map (fun p => p.x)) min_x)
    (hmaxx : IsMaxOf (P.map (fun p => p.x)) max_x)
    (hminy : IsMinOf (P.map (fun p => p.y)) min_y)
    (hmaxy : IsMaxOf (P.map (fun p => p.y)) max_y) :
    ∃ a ∈ P, ∃ b ∈ P, |a.x - b.x| = max_x - min_x ∧ |a.y - b.y| = max_y - min_y := by
  obtain ⟨pxmin, hpxmin, exmin⟩ := List.mem_map.mp hminx.1
  obtain ⟨pxmax, hpxmax, exmax⟩ := List.mem_map.mp hmaxx.1
  obtain ⟨pymin, hpymin, eymin⟩ := List.mem_map.mp hminy.1
  obtain ⟨pymax, hpymax, eymax⟩ := List.mem_map.mp hmaxy.1
  have bx : ∀ p ∈ P, min_x ≤ p.x ∧ p.x ≤ max_x := fun p hp =>
    ⟨hminx.2 _ (List.mem_map.mpr ⟨p, hp, rfl⟩), hmaxx.2 _ (List.mem_map.mpr ⟨p, hp, rfl⟩)⟩
  have by' : ∀ p ∈ P, min_y ≤ p.y ∧ p.y ≤ max_y := fun p hp =>
    ⟨hminy.2 _ (List.mem_map.mpr ⟨p, hp, rfl⟩), hmaxy.2 _ (List.mem_map.mpr ⟨p, hp, rfl⟩)⟩
  by_cases hw : max_x = min_x
  · refine ⟨pymax, hpymax, pymin, hpymin, ?_, ?_⟩
    · have h1 := bx pymax hpymax
      have h2 := bx pymin hpymin
      have e1 : pymax.x = min_x := le_antisymm (hw ▸ h1.2) h1.1
      have e2 : pymin.x = min_x := le_antisymm (hw ▸ h2.2) h2.1
      rw [e1, e2, hw, sub_self, abs_zero]
    · rw [eymax, eymin, abs_of_nonneg]
      have := (by' pymin hpymin).2
      rw [eymin] at this
      linarith
  · have hwpos : 0 < max_x - min_x := by
      have := (bx pxmin hpxmin).2
      rw [exmin] at this
      rcases lt_or_eq_of_le this with h | h
      · linarith
      · exact absurd h.symm hw
    refine ⟨pxmax, hpxmax, pxmin, hpxmin, ?_, ?_⟩
    · rw [exmax, exmin, abs_of_pos hwpos]
    · have c1 := hcol pxmin hpxmin pxmax hpxmax pymin hpymin
      have c2 := hcol pxmin hpxmin pxmax hpxmax pymax hpymax
      simp only [cross] at c1 c2
      rw [exmin, exmax, eymin] at c1
      rw [exmin, exmax, eymax] at c2
      have t1 := bx pymin hpymin
      have t2 := bx pymax hpymax
      have y1 := by' pxmin hpxmin
      have y2 := by' pxmax hpxmax
      rcases le_total pxmin.y pxmax.y with hle | hle
      · -- increasing line: the lowest point is `pxmin`, the highest `pxmax`
        have e1 : pxmin.y = min_y := by
          apply le_antisymm _ y1.1
          by_contra hc
          rw [not_le] at hc
          nlinarith
        have e2 : pxmax.y = max_y := by
          apply le_antisymm y2.2
          by_contra hc
          rw [not_le] at hc
          nlinarith
        rw [e1, e2, abs_of_nonneg]
        linarith
      · have e1 : pxmin.y = max_y := by
          apply le_antisymm y1.2
          by_contra hc
          rw [not_le] at hc
          nlinarith
        have e2 : pxmax.y = min_y := by
          apply le_antisymm _ y2.1
          by_contra hc
          rw [not_le] at hc
          nlinarith
        rw [e1, e2, abs_of_nonpos, neg_sub]
        linarith

theorem pointDistance_sq_le (p q : Point_2 ℝ) (d : ℝ)
    (h : pointDistance Real.sqrt p q ≤ d) :
    (p.x - q.x) ^ 2 + (p.y - q.y) ^ 2 ≤ d ^ 2 :=
  (Real.sqrt_le_left (le_trans (Real.sqrt_nonneg _) h)).mp h

theorem pointDistance_sq (p q : Point_2 ℝ) :
    pointDistance Real.sqrt p q ^ 2 = (p.x - q.x) ^ 2 + (p.y - q.y) ^ 2 :=
  Real.sq_sqrt (by positivity)

/-- For a vector `u` parallel to `v` that is no longer than `v` and no farther than `|v|`
from the tip of `v`, the distance from `u` to the midpoint of `v` is at most `|v| / 2`. -/
theorem midpoint_bound (ux uy vx vy V : ℝ) (hV : vx ^ 2 + vy ^ 2 = V)
    (hcr : vx * uy - vy * ux = 0) (hU : ux ^ 2 + uy ^ 2 ≤ V)
    (hW : (ux - vx) ^ 2 + (uy - vy) ^ 2 ≤ V) :
    (ux - vx / 2) ^ 2 + (uy - vy / 2) ^ 2 ≤ V / 4 := by
  have hlag : (ux ^ 2 + uy ^ 2) * V = (ux * vx + uy * vy) ^ 2 := by
    have : (ux ^ 2 + uy ^ 2) * (vx ^ 2 + vy ^ 2) =
        (ux * vx + uy * vy) ^ 2 + (vx * uy - vy * ux) ^ 2 := by ring
    rw [← hV, this, hcr]; ring
  have hU0 : 0 ≤ ux ^ 2 + uy ^ 2 := by positivity
  have h2D : ux ^ 2 + uy ^ 2 ≤ 2 * (ux * vx + uy * vy) := by nlinarith
  have hUD : ux ^ 2 + uy ^ 2 ≤ ux * vx + uy * vy := by
    by_contra hcon
    rw [not_le] at hcon
    have hD0 : 0 ≤ ux * vx + uy * vy := by linarith
    have h1 : (ux * vx + uy * vy) ^ 2 < (ux ^ 2 + uy ^ 2) ^ 2 := by
      apply pow_lt_pow_left₀ hcon hD0 two_ne_zero
    have h2 : (ux ^ 2 + uy ^ 2) ^ 2 ≤ (ux ^ 2 + uy ^ 2) * V := by
      rw [sq]
      exact mul_le_mul_of_nonneg_left hU hU0
    linarith
  have hexp : (ux - vx / 2) ^ 2 + (uy - vy / 2) ^ 2 =
      (ux ^ 2 + uy ^ 2) - (ux * vx + uy * vy) + (vx ^ 2 + vy ^ 2) / 4 := by ring
  rw [hexp, hV]
  linarith

/-- On a collinear set whose extreme points are at distance `d`, the minimum enclosing
circle has the two extreme points as a diameter: its squared radius is `d² / 4`. -/
theorem isMinCircle_collinear (P : List (Point_2 ℝ)) (hcol : Collinear P) (d : ℝ)
    (hd : IsExtremeDistance Real.sqrt P d) :
    IsMinCircleSquaredRadius P (d ^ 2 / 4) := by
  obtain ⟨⟨a, ha, b, hb, hab⟩, hmax⟩ := hd
  have hd2 : d ^ 2 = (a.x - b.x) ^ 2 + (a.y - b.y) ^ 2 := by
    rw [← hab]; exact pointDistance_sq a b
  constructor
  · refine ⟨⟨(a.x + b.x) / 2, (a.y + b.y) / 2⟩, ?_⟩
    intro c hc
    have hU := pointDistance_sq_le c a d (hmax c hc a ha)
    have hW := pointDistance_sq_le c b d (hmax c hc b hb)
    have hcr := hcol a ha b hb c hc
    simp only [cross] at hcr
    have hV : (b.x - a.x) ^ 2 + (b.y - a.y) ^ 2 = d ^ 2 := by rw [hd2]; ring
    have hW' : (c.x - a.x - (b.x - a.x)) ^ 2 + (c.y - a.y - (b.y - a.y)) ^ 2 ≤ d ^ 2 := by
      have : (c.x - a.x - (b.x - a.x)) ^ 2 + (c.y - a.y - (b.y - a.y)) ^ 2 =
          (c.x - b.x) ^ 2 + (c.y - b.y) ^ 2 := by ring
      rw [this]; exact hW
    have hm := midpoint_bound (c.x - a.x) (c.y - a.y) (b.x - a.x) (b.y - a.y) (d ^ 2) hV hcr
      hU hW'
    have hgoal : (c.x - (a.x + b.x) / 2) ^ 2 + (c.y - (a.y + b.y) / 2) ^ 2 =
        (c.x - a.x - (b.x - a.x) / 2) ^ 2 + (c.y - a.y - (b.y - a.y) / 2) ^ 2 := by ring
    simp only
    rw [hgoal]
    exact hm
  · intro c s2 hc
    have h1 := hc a ha
    have h2 := hc b hb
    have key : (a.x - b.x) ^ 2 + (a.y - b.y) ^ 2 + (a.x + b.x - 2 * c.x) ^ 2 +
        (a.y + b.y - 2 * c.y) ^ 2 =
        2 * (((a.x - c.x) ^ 2 + (a.y - c.y) ^ 2) + ((b.x - c.x) ^ 2 + (b.y - c.y) ^ 2)) := by
      ring
    have n1 := sq_nonneg (a.x + b.x - 2 * c.x)
    have n2 := sq_nonneg (a.y + b.y - 2 * c.y)
    rw [hd2]
    linarith

/-- On a collinear set the squared distance between the extreme points is the squared
diagonal of the bounding box. -/
theorem collinear_diameter_sq (P : List (Point_2 ℝ)) (hcol : Collinear P)
    (min_x max_x min_y max_y d : ℝ)
    (hminx : IsMinOf (P.map (fun p => p.x)) min_x)
    (hmaxx : IsMaxOf (P.map (fun p => p.x)) max_x)
    (hminy : IsMinOf (P.map (fun p => p.y)) min_y)
    (hmaxy : IsMaxOf (P.map (fun p => p.y)) max_y)
    (hd : IsExtremeDistance Real.sqrt P d) :
    (max_x - min_x) ^ 2 + (max_y - min_y) ^ 2 = d ^ 2 ∧ 0 ≤ d ∧
    0 ≤ max_x - min_x ∧ 0 ≤ max_y - min_y := by
  obtain ⟨a, ha, b, hb, ex, ey⟩ :=
    collinear_box_diagonal P hcol min_x max_x min_y max_y hminx hmaxx hminy hmaxy
  have hwx : 0 ≤ max_x - min_x := by rw [← ex]; exact abs_nonneg _
  have hwy : 0 ≤ max_y - min_y := by rw [← ey]; exact abs_nonneg _
  obtain ⟨⟨p, hp, q, hq, hpq⟩, hmax⟩ := hd
  have hd0 : 0 ≤ d := by rw [← hpq]; exact Real.sqrt_nonneg _
  have hge := pointDistance_sq_le a b d (hmax a ha b hb)
  rw [← sq_abs (a.x - b.x), ← sq_abs (a.y - b.y), ex, ey] at hge
  have hle : d ^ 2 ≤ (max_x - min_x) ^ 2 + (max_y - min_y) ^ 2 := by
    rw [← hpq, pointDistance_sq]
    have bx : ∀ r ∈ P, min_x ≤ r.x ∧ r.x ≤ max_x := fun r hr =>
      ⟨hminx.2 _ (List.mem_map.mpr ⟨r, hr, rfl⟩), hmaxx.2 _ (List.mem_map.mpr ⟨r, hr, rfl⟩)⟩
    have by' : ∀ r ∈ P, min_y ≤ r.y ∧ r.y ≤ max_y := fun r hr =>
      ⟨hminy.2 _ (List.mem_map.mpr ⟨r, hr, rfl⟩), hmaxy.2 _ (List.mem_map.mpr ⟨r, hr, rfl⟩)⟩
    have x1 := bx p hp
    have x2 := bx q hq
    have y1 := by' p hp
    have y2 := by' q hq
    have sx : (p.x - q.x) ^ 2 ≤ (max_x - min_x) ^ 2 := by
      apply sq_le_sq'
      · linarith
      · linarith
    have sy : (p.y - q.y) ^ 2 ≤ (max_y - min_y) ^ 2 := by
      apply sq_le_sq'
      · linarith
      · linarith
    linarith
  exact ⟨le_antisymm hge hle, hd0, hwx, hwy⟩

theorem pointDistance_pos (p q : Point_2 ℝ) (hne : p ≠ q) :
    0 < pointDistance Real.sqrt p q := by
  apply Real.sqrt_pos.mpr
  by_contra hcon
  have h0 : (p.x - q.x) ^ 2 + (p.y - q.y) ^ 2 = 0 :=
    le_antisymm (not_lt.mp hcon) (by positivity)
  have hx : p.x - q.x = 0 := by
    have := sq_nonneg (p.y - q.y)
    have h := sq_nonneg (p.x - q.x)
    exact pow_eq_zero_iff (two_ne_zero) |>.mp (by linarith)
  have hy : p.y - q.y = 0 := by
    have := sq_nonneg (p.x - q.x)
    have h := sq_nonneg (p.y - q.y)
    exact pow_eq_zero_iff (two_ne_zero) |>.mp (by linarith)
  apply hne
  cases p
  cases q
  simp only [Point_2.mk.injEq]
  exact ⟨by linarith, by linarith⟩

/-- C30: on the degenerate (collinear) crown path the reported `crown_radius` does not
enclose the points.  For every collinear projected point set with at least two distinct
points, whose extreme points are at distance `d` (and a hull routine returning extreme
points), the bounding-box path gives `crown_radius = (width_x + width_y) / 4` with
`width_x² + width_y² = d²`, so `crown_radius ≤ (sqrt 2 / 4) * d`, which is strictly less
than `d / 2`; the minimum enclosing circle has squared radius `d² / 4`, that is radius
`d / 2`, and every circle of radius `crown_radius` leaves a point outside.  Also
`crown_radius ≤ max_width / 2`. -/
theorem degenerate_radius_below_enclosing
    (convex_hull_2 : List (Point_2 ℝ) → List (Point_2 ℝ))
    (min_circle_squared_radius : List (Point_2 ℝ) → ℝ) (dbl_max : ℝ)
    (points : List (TreePoint ℝ))
    (hhull : ExtremePointsOf (projectPoints points) (convex_hull_2 (projectPoints points)))
    (hcol : Collinear (projectPoints points))
    (hdistinct : ∃ p ∈ projectPoints points, ∃ q ∈ projectPoints points, p ≠ q)
    (d : ℝ) (hd : IsExtremeDistance Real.sqrt (projectPoints points) d) :
    (∃ min_x max_x min_y max_y : ℝ,
      IsMinOf ((projectPoints points).map (fun p => p.x)) min_x ∧
      IsMaxOf ((projectPoints points).map (fun p => p.x)) max_x ∧
      IsMinOf ((projectPoints points).map (fun p => p.y)) min_y ∧
      IsMaxOf ((projectPoints points).map (fun p => p.y)) max_y ∧
      (calculateCrownRadiusDetailed convex_hull_2 min_circle_squared_radius Real.sqrt dbl_max
        points).1 = ((max_x - min_x) + (max_y - min_y)) / 4 ∧
      (calculateCrownRadiusDetailed convex_hull_2 min_circle_squared_radius Real.sqrt dbl_max
        points).2.1 = max (max_x - min_x) (max_y - min_y) ∧
      (max_x - min_x) ^ 2 + (max_y - min_y) ^ 2 = d ^ 2) ∧
    0 < d ∧
    (calculateCrownRadiusDetailed convex_hull_2 min_circle_squared_radius Real.sqrt dbl_max
      points).1 ≤ Real.sqrt 2 / 4 * d ∧
    Real.sqrt 2 / 4 * d < d / 2 ∧
    IsMinCircleSquaredRadius (projectPoints points) (d ^ 2 / 4) ∧
    Real.sqrt (d ^ 2 / 4) = d / 2 ∧
    (∀ c : Point_2 ℝ, ∃ p ∈ projectPoints points,
      (calculateCrownRadiusDetailed convex_hull_2 min_circle_squared_radius Real.sqrt dbl_max
        points).1 ^ 2 < (p.x - c.x) ^ 2 + (p.y - c.y) ^ 2) ∧
    (calculateCrownRadiusDetailed convex_hull_2 min_circle_squared_radius Real.sqrt dbl_max
      points).1 ≤
      (calculateCrownRadiusDetailed convex_hull_2 min_circle_squared_radius Real.sqrt dbl_max
        points).2.1 / 2 := by
  obtain ⟨p0, hp0, q0, hq0, hpq0⟩ := hdistinct
  obtain ⟨first, rest, hproj⟩ : ∃ first rest, projectPoints points = first :: rest := by
    cases h : projectPoints points with
    | nil => rw [h] at hp0; exact absurd hp0 (List.not_mem_nil p0)
    | cons f r => exact ⟨f, r, rfl⟩
  have hres := calculateCrownRadiusDetailed_degenerate convex_hull_2 min_circle_squared_radius
    Real.sqrt dbl_max points first rest hproj hhull (Or.inl hcol)
  have hminx : IsMinOf ((projectPoints points).map (fun p => p.x))
      ((first :: rest).foldl (fun m p => min m p.x) first.x) := by
    rw [hproj]; exact foldl_min_isMinOf (fun p : Point_2 ℝ => p.x) first rest
  have hmaxx : IsMaxOf ((projectPoints points).map (fun p => p.x))
      ((first :: rest).foldl (fun m p => max m p.x) first.x) := by
    rw [hproj]; exact foldl_max_isMaxOf (fun p : Point_2 ℝ => p.x) first rest
  have hminy : IsMinOf ((projectPoints points).map (fun p => p.y))
      ((first :: rest).foldl (fun m p => min m p.y) first.y) := by
    rw [hproj]; exact foldl_min_isMinOf (fun p : Point_2 ℝ => p.y) first rest
  have hmaxy : IsMaxOf ((projectPoints points).map (fun p => p.y))
      ((first :: rest).foldl (fun m p => max m p.y) first.y) := by
    rw [hproj]; exact foldl_max_isMaxOf (fun p : Point_2 ℝ => p.y) first rest
  generalize hmx : (first :: rest).foldl (fun m p => min m p.x) first.x = min_x at hminx
  generalize hMx : (first :: rest).foldl (fun m p => max m p.x) first.x = max_x at hmaxx
  generalize hmy : (first :: rest).foldl (fun m p => min m p.y) first.y = min_y at hminy
  generalize hMy : (first :: rest).foldl (fun m p => max m p.y) first.y = max_y at hmaxy
  have hr1 : (calculateCrownRadiusDetailed convex_hull_2 min_circle_squared_radius Real.sqrt
      dbl_max points).1 = ((max_x - min_x) + (max_y - min_y)) / 4 := by
    rw [hres]
    simp only [boundingBoxResult, hmx, hMx, hmy, hMy]
    ring
  have hr2 : (calculateCrownRadiusDetailed convex_hull_2 min_circle_squared_radius Real.sqrt
      dbl_max points).2.1 = max (max_x - min_x) (max_y - min_y) := by
    rw [hres]
    simp only [boundingBoxResult, hmx, hMx, hmy, hMy]
  obtain ⟨hsq, hd0, hwx, hwy⟩ := collinear_diameter_sq (projectPoints points) hcol
    min_x max_x min_y max_y d hminx hmaxx hminy hmaxy hd
  have hdpos : 0 < d :=
    lt_of_lt_of_le (pointDistance_pos p0 q0 hpq0) (hd.2 p0 hp0 q0 hq0)
  have hs2 : Real.sqrt 2 * Real.sqrt 2 = 2 := Real.mul_self_sqrt (by norm_num)
  have hs0 : 0 ≤ Real.sqrt 2 := Real.sqrt_nonneg 2
  have hslt : Real.sqrt 2 < 2 := by nlinarith
  have hsum : (max_x - min_x) + (max_y - min_y) ≤ Real.sqrt 2 * d := by
    by_contra hcon
    rw [not_le] at hcon
    have hpos : 0 ≤ Real.sqrt 2 * d := mul_nonneg hs0 hd0
    have h1 : (Real.sqrt 2 * d) ^ 2 < ((max_x - min_x) + (max_y - min_y)) ^ 2 :=
      pow_lt_pow_left₀ hcon hpos two_ne_zero
    have h2 : (Real.sqrt 2 * d) ^ 2 = 2 * d ^ 2 := by
      rw [mul_pow, sq (Real.sqrt 2), hs2]
    nlinarith [sq_nonneg ((max_x - min_x) - (max_y - min_y))]
  have hmc := isMinCircle_collinear (projectPoints points) hcol d hd
  have hrad : Real.sqrt (d ^ 2 / 4) = d / 2 := by
    rw [show d ^ 2 / 4 = (d / 2) ^ 2 by ring]
    exact Real.sqrt_sq (by linarith)
  have hle : (calculateCrownRadiusDetailed convex_hull_2 min_circle_squared_radius Real.sqrt
      dbl_max points).1 ≤ Real.sqrt 2 / 4 * d := by
    rw [hr1]; linarith
  have hlt : Real.sqrt 2 / 4 * d < d / 2 := by nlinarith
  have hr0 : 0 ≤ (calculateCrownRadiusDetailed convex_hull_2 min_circle_squared_radius
      Real.sqrt dbl_max points).1 := by
    rw [hr1]; linarith
  refine ⟨⟨min_x, max_x, min_y, max_y, hminx, hmaxx, hminy, hmaxy, hr1, hr2, hsq⟩, hdpos, hle,
    hlt, hmc, hrad, ?_, ?_⟩
  · intro c
    by_contra hcon
    push_neg at hcon
    have := hmc.2 c _ hcon
    nlinarith
  · rw [hr1, hr2]
    have := le_max_left (max_x - min_x) (max_y - min_y)
    have := le_max_right (max_x - min_x) (max_y - min_y)
    linarith

theorem diagonalPoints_projection :
    projectPoints (diagonalPoints ℝ) = [⟨0, 0⟩, ⟨1, 1⟩, ⟨3, 3⟩] := rfl

theorem diagonalPoints_hull :
    ExtremePointsOf (projectPoints (diagonalPoints ℝ)) [⟨0, 0⟩, ⟨3, 3⟩] := by
  rw [diagonalPoints_projection]
  refine ⟨by simp, ?_⟩
  intro q hq
  simp only [List.mem_cons, List.mem_singleton, List.not_mem_nil, or_false] at hq
  rcases hq with rfl | rfl
  · refine ⟨by simp, ?_⟩
    intro a ha b hb hna hnb hseg
    simp only [List.mem_cons, List.mem_singleton, List.not_mem_nil, or_false] at ha hb
    rcases ha with rfl | rfl | rfl <;> rcases hb with rfl | rfl | rfl <;>
      first
      | exact hna rfl
      | exact hnb rfl
      | (simp only [OnSegment, cross] at hseg; norm_num at hseg)
  · refine ⟨by simp, ?_⟩
    intro a ha b hb hna hnb hseg
    simp only [List.mem_cons, List.mem_singleton, List.not_mem_nil, or_false] at ha hb
    rcases ha with rfl | rfl | rfl <;> rcases hb with rfl | rfl | rfl <;>
      first
      | exact hna rfl
      | exact hnb rfl
      | (simp only [OnSegment, cross] at hseg; norm_num at hseg)

theorem diagonalPoints_collinear : Collinear (projectPoints (diagonalPoints ℝ)) := by
  rw [diagonalPoints_projection]
  intro a ha b hb c hc
  simp only [List.mem_cons, List.mem_singleton, List.not_mem_nil, or_false] at ha hb hc
  rcases ha with rfl | rfl | rfl <;> rcases hb with rfl | rfl | rfl <;>
    rcases hc with rfl | rfl | rfl <;> simp only [cross] <;> norm_num

theorem diagonalPoints_extreme :
    IsExtremeDistance Real.sqrt (projectPoints (diagonalPoints ℝ))
      (Real.sqrt ((0 - 3) ^ 2 + (0 - 3) ^ 2)) := by
  rw [diagonalPoints_projection]
  refine ⟨⟨⟨0, 0⟩, by simp, ⟨3, 3⟩, by simp, rfl⟩, ?_⟩
  intro p hp q hq
  simp only [List.mem_cons, List.mem_singleton, List.not_mem_nil, or_false] at hp hq
  rcases hp with rfl | rfl | rfl <;> rcases hq with rfl | rfl | rfl <;>
    (unfold pointDistance; apply Real.sqrt_le_sqrt; norm_num)

theorem degenerate_radius_below_enclosing_witness :
    (ExtremePointsOf (projectPoints (diagonalPoints ℝ))
        ((fun _ => [⟨0, 0⟩, ⟨3, 3⟩] : List (Point_2 ℝ) → List (Point_2 ℝ))
          (projectPoints (diagonalPoints ℝ))) ∧
      Collinear (projectPoints (diagonalPoints ℝ)) ∧
      (∃ p ∈ projectPoints (diagonalPoints ℝ), ∃ q ∈ projectPoints (diagonalPoints ℝ), p ≠ q) ∧
      IsExtremeDistance Real.sqrt (projectPoints (diagonalPoints ℝ))
        (Real.sqrt ((0 - 3) ^ 2 + (0 - 3) ^ 2))) ∧
    ((∃ min_x max_x min_y max_y : ℝ,
      IsMinOf ((projectPoints (diagonalPoints ℝ)).map (fun p => p.x)) min_x ∧
      IsMaxOf ((projectPoints (diagonalPoints ℝ)).map (fun p => p.x)) max_x ∧
      IsMinOf ((projectPoints (diagonalPoints ℝ)).map (fun p => p.y)) min_y ∧
      IsMaxOf ((projectPoints (diagonalPoints ℝ)).map (fun p => p.y)) max_y ∧
      (calculateCrownRadiusDetailed (fun _ => [⟨0, 0⟩, ⟨3, 3⟩]) (fun _ => 0) Real.sqrt 1000000
        (diagonalPoints ℝ)).1 = ((max_x - min_x) + (max_y - min_y)) / 4 ∧
      (calculateCrownRadiusDetailed (fun _ => [⟨0, 0⟩, ⟨3, 3⟩]) (fun _ => 0) Real.sqrt 1000000
        (diagonalPoints ℝ)).2.1 = max (max_x - min_x) (max_y - min_y) ∧
      (max_x - min_x) ^ 2 + (max_y - min_y) ^ 2 =
        Real.sqrt ((0 - 3) ^ 2 + (0 - 3) ^ 2) ^ 2) ∧
    0 < Real.sqrt ((0 - 3) ^ 2 + (0 - 3) ^ 2) ∧
    (calculateCrownRadiusDetailed (fun _ => [⟨0, 0⟩, ⟨3, 3⟩]) (fun _ => 0) Real.sqrt 1000000
      (diagonalPoints ℝ)).1 ≤ Real.sqrt 2 / 4 * Real.sqrt ((0 - 3) ^ 2 + (0 - 3) ^ 2) ∧
    Real.sqrt 2 / 4 * Real.sqrt ((0 - 3) ^ 2 + (0 - 3) ^ 2) <
      Real.sqrt ((0 - 3) ^ 2 + (0 - 3) ^ 2) / 2 ∧
    IsMinCircleSquaredRadius (projectPoints (diagonalPoints ℝ))
      (Real.sqrt ((0 - 3) ^ 2 + (0 - 3) ^ 2) ^ 2 / 4) ∧
    Real.sqrt (Real.sqrt ((0 - 3) ^ 2 + (0 - 3) ^ 2) ^ 2 / 4) =
      Real.sqrt ((0 - 3) ^ 2 + (0 - 3) ^ 2) / 2 ∧
    (∀ c : Point_2 ℝ, ∃ p ∈ projectPoints (diagonalPoints ℝ),
      (calculateCrownRadiusDetailed (fun _ => [⟨0, 0⟩, ⟨3, 3⟩]) (fun _ => 0) Real.sqrt 1000000
        (diagonalPoints ℝ)).1 ^ 2 < (p.x - c.x) ^ 2 + (p.y - c.y) ^ 2) ∧
    (calculateCrownRadiusDetailed (fun _ => [⟨0, 0⟩, ⟨3, 3⟩]) (fun _ => 0) Real.sqrt 1000000
      (diagonalPoints ℝ)).1 ≤
      (calculateCrownRadiusDetailed (fun _ => [⟨0, 0⟩, ⟨3, 3⟩]) (fun _ => 0) Real.sqrt 1000000
        (diagonalPoints ℝ)).2.1 / 2) :=
  have hdistinct : ∃ p ∈ projectPoints (diagonalPoints ℝ),
      ∃ q ∈ projectPoints (diagonalPoints ℝ), p ≠ q :=
    ⟨⟨0, 0⟩, by simp [diagonalPoints_projection], ⟨3, 3⟩, by simp [diagonalPoints_projection],
      by simp⟩
  ⟨⟨diagonalPoints_hull, diagonalPoints_collinear, hdistinct, diagonalPoints_extreme⟩,
    degenerate_radius_below_enclosing (fun _ => [⟨0, 0⟩, ⟨3, 3⟩]) (fun _ => 0) 1000000
      (diagonalPoints ℝ) diagonalPoints_hull diagonalPoints_collinear hdistinct
      (Real.sqrt ((0 - 3) ^ 2 + (0 - 3) ^ 2)) diagonalPoints_extreme⟩

end CrownRadius

namespace Pipeline
variable {α : Type}

theorem main_loop_counts (process : String → TreeMetrics α) (xyz_files : List String) :
    (main_loop process xyz_files).2.1 + (main_loop process xyz_files).2.2 =
      (xyz_files.length : Int) ∧
    ((main_loop process xyz_files).1.length : Int) = (main_loop process xyz_files).2.1 := by
  unfold main_loop
  have key : ∀ (l : List String) (st : List (TreeMetrics α) × Int × Int),
      (l.foldl
        (fun st xyz_file =>
          let metrics := process xyz_file
          if metrics.tree_id ≠ "" then (st.1 ++ [metrics], st.2.1 + 1, st.2.2)
          else (st.1, st.2.1, st.2.2 + 1)) st).2.1 +
      (l.foldl
        (fun st xyz_file =>
          let metrics := process xyz_file
          if metrics.tree_id ≠ "" then (st.1 ++ [metrics], st.2.1 + 1, st.2.2)
          else (st.1, st.2.1, st.2.2 + 1)) st).2.2 = st.2.1 + st.2.2 + (l.length : Int) ∧
      (((l.foldl
        (fun st xyz_file =>
          let metrics := process xyz_file
          if metrics.tree_id ≠ "" then (st.1 ++ [metrics], st.2.1 + 1, st.2.2)
          else (st.1, st.2.1, st.2.2 + 1)) st).1.length : Int) -
        (l.foldl
        (fun st xyz_file =>
          let metrics := process xyz_file
          if metrics.tree_id ≠ "" then (st.1 ++ [metrics], st.2.1 + 1, st.2.2)
          else (st.1, st.2.1, st.2.2 + 1)) st).2.1 = (st.1.length : Int) - st.2.1) := by
    intro l
    induction l with
    | nil => intro st; simp
    | cons f l ih =>
      intro st
      simp only [List.foldl_cons, List.length_cons]
      by_cases h : (process f).tree_id ≠ ""
      · rw [if_pos h]
        obtain ⟨h1, h2⟩ := ih (st.1 ++ [process f], st.2.1 + 1, st.2.2)
        rw [h1, h2]
        simp only [List.length_append, List.length_singleton]
        push_cast
        constructor <;> ring
      · rw [if_neg h]
        obtain ⟨h1, h2⟩ := ih (st.1, st.2.1, st.2.2 + 1)
        rw [h1, h2]
        push_cast
        constructor <;> ring
  obtain ⟨h1, h2⟩ := key xyz_files ([], 0, 0)
  constructor
  · rw [h1]; simp
  · simp only [List.length_nil, Nat.cast_zero, sub_zero] at h2
    linarith

/-- Without a branches file `process_file` returns early: only the tree id and the time
stamp are set. -/
theorem process_file_no_branches [LinearOrderedField α] [FloorRing α] (sqrt : α → α)
    (pow : α → α → α) (stem : String → String) (run : FileRun α) (xyz_file : String)
    (config : Config α) (hb : run.branches_exists = false) :
    process_file sqrt pow stem run xyz_file config =
      { (TreeMetrics.init : TreeMetrics α) with
        tree_id := stem xyz_file, processing_time := run.current_time } := by
  unfold process_file
  simp only [hb, Bool.not_false, if_true]

theorem skeletonStep_tree_id (run : FileRun α) (config : Config α) (metrics : TreeMetrics α) :
    (skeletonStep run config metrics).1.tree_id = metrics.tree_id ∧
    (skeletonStep run config metrics).1.crown_depth = metrics.crown_depth ∧
    (skeletonStep run config metrics).1.h0 = metrics.h0 ∧
    (skeletonStep run config metrics).1.height = metrics.height := by
  unfold skeletonStep
  simp only []
  split_ifs <;> exact ⟨rfl, rfl, rfl, rfl⟩

theorem crownStep_tree_id [LinearOrderedField α] (run : FileRun α) (config : Config α)
    (path : String) (metrics : TreeMetrics α) :
    (crownStep run config path metrics).tree_id = metrics.tree_id ∧
    (crownStep run config path metrics).crown_depth = metrics.crown_depth ∧
    (crownStep run config path metrics).h0 = metrics.h0 ∧
    (crownStep run config path metrics).height = metrics.height := by
  unfold crownStep
  simp only []
  split_ifs <;> exact ⟨rfl, rfl, rfl, rfl⟩

theorem dbhStep_tree_id [LinearOrderedField α] (sqrt : α → α) (pow : α → α → α)
    (run : FileRun α) (path : String) (metrics : TreeMetrics α) :
    (dbhStep sqrt pow run path metrics).tree_id = metrics.tree_id ∧
    (dbhStep sqrt pow run path metrics).crown_depth = metrics.crown_depth ∧
    (dbhStep sqrt pow run path metrics).h0 = metrics.h0 ∧
    (dbhStep sqrt pow run path metrics).height = metrics.height := by
  unfold dbhStep
  simp only []
  split_ifs <;> exact ⟨rfl, rfl, rfl, rfl⟩

theorem volumeStep_tree_id (run : FileRun α) (config : Config α) (path : String)
    (metrics : TreeMetrics α) :
    (volumeStep run config path metrics).tree_id = metrics.tree_id ∧
    (volumeStep run config path metrics).crown_depth = metrics.crown_depth ∧
    (volumeStep run config path metrics).h0 = metrics.h0 ∧
    (volumeStep run config path metrics).height = metrics.height := by
  unfold volumeStep
  simp only []
  split_ifs <;> exact ⟨rfl, rfl, rfl, rfl⟩

theorem heightStep_tree_id [LinearOrderedField α] [FloorRing α] (run : FileRun α)
    (path : String) (metrics : TreeMetrics α) :
    (heightStep run path metrics).tree_id = metrics.tree_id := by
  unfold heightStep
  simp only []
  split_ifs <;> rfl

/-- The tree id of the result of `process_file` is the stem of the input file, on every
path through the function. -/
theorem process_file_tree_id [LinearOrderedField α] [FloorRing α] (sqrt : α → α)
    (pow : α → α → α) (stem : String → String) (run : FileRun α) (xyz_file : String)
    (config : Config α) :
    (process_file sqrt pow stem run xyz_file config).tree_id = stem xyz_file := by
  unfold process_file
  simp only
  split_ifs <;>
    simp only [(volumeStep_tree_id _ _ _ _).1, (dbhStep_tree_id _ _ _ _ _).1,
      (crownStep_tree_id _ _ _ _).1, heightStep_tree_id, (skeletonStep_tree_id _ _ _).1]

/-- When every tree id is non-empty the loop of `main` counts every file as a success. -/
theorem main_loop_all_success (process : String → TreeMetrics α) (xyz_files : List String)
    (hid : ∀ f ∈ xyz_files, (process f).tree_id ≠ "") :
    main_loop process xyz_files = (xyz_files.map process, (xyz_files.length : Int), 0) := by
  unfold main_loop
  have key : ∀ (l : List String) (st : List (TreeMetrics α) × Int × Int),
      (∀ f ∈ l, (process f).tree_id ≠ "") →
      l.foldl
        (fun st xyz_file =>
          let metrics := process xyz_file
          if metrics.tree_id ≠ "" then (st.1 ++ [metrics], st.2.1 + 1, st.2.2)
          else (st.1, st.2.1, st.2.2 + 1)) st =
        (st.1 ++ l.map process, st.2.1 + (l.length : Int), st.2.2) := by
    intro l
    induction l with
    | nil => intro st _; simp
    | cons f l ih =>
      intro st hl
      simp only [List.foldl_cons, List.length_cons, List.map_cons]
      rw [if_pos (hl f (List.mem_cons_self f l)),
        ih _ (fun g hg => hl g (List.mem_cons_of_mem f hg))]
      simp only [List.append_assoc, List.singleton_append, Prod.mk.injEq, true_and]
      push_cast
      exact ⟨by ring, trivial⟩
  rw [key xyz_files _ hid]
  simp

/-- C24: the batch loop of `main` on the single input file `tree1.xyz` for which AdTree
produced no branches file.  `process_file` returns early with no metrics, but it has
already set `tree_id` to the file stem, so the loop's test `!metrics.tree_id.empty()`
counts the tree as a success: `success_count = 1`, `fail_count = 0`, and the empty record
is added to the reported metrics list.  The counts always add up to the number of files;
and whenever the stems of the input files are non-empty, `fail_count` is 0 whatever
happened to the trees. -/
theorem failed_tree_counted_as_success :
    (failedRun ℝ).branches_exists = false ∧
    process_file Real.sqrt (fun x y => x ^ y) xyzStem (failedRun ℝ) "tree1.xyz"
        (Config.init ℝ) =
      { (TreeMetrics.init : TreeMetrics ℝ) with
        tree_id := "tree1", processing_time := "2024-01-01 00:00:00" } ∧
    main_loop (fun f => process_file Real.sqrt (fun x y => x ^ y) xyzStem (failedRun ℝ) f
        (Config.init ℝ)) ["tree1.xyz"] =
      ([{ (TreeMetrics.init : TreeMetrics ℝ) with
          tree_id := "tree1", processing_time := "2024-01-01 00:00:00" }], 1, 0) ∧
    (main_loop (fun f => process_file Real.sqrt (fun x y => x ^ y) xyzStem (failedRun ℝ) f
        (Config.init ℝ)) ["tree1.xyz"]).2.2 ≠ 1 ∧
    (∀ (process : String → TreeMetrics ℝ) (xyz_files : List String),
      (main_loop process xyz_files).2.1 + (main_loop process xyz_files).2.2 =
        (xyz_files.length : Int)) ∧
    (∀ (stem : String → String) (run : String → FileRun ℝ) (config : Config ℝ)
      (xyz_files : List String), (∀ f ∈ xyz_files, stem f ≠ "") →
      main_loop (fun f => process_file Real.sqrt (fun x y => x ^ y) stem (run f) f config)
          xyz_files =
        (xyz_files.map
          (fun f => process_file Real.sqrt (fun x y => x ^ y) stem (run f) f config),
          (xyz_files.length : Int), 0)) := by
  have hp := process_file_no_branches Real.sqrt (fun x y => x ^ y) xyzStem (failedRun ℝ)
    "tree1.xyz" (Config.init ℝ) rfl
  have hstem : xyzStem "tree1.xyz" = "tree1" := by decide
  have htime : (failedRun ℝ).current_time = "2024-01-01 00:00:00" := rfl
  rw [hstem, htime] at hp
  have hloop : main_loop (fun f => process_file Real.sqrt (fun x y => x ^ y) xyzStem
      (failedRun ℝ) f (Config.init ℝ)) ["tree1.xyz"] =
      ([{ (TreeMetrics.init : TreeMetrics ℝ) with
          tree_id := "tree1", processing_time := "2024-01-01 00:00:00" }], 1, 0) := by
    rw [main_loop_all_success]
    · simp only [List.map_cons, List.map_nil, hp, List.length_singleton, Nat.cast_one]
    · intro f hf
      rw [List.mem_singleton.mp hf, hp]
      decide
  refine ⟨rfl, hp, hloop, ?_, fun process xyz_files => (main_loop_counts process xyz_files).1, ?_⟩
  · rw [hloop]
    decide
  · intro stem run config xyz_files hstems
    apply main_loop_all_success
    intro f hf
    rw [process_file_tree_id]
    exact hstems f hf

end Pipeline

/-! ## Rounding to `double` -/

section Rounding
variable {α : Type} [LinearOrderedField α] [FloorRing α]

theorem roundHalfEven_of_floor (y : α) (f : Int) (h1 : (f : α) ≤ y) (h2 : y < (f : α) + 1) :
    roundHalfEven y =
      if y - (f : α) < 1 / 2 then f else if 1 / 2 < y - (f : α) then f + 1
      else if f % 2 = 0 then f else f + 1 := by
  have hf : Int.floor y = f := Int.floor_eq_iff.mpr ⟨h1, h2⟩
  simp only [roundHalfEven, hf]

theorem roundHalfEven_error (y : α) : |((roundHalfEven y : Int) : α) - y| ≤ 1 / 2 := by
  have h1 : ((Int.floor y : Int) : α) ≤ y := Int.floor_le y
  have h2 : y < ((Int.floor y : Int) : α) + 1 := Int.lt_floor_add_one y
  rw [roundHalfEven_of_floor y _ h1 h2, abs_le]
  split_ifs with ha hb hc
  · constructor <;> linarith
  · push_cast; constructor <;> linarith
  · constructor <;> linarith
  · push_cast; constructor <;> linarith

theorem log_two_eq (x : α) (k : Int) (h1 : (2 : α) ^ k ≤ x) (h2 : x < (2 : α) ^ (k + 1)) :
    Int.log 2 x = k := by
  have hx : 0 < x := lt_of_lt_of_le (zpow_pos (by norm_num) k) h1
  have hb : 1 < 2 := by decide
  have h1c : ((2 : Nat) : α) ^ k ≤ x := by exact_mod_cast h1
  have h2c : x < ((2 : Nat) : α) ^ (k + 1) := by exact_mod_cast h2
  have ha : k ≤ Int.log 2 x := (Int.zpow_le_iff_le_log hb hx).mp h1c
  have hc : Int.log 2 x < k + 1 := (Int.lt_zpow_iff_log_lt hb hx).mp h2c
  omega

/-- Evaluation of `roundToDouble` at a value whose binary exponent is known. -/
theorem roundToDouble_of_exponent (x : α) (e : Int) (h1 : (2 : α) ^ (e + 52) ≤ |x|)
    (h2 : |x| < (2 : α) ^ (e + 52 + 1)) :
    roundToDouble x = ((roundHalfEven (x / 2 ^ e) : Int) : α) * 2 ^ e := by
  have hx : x ≠ 0 := by
    intro h
    rw [h, abs_zero] at h1
    exact absurd h1 (not_le.mpr (zpow_pos (by norm_num) _))
  have hl := log_two_eq |x| (e + 52) h1 h2
  have he : e + 52 - 52 = e := by omega
  simp only [roundToDouble, if_neg hx, hl, he]

/-- Evaluation of `roundToDouble`: `e` is the exponent of the last place of `x`, `f` the
integer part of `x / 2^e` and `m` the integer the quotient rounds to. -/
theorem roundToDouble_eval (x : α) (e f m : Int) (h1 : (2 : α) ^ (e + 52) ≤ |x|)
    (h2 : |x| < (2 : α) ^ (e + 52 + 1)) (hf1 : (f : α) ≤ x / 2 ^ e)
    (hf2 : x / 2 ^ e < (f : α) + 1)
    (hm : (if x / 2 ^ e - (f : α) < 1 / 2 then f else if 1 / 2 < x / 2 ^ e - (f : α) then f + 1
      else if f % 2 = 0 then f else f + 1) = m) :
    roundToDouble x = (m : α) * 2 ^ e := by
  rw [roundToDouble_of_exponent x e h1 h2, roundHalfEven_of_floor _ f hf1 hf2, hm]

theorem roundToDouble_zero : roundToDouble (0 : α) = 0 := by
  simp [roundToDouble]

/-- The relative error of `roundToDouble` is at most `2^-53`. -/
theorem roundToDouble_error (x : α) : |roundToDouble x - x| ≤ |x| / 2 ^ 53 := by
  by_cases hx : x = 0
  · simp [hx, roundToDouble]
  have hax : 0 < |x| := abs_pos.mpr hx
  set e := Int.log 2 |x| - 52 with he
  have hpos : (0 : α) < 2 ^ e := zpow_pos (by norm_num) e
  have hr : roundToDouble x = ((roundHalfEven (x / 2 ^ e) : Int) : α) * 2 ^ e := by
    simp only [roundToDouble, if_neg hx, he]
  have herr := roundHalfEven_error (x / 2 ^ e)
  have hlog : (2 : α) ^ (Int.log 2 |x|) ≤ |x| := by
    have := @Int.zpow_log_le_self α _ _ 2 |x| (by decide) hax
    exact_mod_cast this
  have h3 : roundToDouble x - x = (((roundHalfEven (x / 2 ^ e) : Int) : α) - x / 2 ^ e) * 2 ^ e := by
    rw [hr]; field_simp
  rw [h3, abs_mul, abs_of_pos hpos]
  have h4 : (2 : α) ^ e = 2 ^ (Int.log 2 |x|) / 2 ^ 52 := by
    rw [he, zpow_sub₀ (by norm_num)]; norm_num
  calc |((roundHalfEven (x / 2 ^ e) : Int) : α) - x / 2 ^ e| * 2 ^ e
      ≤ 1 / 2 * 2 ^ e := mul_le_mul_of_nonneg_right herr (le_of_lt hpos)
    _ = 2 ^ (Int.log 2 |x|) / 2 ^ 53 := by rw [h4]; ring
    _ ≤ |x| / 2 ^ 53 := by
        apply div_le_div_of_nonneg_right hlog (by positivity)

theorem roundToDouble_lower (x : α) : x - |x| / 2 ^ 53 ≤ roundToDouble x := by
  have h := (abs_le.mp (roundToDouble_error x)).1
  linarith

theorem roundToDouble_upper (x : α) : roundToDouble x ≤ x + |x| / 2 ^ 53 := by
  have h := (abs_le.mp (roundToDouble_error x)).2
  linarith

theorem roundToDouble_nonneg (x : α) (hx : 0 ≤ x) : 0 ≤ roundToDouble x := by
  have h := roundToDouble_lower x
  rw [abs_of_nonneg hx] at h
  have : x / 2 ^ 53 ≤ x := div_le_self hx (by norm_num)
  linarith

theorem castToInt_of_range (x : α) (t : Int) (ht : truncToInt x = t)
    (h1 : -2147483648 ≤ t) (h2 : t ≤ 2147483647) : castToInt x = some t := by
  simp only [castToInt, ht]
  rw [if_pos ⟨h1, h2⟩]

/-- A product of a count below `2^31` and a factor in `[0, 1]`, rounded to `double`, is
non-negative and truncates to at most the count. -/
theorem floor_rounded_product_le (k : Int) (p : α) (hk0 : 0 ≤ k) (hk : k ≤ 2147483647)
    (hp0 : 0 ≤ p) (hp1 : p ≤ 1) :
    0 ≤ roundToDouble ((k : α) * p) ∧ Int.floor (roundToDouble ((k : α) * p)) ≤ k := by
  have hkα : (0 : α) ≤ (k : α) := by exact_mod_cast hk0
  have hx0 : 0 ≤ (k : α) * p := mul_nonneg hkα hp0
  have hxk : (k : α) * p ≤ (k : α) := by
    calc (k : α) * p ≤ (k : α) * 1 := mul_le_mul_of_nonneg_left hp1 hkα
      _ = (k : α) := mul_one _
  refine ⟨roundToDouble_nonneg _ hx0, ?_⟩
  have hu := roundToDouble_upper ((k : α) * p)
  rw [abs_of_nonneg hx0] at hu
  have hk2 : (k : α) ≤ 2147483647 := by exact_mod_cast hk
  have h1 : (k : α) * p / 2 ^ 53 < 1 := by
    rw [div_lt_one (by positivity)]
    calc (k : α) * p ≤ (k : α) := hxk
      _ ≤ 2147483647 := hk2
      _ < 2 ^ 53 := by norm_num
  have h2 : roundToDouble ((k : α) * p) < ((k + 1 : Int) : α) := by
    push_cast; linarith
  have := Int.floor_lt.mpr h2
  omega

end Rounding

namespace StructureExtractor
variable {α : Type}

theorem countRounded_of_product [LinearOrderedField α] [FloorRing α] (k : Int) (p : α)
    (hk0 : 0 ≤ k) (hk : k ≤ 2147483647) (hp0 : 0 ≤ p) (hp1 : p ≤ 1) :
    (castToInt (roundToDouble ((k : α) * p))).map (fun t => max 1 t) =
      some (max 1 (Int.floor (roundToDouble ((k : α) * p)))) ∧
    max 1 (Int.floor (roundToDouble ((k : α) * p))) ≤ max 1 k := by
  obtain ⟨h0, hf⟩ := floor_rounded_product_le k p hk0 hk hp0 hp1
  have ht : truncToInt (roundToDouble ((k : α) * p)) = Int.floor (roundToDouble ((k : α) * p)) :=
    truncToInt_of_nonneg _ h0
  have hf0 : 0 ≤ Int.floor (roundToDouble ((k : α) * p)) := Int.floor_nonneg.mpr h0
  rw [castToInt_of_range _ _ ht (by omega) (by omega)]
  exact ⟨rfl, max_le_max (le_refl 1) hf⟩

/-- C3 (counterexample): with 7 leaves and `p = 1/4` (a `double`; the product `1.75` is a
`double` as well, so nothing is rounded) the filter uses `n = 1`, whereas
`max(1, round(7 * 1/4)) = max(1, round(1.75)) = 2`. -/
theorem neighborCountRounded_not_round :
    (1 : Nat) ≤ 7 ∧ (0 : ℚ) < 1 / 4 ∧ (1 / 4 : ℚ) ≤ 1 ∧
    neighborCountRounded 7 (1 / 4 : ℚ) = some 1 ∧
    max 1 (round (((7 : Nat) : ℚ) * (1 / 4))) = 2 ∧
    neighborCountRounded 7 (1 / 4 : ℚ) ≠ some (max 1 (round (((7 : Nat) : ℚ) * (1 / 4)))) := by
  have hr : roundToDouble (((7 : Nat) : ℚ) * (1 / 4)) = 7 / 4 := by
    rw [roundToDouble_of_exponent _ (-52) (by norm_num [abs_of_pos]) (by norm_num [abs_of_pos])]
    rw [roundHalfEven_of_floor _ 7881299347898368 (by norm_num) (by norm_num)]
    norm_num
  have hf : truncToInt (7 / 4 : ℚ) = 1 := by
    rw [truncToInt_of_nonneg _ (by norm_num), Int.floor_eq_iff]; constructor <;> norm_num
  have h1 : neighborCountRounded 7 (1 / 4 : ℚ) = some 1 := by
    rw [neighborCountRounded, hr, castToInt_of_range _ 1 hf (by decide) (by decide)]
    rfl
  have h2 : max 1 (round (((7 : Nat) : ℚ) * (1 / 4))) = 2 := by
    have hr : round (((7 : Nat) : ℚ) * (1 / 4)) = 2 := by
      rw [round_eq, Int.floor_eq_iff]; constructor <;> norm_num
    rw [hr]; rfl
  refine ⟨by decide, by norm_num, by norm_num, h1, h2, ?_⟩
  rw [h1, h2]
  decide

/-- C3 (amended): for `L ≥ 1` leaves (`L` an `int`) and `p` in `(0, 1]` the filter uses
`n = max(1, ⌊fl(L * p)⌋)` and `topN = max(1, ⌊fl(n * p)⌋)`, where `fl` rounds the exact
product to `double`: the rounded products are truncated, not rounded to the nearest
integer; both casts are defined, and `1 ≤ topN ≤ n ≤ L`. -/
theorem neighborCountRounded_topCountRounded_floor [LinearOrderedField α] [FloorRing α]
    (L : Nat) (p : α) (hL : 1 ≤ L) (hLint : L ≤ 2147483647) (hp0 : 0 < p) (hp1 : p ≤ 1) :
    ∃ n topN : Int,
      neighborCountRounded L p = some n ∧ topCountRounded n p = some topN ∧
      n = max 1 (Int.floor (roundToDouble ((L : α) * p))) ∧
      topN = max 1 (Int.floor (roundToDouble ((n : α) * p))) ∧
      1 ≤ topN ∧ topN ≤ n ∧ n ≤ (L : Int) := by
  obtain ⟨e1, b1⟩ := countRounded_of_product (L : Int) p (by omega) (by omega) (le_of_lt hp0) hp1
  have hn1 : (1 : Int) ≤ max 1 (Int.floor (roundToDouble (((L : Int) : α) * p))) :=
    le_max_left _ _
  have hnL : max 1 (Int.floor (roundToDouble (((L : Int) : α) * p))) ≤ (L : Int) := by
    have : max (1 : Int) (L : Int) = (L : Int) := max_eq_right (by omega)
    exact le_trans b1 (le_of_eq this)
  obtain ⟨e2, b2⟩ := countRounded_of_product
    (max 1 (Int.floor (roundToDouble (((L : Int) : α) * p)))) p (by omega) (by omega)
    (le_of_lt hp0) hp1
  refine ⟨max 1 (Int.floor (roundToDouble ((L : α) * p))),
    max 1 (Int.floor (roundToDouble
      (((max 1 (Int.floor (roundToDouble ((L : α) * p))) : Int) : α) * p))), ?_, ?_, rfl, rfl,
    le_max_left _ _, ?_, ?_⟩
  · simpa [neighborCountRounded] using e1
  · simpa [topCountRounded] using e2
  · have : max (1 : Int) (max 1 (Int.floor (roundToDouble (((L : Int) : α) * p)))) =
        max 1 (Int.floor (roundToDouble (((L : Int) : α) * p))) := max_eq_right hn1
    rw [this] at b2
    simpa using b2
  · simpa using hnL

theorem roundToDouble_15_hundredths :
    roundToDouble (15 / 100 : ℚ) = 5404319552844595 / 36028797018963968 := by
  rw [roundToDouble_eval _ (-55) (5404319552844595) (5404319552844595)
    (by norm_num [abs_of_pos]) (by norm_num [abs_of_pos]) (by norm_num) (by norm_num) (by norm_num)]
  norm_num

/-- With 20 leaves and the `double` value of `0.15` the exact product is just below 3 and
rounds to `3.0`: the filter uses `n = 3`, one more than the floor of the exact product. -/
theorem neighborCountRounded_twenty :
    neighborCountRounded 20 (roundToDouble (15 / 100 : ℚ)) = some 3 ∧
    Int.floor (((20 : Nat) : ℚ) * roundToDouble (15 / 100 : ℚ)) = 2 := by
  rw [roundToDouble_15_hundredths]
  have hr : roundToDouble (((20 : Nat) : ℚ) * (5404319552844595 / 36028797018963968) : ℚ) = 3 := by
    rw [roundToDouble_eval _ (-51) (6755399441055743) (6755399441055744)
      (by norm_num [abs_of_pos]) (by norm_num [abs_of_pos]) (by norm_num) (by norm_num) (by norm_num)]
    norm_num
  constructor
  · have hf : truncToInt (3 : ℚ) = 3 := by
      rw [truncToInt_of_nonneg _ (by norm_num)]
      exact Int.floor_intCast 3
    rw [neighborCountRounded, hr, castToInt_of_range _ 3 hf (by decide) (by decide)]
    rfl
  · rw [Int.floor_eq_iff]
    constructor <;> norm_num

theorem neighborCountRounded_topCountRounded_floor_witness :
    ((1 : Nat) ≤ 20 ∧ (20 : Nat) ≤ 2147483647 ∧ (0 : ℚ) < roundToDouble (15 / 100) ∧
      roundToDouble (15 / 100 : ℚ) ≤ 1) ∧
    (∃ n topN : Int,
      neighborCountRounded 20 (roundToDouble (15 / 100 : ℚ)) = some n ∧
      topCountRounded n (roundToDouble (15 / 100 : ℚ)) = some topN ∧
      n = max 1 (Int.floor (roundToDouble (((20 : Nat) : ℚ) * roundToDouble (15 / 100)))) ∧
      topN = max 1 (Int.floor (roundToDouble ((n : ℚ) * roundToDouble (15 / 100)))) ∧
      1 ≤ topN ∧ topN ≤ n ∧ n ≤ ((20 : Nat) : Int)) ∧
    (neighborCountRounded 20 (roundToDouble (15 / 100 : ℚ)) = some 3 ∧
      Int.floor (((20 : Nat) : ℚ) * roundToDouble (15 / 100 : ℚ)) = 2) :=
  have h0 : (0 : ℚ) < roundToDouble (15 / 100) := by
    rw [roundToDouble_15_hundredths]; norm_num
  have h1 : roundToDouble (15 / 100 : ℚ) ≤ 1 := by
    rw [roundToDouble_15_hundredths]; norm_num
  ⟨⟨by decide, by decide, h0, h1⟩,
    neighborCountRounded_topCountRounded_floor 20 (roundToDouble (15 / 100 : ℚ)) (by decide)
      (by decide) h0 h1, neighborCountRounded_twenty⟩

end StructureExtractor

/-! ## Height statistics in `double` arithmetic -/

theorem abs_list_sum_le {α : Type} [LinearOrderedField α] (l : List α) :
    |l.sum| ≤ (l.map (fun h => |h|)).sum := by
  induction l with
  | nil => simp
  | cons h t ih =>
    simp only [List.sum_cons, List.map_cons]
    exact (abs_add _ _).trans (add_le_add le_rfl ih)

section RoundedSums
variable {α : Type} [LinearOrderedField α] [FloorRing α]

theorem rounded_add_error (a a' h : α) :
    |roundToDouble (a + h) - (a' + h)| ≤
      (1 + 1 / 2 ^ 53) * |a - a'| + 1 / 2 ^ 53 * (|a'| + |h|) := by
  have e := roundToDouble_error (a + h)
  have h1 : |a + h| ≤ |a - a'| + |a'| + |h| := by
    have : a + h = (a - a') + a' + h := by ring
    rw [this]
    exact (abs_add _ _).trans (add_le_add (abs_add _ _) le_rfl)
  have h2 : roundToDouble (a + h) - (a' + h) = (roundToDouble (a + h) - (a + h)) + (a - a') := by
    ring
  rw [h2]
  have h3 := abs_add (roundToDouble (a + h) - (a + h)) (a - a')
  have h4 : |a + h| / 2 ^ 53 ≤ (|a - a'| + |a'| + |h|) / 2 ^ 53 :=
    div_le_div_of_nonneg_right h1 (by positivity)
  have h5 : (|a - a'| + |a'| + |h|) / 2 ^ 53 =
      1 / 2 ^ 53 * |a - a'| + 1 / 2 ^ 53 * (|a'| + |h|) := by ring
  linarith

/-- The error of a sum computed from left to right in `double` arithmetic. -/
theorem rounded_foldl_error (l : List α) : ∀ a a' : α,
    |l.foldl (fun acc h => roundToDouble (acc + h)) a - (a' + l.sum)| ≤
      (1 + 1 / 2 ^ 53) ^ l.length * |a - a'| +
        ((1 + 1 / 2 ^ 53) ^ l.length - 1) * (|a'| + (l.map (fun h => |h|)).sum) := by
  induction l with
  | nil => intro a a'; simp
  | cons h t ih =>
    intro a a'
    have hstep := rounded_add_error a a' h
    have hih := ih (roundToDouble (a + h)) (a' + h)
    simp only [List.foldl_cons, List.sum_cons, List.map_cons, List.length_cons]
    have hP1 : (1 : α) ≤ (1 + 1 / 2 ^ 53) ^ t.length := one_le_pow₀ (by norm_num)
    have hA0 : 0 ≤ (t.map (fun h => |h|)).sum := by
      apply List.sum_nonneg
      intro x hx
      obtain ⟨y, _, rfl⟩ := List.mem_map.mp hx
      exact abs_nonneg y
    have e1 : a' + (h + t.sum) = a' + h + t.sum := by ring
    rw [e1, pow_succ]
    have h2 : |a' + h| ≤ |a'| + |h| := abs_add a' h
    generalize (1 + 1 / 2 ^ 53 : α) ^ t.length = P at hih hP1 ⊢
    generalize (t.map (fun h => |h|)).sum = A at hih hA0 ⊢
    generalize |roundToDouble (a + h) - (a' + h)| = d1 at hih hstep ⊢
    generalize |a' + h| = x1 at hih h2 ⊢
    have hd0 : 0 ≤ |a - a'| := abs_nonneg _
    have ha0 : 0 ≤ |a'| := abs_nonneg _
    have hh0 : 0 ≤ |h| := abs_nonneg _
    generalize |a - a'| = d at hstep hd0 ⊢
    generalize |a'| = x at hstep h2 ha0 ⊢
    generalize |h| = y at hstep h2 hh0 ⊢
    have h3 : P * d1 ≤ P * ((1 + 1 / 2 ^ 53) * d + 1 / 2 ^ 53 * (x + y)) :=
      mul_le_mul_of_nonneg_left hstep (by linarith)
    have h4 : (P - 1) * (x1 + A) ≤ (P - 1) * (x + y + A) :=
      mul_le_mul_of_nonneg_left (by linarith) (by linarith)
    have h5 : 0 ≤ P * (1 / 2 ^ 53) * A :=
      mul_nonneg (mul_nonneg (by linarith) (by positivity)) hA0
    calc |List.foldl (fun acc h => roundToDouble (acc + h)) (roundToDouble (a + h)) t -
          (a' + h + t.sum)| ≤ P * d1 + (P - 1) * (x1 + A) := hih
      _ ≤ P * ((1 + 1 / 2 ^ 53) * d + 1 / 2 ^ 53 * (x + y)) + (P - 1) * (x + y + A) := by
          linarith
      _ ≤ P * (1 + 1 / 2 ^ 53) * d + (P * (1 + 1 / 2 ^ 53) - 1) * (x + (y + A)) := by
          nlinarith

/-- The error of a mean computed in `double` arithmetic (the values added from left to
right, the sum divided by their number) for values bounded by `B` in magnitude. -/
theorem rounded_mean_error (l : List α) (B : α) (hne : l ≠ []) (hB : ∀ h ∈ l, |h| ≤ B) :
    |roundToDouble (l.foldl (fun acc h => roundToDouble (acc + h)) 0 / (l.length : α)) -
        l.sum / (l.length : α)| ≤ ((1 + 1 / 2 ^ 53) ^ (l.length + 1) - 1) * B := by
  have hlen : 0 < l.length := List.length_pos.mpr hne
  have hn : (0 : α) < (l.length : α) := by exact_mod_cast hlen
  have hsum := rounded_foldl_error l 0 0
  simp only [sub_self, abs_zero, mul_zero, zero_add] at hsum
  have hA : (l.map (fun h => |h|)).sum ≤ (l.length : α) * B := by
    have := List.sum_le_card_nsmul (l.map (fun h => |h|)) B (by
      intro x hx
      obtain ⟨y, hy, rfl⟩ := List.mem_map.mp hx
      exact hB y hy)
    simpa [nsmul_eq_mul] using this
  have hA0 : 0 ≤ (l.map (fun h => |h|)).sum := by
    apply List.sum_nonneg
    intro x hx
    obtain ⟨y, _, rfl⟩ := List.mem_map.mp hx
    exact abs_nonneg y
  have hS : |l.sum| ≤ (l.map (fun h => |h|)).sum := abs_list_sum_le l
  have hP1 : (1 : α) ≤ (1 + 1 / 2 ^ 53) ^ l.length := one_le_pow₀ (by norm_num)
  rw [pow_succ]
  generalize (1 + 1 / 2 ^ 53 : α) ^ l.length = P at hsum hP1 ⊢
  generalize (l.map (fun h => |h|)).sum = A at hsum hA hA0 hS
  generalize l.foldl (fun acc h => roundToDouble (acc + h)) 0 = F at hsum ⊢
  generalize l.sum = S at hsum hS ⊢
  generalize (l.length : α) = n at hn hA ⊢
  have e := roundToDouble_error (F / n)
  have hF : |F| ≤ P * A := by
    have h1 : |F| ≤ |F - S| + |S| := by
      have : F = (F - S) + S := by ring
      calc |F| = |(F - S) + S| := by rw [← this]
        _ ≤ |F - S| + |S| := abs_add _ _
    nlinarith
  have hq : |F / n| ≤ P * B := by
    rw [abs_div, abs_of_pos hn, div_le_iff₀ hn]
    have : P * A ≤ P * (n * B) := mul_le_mul_of_nonneg_left hA (by linarith)
    calc |F| ≤ P * A := hF
      _ ≤ P * (n * B) := this
      _ = P * B * n := by ring
  have hd : |F / n - S / n| ≤ (P - 1) * B := by
    rw [← sub_div, abs_div, abs_of_pos hn, div_le_iff₀ hn]
    have : (P - 1) * A ≤ (P - 1) * (n * B) := mul_le_mul_of_nonneg_left hA (by linarith)
    calc |F - S| ≤ (P - 1) * A := hsum
      _ ≤ (P - 1) * (n * B) := this
      _ = (P - 1) * B * n := by ring
  have h2 : roundToDouble (F / n) - S / n = (roundToDouble (F / n) - F / n) + (F / n - S / n) := by
    ring
  rw [h2]
  have h3 := abs_add (roundToDouble (F / n) - F / n) (F / n - S / n)
  have h4 : |F / n| / 2 ^ 53 ≤ P * B / 2 ^ 53 := div_le_div_of_nonneg_right hq (by positivity)
  have h5 : P * B / 2 ^ 53 + (P - 1) * B = (P * (1 + 1 / 2 ^ 53) - 1) * B := by ring
  linarith

end RoundedSums

namespace TreeHeight
variable {α : Type}

theorem calculateAverageHeightRounded_eq [LinearOrderedField α] [FloorRing α]
    (points : List (Point3D α)) (hne : points ≠ []) :
    calculateAverageHeightRounded points =
      roundToDouble ((points.map (fun q => q.z)).foldl (fun acc h => roundToDouble (acc + h)) 0 /
        ((points.map (fun q => q.z)).length : α)) := by
  unfold calculateAverageHeightRounded
  cases points with
  | nil => exact absurd rfl hne
  | cons q rest =>
    simp only [List.isEmpty_cons, Bool.false_eq_true, if_false, List.foldl_map, List.length_map]

theorem getTopNPoints_subset [LinearOrderedField α] (points : List (Point3D α)) (n : Int) :
    ∀ q ∈ getTopNPoints points n, q ∈ points := by
  intro q hq
  unfold getTopNPoints at hq
  split_ifs at hq
  · simp at hq
  · exact (stdSort_perm _ points).mem_iff.mp (List.mem_of_mem_take hq)

theorem getTopNPoints_ne_nil [LinearOrderedField α] (points : List (Point3D α)) (n : Int)
    (hne : points ≠ []) (hn : 0 < n) : getTopNPoints points n ≠ [] := by
  have hlen := getTopNPoints_length points n hn
  have hpos : 0 < points.length := List.length_pos.mpr hne
  intro h
  rw [h] at hlen
  simp only [List.length_nil, Nat.cast_zero] at hlen
  omega

theorem calculateFromPointsRounded_of_valid [LinearOrderedField α] [FloorRing α]
    (points : List (Point3D α)) (top_n : Int) (hne : points ≠ []) (hn : 0 < top_n) :
    calculateFromPointsRounded points top_n =
      { success := true
        tree_height := calculateAverageHeightRounded (getTopNPoints points top_n)
        point_count := ((getTopNPoints points top_n).length : Int)
        error_message := "" } := by
  have htop := getTopNPoints_ne_nil points top_n hne hn
  unfold calculateFromPointsRounded
  have h1 : points.isEmpty = false := by
    cases points with
    | nil => exact absurd rfl hne
    | cons _ _ => rfl
  have h2 : (getTopNPoints points top_n).isEmpty = false := by
    cases h : getTopNPoints points top_n with
    | nil => exact absurd h htop
    | cons _ _ => rfl
  simp [h1, h2, not_le.mpr hn, HeightResult.init]

end TreeHeight

namespace CrownDepth
variable {α : Type}

theorem bottomAverageRounded_eq [LinearOrderedField α] [FloorRing α]
    (points : List (Point3D α)) (hne : points ≠ []) :
    calculateAverageHeightRounded points =
      roundToDouble ((points.map (fun q => q.z)).foldl (fun acc h => roundToDouble (acc + h)) 0 /
        ((points.map (fun q => q.z)).length : α)) := by
  unfold calculateAverageHeightRounded
  cases points with
  | nil => exact absurd rfl hne
  | cons q rest =>
    simp only [List.isEmpty_cons, Bool.false_eq_true, if_false, List.foldl_map, List.length_map]

theorem getBottomNPoints_subset [LinearOrderedField α] (points : List (Point3D α)) (n : Int) :
    ∀ q ∈ getBottomNPoints points n, q ∈ points := by
  intro q hq
  unfold getBottomNPoints at hq
  split_ifs at hq
  · simp at hq
  · exact (stdSort_perm _ points).mem_iff.mp (List.mem_of_mem_take hq)

theorem getBottomNPoints_ne_nil [LinearOrderedField α] (points : List (Point3D α)) (n : Int)
    (hne : points ≠ []) (hn : 0 < n) : getBottomNPoints points n ≠ [] := by
  have hlen := getBottomNPoints_length points n hn
  have hpos : 0 < points.length := List.length_pos.mpr hne
  intro h
  rw [h] at hlen
  simp only [List.length_nil, Nat.cast_zero] at hlen
  omega

theorem calculateH0Rounded_of_valid [LinearOrderedField α] [FloorRing α]
    (points : List (Point3D α)) (n : Int) (hne : points ≠ []) (hn : 0 < n) :
    calculateH0Rounded points n = calculateAverageHeightRounded (getBottomNPoints points n) := by
  have hb := getBottomNPoints_ne_nil points n hne hn
  unfold calculateH0Rounded
  have h1 : points.isEmpty = false := by
    cases points with
    | nil => exact absurd rfl hne
    | cons _ _ => rfl
  have h2 : (getBottomNPoints points n).isEmpty = false := by
    cases h : getBottomNPoints points n with
    | nil => exact absurd h hb
    | cons _ _ => rfl
  simp [h1, h2, not_le.mpr hn]

theorem calculateFromPointsRounded_of_valid_input [LinearOrderedField α] [FloorRing α]
    (points : List (Point3D α)) (tree_height : α) (bottom_n : Int) (hne : points ≠ [])
    (hth : 0 < tree_height) (hn : 0 < bottom_n) :
    calculateFromPointsRounded points tree_height bottom_n =
      { success := true
        h0 := calculateH0Rounded points bottom_n
        crown_depth := roundToDouble (tree_height - calculateH0Rounded points bottom_n)
        point_count := ((getBottomNPoints points bottom_n).length : Int)
        error_message := "" } := by
  unfold calculateFromPointsRounded
  have h1 : points.isEmpty = false := by
    cases points with
    | nil => exact absurd rfl hne
    | cons _ _ => rfl
  simp [h1, not_le.mpr hn, not_le.mpr hth, CrownDepthResult.init]

theorem calculateFromPointsRounded_of_success [LinearOrderedField α] [FloorRing α]
    (points : List (Point3D α)) (tree_height : α) (bottom_n : Int)
    (hs : (calculateFromPointsRounded points tree_height bottom_n).success = true) :
    points ≠ [] ∧ 0 < tree_height ∧ 0 < bottom_n := by
  unfold calculateFromPointsRounded at hs
  simp only [] at hs
  split_ifs at hs with h1 h2 h3
  · simp [CrownDepthResult.init] at hs
  · simp [CrownDepthResult.init] at hs
  · simp [CrownDepthResult.init] at hs
  · refine ⟨?_, not_le.mp h2, not_le.mp h3⟩
    intro h
    rw [h] at h1
    exact h1 rfl

end CrownDepth

theorem meanRoundingBound_nonneg {α : Type} [LinearOrderedField α] (k : Nat) :
    (0 : α) ≤ meanRoundingBound k := by
  unfold meanRoundingBound
  have : (1 : α) ≤ (1 + 1 / 2 ^ 53) ^ (k + 1) := one_le_pow₀ (by norm_num)
  linarith

section RoundedHeights
variable {α : Type} [LinearOrderedField α] [FloorRing α]

/-- The rounded tree height differs from the exact mean of the top points by at most the
rounding bound. -/
theorem tree_height_rounding_error (points : List (Point3D α)) (top_n : Int) (B : α)
    (hne : points ≠ []) (ht : 0 < top_n) (hB : ∀ q ∈ points, |q.z| ≤ B) :
    |TreeHeight.calculateAverageHeightRounded (TreeHeight.getTopNPoints points top_n) -
        TreeHeight.calculateAverageHeight (TreeHeight.getTopNPoints points top_n)| ≤
      meanRoundingBound (min top_n (points.length : Int)).toNat * B := by
  have htop := TreeHeight.getTopNPoints_ne_nil points top_n hne ht
  have hlen := TreeHeight.getTopNPoints_length points top_n ht
  have hk : ((TreeHeight.getTopNPoints points top_n).map (fun q => q.z)).length =
      (min top_n (points.length : Int)).toNat := by
    rw [List.length_map]; omega
  rw [TreeHeight.calculateAverageHeightRounded_eq _ htop, TreeHeight.calculateAverageHeight_eq]
  have h := rounded_mean_error ((TreeHeight.getTopNPoints points top_n).map (fun q => q.z)) B
    (by simpa using htop)
    (by
      intro h hh
      obtain ⟨q, hq, rfl⟩ := List.mem_map.mp hh
      exact hB q (TreeHeight.getTopNPoints_subset points top_n q hq))
  unfold meanRoundingBound
  rw [← hk]
  exact h

/-- The rounded crown-base height differs from the exact mean of the bottom points by at
most the rounding bound. -/
theorem h0_rounding_error (points : List (Point3D α)) (bottom_n : Int) (B : α)
    (hne : points ≠ []) (hb : 0 < bottom_n) (hB : ∀ q ∈ points, |q.z| ≤ B) :
    |CrownDepth.calculateH0Rounded points bottom_n - CrownDepth.calculateH0 points bottom_n| ≤
      meanRoundingBound (min bottom_n (points.length : Int)).toNat * B := by
  have hbot := CrownDepth.getBottomNPoints_ne_nil points bottom_n hne hb
  have hlen := CrownDepth.getBottomNPoints_length points bottom_n hb
  have hk : ((CrownDepth.getBottomNPoints points bottom_n).map (fun q => q.z)).length =
      (min bottom_n (points.length : Int)).toNat := by
    rw [List.length_map]; omega
  rw [CrownDepth.calculateH0Rounded_of_valid points bottom_n hne hb,
    CrownDepth.bottomAverageRounded_eq _ hbot, CrownDepth.calculateH0_eq points bottom_n hb]
  have h := rounded_mean_error ((CrownDepth.getBottomNPoints points bottom_n).map (fun q => q.z)) B
    (by simpa using hbot)
    (by
      intro h hh
      obtain ⟨q, hq, rfl⟩ := List.mem_map.mp hh
      exact hB q (CrownDepth.getBottomNPoints_subset points bottom_n q hq))
  unfold meanRoundingBound
  rw [← hk]
  exact h

end RoundedHeights

/-- C25 (amended): for a non-empty point list whose heights are bounded by `B` in
magnitude and `top_n > 0`, `bottom_n > 0`, the tree height computed by
`TreeHeight::calculateFromPoints` is at least the `h0` computed by
`CrownDepth::calculateH0` up to the rounding error of the two means:
`tree_height ≥ h0 - (g(k) + g(m)) * B` with `k = min(top_n, N)`, `m = min(bottom_n, N)` and
`g(j) = (1 + 2^-53)^(j+1) - 1`; and a successful crown-depth result computed from that tree
height has `crown_depth ≥ -(g(k) + g(m)) * B * (1 + 2^-53)`. -/
theorem tree_height_ge_h0_up_to_rounding {α : Type} [LinearOrderedField α] [FloorRing α]
    (points : List (Point3D α)) (top_n bottom_n : Int) (B : α) (hne : points ≠ [])
    (ht : 0 < top_n) (hb : 0 < bottom_n) (hB : ∀ q ∈ points, |q.z| ≤ B) :
    CrownDepth.calculateH0Rounded points bottom_n -
        (meanRoundingBound (min top_n (points.length : Int)).toNat +
          meanRoundingBound (min bottom_n (points.length : Int)).toNat) * B ≤
      (TreeHeight.calculateFromPointsRounded points top_n).tree_height ∧
    ((CrownDepth.calculateFromPointsRounded points
        (TreeHeight.calculateFromPointsRounded points top_n).tree_height bottom_n).success = true →
      -((meanRoundingBound (min top_n (points.length : Int)).toNat +
          meanRoundingBound (min bottom_n (points.length : Int)).toNat) * B *
            (1 + 1 / 2 ^ 53)) ≤
        (CrownDepth.calculateFromPointsRounded points
          (TreeHeight.calculateFromPointsRounded points top_n).tree_height bottom_n).crown_depth) := by
  have h1 := abs_le.mp (tree_height_rounding_error points top_n B hne ht hB)
  have h2 := abs_le.mp (h0_rounding_error points bottom_n B hne hb hB)
  have h3 := calculateH0_le_tree_height points top_n bottom_n hne ht hb
  have hth : (TreeHeight.calculateFromPointsRounded points top_n).tree_height =
      TreeHeight.calculateAverageHeightRounded (TreeHeight.getTopNPoints points top_n) := by
    rw [TreeHeight.calculateFromPointsRounded_of_valid points top_n hne ht]
  have hmain : CrownDepth.calculateH0Rounded points bottom_n -
        (meanRoundingBound (min top_n (points.length : Int)).toNat +
          meanRoundingBound (min bottom_n (points.length : Int)).toNat) * B ≤
      (TreeHeight.calculateFromPointsRounded points top_n).tree_height := by
    rw [hth]; linarith [h1.1, h2.2]
  refine ⟨hmain, ?_⟩
  intro hs
  obtain ⟨_, hpos, _⟩ := CrownDepth.calculateFromPointsRounded_of_success _ _ _ hs
  rw [CrownDepth.calculateFromPointsRounded_of_valid_input points _ bottom_n hne hpos hb]
  simp only []
  have hB0 : 0 ≤ B := by
    cases points with
    | nil => exact absurd rfl hne
    | cons q _ => exact le_trans (abs_nonneg q.z) (hB q (List.mem_cons_self _ _))
  have hG : 0 ≤ (meanRoundingBound (min top_n (points.length : Int)).toNat +
      meanRoundingBound (min bottom_n (points.length : Int)).toNat : α) * B :=
    mul_nonneg (add_nonneg (meanRoundingBound_nonneg _) (meanRoundingBound_nonneg _)) hB0
  have hlow := roundToDouble_lower ((TreeHeight.calculateFromPointsRounded points top_n).tree_height -
    CrownDepth.calculateH0Rounded points bottom_n)
  have hd : -((meanRoundingBound (min top_n (points.length : Int)).toNat +
      meanRoundingBound (min bottom_n (points.length : Int)).toNat : α) * B) ≤
      (TreeHeight.calculateFromPointsRounded points top_n).tree_height -
        CrownDepth.calculateH0Rounded points bottom_n := by linarith
  generalize (meanRoundingBound (min top_n (points.length : Int)).toNat +
      meanRoundingBound (min bottom_n (points.length : Int)).toNat : α) * B = G at hd hG ⊢
  generalize (TreeHeight.calculateFromPointsRounded points top_n).tree_height -
    CrownDepth.calculateH0Rounded points bottom_n = d at hlow hd ⊢
  have hG2 : 0 ≤ G * (1 / 2 ^ 53) := mul_nonneg hG (by positivity)
  rcases le_total 0 d with h0 | h0
  · rw [abs_of_nonneg h0] at hlow
    have : d / 2 ^ 53 ≤ d := div_le_self h0 (by norm_num)
    linarith
  · rw [abs_of_nonpos h0] at hlow
    have h5 : -G / 2 ^ 53 ≤ d / 2 ^ 53 := div_le_div_of_nonneg_right hd (by positivity)
    have h6 : -G / 2 ^ 53 = -(G * (1 / 2 ^ 53)) := by ring
    have h7 : -d / 2 ^ 53 = -(d / 2 ^ 53) := by ring
    have h8 : G * (1 + 1 / 2 ^ 53) = G + G * (1 / 2 ^ 53) := by ring
    linarith

/-! ### The rounded means of the heights 4.1, 4.2 and 4.8 -/

theorem roundToDouble_41 :
    roundToDouble (41 / 10 : ℚ) = 2308094809027379 / 562949953421312 := by
  rw [roundToDouble_eval _ (-50) (4616189618054758) (4616189618054758)
    (by norm_num [abs_of_pos]) (by norm_num [abs_of_pos]) (by norm_num) (by norm_num) (by norm_num)]
  norm_num

theorem roundToDouble_42 :
    roundToDouble (42 / 10 : ℚ) = 4728779608739021 / 1125899906842624 := by
  rw [roundToDouble_eval _ (-50) (4728779608739020) (4728779608739021)
    (by norm_num [abs_of_pos]) (by norm_num [abs_of_pos]) (by norm_num) (by norm_num) (by norm_num)]
  norm_num

theorem roundToDouble_48 :
    roundToDouble (48 / 10 : ℚ) = 5404319552844595 / 1125899906842624 := by
  rw [roundToDouble_eval _ (-50) (5404319552844595) (5404319552844595)
    (by norm_num [abs_of_pos]) (by norm_num [abs_of_pos]) (by norm_num) (by norm_num) (by norm_num)]
  norm_num

theorem roundingPoints_z :
    (roundingPoints ℚ).map (fun q => q.z) =
      [2308094809027379 / 562949953421312, 4728779608739021 / 1125899906842624,
        5404319552844595 / 1125899906842624] := by
  simp only [roundingPoints, List.map_cons, List.map_nil, roundToDouble_41, roundToDouble_42,
    roundToDouble_48]

theorem roundingPoints_ne_nil : roundingPoints ℚ ≠ [] := by
  simp [roundingPoints]

theorem roundingPoints_top_z :
    (TreeHeight.getTopNPoints (roundingPoints ℚ) 5).map (fun q => q.z) =
      [5404319552844595 / 1125899906842624, 4728779608739021 / 1125899906842624,
        2308094809027379 / 562949953421312] := by
  rw [TreeHeight.getTopNPoints_z _ 5 (by decide)]
  obtain ⟨hp, hs⟩ := sort_desc_z (roundingPoints ℚ)
  rw [roundingPoints_z] at hp
  have hlen := hp.length_eq
  have htake : (min (5 : Int) ((roundingPoints ℚ).length : Int)).toNat = 3 := by
    simp [roundingPoints]
  rw [htake, List.take_of_length_le (by rw [hlen]; simp)]
  haveI : IsAntisymm ℚ (fun a b => b ≤ a) := ⟨fun a b h1 h2 => le_antisymm h2 h1⟩
  refine List.eq_of_perm_of_sorted (hp.trans ?_) hs ?_
  · exact (List.reverse_perm _).symm
  · norm_num [List.Sorted]

theorem roundingPoints_bottom_z :
    (CrownDepth.getBottomNPoints (roundingPoints ℚ) 5).map (fun q => q.z) =
      [2308094809027379 / 562949953421312, 4728779608739021 / 1125899906842624,
        5404319552844595 / 1125899906842624] := by
  rw [CrownDepth.getBottomNPoints_z _ 5 (by decide)]
  obtain ⟨hp, hs⟩ := sort_asc_z (roundingPoints ℚ)
  rw [roundingPoints_z] at hp
  have hlen := hp.length_eq
  have htake : (min (5 : Int) ((roundingPoints ℚ).length : Int)).toNat = 3 := by
    simp [roundingPoints]
  rw [htake, List.take_of_length_le (by rw [hlen]; simp)]
  refine List.eq_of_perm_of_sorted hp hs ?_
  norm_num [List.Sorted]

/-- The tree height of the three points, summed in descending order: 4.366666666666666. -/
theorem roundingPoints_tree_height :
    (TreeHeight.calculateFromPointsRounded (roundingPoints ℚ) 5).tree_height =
      4916429593212791 / 1125899906842624 := by
  have hd1 : roundToDouble (0 + 5404319552844595 / 1125899906842624 : ℚ) =
      5404319552844595 / 1125899906842624 := by
    rw [roundToDouble_eval _ (-50) (5404319552844595) (5404319552844595)
      (by norm_num [abs_of_pos]) (by norm_num [abs_of_pos]) (by norm_num) (by norm_num) (by norm_num)]
    norm_num
  have hd2 : roundToDouble (5404319552844595 / 1125899906842624 + 4728779608739021 / 1125899906842624 : ℚ) =
      9 := by
    rw [roundToDouble_eval _ (-49) (5066549580791808) (5066549580791808)
      (by norm_num [abs_of_pos]) (by norm_num [abs_of_pos]) (by norm_num) (by norm_num) (by norm_num)]
    norm_num
  have hd3 : roundToDouble (9 + 2308094809027379 / 562949953421312 : ℚ) =
      7374644389819187 / 562949953421312 := by
    rw [roundToDouble_eval _ (-49) (7374644389819187) (7374644389819187)
      (by norm_num [abs_of_pos]) (by norm_num [abs_of_pos]) (by norm_num) (by norm_num) (by norm_num)]
    norm_num
  have hd4 : roundToDouble (7374644389819187 / 1688849860263936 : ℚ) =
      4916429593212791 / 1125899906842624 := by
    rw [roundToDouble_eval _ (-50) (4916429593212791) (4916429593212791)
      (by norm_num [abs_of_pos]) (by norm_num [abs_of_pos]) (by norm_num) (by norm_num) (by norm_num)]
    norm_num
  rw [TreeHeight.calculateFromPointsRounded_of_valid _ 5 roundingPoints_ne_nil (by decide)]
  simp only []
  rw [TreeHeight.calculateAverageHeightRounded_eq _
    (TreeHeight.getTopNPoints_ne_nil _ 5 roundingPoints_ne_nil (by decide)), roundingPoints_top_z]
  simp only [List.foldl_cons, List.foldl_nil, List.length_cons, List.length_nil]
  rw [hd1, hd2, hd3]
  norm_num
  exact hd4

/-- The crown-base height of the three points, summed in ascending order:
4.366666666666667. -/
theorem roundingPoints_h0 :
    CrownDepth.calculateH0Rounded (roundingPoints ℚ) 5 = 614553699151599 / 140737488355328 := by
  have ha1 : roundToDouble (0 + 2308094809027379 / 562949953421312 : ℚ) =
      2308094809027379 / 562949953421312 := by
    rw [roundToDouble_eval _ (-50) (4616189618054758) (4616189618054758)
      (by norm_num [abs_of_pos]) (by norm_num [abs_of_pos]) (by norm_num) (by norm_num) (by norm_num)]
    norm_num
  have ha2 : roundToDouble (2308094809027379 / 562949953421312 + 4728779608739021 / 1125899906842624 : ℚ) =
      2336242306698445 / 281474976710656 := by
    rw [roundToDouble_eval _ (-49) (4672484613396889) (4672484613396890)
      (by norm_num [abs_of_pos]) (by norm_num [abs_of_pos]) (by norm_num) (by norm_num) (by norm_num)]
    norm_num
  have ha3 : roundToDouble (2336242306698445 / 281474976710656 + 5404319552844595 / 1125899906842624 : ℚ) =
      1843661097454797 / 140737488355328 := by
    rw [roundToDouble_eval _ (-49) (7374644389819187) (7374644389819188)
      (by norm_num [abs_of_pos]) (by norm_num [abs_of_pos]) (by norm_num) (by norm_num) (by norm_num)]
    norm_num
  have ha4 : roundToDouble (614553699151599 / 140737488355328 : ℚ) =
      614553699151599 / 140737488355328 := by
    rw [roundToDouble_eval _ (-50) (4916429593212792) (4916429593212792)
      (by norm_num [abs_of_pos]) (by norm_num [abs_of_pos]) (by norm_num) (by norm_num) (by norm_num)]
    norm_num
  rw [CrownDepth.calculateH0Rounded_of_valid _ 5 roundingPoints_ne_nil (by decide),
    CrownDepth.bottomAverageRounded_eq _
    (CrownDepth.getBottomNPoints_ne_nil _ 5 roundingPoints_ne_nil (by decide)),
    roundingPoints_bottom_z]
  simp only [List.foldl_cons, List.foldl_nil, List.length_cons, List.length_nil]
  rw [ha1, ha2, ha3]
  norm_num
  exact ha4

/-- C25 (counterexample): for the three points at the heights 4.1, 4.2 and 4.8 (as
`double` values) and `top_n = bottom_n = 5`, the values of the pipeline, the tree height is
the mean summed from the greatest height down, 4.366666666666666, and `h0` is the mean of
the same three heights summed from the least height up, 4.366666666666667: the tree height
is below `h0`, and the crown-depth result is successful with
`crown_depth = -2^-50`, about `-8.9e-16`. -/
theorem crown_depth_negative_by_rounding :
    roundingPoints ℚ ≠ [] ∧ (0 : Int) < 5 ∧
    (TreeHeight.calculateFromPointsRounded (roundingPoints ℚ) 5).success = true ∧
    (TreeHeight.calculateFromPointsRounded (roundingPoints ℚ) 5).tree_height =
      4916429593212791 / 1125899906842624 ∧
    CrownDepth.calculateH0Rounded (roundingPoints ℚ) 5 = 614553699151599 / 140737488355328 ∧
    (TreeHeight.calculateFromPointsRounded (roundingPoints ℚ) 5).tree_height <
      CrownDepth.calculateH0Rounded (roundingPoints ℚ) 5 ∧
    (CrownDepth.calculateFromPointsRounded (roundingPoints ℚ)
      (TreeHeight.calculateFromPointsRounded (roundingPoints ℚ) 5).tree_height 5).success = true ∧
    (CrownDepth.calculateFromPointsRounded (roundingPoints ℚ)
      (TreeHeight.calculateFromPointsRounded (roundingPoints ℚ) 5).tree_height 5).crown_depth =
        -(1 / 1125899906842624) ∧
    (CrownDepth.calculateFromPointsRounded (roundingPoints ℚ)
      (TreeHeight.calculateFromPointsRounded (roundingPoints ℚ) 5).tree_height 5).crown_depth <
        0 := by
  have hcd : roundToDouble (4916429593212791 / 1125899906842624 - 614553699151599 / 140737488355328 : ℚ) =
      -(1 / 1125899906842624) := by
    rw [roundToDouble_eval _ (-102) (-4503599627370496) (-4503599627370496)
      (by norm_num [abs_of_neg]) (by norm_num [abs_of_neg]) (by norm_num) (by norm_num) (by norm_num)]
    norm_num
  have hs : (TreeHeight.calculateFromPointsRounded (roundingPoints ℚ) 5).success = true := by
    rw [TreeHeight.calculateFromPointsRounded_of_valid _ 5 roundingPoints_ne_nil (by decide)]
  have hC := CrownDepth.calculateFromPointsRounded_of_valid_input (roundingPoints ℚ)
    (TreeHeight.calculateFromPointsRounded (roundingPoints ℚ) 5).tree_height 5
    roundingPoints_ne_nil (by rw [roundingPoints_tree_height]; norm_num) (by decide)
  have hsucc : (CrownDepth.calculateFromPointsRounded (roundingPoints ℚ)
      (TreeHeight.calculateFromPointsRounded (roundingPoints ℚ) 5).tree_height 5).success =
        true := by
    rw [hC]
  have hval : (CrownDepth.calculateFromPointsRounded (roundingPoints ℚ)
      (TreeHeight.calculateFromPointsRounded (roundingPoints ℚ) 5).tree_height 5).crown_depth =
        -(1 / 1125899906842624) := by
    rw [hC]
    simp only []
    rw [roundingPoints_tree_height, roundingPoints_h0, hcd]
  refine ⟨roundingPoints_ne_nil, by decide, hs, roundingPoints_tree_height, roundingPoints_h0,
    ?_, hsucc, hval, ?_⟩
  · rw [roundingPoints_tree_height, roundingPoints_h0]; norm_num
  · rw [hval]; norm_num

theorem tree_height_ge_h0_up_to_rounding_witness :
    (roundingPoints ℚ ≠ [] ∧ (0 : Int) < 5 ∧ (0 : Int) < 5 ∧
      ∀ q ∈ roundingPoints ℚ, |q.z| ≤ 5) ∧
    (CrownDepth.calculateH0Rounded (roundingPoints ℚ) 5 -
        (meanRoundingBound (min (5 : Int) ((roundingPoints ℚ).length : Int)).toNat +
          meanRoundingBound (min (5 : Int) ((roundingPoints ℚ).length : Int)).toNat) * 5 ≤
      (TreeHeight.calculateFromPointsRounded (roundingPoints ℚ) 5).tree_height ∧
    ((CrownDepth.calculateFromPointsRounded (roundingPoints ℚ)
        (TreeHeight.calculateFromPointsRounded (roundingPoints ℚ) 5).tree_height 5).success =
          true →
      -((meanRoundingBound (min (5 : Int) ((roundingPoints ℚ).length : Int)).toNat +
          meanRoundingBound (min (5 : Int) ((roundingPoints ℚ).length : Int)).toNat) * 5 *
            (1 + 1 / 2 ^ 53)) ≤
        (CrownDepth.calculateFromPointsRounded (roundingPoints ℚ)
          (TreeHeight.calculateFromPointsRounded (roundingPoints ℚ) 5).tree_height
          5).crown_depth)) :=
  have hB : ∀ q ∈ roundingPoints ℚ, |q.z| ≤ 5 := by
    intro q hq
    have hz : q.z ∈ (roundingPoints ℚ).map (fun q => q.z) := List.mem_map.mpr ⟨q, hq, rfl⟩
    rw [roundingPoints_z] at hz
    simp only [List.mem_cons, List.mem_singleton, List.not_mem_nil, or_false] at hz
    rcases hz with h | h | h <;> rw [h] <;> norm_num [abs_of_pos]
  ⟨⟨roundingPoints_ne_nil, by decide, by decide, hB⟩,
    tree_height_ge_h0_up_to_rounding (roundingPoints ℚ) 5 5 5 roundingPoints_ne_nil (by decide)
      (by decide) hB⟩

namespace DBHCalculator

/-! ### Method 1 with the literals as `double` values -/

end DBHCalculator

namespace StructureExtractor
variable {α : Type}

/-! ### The adaptive filter in `double` arithmetic -/

theorem mem_neighborPairsRounded [LinearOrderedField α] [FloorRing α] (sqrt : α → α)
    (leaves : LeafNodes α) (t : Nat) (p : α × Nat) :
    p ∈ neighborPairsRounded sqrt leaves t ↔
      p.1 = leafDistanceRounded sqrt leaves t p.2 ∧ p.2 < leaves.nodes.length ∧ p.2 ≠ t := by
  obtain ⟨d, j⟩ := p
  simp only [neighborPairsRounded, List.mem_map, List.mem_filter, List.mem_range,
    decide_eq_true_eq, Prod.mk.injEq]
  constructor
  · rintro ⟨i, ⟨hi, hit⟩, hd, rfl⟩
    exact ⟨hd.symm, hi, hit⟩
  · rintro ⟨hd, hj, hjt⟩
    exact ⟨j, ⟨hj, hjt⟩, hd.symm, rfl⟩

theorem neighborPairsRounded_length [LinearOrderedField α] [FloorRing α] (sqrt : α → α)
    (leaves : LeafNodes α) (t : Nat) (ht : t < leaves.nodes.length) :
    (neighborPairsRounded sqrt leaves t).length = leaves.nodes.length - 1 := by
  simp only [neighborPairsRounded, List.length_map]
  exact length_filter_ne_range _ t ht

theorem neighborPairsRounded_snd_nodup [LinearOrderedField α] [FloorRing α] (sqrt : α → α)
    (leaves : LeafNodes α) (t : Nat) : ((neighborPairsRounded sqrt leaves t).map (fun d => d.2)).Nodup := by
  simp only [neighborPairsRounded, List.map_map]
  have : ((fun d : α × Nat => d.2) ∘ fun j => (leafDistanceRounded sqrt leaves t j, j)) = id := by
    funext j; rfl
  rw [this, List.map_id]
  exact (List.nodup_range _).filter _

theorem findNearestNeighborsRounded_eq [LinearOrderedField α] [FloorRing α] (sqrt : α → α)
    (leafNodes : LeafNodes α) (t : Nat) (ht : t < leafNodes.nodes.length) (n : Int) :
    findNearestNeighborsRounded sqrt leafNodes (t : Int) n =
      some (((stdSort pairLess (neighborPairsRounded sqrt leafNodes t)).take
        (min n ((neighborPairsRounded sqrt leafNodes t).length : Int)).toNat).map (fun d => d.2)) := by
  have htn : leafNodes.nodes[t]? = some leafNodes.nodes[t] := List.getElem?_eq_getElem ht
  have hpairs : neighborPairsRounded sqrt leafNodes t =
      (leafNodes.nodes.enum.filter (fun q => decide ((q.1 : Int) ≠ (t : Int)))).map
        (fun q => (calculateDistanceRounded sqrt leafNodes.nodes[t].position q.2.position, q.1)) := by
    unfold neighborPairsRounded
    rw [← List.enum_map_fst leafNodes.nodes, List.filter_map, List.map_map]
    have hf : ((fun j => decide (j ≠ t)) ∘ Prod.fst : Nat × LeafNode α → Bool) =
        (fun q => decide ((q.1 : Int) ≠ (t : Int))) := by
      funext q; simp
    rw [hf]
    apply List.map_congr_left
    intro q hq
    obtain ⟨j, node⟩ := q
    have hj : leafNodes.nodes[j]? = some node :=
      List.mk_mem_enum_iff_getElem?.mp (List.mem_of_mem_filter hq)
    simp [leafDistanceRounded, htn, hj]
  rw [hpairs]
  unfold findNearestNeighborsRounded
  simp only [Int.natCast_nonneg, if_true, Int.toNat_ofNat, htn]
  cases hothers : leafNodes.nodes.enum.filter (fun q => decide ((q.1 : Int) ≠ (t : Int))) with
  | nil => simp [stdSort]
  | cons q rest => simp [stdSort_length]

/-- Properties of the list returned by `findNearestNeighborsRounded` that hold for every leaf
set, stated with positions: the result is the first `k` entries of the sorted pairs. -/
theorem findNearestNeighborsRounded_core [LinearOrderedField α] [FloorRing α] (sqrt : α → α)
    (leaves : LeafNodes α) (t : Nat) (ht : t < leaves.nodes.length) (n : Int) (hn : 0 ≤ n) :
    ∃ r, findNearestNeighborsRounded sqrt leaves (t : Int) n = some r ∧
      (r.length : Int) = min n ((leaves.nodes.length : Int) - 1) ∧
      r.Nodup ∧
      (∀ j ∈ r, j < leaves.nodes.length ∧ j ≠ t) ∧
      r.Pairwise (fun a b => leafDistanceRounded sqrt leaves t a < leafDistanceRounded sqrt leaves t b ∨
        (leafDistanceRounded sqrt leaves t a = leafDistanceRounded sqrt leaves t b ∧ a < b)) ∧
      (∀ j ∈ r, ∀ k, k < leaves.nodes.length → k ≠ t → k ∉ r →
        leafDistanceRounded sqrt leaves t j < leafDistanceRounded sqrt leaves t k ∨
        (leafDistanceRounded sqrt leaves t j = leafDistanceRounded sqrt leaves t k ∧ j < k)) := by
  set P := neighborPairsRounded sqrt leaves t with hP
  set S := stdSort pairLess P with hS
  set c := (min n (P.length : Int)).toNat with hc
  have hperm : S.Perm P := stdSort_perm _ _
  have hsorted : S.Pairwise (fun a b => pairLess b a = false) :=
    stdSort_sorted pairLess pairLess_total pairLess_trans P
  have hlen : P.length = leaves.nodes.length - 1 := neighborPairsRounded_length sqrt leaves t ht
  have hmemS : ∀ p, p ∈ S ↔
      p.1 = leafDistanceRounded sqrt leaves t p.2 ∧ p.2 < leaves.nodes.length ∧ p.2 ≠ t := by
    intro p
    rw [hperm.mem_iff]
    exact mem_neighborPairsRounded sqrt leaves t p
  have hnodupS : (S.map (fun d => d.2)).Nodup :=
    (hperm.map _).nodup_iff.mpr (neighborPairsRounded_snd_nodup sqrt leaves t)
  have hlex : S.Pairwise (fun a b =>
      leafDistanceRounded sqrt leaves t a.2 < leafDistanceRounded sqrt leaves t b.2 ∨
        (leafDistanceRounded sqrt leaves t a.2 = leafDistanceRounded sqrt leaves t b.2 ∧ a.2 < b.2)) := by
    have h1 : S.Pairwise (fun a b => a.2 ≠ b.2) := (List.pairwise_map).mp hnodupS
    refine (hsorted.and h1).imp_of_mem ?_
    intro a b ha hb hab
    obtain ⟨hle, hne⟩ := hab
    rw [pairLess_eq_false_iff] at hle
    rw [← ((hmemS a).mp ha).1, ← ((hmemS b).mp hb).1]
    rcases hle with h | ⟨h, h'⟩
    · exact Or.inl h
    · exact Or.inr ⟨h, lt_of_le_of_ne h' hne⟩
  refine ⟨(S.take c).map (fun d => d.2), findNearestNeighborsRounded_eq sqrt leaves t ht n, ?_, ?_, ?_,
    ?_, ?_⟩
  · have hSl : S.length = P.length := stdSort_length _ _
    rw [List.length_map, List.length_take, hSl, hc, hlen]
    omega
  · rw [List.map_take]
    exact hnodupS.sublist (List.take_sublist _ _)
  · intro j hj
    obtain ⟨p, hp, rfl⟩ := List.mem_map.mp hj
    exact ((hmemS p).mp (List.mem_of_mem_take hp)).2
  · rw [List.pairwise_map]
    exact hlex.sublist (List.take_sublist _ _)
  · intro j hj k hk hkt hkr
    obtain ⟨p, hp, rfl⟩ := List.mem_map.mp hj
    have hkS : (leafDistanceRounded sqrt leaves t k, k) ∈ S := (hmemS _).mpr ⟨rfl, hk, hkt⟩
    have hkdrop : (leafDistanceRounded sqrt leaves t k, k) ∈ S.drop c := by
      rw [← List.take_append_drop c S, List.mem_append] at hkS
      rcases hkS with h | h
      · exact absurd (List.mem_map.mpr ⟨_, h, rfl⟩) hkr
      · exact h
    exact List.Sorted.rel_of_mem_take_of_mem_drop hlex hp hkdrop

theorem findNearestNeighborsRounded_isNearest [LinearOrderedField α] [FloorRing α] (sqrt : α → α)
    (all : LeafNodes α) (i : Nat) (hi : i < all.nodes.length) (n : Int) (hn : 0 ≤ n) :
    ∃ nbrs, findNearestNeighborsRounded sqrt all (i : Int) n = some nbrs ∧
      IsNearestNeighbors sqrt all i n nbrs := by
  obtain ⟨r, hr, hlen, _, hmem, hsorted, hclosed⟩ := findNearestNeighborsRounded_core sqrt all i hi n hn
  exact ⟨r, hr, hlen, hmem, hsorted, hclosed⟩

/-- The nearest neighbours of a leaf are determined by the specification. -/
theorem isNearestNeighbors_unique [LinearOrderedField α] [FloorRing α] (sqrt : α → α) (all : LeafNodes α)
    (i : Nat) (n : Int) (r1 r2 : List Nat) (h1 : IsNearestNeighbors sqrt all i n r1)
    (h2 : IsNearestNeighbors sqrt all i n r2) : r1 = r2 := by
  obtain ⟨hl1, hm1, hs1, hc1⟩ := h1
  obtain ⟨hl2, hm2, hs2, hc2⟩ := h2
  have hlen : r1.length = r2.length := by omega
  have hnd : ∀ r : List Nat, r.Pairwise (fun a b =>
      leafDistanceRounded sqrt all i a < leafDistanceRounded sqrt all i b ∨
        (leafDistanceRounded sqrt all i a = leafDistanceRounded sqrt all i b ∧ a < b)) → r.Nodup := by
    intro r hr
    refine hr.imp ?_
    intro a b hab heq
    subst heq
    rcases hab with h | ⟨_, h⟩
    · exact lt_irrefl _ h
    · exact lt_irrefl _ h
  have hnd1 := hnd r1 hs1
  have hnd2 := hnd r2 hs2
  have hasym : ∀ a b : Nat,
      (leafDistanceRounded sqrt all i a < leafDistanceRounded sqrt all i b ∨
        (leafDistanceRounded sqrt all i a = leafDistanceRounded sqrt all i b ∧ a < b)) →
      (leafDistanceRounded sqrt all i b < leafDistanceRounded sqrt all i a ∨
        (leafDistanceRounded sqrt all i b = leafDistanceRounded sqrt all i a ∧ b < a)) → False := by
    intro a b hab hba
    rcases hab with h | ⟨he, h⟩ <;> rcases hba with h' | ⟨he', h'⟩
    · exact lt_asymm h h'
    · rw [he'] at h; exact lt_irrefl _ h
    · rw [he] at h'; exact lt_irrefl _ h'
    · exact lt_asymm h h'
  have hsub : r1 ⊆ r2 := by
    intro j hj
    by_contra hj2
    have hnot : ¬ r2 ⊆ r1 := by
      intro h21
      have hp : r2.Perm r1 := (List.subperm_of_subset hnd2 h21).perm_of_length_le (by omega)
      exact hj2 (hp.mem_iff.mpr hj)
    obtain ⟨k, hk2, hk1⟩ : ∃ k, k ∈ r2 ∧ k ∉ r1 := by
      by_contra hcon
      apply hnot
      intro x hx
      by_contra hx1
      exact hcon ⟨x, hx, hx1⟩
    have ha := hc2 k hk2 j (hm1 j hj).1 (hm1 j hj).2 hj2
    have hb := hc1 j hj k (hm2 k hk2).1 (hm2 k hk2).2 hk1
    exact hasym _ _ ha hb
  have hperm : r1.Perm r2 := (List.subperm_of_subset hnd1 hsub).perm_of_length_le (by omega)
  haveI : IsAntisymm Nat (fun a b =>
      leafDistanceRounded sqrt all i a < leafDistanceRounded sqrt all i b ∨
        (leafDistanceRounded sqrt all i a = leafDistanceRounded sqrt all i b ∧ a < b)) :=
    ⟨fun a b hab hba => absurd hba (fun h => hasym a b hab h)⟩
  exact List.eq_of_perm_of_sorted hperm hs1 hs2

/-- The reference height is the rounded mean of the `min(topN, number of heights)` largest
heights. -/
theorem referenceHeightRounded_isMean [LinearOrderedField α] [FloorRing α] (topN : Int)
    (hs : List α) (m : α) :
    IsRoundedMeanOfLargest (min topN (hs.length : Int)).toNat hs m ↔
      m = referenceHeightRounded topN hs := by
  have hp := descending_sort_perm hs
  have hS := descending_sort_sorted hs
  have hlen := hp.length_eq
  haveI : IsTotal α (fun a b => b ≤ a) := ⟨fun a b => le_total b a⟩
  haveI : IsTrans α (fun a b => b ≤ a) := ⟨fun a b c h1 h2 => le_trans h2 h1⟩
  haveI : IsAntisymm α (fun a b => b ≤ a) := ⟨fun a b h1 h2 => le_antisymm h2 h1⟩
  have hval : referenceHeightRounded topN hs =
      if (min topN (hs.length : Int)).toNat = 0 then 0
      else roundToDouble
        ((((stdSort (fun a b : α => decide (a < b)) hs.reverse).reverse).take
          (min topN (hs.length : Int)).toNat).foldl (fun acc h => roundToDouble (acc + h)) 0 /
          (((min topN (hs.length : Int)).toNat : Nat) : α)) := by
    unfold referenceHeightRounded
    simp only [hlen]
    by_cases hpos : min topN (hs.length : Int) > 0
    · rw [if_pos hpos, if_neg (by omega)]
      have hc : (((min topN (hs.length : Int)).toNat : Nat) : α) =
          ((min topN (hs.length : Int) : Int) : α) := by
        have h1 : (((min topN (hs.length : Int)).toNat : Nat) : Int) =
            min topN (hs.length : Int) := Int.toNat_of_nonneg (le_of_lt hpos)
        rw [← Int.cast_natCast, h1]
      rw [hc]
    · have h0 : (min topN (hs.length : Int)).toNat = 0 := by omega
      rw [if_neg hpos, if_pos h0, h0]
      simp
  rw [hval]
  constructor
  · rintro ⟨top, rest, hperm, hl, hsorted, hsplit, rfl⟩
    have htake := take_sorted_perm_of_split (fun a b : α => b ≤ a) _ top rest hS
      (hp.trans hperm) hsplit
    rw [hl] at htake
    have heq : ((stdSort (fun a b : α => decide (a < b)) hs.reverse).reverse).take
        (min topN (hs.length : Int)).toNat = top :=
      List.eq_of_perm_of_sorted htake (hS.sublist (List.take_sublist _ _)) hsorted
    rw [heq]
  · intro hm
    refine ⟨((stdSort (fun a b : α => decide (a < b)) hs.reverse).reverse).take
        (min topN (hs.length : Int)).toNat,
      ((stdSort (fun a b : α => decide (a < b)) hs.reverse).reverse).drop
        (min topN (hs.length : Int)).toNat, ?_, ?_, hS.sublist (List.take_sublist _ _),
      split_of_sorted _ _ hS _, hm⟩
    · rw [List.take_append_drop]; exact hp.symm
    · rw [List.length_take]; omega

theorem keepLeafRounded_eq [LinearOrderedField α] [FloorRing α] (sqrt : α → α)
    (all : LeafNodes α) (h_l : α) (n topN : Int) (hn : 0 ≤ n) (i : Nat)
    (hi : i < all.nodes.length) (node : LeafNode α) :
    ∃ nbrs, findNearestNeighborsRounded sqrt all (i : Int) n = some nbrs ∧
      IsNearestNeighbors sqrt all i n nbrs ∧
      keepLeafRounded sqrt all h_l n topN i node =
        some (decide (|roundToDouble (referenceHeightRounded topN (nbrs.map (heightAt all)) -
          node.height)| ≤ h_l)) := by
  obtain ⟨nbrs, hr, hnear⟩ := findNearestNeighborsRounded_isNearest sqrt all i hi n hn
  refine ⟨nbrs, hr, hnear, ?_⟩
  have hh := neighborHeightsOf_eq all nbrs (fun j hj => (hnear.2.1 j hj).1)
  simp [keepLeafRounded, hr, hh]

theorem filterLoopRounded_eq [LinearOrderedField α] [FloorRing α] (sqrt : α → α)
    (all : LeafNodes α) (h_l : α) (n topN : Int) (kd : Nat × LeafNode α → Bool) :
    ∀ l : List (Nat × LeafNode α),
      (∀ q ∈ l, keepLeafRounded sqrt all h_l n topN q.1 q.2 = some (kd q)) →
      filterLoopRounded sqrt all h_l n topN l = some ((l.filter kd).map (fun q => q.2)) := by
  intro l
  induction l with
  | nil => intro _; rfl
  | cons q rest ih =>
    intro h
    have hq := h q (List.mem_cons_self _ _)
    have hrest := ih (fun q' hq' => h q' (List.mem_cons_of_mem _ hq'))
    by_cases hk : kd q = true
    · simp [filterLoopRounded, hq, hrest, hk, List.filter_cons]
    · simp only [Bool.not_eq_true] at hk
      simp [filterLoopRounded, hq, hrest, hk, List.filter_cons]

theorem filterLeafNodesRounded_of_counts [LinearOrderedField α] [FloorRing α] (sqrt : α → α)
    (all : LeafNodes α) (H p : α) (t1 t2 : Int)
    (ht1 : truncToInt (roundToDouble ((all.nodes.length : α) * p)) = t1)
    (hr1 : -2147483648 ≤ t1 ∧ t1 ≤ 2147483647)
    (ht2 : truncToInt (roundToDouble (((max 1 t1 : Int) : α) * p)) = t2)
    (hr2 : -2147483648 ≤ t2 ∧ t2 ≤ 2147483647) :
    neighborCountRounded all.nodes.length p = some (max 1 t1) ∧
    topCountRounded (max 1 t1) p = some (max 1 t2) ∧
    filterLeafNodesRounded sqrt all H p =
      (filterLoopRounded sqrt all (roundToDouble (H * p)) (max 1 t1) (max 1 t2)
        all.nodes.enum).map (fun l => { nodes := l }) := by
  have e1 : neighborCountRounded all.nodes.length p = some (max 1 t1) := by
    rw [neighborCountRounded, castToInt_of_range _ t1 ht1 hr1.1 hr1.2]; rfl
  have e2 : topCountRounded (max 1 t1) p = some (max 1 t2) := by
    rw [topCountRounded, castToInt_of_range _ t2 ht2 hr2.1 hr2.2]; rfl
  refine ⟨e1, e2, ?_⟩
  simp only [filterLeafNodesRounded, e1, e2]

/-- C2 (amended): when the two casts to `int` are defined, that is when
`t1 = trunc(fl(L * p))` and `t2 = trunc(fl(n * p))` with `n = max(1, t1)` are `int` values,
the core `filterLeafNodes` returns, with the counts `n` and `topN = max(1, t2)`, the
sublist, in input order, of the leaves `i` whose rounded deviation
`|fl(h_ne(i) - height(i))|` is at most the rounded product `fl(H * p)`; `h_ne(i)` is the mean, computed in `double`
arithmetic from the tallest height down, of the `min(topN, number of neighbours)` tallest
heights among the `n` nearest neighbours of `i`, which are the `min(n, L - 1)` other leaves
that come first in the order of computed distance from `i` and then position; with no
neighbour at all `h_ne` is 0, as in the source. -/
theorem filterLeafNodesRounded_spec [LinearOrderedField α] [FloorRing α] (sqrt : α → α)
    (all : LeafNodes α) (H p : α) (t1 t2 : Int)
    (ht1 : truncToInt (roundToDouble ((all.nodes.length : α) * p)) = t1)
    (hr1 : -2147483648 ≤ t1 ∧ t1 ≤ 2147483647)
    (ht2 : truncToInt (roundToDouble (((max 1 t1 : Int) : α) * p)) = t2)
    (hr2 : -2147483648 ≤ t2 ∧ t2 ≤ 2147483647) :
    neighborCountRounded all.nodes.length p = some (max 1 t1) ∧
    topCountRounded (max 1 t1) p = some (max 1 t2) ∧
    ∃ out, filterLeafNodesRounded sqrt all H p = some out ∧
      ∃ idxs : List Nat, idxs.Pairwise (fun a b => a < b) ∧
        (∀ i, i ∈ idxs ↔
          (i < all.nodes.length ∧ LeafAcceptedRounded sqrt all H p (max 1 t1) (max 1 t2) i)) ∧
        out.nodes.map some = idxs.map (fun i => all.nodes[i]?) := by
  obtain ⟨e1, e2, hF⟩ := filterLeafNodesRounded_of_counts sqrt all H p t1 t2 ht1 hr1 ht2 hr2
  refine ⟨e1, e2, ?_⟩
  set n := max 1 t1 with hn
  set topN := max 1 t2 with htopN
  set h_l := roundToDouble (H * p) with hhl
  have hn0 : 0 ≤ n := le_trans (by decide) (le_max_left 1 t1)
  let kd : Nat × LeafNode α → Bool := fun q =>
    (keepLeafRounded sqrt all h_l n topN q.1 q.2).getD false
  have hmem : ∀ q ∈ all.nodes.enum, all.nodes[q.1]? = some q.2 := by
    intro q hq
    exact List.mk_mem_enum_iff_getElem?.mp hq
  have hkd : ∀ q ∈ all.nodes.enum,
      keepLeafRounded sqrt all h_l n topN q.1 q.2 = some (kd q) := by
    intro q hq
    have hi : q.1 < all.nodes.length := (List.getElem?_eq_some_iff.mp (hmem q hq)).1
    obtain ⟨nbrs, _, _, hk⟩ := keepLeafRounded_eq sqrt all h_l n topN hn0 q.1 hi q.2
    simp [kd, hk]
  have hloop := filterLoopRounded_eq sqrt all h_l n topN kd all.nodes.enum hkd
  refine ⟨{ nodes := (all.nodes.enum.filter kd).map (fun q => q.2) }, ?_,
    (all.nodes.enum.filter kd).map (fun q => q.1), ?_, ?_, ?_⟩
  · rw [hF, hloop]
    rfl
  · have hsub : List.Sublist ((all.nodes.enum.filter kd).map (fun q => q.1))
        (all.nodes.enum.map (fun q => q.1)) := (List.filter_sublist _).map _
    have hfst : all.nodes.enum.map (fun q => q.1) = List.range all.nodes.length :=
      List.enum_map_fst all.nodes
    rw [hfst] at hsub
    exact (List.pairwise_lt_range _).sublist hsub
  · intro i
    simp only [List.mem_map, List.mem_filter]
    constructor
    · rintro ⟨q, ⟨hq, hkq⟩, rfl⟩
      have hi : q.1 < all.nodes.length := (List.getElem?_eq_some_iff.mp (hmem q hq)).1
      obtain ⟨nbrs, _, hnear, hk⟩ := keepLeafRounded_eq sqrt all h_l n topN hn0 q.1 hi q.2
      refine ⟨hi, q.2, nbrs, referenceHeightRounded topN (nbrs.map (heightAt all)), hmem q hq,
        hnear, ?_, ?_⟩
      · have := (referenceHeightRounded_isMean topN (nbrs.map (heightAt all))
          (referenceHeightRounded topN (nbrs.map (heightAt all)))).mpr rfl
        simpa using this
      · have h1 : kd q = decide (|roundToDouble
            (referenceHeightRounded topN (nbrs.map (heightAt all)) - q.2.height)| ≤ h_l) := by
          simp [kd, hk]
        rw [h1] at hkq
        simpa using hkq
    · rintro ⟨hi, node, nbrs, h_ne, hnode, hnear, hmean, hle⟩
      refine ⟨(i, node), ⟨List.mk_mem_enum_iff_getElem?.mpr hnode, ?_⟩, rfl⟩
      obtain ⟨nbrs', _, hnear', hk⟩ := keepLeafRounded_eq sqrt all h_l n topN hn0 i hi node
      have hnb : nbrs' = nbrs := isNearestNeighbors_unique sqrt all i n nbrs' nbrs hnear' hnear
      subst hnb
      have hm : h_ne = referenceHeightRounded topN (nbrs'.map (heightAt all)) :=
        (referenceHeightRounded_isMean topN (nbrs'.map (heightAt all)) h_ne).mp
          (by simpa using hmean)
      have h1 : kd (i, node) = decide (|roundToDouble
          (referenceHeightRounded topN (nbrs'.map (heightAt all)) - node.height)| ≤ h_l) := by
        simp [kd, hk]
      rw [h1, ← hm]
      simpa using hle
  · simp only [List.map_map]
    apply List.map_congr_left
    intro q hq
    simp [hmem q (List.mem_of_mem_filter hq)]

/-- With a neighbour count of at least `L - 1` the nearest neighbours of a leaf are all
the other leaves. -/
theorem isNearestNeighbors_all [LinearOrderedField α] [FloorRing α] (sqrt : α → α)
    (all : LeafNodes α) (i : Nat) (hi : i < all.nodes.length) (n : Int)
    (hn : (all.nodes.length : Int) - 1 ≤ n)
    (nbrs : List Nat) (h : IsNearestNeighbors sqrt all i n nbrs) :
    nbrs.Perm ((List.range all.nodes.length).filter (fun j => decide (j ≠ i))) := by
  obtain ⟨hlen, hmem, hsorted, _⟩ := h
  have hnd : nbrs.Nodup := by
    refine hsorted.imp ?_
    intro a b hab heq
    subst heq
    rcases hab with h | ⟨_, h⟩
    · exact lt_irrefl _ h
    · exact lt_irrefl _ h
  apply (List.subperm_of_subset hnd ?_).perm_of_length_le
  · rw [length_filter_ne_range _ _ hi]
    omega
  · intro j hj
    obtain ⟨h1, h2⟩ := hmem j hj
    exact List.mem_filter.mpr ⟨List.mem_range.mpr h1, by simpa using h2⟩

/-- The reference height depends on the neighbour heights only up to their order. -/
theorem referenceHeightRounded_perm [LinearOrderedField α] [FloorRing α] (topN : Int)
    (hs hs' : List α) (h : hs.Perm hs') :
    referenceHeightRounded topN hs = referenceHeightRounded topN hs' := by
  apply (referenceHeightRounded_isMean topN hs' _).mp
  obtain ⟨top, rest, hp, hl, hsorted, hsplit, hm⟩ :=
    (referenceHeightRounded_isMean topN hs (referenceHeightRounded topN hs)).mpr rfl
  rw [h.length_eq] at hl hm
  exact ⟨top, rest, h.symm.trans hp, hl, hsorted, hsplit, hm⟩

/-! ### The filter on three leaves at height 1 and one at height 2 -/

theorem roundToDouble_third :
    roundToDouble (1 / 3 : ℝ) = 6004799503160661 / 18014398509481984 := by
  rw [roundToDouble_eval _ (-54) (6004799503160661) (6004799503160661)
    (by norm_num [abs_of_pos]) (by norm_num [abs_of_pos]) (by norm_num) (by norm_num) (by norm_num)]
  norm_num

/-- The rounded mean of the heights 2, 1, 1 is the `double` below 4/3. -/
theorem referenceHeightRounded_two_one_one (hs : List ℝ) (h : hs.Perm [2, 1, 1]) :
    referenceHeightRounded 4 hs = 6004799503160661 / 4503599627370496 := by
  have ha1 : roundToDouble (0 + 2 : ℝ) = 2 := by
    rw [roundToDouble_eval _ (-51) (4503599627370496) (4503599627370496)
      (by norm_num [abs_of_pos]) (by norm_num [abs_of_pos]) (by norm_num) (by norm_num) (by norm_num)]
    norm_num
  have ha2 : roundToDouble (2 + 1 : ℝ) = 3 := by
    rw [roundToDouble_eval _ (-51) (6755399441055744) (6755399441055744)
      (by norm_num [abs_of_pos]) (by norm_num [abs_of_pos]) (by norm_num) (by norm_num) (by norm_num)]
    norm_num
  have ha3 : roundToDouble (3 + 1 : ℝ) = 4 := by
    rw [roundToDouble_eval _ (-50) (4503599627370496) (4503599627370496)
      (by norm_num [abs_of_pos]) (by norm_num [abs_of_pos]) (by norm_num) (by norm_num) (by norm_num)]
    norm_num
  have ha4 : roundToDouble (4 / 3 : ℝ) = 6004799503160661 / 4503599627370496 := by
    rw [roundToDouble_eval _ (-52) (6004799503160661) (6004799503160661)
      (by norm_num [abs_of_pos]) (by norm_num [abs_of_pos]) (by norm_num) (by norm_num) (by norm_num)]
    norm_num
  rw [referenceHeightRounded_perm 4 hs [2, 1, 1] h]
  symm
  apply (referenceHeightRounded_isMean 4 [2, 1, 1] _).mp
  show IsRoundedMeanOfLargest 3 [2, 1, 1] _
  refine ⟨[2, 1, 1], [], by simp, by simp, by norm_num, by simp, ?_⟩
  rw [if_neg (by decide)]
  simp only [List.foldl_cons, List.foldl_nil, Nat.cast_ofNat]
  rw [ha1, ha2, ha3, ha4]

/-- The rounded mean of the heights 1, 1, 1 is 1. -/
theorem referenceHeightRounded_one_one_one (hs : List ℝ) (h : hs.Perm [1, 1, 1]) :
    referenceHeightRounded 4 hs = 1 := by
  have hb1 : roundToDouble (0 + 1 : ℝ) = 1 := by
    rw [roundToDouble_eval _ (-52) (4503599627370496) (4503599627370496)
      (by norm_num [abs_of_pos]) (by norm_num [abs_of_pos]) (by norm_num) (by norm_num) (by norm_num)]
    norm_num
  have hb2 : roundToDouble (1 + 1 : ℝ) = 2 := by
    rw [roundToDouble_eval _ (-51) (4503599627370496) (4503599627370496)
      (by norm_num [abs_of_pos]) (by norm_num [abs_of_pos]) (by norm_num) (by norm_num) (by norm_num)]
    norm_num
  have hb3 : roundToDouble (2 + 1 : ℝ) = 3 := by
    rw [roundToDouble_eval _ (-51) (6755399441055744) (6755399441055744)
      (by norm_num [abs_of_pos]) (by norm_num [abs_of_pos]) (by norm_num) (by norm_num) (by norm_num)]
    norm_num
  have hb4 : roundToDouble (3 / 3 : ℝ) = 1 := by
    rw [roundToDouble_eval _ (-52) (4503599627370496) (4503599627370496)
      (by norm_num [abs_of_pos]) (by norm_num [abs_of_pos]) (by norm_num) (by norm_num) (by norm_num)]
    norm_num
  rw [referenceHeightRounded_perm 4 hs [1, 1, 1] h]
  symm
  apply (referenceHeightRounded_isMean 4 [1, 1, 1] _).mp
  show IsRoundedMeanOfLargest 3 [1, 1, 1] _
  refine ⟨[1, 1, 1], [], by simp, by simp, by norm_num, by simp, ?_⟩
  rw [if_neg (by decide)]
  simp only [List.foldl_cons, List.foldl_nil, Nat.cast_ofNat]
  rw [hb1, hb2, hb3, hb4]

theorem terraceLeaves_length : (terraceLeaves ℝ).nodes.length = 4 := rfl

/-- The heights of the leaves other than leaf `i`. -/
theorem terraceLeaves_other_heights (i : Nat) (hi : i < 4) :
    (((List.range (terraceLeaves ℝ).nodes.length).filter (fun j => decide (j ≠ i))).map
      (heightAt (terraceLeaves ℝ))).Perm (if i = 3 then [1, 1, 1] else [2, 1, 1]) := by
  rw [terraceLeaves_length]
  interval_cases i
  · have : (((List.range 4).filter (fun j => decide (j ≠ 0))).map
        (heightAt (terraceLeaves ℝ))) = [1, 1, 2] := by
      simp [List.range_succ, List.filter_cons, heightAt, terraceLeaves]
    rw [this, if_neg (by decide)]
    exact List.reverse_perm ([2, 1, 1] : List ℝ)
  · have : (((List.range 4).filter (fun j => decide (j ≠ 1))).map
        (heightAt (terraceLeaves ℝ))) = [1, 1, 2] := by
      simp [List.range_succ, List.filter_cons, heightAt, terraceLeaves]
    rw [this, if_neg (by decide)]
    exact List.reverse_perm ([2, 1, 1] : List ℝ)
  · have : (((List.range 4).filter (fun j => decide (j ≠ 2))).map
        (heightAt (terraceLeaves ℝ))) = [1, 1, 2] := by
      simp [List.range_succ, List.filter_cons, heightAt, terraceLeaves]
    rw [this, if_neg (by decide)]
    exact List.reverse_perm ([2, 1, 1] : List ℝ)
  · have : (((List.range 4).filter (fun j => decide (j ≠ 3))).map
        (heightAt (terraceLeaves ℝ))) = [1, 1, 1] := by
      simp [List.range_succ, List.filter_cons, heightAt, terraceLeaves]
    rw [this, if_pos rfl]

theorem terraceLeaves_node_height (i : Nat) (node : LeafNode ℝ)
    (h : (terraceLeaves ℝ).nodes[i]? = some node) :
    i < 4 ∧ node.height = if i = 3 then 2 else 1 := by
  have hi : i < 4 := (List.getElem?_eq_some_iff.mp h).1
  refine ⟨hi, ?_⟩
  interval_cases i <;> simp [terraceLeaves] at h <;> rw [← h] <;> simp

/-- The heights of the nearest neighbours of leaf `i` when all other leaves are taken. -/
theorem terraceLeaves_neighbor_heights (sqrt : ℝ → ℝ) (i : Nat) (hi : i < 4)
    (nbrs : List Nat) (h : IsNearestNeighbors sqrt (terraceLeaves ℝ) i 4 nbrs) :
    nbrs.length = 3 ∧
    (nbrs.map (heightAt (terraceLeaves ℝ))).Perm (if i = 3 then [1, 1, 1] else [2, 1, 1]) := by
  have hp := isNearestNeighbors_all sqrt (terraceLeaves ℝ) i hi 4
    (by rw [terraceLeaves_length]; decide) nbrs h
  refine ⟨?_, (hp.map _).trans (terraceLeaves_other_heights i hi)⟩
  have := h.1
  rw [terraceLeaves_length] at this
  omega

/-- The decision of the filter for the leaf at position `i`: the three leaves at height 1
are kept and the leaf at height 2 is dropped. -/
theorem terraceLeaves_keep (sqrt : ℝ → ℝ) (i : Nat) (node : LeafNode ℝ)
    (h : (terraceLeaves ℝ).nodes[i]? = some node) :
    keepLeafRounded sqrt (terraceLeaves ℝ)
      (6004799503160661 / 18014398509481984) 4 4 i node = some (decide (i < 3)) := by
  have hd1 : roundToDouble (6004799503160661 / 4503599627370496 - 1 : ℝ) =
      1501199875790165 / 4503599627370496 := by
    rw [roundToDouble_eval _ (-54) (6004799503160660) (6004799503160660)
      (by norm_num [abs_of_pos]) (by norm_num [abs_of_pos]) (by norm_num) (by norm_num) (by norm_num)]
    norm_num
  have hd2 : roundToDouble (1 - 2 : ℝ) = (-1) := by
    rw [roundToDouble_eval _ (-52) (-4503599627370496) (-4503599627370496)
      (by norm_num [abs_of_neg]) (by norm_num [abs_of_neg]) (by norm_num) (by norm_num) (by norm_num)]
    norm_num
  obtain ⟨hi, hh⟩ := terraceLeaves_node_height i node h
  obtain ⟨nbrs, _, hnear, hk⟩ := keepLeafRounded_eq sqrt (terraceLeaves ℝ)
    (6004799503160661 / 18014398509481984) 4 4 (by decide) i
    (by rw [terraceLeaves_length]; exact hi) node
  obtain ⟨_, hperm⟩ := terraceLeaves_neighbor_heights sqrt i hi nbrs hnear
  rw [hk, hh]
  by_cases h3 : i = 3
  · rw [if_pos h3] at hperm
    rw [referenceHeightRounded_one_one_one _ hperm, if_pos h3, hd2]
    subst h3
    norm_num
  · rw [if_neg h3] at hperm
    rw [referenceHeightRounded_two_one_one _ hperm, if_neg h3, hd1]
    have : i < 3 := by omega
    simp only [this, decide_True]
    norm_num [abs_of_pos]

/-- C2 (counterexample): four leaves, three at height 1 and one at height 2, with
`p = 1` and `H` the `double` nearest to `1/3`, `H = 0.33333333333333331...`.  The filter
computes `n = topN = 4`, so every leaf is compared with the mean height of the three
other leaves.  For a leaf at height 1 the arithmetic mean of the other heights is `4/3`
and its deviation `1/3` exceeds `H * p = H`, and for the leaf at height 2 the deviation is
1: the sublist the claim describes is empty.  The program computes the mean as
`4/3` rounded to `1.33333333333333325...`, whose deviation `0.33333333333333325...` is
below `H`, and returns the three leaves at height 1.  All other leaves being neighbours,
this holds whatever values `std::sqrt` returns for the distances. -/
theorem mean_rounding_keeps_leaves :
    neighborCountRounded (terraceLeaves ℝ).nodes.length (1 : ℝ) = some 4 ∧
    topCountRounded 4 (1 : ℝ) = some 4 ∧
    ∀ sqrt : ℝ → ℝ,
      filterLeafNodesRounded sqrt (terraceLeaves ℝ) (roundToDouble (1 / 3)) 1 =
        some { nodes := (terraceLeaves ℝ).nodes.take 3 } ∧
      ∀ (i : Nat) (node : LeafNode ℝ) (nbrs : List Nat) (h_ne : ℝ),
        (terraceLeaves ℝ).nodes[i]? = some node →
        IsNearestNeighbors sqrt (terraceLeaves ℝ) i 4 nbrs →
        IsMeanOfLargest (min 4 (nbrs.length : Int)).toNat
          (nbrs.map (heightAt (terraceLeaves ℝ))) h_ne →
        ¬ |h_ne - node.height| ≤ roundToDouble (1 / 3) * 1 := by
  have hhl : roundToDouble (6004799503160661 / 18014398509481984 * 1 : ℝ) =
      6004799503160661 / 18014398509481984 := by
    rw [roundToDouble_eval _ (-54) (6004799503160661) (6004799503160661)
      (by norm_num [abs_of_pos]) (by norm_num [abs_of_pos]) (by norm_num) (by norm_num) (by norm_num)]
    norm_num
  have hfour : roundToDouble (((4 : Nat) : ℝ) * 1 : ℝ) = 4 := by
    rw [roundToDouble_eval _ (-50) (4503599627370496) (4503599627370496)
      (by norm_num [abs_of_pos]) (by norm_num [abs_of_pos]) (by norm_num) (by norm_num) (by norm_num)]
    norm_num
  have hfour2 : roundToDouble (((max 1 4 : Int) : ℝ) * 1 : ℝ) = 4 := by
    rw [roundToDouble_eval _ (-50) (4503599627370496) (4503599627370496)
      (by norm_num [abs_of_pos]) (by norm_num [abs_of_pos]) (by norm_num) (by norm_num) (by norm_num)]
    norm_num
  have hf : truncToInt (4 : ℝ) = 4 := by
    rw [truncToInt_of_nonneg _ (by norm_num)]
    exact Int.floor_intCast 4
  have hcounts := fun sqrt : ℝ → ℝ => filterLeafNodesRounded_of_counts sqrt (terraceLeaves ℝ)
    (roundToDouble (1 / 3)) 1 4 4
    (by rw [terraceLeaves_length, hfour]; exact hf) (by decide)
    (by rw [hfour2]; exact hf) (by decide)
  refine ⟨(hcounts Real.sqrt).1, (hcounts Real.sqrt).2.1, ?_⟩
  intro sqrt
  obtain ⟨_, _, hF⟩ := hcounts sqrt
  refine ⟨?_, ?_⟩
  · rw [hF, roundToDouble_third, hhl]
    have hloop := filterLoopRounded_eq sqrt (terraceLeaves ℝ)
      (6004799503160661 / 18014398509481984) (max 1 4) (max 1 4)
      (fun q => decide (q.1 < 3)) (terraceLeaves ℝ).nodes.enum (by
        intro q hq
        exact terraceLeaves_keep sqrt q.1 q.2 (List.mk_mem_enum_iff_getElem?.mp hq))
    rw [hloop]
    simp [terraceLeaves, List.enum, List.enumFrom, List.filter_cons]
  · intro i node nbrs h_ne hnode hnear hmean
    obtain ⟨hi, hh⟩ := terraceLeaves_node_height i node hnode
    obtain ⟨hlen, hperm⟩ := terraceLeaves_neighbor_heights sqrt i hi nbrs hnear
    have hk : (min (4 : Int) (nbrs.length : Int)).toNat = 3 := by omega
    rw [hk] at hmean
    rw [roundToDouble_third, hh]
    by_cases h3 : i = 3
    · rw [if_pos h3] at hperm
      have hm := (isMeanOfLargest_iff (nbrs.map (heightAt (terraceLeaves ℝ))) [1, 1, 1]
        hperm.symm (by norm_num) 3 (by rw [List.length_map]; omega) h_ne).mp hmean
      rw [hm, if_pos h3]
      norm_num
    · rw [if_neg h3] at hperm
      have hm := (isMeanOfLargest_iff (nbrs.map (heightAt (terraceLeaves ℝ))) [2, 1, 1]
        hperm.symm (by norm_num) 3 (by rw [List.length_map]; omega) h_ne).mp hmean
      rw [hm, if_neg h3]
      norm_num [abs_of_pos]

theorem filterLeafNodesRounded_spec_witness :
    (truncToInt (roundToDouble (((terraceLeaves ℝ).nodes.length : ℝ) * 1)) = 4 ∧
      ((-2147483648 : Int) ≤ 4 ∧ (4 : Int) ≤ 2147483647) ∧
      truncToInt (roundToDouble (((max 1 4 : Int) : ℝ) * 1)) = 4 ∧
      ((-2147483648 : Int) ≤ 4 ∧ (4 : Int) ≤ 2147483647)) ∧
    (neighborCountRounded (terraceLeaves ℝ).nodes.length (1 : ℝ) = some (max 1 4) ∧
    topCountRounded (max 1 4) (1 : ℝ) = some (max 1 4) ∧
    ∃ out, filterLeafNodesRounded (fun x => roundToDouble (Real.sqrt x)) (terraceLeaves ℝ) (1 / 2) 1 =
        some out ∧
      ∃ idxs : List Nat, idxs.Pairwise (fun a b => a < b) ∧
        (∀ i, i ∈ idxs ↔
          (i < (terraceLeaves ℝ).nodes.length ∧
            LeafAcceptedRounded (fun x => roundToDouble (Real.sqrt x)) (terraceLeaves ℝ) (1 / 2) 1
              (max 1 4) (max 1 4) i)) ∧
        out.nodes.map some = idxs.map (fun i => (terraceLeaves ℝ).nodes[i]?)) :=
  have hfour : roundToDouble (((4 : Nat) : ℝ) * 1 : ℝ) = 4 := by
    rw [roundToDouble_eval _ (-50) (4503599627370496) (4503599627370496)
      (by norm_num [abs_of_pos]) (by norm_num [abs_of_pos]) (by norm_num) (by norm_num) (by norm_num)]
    norm_num
  have hfour2 : roundToDouble (((max 1 4 : Int) : ℝ) * 1 : ℝ) = 4 := by
    rw [roundToDouble_eval _ (-50) (4503599627370496) (4503599627370496)
      (by norm_num [abs_of_pos]) (by norm_num [abs_of_pos]) (by norm_num) (by norm_num) (by norm_num)]
    norm_num
  have hf : truncToInt (4 : ℝ) = 4 := by
    rw [truncToInt_of_nonneg _ (by norm_num)]
    exact Int.floor_intCast 4
  have h1 : truncToInt (roundToDouble (((terraceLeaves ℝ).nodes.length : ℝ) * 1)) = 4 := by
    rw [terraceLeaves_length, hfour]; exact hf
  have h2 : truncToInt (roundToDouble (((max 1 4 : Int) : ℝ) * 1)) = 4 := by
    rw [hfour2]; exact hf
  ⟨⟨h1, by decide, h2, by decide⟩,
    filterLeafNodesRounded_spec (fun x => roundToDouble (Real.sqrt x)) (terraceLeaves ℝ) (1 / 2) 1
      4 4 h1 (by decide) h2 (by decide)⟩

end StructureExtractor

section RoundingOrder
variable {α : Type} [LinearOrderedField α] [FloorRing α]

theorem roundHalfEven_intCast (m : Int) : roundHalfEven ((m : Int) : α) = m := by
  rw [roundHalfEven_of_floor _ m le_rfl (by linarith), sub_self, if_pos (by norm_num)]

theorem roundHalfEven_neg (a : α) : roundHalfEven (-a) = -roundHalfEven a := by
  have a1 : ((Int.floor a : Int) : α) ≤ a := Int.floor_le a
  have a2 : a < ((Int.floor a : Int) : α) + 1 := Int.lt_floor_add_one a
  rcases eq_or_lt_of_le a1 with heq | hlt
  · have h1 : roundHalfEven a = Int.floor a := by
      conv_lhs => rw [← heq]
      exact roundHalfEven_intCast _
    have h2 : roundHalfEven (-a) = -Int.floor a := by
      have : -a = (((-Int.floor a : Int) : Int) : α) := by push_cast; rw [heq]
      rw [this]
      exact roundHalfEven_intCast _
    rw [h1, h2]
  · have n1 : (((-Int.floor a - 1 : Int) : Int) : α) ≤ -a := by push_cast; linarith
    have n2 : -a < (((-Int.floor a - 1 : Int) : Int) : α) + 1 := by push_cast; linarith
    rw [roundHalfEven_of_floor a _ a1 a2, roundHalfEven_of_floor (-a) _ n1 n2]
    push_cast
    split_ifs <;> first | omega | (exfalso; linarith)

theorem roundToDouble_repr (x : α) (hx : x ≠ 0) :
    roundToDouble x = ((roundHalfEven (x / 2 ^ (Int.log 2 |x| - 52)) : Int) : α) *
      2 ^ (Int.log 2 |x| - 52) := by
  simp only [roundToDouble, if_neg hx]

theorem roundToDouble_neg (x : α) : roundToDouble (-x) = -roundToDouble x := by
  by_cases hx : x = 0
  · rw [hx, neg_zero, roundToDouble_zero, neg_zero]
  rw [roundToDouble_repr x hx, roundToDouble_repr (-x) (neg_ne_zero.mpr hx), abs_neg, neg_div,
    roundHalfEven_neg]
  push_cast
  ring

theorem log_two_bounds (x : α) (hx : 0 < x) :
    (2 : α) ^ (Int.log 2 x) ≤ x ∧ x < (2 : α) ^ (Int.log 2 x + 1) := by
  constructor
  · have := @Int.zpow_log_le_self α _ _ 2 x (by decide) hx
    exact_mod_cast this
  · have := @Int.lt_zpow_succ_log_self α _ _ 2 (by decide) x
    exact_mod_cast this

/-- Scaling by a power of two commutes with `roundToDouble`. -/
theorem roundToDouble_scale (x : α) (n : Int) :
    roundToDouble (x * 2 ^ n) = roundToDouble x * 2 ^ n := by
  by_cases hx : x = 0
  · rw [hx, zero_mul, roundToDouble_zero, zero_mul]
  have hp : (0 : α) < 2 ^ n := zpow_pos (by norm_num) n
  have hxn : x * 2 ^ n ≠ 0 := mul_ne_zero hx (ne_of_gt hp)
  obtain ⟨b1, b2⟩ := log_two_bounds |x| (abs_pos.mpr hx)
  have habs : |x * 2 ^ n| = |x| * 2 ^ n := by rw [abs_mul, abs_of_pos hp]
  have hlog : Int.log 2 |x * 2 ^ n| = Int.log 2 |x| + n := by
    apply log_two_eq
    · rw [habs, zpow_add₀ (by norm_num)]
      exact mul_le_mul_of_nonneg_right b1 (le_of_lt hp)
    · rw [habs]
      have : Int.log 2 |x| + n + 1 = (Int.log 2 |x| + 1) + n := by ring
      rw [this, zpow_add₀ (by norm_num)]
      exact mul_lt_mul_of_pos_right b2 hp
  have he : Int.log 2 |x| + n - 52 = (Int.log 2 |x| - 52) + n := by ring
  rw [roundToDouble_repr x hx, roundToDouble_repr _ hxn, hlog, he, zpow_add₀ (by norm_num)]
  have hq : x * 2 ^ n / (2 ^ (Int.log 2 |x| - 52) * 2 ^ n) = x / 2 ^ (Int.log 2 |x| - 52) := by
    field_simp
    ring
  rw [hq]
  ring

/-- An integer below `2^53` in magnitude is a `double`. -/
theorem roundToDouble_intCast (k : Int) (hk : |k| < 2 ^ 53) :
    roundToDouble ((k : Int) : α) = (k : α) := by
  by_cases h0 : ((k : Int) : α) = 0
  · rw [h0, roundToDouble_zero]
  have hpos : 0 < |((k : Int) : α)| := abs_pos.mpr h0
  have hk2 : |((k : Int) : α)| < 2 ^ 53 := by
    rw [← Int.cast_abs]
    exact_mod_cast hk
  have hkc : |((k : Int) : α)| < ((2 : Nat) : α) ^ (53 : Int) := by
    have : ((2 : Nat) : α) ^ (53 : Int) = 2 ^ 53 := by norm_num
    rw [this]; exact hk2
  have hlog : Int.log 2 |((k : Int) : α)| < 53 := (Int.lt_zpow_iff_log_lt (by decide) hpos).mp hkc
  obtain ⟨j, hj⟩ : ∃ j : Nat, Int.log 2 |((k : Int) : α)| - 52 = -(j : Int) :=
    ⟨(52 - Int.log 2 |((k : Int) : α)|).toNat, by omega⟩
  have hpow : (2 : α) ^ (-(j : Int)) = ((2 : α) ^ j)⁻¹ := by rw [zpow_neg, zpow_natCast]
  have hj0 : (2 : α) ^ j ≠ 0 := pow_ne_zero _ (by norm_num)
  have hq : ((k : Int) : α) / ((2 : α) ^ j)⁻¹ = (((k * 2 ^ j : Int) : Int) : α) := by
    push_cast; field_simp
  rw [roundToDouble_repr _ h0, hj, hpow, hq, roundHalfEven_intCast]
  push_cast
  field_simp

/-- A value `k * 2^e` with an integer `k` of at most 53 bits is a `double`. -/
theorem roundToDouble_exact (k e : Int) (hk : |k| ≤ 2 ^ 53) :
    roundToDouble (((k : Int) : α) * 2 ^ e) = (k : α) * 2 ^ e := by
  rcases lt_or_eq_of_le hk with hlt | heq
  · rw [roundToDouble_scale, roundToDouble_intCast k hlt]
  · have h1 := @roundToDouble_intCast α _ _ 1 (by norm_num)
    have hone : roundToDouble ((2 : α) ^ (53 + e)) = 2 ^ (53 + e) := by
      have := roundToDouble_scale (((1 : Int) : Int) : α) (53 + e)
      rw [h1] at this
      simpa using this
    have h53 : (2 : α) ^ (53 + e) = 2 ^ 53 * 2 ^ e := by
      rw [zpow_add₀ (by norm_num)]; norm_num
    rcases abs_eq (by norm_num : (0 : Int) ≤ 2 ^ 53) |>.mp heq with hp | hn
    · rw [hp]
      simp only [Int.cast_pow, Int.cast_ofNat]
      rw [← h53, hone]
    · rw [hn]
      simp only [Int.cast_neg, Int.cast_pow, Int.cast_ofNat]
      rw [neg_mul, roundToDouble_neg, ← h53, hone]

end RoundingOrder

section FloatValues
variable {α : Type} [LinearOrderedField α] [FloorRing α]

/-- A multiple of a `float` by a count of at most `2^29` is a `double`. -/
theorem isFloatValue_multiple_exact (x : α) (hx : IsFloatValue x) (j : Nat)
    (hj : j ≤ 536870912) : roundToDouble ((j : α) * x) = (j : α) * x := by
  obtain ⟨m, e, hm, rfl⟩ := hx
  have hk : |(j : Int) * m| ≤ 2 ^ 53 := by
    rw [abs_mul, abs_of_nonneg (Int.natCast_nonneg j)]
    have hj2 : (j : Int) ≤ 536870912 := by exact_mod_cast hj
    have := mul_le_mul hj2 (le_of_lt hm) (abs_nonneg m) (by norm_num)
    norm_num at this ⊢
    exact this
  have := @roundToDouble_exact α _ _ ((j : Int) * m) e hk
  have e1 : (j : α) * ((m : α) * 2 ^ e) = (((j : Int) * m : Int) : α) * 2 ^ e := by
    push_cast; ring
  rw [e1]
  exact this

/-- A `float` is a `double`. -/
theorem isFloatValue_exact (x : α) (hx : IsFloatValue x) : roundToDouble x = x := by
  have := isFloatValue_multiple_exact x hx 1 (by norm_num)
  simpa using this

end FloatValues

namespace StructureExtractor
variable {α : Type}

/-! ### The adaptive filter at percentage 1 in `double` arithmetic -/

end StructureExtractor

end MeTreec
